import Mathlib

/-!
# Firmware upload and filesystem handlers of cwhttpd-legacy

A shallow embedding of the upload state machines of `util/cgiflash.c`
(`cgiUploadFirmware`) and `src/route_flash.c` (`cwhttpd_route_fw_upload`), and
of the filesystem handlers of `src/route_fs.c` (`get_filepath`,
`cwhttpd_route_fs_get`, `cwhttpd_route_fs_tpl`), followed by theorems about
them.

Conventions of the embedding:

* C `int` values are Lean integers.  The lengths and offsets of the handlers
  are only compared, subtracted and added within the chunk, so no wrap-around
  is introduced for them; the places where the C code converts to an unsigned
  32-bit value (comparison against a `size_t` / `uint32_t`, the bit test on
  the address) use `toUInt32`.  The flash address `state->address`, which
  grows by `PAGELEN` with every page, wraps around at `INT_MAX` as the
  compiled code does (`addInt32`).
* The POST buffer of one call is a list of bytes; the `data` pointer is its
  offset from `post->buff`.  A read that leaves the received chunk, or a
  `memcpy` with a negative length, makes the iteration return `none`.
* The `while (dataLen != 0)` loop is run with fuel; the handler supplies an
  amount that depends only on the chunk length.
* Calls into the SDK (`spi_flash_erase_sector`, `spi_flash_write`) are
  recorded, in order, in a log of flash operations.
-/

namespace CgiFlash

/-- One octet of the request body. -/
abbrev Byte := Fin 256

/-- Build-time configuration: whether `ESP32` is defined, and the SDK constant
`SPI_FLASH_SEC_SIZE`, which the sources use but do not define. -/
structure Build where
  esp32 : Bool
  SPI_FLASH_SEC_SIZE : Nat
deriving DecidableEq, Repr

/-- The page size: `#define PAGELEN 4096` under `ESP32`, `64` otherwise. -/
def PAGELEN (b : Build) : Int := if b.esp32 then 4096 else 64

/-- Size of the packed struct `OtaHeader`: 4 + 28 + 4 + 4 bytes. -/
def sizeofOtaHeader : Int := 40

def CGIFLASH_TYPE_FW : Int := 0
def CGIFLASH_TYPE_ESPFS : Int := 1

/-- The struct `CgiUploadFlashDef`; `tagName` is the C string without its NUL. -/
structure CgiUploadFlashDef where
  type : Int
  fw1Pos : Int
  fw2Pos : Int
  fwSize : Int
  tagName : List Byte
deriving DecidableEq, Repr

/-- What one request supplies to the handler besides the body bytes:
the route argument, `post->len`, the outcome of looking up the `force` query
argument (`none` when `httpdFindArg` returns -1, otherwise the `atoi` of its
value), the value of `system_upgrade_userbin_check()`, and the two values
stored by `esp32flashGetUpdateMem`. -/
structure Request where
  cgiArg : CgiUploadFlashDef
  postLen : Int
  forceArg : Option Int
  userbin : Nat
  updOffset : Nat
  updSize : Nat
deriving DecidableEq, Repr

/-- The values of `state->state`. -/
inductive Phase where
  | FLST_START
  | FLST_WRITE
  | FLST_SKIP
  | FLST_DONE
  | FLST_ERROR
deriving DecidableEq, Repr

open Phase

/-- The struct `UploadState` of cgiflash.c (the fields the handler uses). -/
structure UploadState where
  state : Phase
  pageData : List Byte
  pagePos : Int
  address : Int
  len : Int
  skip : Int
  err : String
deriving DecidableEq, Repr

/-- A call into the flash driver. -/
inductive FlashOp where
  | erase (sector : Int)
  | write (address : Int) (data : List Byte)
deriving DecidableEq, Repr

/-- The local variables of the chunk loop, with the flash log. -/
structure Loop where
  st : UploadState
  data : Int
  dataLen : Int
  ops : List FlashOp
deriving DecidableEq, Repr

/-- Result of running the loop: it left the loop, it accessed memory outside
the received chunk, or the fuel ran out. -/
inductive Outcome (α : Type) where
  | done (a : α)
  | fault
  | outOfFuel
deriving DecidableEq, Repr

/-- Conversion of an `int` to `uint32_t`. -/
def toUInt32 (x : Int) : Int := x % 4294967296

/-- Conversion of a 32-bit pattern to `int32_t`. -/
def toInt32 (x : Int) : Int := (x + 2147483648) % 4294967296 - 2147483648

/-- The sum `x + y` of an `int` `x` and a non-negative `int` `y` in 32-bit
two's complement: a sum above `INT_MAX` wraps around to the negative values
(`0x7fffffc0 + 64` is `-0x80000000`).  The test `x ≤ INT_MAX` holds for every
value of type `int`. -/
def addInt32 (x y : Int) : Int :=
  if x ≤ 2147483647 ∧ 2147483647 < x + y then x + y - 4294967296 else x + y

/-- The state after `memset(state, 0, ...)`, `state->state=FLST_START` and
`state->err="Premature end"`. -/
def initState (b : Build) : UploadState :=
  { state := FLST_START
    pageData := List.replicate (PAGELEN b).toNat 0
    pagePos := 0
    address := 0
    len := 0
    skip := 0
    err := "Premature end" }

/-- The `n` bytes of the chunk starting at offset `off`, when they all lie
inside the chunk. -/
def slice (buf : List Byte) (off n : Int) : Option (List Byte) :=
  if 0 ≤ off ∧ 0 ≤ n ∧ off + n ≤ buf.length then
    some ((buf.drop off.toNat).take n.toNat)
  else none

/-- Byte `i` of the buffer as a number. -/
def byteAt (buf : List Byte) (i : Nat) : Option Int :=
  buf[i]?.map (fun x => (x.val : Int))

/-- Little-endian `uint16_t` at byte offset `i`. -/
def u16At (buf : List Byte) (i : Nat) : Option Int := do
  let b0 ← byteAt buf i
  let b1 ← byteAt buf (i + 1)
  pure (b0 + 256 * b1)

/-- Little-endian `uint32_t` at byte offset `i`. -/
def u32At (buf : List Byte) (i : Nat) : Option Int := do
  let b0 ← byteAt buf i
  let b1 ← byteAt buf (i + 1)
  let b2 ← byteAt buf (i + 2)
  let b3 ← byteAt buf (i + 3)
  pure (b0 + 256 * b1 + 65536 * b2 + 16777216 * b3)

/-- Little-endian `int32_t` at offset `off` from the start of the chunk. -/
def i32At (buf : List Byte) (off : Int) : Option Int :=
  if 0 ≤ off then (u32At buf off.toNat).map toInt32 else none

/-- The function `checkBinHeader`: `true` for return value 1. -/
def checkBinHeader (b : Build) (buf : List Byte) : Option Bool :=
  if b.esp32 then do
    let cd0 ← byteAt buf 0
    let h3 ← u16At buf 6
    let a ← u32At buf 24
    if cd0 ≠ 0xE9 then pure false
    else if h3 ≠ 0x4008 then pure false
    else if a ≠ 0 ∧ (a ≤ 0x3F000000 ∨ a > 0x40400000) then pure false
    else pure true
  else do
    let cd0 ← byteAt buf 0
    if cd0 ≠ 0xEA then pure false
    else
      let cd1 ← byteAt buf 1
      if cd1 ≠ 4 then pure false
      else
        let cd2 ← byteAt buf 2
        if cd2 > 3 then pure false
        else
          let cd3 ← byteAt buf 3
          if cd3 > 0x40 then pure false
          else
            let h3 ← u16At buf 6
            if h3 ≠ 0x4010 then pure false
            else
              let w2 ← u32At buf 8
              if w2 ≠ 0 then pure false
              else pure true

/-- The bytes of "EHUG". -/
def magicEHUG : List Byte := [0x45, 0x48, 0x55, 0x47]

/-- The bytes of "ESfs". -/
def magicESfs : List Byte := [0x45, 0x53, 0x66, 0x73]

/-- Whether `memcmp(buff + off, magic, 4) == 0`. -/
def memcmp4 (buf : List Byte) (off : Int) (magic : List Byte) : Option Bool :=
  (slice buf off 4).map (fun s => s == magic)

/-- The function `checkEspfsHeader`: `true` for return value 1. -/
def checkEspfsHeader (buf : List Byte) : Option Bool :=
  memcmp4 buf 0 magicESfs

/-- The characters of a C string: everything before the first NUL. -/
def cstr (s : List Byte) : List Byte := s.takeWhile (fun x => x != 0)

/-- The string left in `buff` by `strncpy(buff, h->tag, 27); buff[27]=0`, where
`h->tag` starts at offset `off`: the tag characters before the first NUL among
the first 27. -/
def tagOf (buf : List Byte) (off : Int) : Option (List Byte) :=
  if 0 ≤ off then
    let avail := (buf.drop off.toNat).take 27
    let s := cstr avail
    if s.length < avail.length ∨ avail.length = 27 then some s else none
  else none

/-- Whether `len!=-1 && atoi(buff)` holds for the `force` argument. -/
def forced (r : Request) : Bool :=
  match r.forceArg with
  | none => false
  | some v => v != 0

/-- Whether `(address & (SPI_FLASH_SEC_SIZE-1)) == 0`. -/
def sectorAligned (b : Build) (address : Int) : Bool :=
  (toUInt32 address).toNat &&& (b.SPI_FLASH_SEC_SIZE - 1) == 0

/-- The argument `address/SPI_FLASH_SEC_SIZE` of `spi_flash_erase_sector`. -/
def sectorOf (b : Build) (address : Int) : Int :=
  Int.tdiv address b.SPI_FLASH_SEC_SIZE

/-- The array `pd` after bytes `src` are stored from index `pos` on. -/
def splice (pd : List Byte) (pos : Nat) (src : List Byte) : List Byte :=
  pd.take pos ++ src ++ pd.drop (pos + src.length)

/-- Effect of `memcpy(&pageData[pos], src, |src|)`, when it stays inside
`pageData`. -/
def memcpyPage (pd : List Byte) (pos : Int) (src : List Byte) : Option (List Byte) :=
  if 0 ≤ pos ∧ pos + src.length ≤ pd.length then some (splice pd pos.toNat src) else none

/-- Sets `state->err` and `state->state=FLST_ERROR`. -/
def fail (st : UploadState) (msg : String) : UploadState :=
  { st with err := msg, state := FLST_ERROR }

/-- The size test and acceptance shared by the single-image branches, where
`tooLarge` is the outcome of `post->len > capacity` and `addr` the target. -/
def acceptSingle (r : Request) (tooLarge : Bool) (addr : Int) (st : UploadState) :
    UploadState :=
  if tooLarge then fail st "Firmware image too large"
  else { st with len := r.postLen, address := addr, state := FLST_WRITE }

/-- The tag test of a combined image: on a mismatch without `force`, the
session fails. -/
def tagCheck (r : Request) (st : UploadState) (tag : List Byte) : UploadState :=
  if tag ≠ cstr r.cgiArg.tagName then
    (if forced r then st else fail st "Firmware not intended for this device!\n")
  else st

/-- The size test of a combined image:
`state->state!=FLST_ERROR && post->len > def->fwSize*2+sizeof(OtaHeader)`, an
unsigned comparison. -/
def sizeCheck (r : Request) (st : UploadState) : UploadState :=
  if st.state ≠ FLST_ERROR ∧
      toUInt32 r.postLen > toUInt32 (r.cgiArg.fwSize * 2 + sizeofOtaHeader) then
    fail st "Firmware image too large"
  else st

/-- The choice between the two images of a combined file with header lengths
`len1` and `len2`, by `system_upgrade_userbin_check()==1`. -/
def selectImage (r : Request) (st : UploadState) (len1 len2 : Int) : UploadState :=
  if r.userbin = 1 then
    { st with len := len1, skip := len2, state := FLST_WRITE, address := r.cgiArg.fw1Pos }
  else
    { st with len := len2, skip := len1, state := FLST_SKIP, address := r.cgiArg.fw2Pos }

/-- The branch of `FLST_START` for a file that starts with "EHUG". -/
def startCombined (b : Build) (r : Request) (buf : List Byte) (L : Loop) : Option Loop :=
  if b.esp32 then
    pure { L with st := fail L.st "Combined flash images are unneeded/unsupported on ESP32!" }
  else do
    let tag ← tagOf buf (L.data + 4)
    let st2 := sizeCheck r (tagCheck r L.st tag)
    if st2.state ≠ FLST_ERROR then do
      let len1 ← i32At buf (L.data + 32)
      let len2 ← i32At buf (L.data + 36)
      pure { L with st := selectImage r st2 len1 len2,
                    dataLen := L.dataLen - sizeofOtaHeader,
                    data := L.data + sizeofOtaHeader }
    else pure { L with st := st2 }

/-- The branch of `FLST_START` for a firmware image: the capacity is
`def->fwSize` (compared as `int`), under `ESP32` the size stored by
`esp32flashGetUpdateMem` (compared as unsigned). -/
def startFirmware (b : Build) (r : Request) (L : Loop) : Loop :=
  if b.esp32 then
    { L with st := acceptSingle r (decide (toUInt32 r.postLen > toUInt32 r.updSize))
                     (toInt32 r.updOffset) L.st }
  else
    { L with st := acceptSingle r (decide (r.postLen > r.cgiArg.fwSize)) r.cgiArg.fw1Pos L.st }

/-- The branch of `FLST_START` for a filesystem image. -/
def startEspfs (r : Request) (L : Loop) : Loop :=
  { L with st := acceptSingle r (decide (r.postLen > r.cgiArg.fwSize)) r.cgiArg.fw1Pos L.st }

/-- The `FLST_START` branch of the loop body. -/
def startPhase (b : Build) (r : Request) (buf : List Byte) (L : Loop) : Option Loop := do
  let isOta ← (if r.cgiArg.type = CGIFLASH_TYPE_FW then memcmp4 buf L.data magicEHUG
               else pure false)
  if isOta then startCombined b r buf L
  else
    let isBin ← (if r.cgiArg.type = CGIFLASH_TYPE_FW then checkBinHeader b buf
                 else pure false)
    if isBin then pure (startFirmware b r L)
    else
      let isFs ← (if r.cgiArg.type = CGIFLASH_TYPE_ESPFS then checkEspfsHeader buf
                  else pure false)
      if isFs then pure (startEspfs r L)
      else pure { L with st := fail L.st "Invalid flash image type!" }

/-- State after `state->skip-=dataLen` (the whole buffer is skipped). -/
def skipAll (st : UploadState) (n : Int) : UploadState :=
  { st with skip := st.skip - n }

/-- State after the skip is completed: `state->skip=0` and
`if (state->len) state->state=FLST_WRITE; else state->state=FLST_DONE`. -/
def skipDone (st : UploadState) : UploadState :=
  { st with skip := 0, state := if st.len ≠ 0 then FLST_WRITE else FLST_DONE }

/-- The `FLST_SKIP` branch of the loop body. -/
def skipPhase (L : Loop) : Loop :=
  if L.st.skip > L.dataLen then
    { L with st := skipAll L.st L.dataLen, dataLen := 0 }
  else
    { L with
      dataLen := L.dataLen - L.st.skip
      data := L.data + L.st.skip
      st := skipDone L.st }

/-- The number of bytes that finish the page buffer:
`lenLeft=PAGELEN-state->pagePos; if (state->len<lenLeft) lenLeft=state->len`. -/
def lenLeft (b : Build) (st : UploadState) : Int :=
  if st.len < PAGELEN b - st.pagePos then st.len else PAGELEN b - st.pagePos

/-- State after `n` bytes were copied to the page buffer (now `pd`) and the
page is not complete. -/
def bufferBytes (st : UploadState) (pd : List Byte) (n : Int) : UploadState :=
  { st with pageData := pd, pagePos := st.pagePos + n, len := st.len - n }

/-- The flash calls made when the page buffer `pd` is written after `n` more
bytes were copied into it: the sector erase, if the address is at the start of
a sector, and the write of `pagePos` bytes. -/
def flushOps (b : Build) (st : UploadState) (pd : List Byte) (n : Int) : List FlashOp :=
  (if sectorAligned b st.address then [FlashOp.erase (sectorOf b st.address)] else []) ++
    [FlashOp.write st.address (pd.take (st.pagePos + n).toNat)]

/-- State after the page was written: `address+=PAGELEN` on the `int` field
`address`, `pagePos=0`, and the phase change once `len` is 0. -/
def flushState (b : Build) (st : UploadState) (pd : List Byte) (n : Int) : UploadState :=
  { st with
    pageData := pd
    pagePos := 0
    len := st.len - n
    address := addInt32 st.address (PAGELEN b)
    state :=
      if st.len - n = 0 then (if st.skip ≠ 0 then FLST_SKIP else FLST_DONE) else st.state }

/-- The `FLST_WRITE` branch of the loop body. -/
def writePhase (b : Build) (buf : List Byte) (L : Loop) : Option Loop :=
  if L.dataLen < lenLeft b L.st then do
    let src ← slice buf L.data L.dataLen
    let pd ← memcpyPage L.st.pageData L.st.pagePos src
    pure { L with st := bufferBytes L.st pd L.dataLen, dataLen := 0 }
  else do
    let src ← slice buf L.data (lenLeft b L.st)
    let pd ← memcpyPage L.st.pageData L.st.pagePos src
    pure { L with
      st := flushState b L.st pd (lenLeft b L.st)
      data := L.data + lenLeft b L.st
      dataLen := L.dataLen - lenLeft b L.st
      ops := L.ops ++ flushOps b L.st pd (lenLeft b L.st) }

/-- One iteration of the body of `while (dataLen!=0)`. -/
def loopBody (b : Build) (r : Request) (buf : List Byte) (L : Loop) : Option Loop :=
  match L.st.state with
  | FLST_START => startPhase b r buf L
  | FLST_SKIP => some (skipPhase L)
  | FLST_WRITE => writePhase b buf L
  | FLST_DONE => some { L with dataLen := 0 }
  | FLST_ERROR => some { L with dataLen := 0 }

/-- The loop `while (dataLen!=0) { ... }`, with fuel. -/
def loop (b : Build) (r : Request) (buf : List Byte) : Nat → Loop → Outcome Loop
  | 0, L => if L.dataLen = 0 then .done L else .outOfFuel
  | n + 1, L =>
    if L.dataLen = 0 then .done L
    else
      match loopBody b r buf L with
      | none => .fault
      | some L1 => loop b r buf n L1

/-- Fuel given to the loop for a chunk of `n` bytes. -/
def fuelFor (n : Nat) : Nat := 2 * n + 8

/-- The handler up to the end of its loop, for one call with POST buffer `buf`:
`data=post->buff; dataLen=post->buffLen; while (dataLen!=0) ...`.  It takes and
returns the session state and the flash log. -/
def cgiUploadFirmware (b : Build) (r : Request) (buf : List Byte)
    (s : UploadState × List FlashOp) : Outcome (UploadState × List FlashOp) :=
  match loop b r buf (fuelFor buf.length) ⟨s.1, 0, buf.length, s.2⟩ with
  | .done L => .done (L.st, L.ops)
  | .fault => .fault
  | .outOfFuel => .outOfFuel

/-- The handler called once per chunk, in order. -/
def session (b : Build) (r : Request) :
    List (List Byte) → UploadState × List FlashOp → Outcome (UploadState × List FlashOp)
  | [], s => .done s
  | c :: cs, s =>
    match cgiUploadFirmware b r c s with
    | .done s1 => session b r cs s1
    | .fault => .fault
    | .outOfFuel => .outOfFuel

/-- A whole upload: a fresh session state, then one call per chunk. -/
def upload (b : Build) (r : Request) (chunks : List (List Byte)) :
    Outcome (UploadState × List FlashOp) :=
  session b r chunks (initState b, [])

/-- The flash calls of a run that left the loop. -/
def flashLog (o : Outcome (UploadState × List FlashOp)) : Option (List FlashOp) :=
  match o with
  | .done s => some s.2
  | .fault => none
  | .outOfFuel => none

/-- The session state of a run that left the loop. -/
def finalState (o : Outcome (UploadState × List FlashOp)) : Option UploadState :=
  match o with
  | .done s => some s.1
  | .fault => none
  | .outOfFuel => none

/-! ### The loop seen from the unread bytes

For a session state with non-negative lengths and a page buffer that is not
full, one iteration of the loop depends only on the bytes from `data` to the
end of the chunk.  `stepL` is that iteration on the list of unread bytes and
`feedL` iterates it until the list is empty. -/

/-- Session states the `FLST_SKIP` and `FLST_WRITE` branches are written for. -/
structure Good (b : Build) (st : UploadState) : Prop where
  len_nonneg : 0 ≤ st.len
  skip_nonneg : 0 ≤ st.skip
  pos_nonneg : 0 ≤ st.pagePos
  pos_lt : st.pagePos < PAGELEN b
  page_len : (st.pageData.length : Int) = PAGELEN b

/-- Iterations a state can spend without consuming a byte. -/
def rank (st : UploadState) : Nat :=
  match st.state with
  | FLST_START => 0
  | FLST_SKIP => if st.skip = 0 then 1 else 0
  | FLST_WRITE => if st.len = 0 then 1 else 0
  | FLST_DONE => 0
  | FLST_ERROR => 0

/-- One iteration of the loop outside `FLST_START`, on the unread bytes. -/
def stepL (b : Build) (s : UploadState × List FlashOp) (rest : List Byte) :
    (UploadState × List FlashOp) × List Byte :=
  match s.1.state with
  | FLST_SKIP =>
    if s.1.skip > rest.length then ((skipAll s.1 rest.length, s.2), [])
    else ((skipDone s.1, s.2), rest.drop s.1.skip.toNat)
  | FLST_WRITE =>
    if (rest.length : Int) < lenLeft b s.1 then
      ((bufferBytes s.1 (splice s.1.pageData s.1.pagePos.toNat rest) rest.length, s.2), [])
    else
      ((flushState b s.1
          (splice s.1.pageData s.1.pagePos.toNat (rest.take (lenLeft b s.1).toNat))
          (lenLeft b s.1),
        s.2 ++ flushOps b s.1
          (splice s.1.pageData s.1.pagePos.toNat (rest.take (lenLeft b s.1).toNat))
          (lenLeft b s.1)),
       rest.drop (lenLeft b s.1).toNat)
  | _ => (s, [])

/-- Iteration of `stepL` until no byte is left. -/
def feedL (b : Build) (s : UploadState × List FlashOp) (rest : List Byte) :
    UploadState × List FlashOp :=
  if rest = [] then s
  else
    let p := stepL b s rest
    if p.2.length + rank p.1.1 < rest.length + rank s.1 then feedL b p.1 p.2 else p.1
termination_by rest.length + rank s.1

/-- Shape of the loop variables after the `FLST_START` iteration: nothing is
consumed and the lengths are untouched or `len` is `post->len`, or the header
is consumed and `len`, `skip` are its two length fields. -/
def StartShape (r : Request) (buf : List Byte) (L L1 : Loop) : Prop :=
  L1.ops = L.ops ∧ L1.st.state ≠ FLST_START ∧
    L1.st.pageData = L.st.pageData ∧ L1.st.pagePos = L.st.pagePos ∧
    ((L1.data = 0 ∧ L1.dataLen = L.dataLen ∧ L1.st.skip = L.st.skip ∧
        (L1.st.len = L.st.len ∨ (L1.st.state = FLST_WRITE ∧ L1.st.len = r.postLen))) ∨
     (L1.data = 40 ∧ L1.dataLen = L.dataLen - 40 ∧ buf.take 4 = magicEHUG ∧
        ∃ l1 l2, i32At buf 32 = some l1 ∧ i32At buf 36 = some l2 ∧
          ((L1.st.len = l1 ∧ L1.st.skip = l2) ∨ (L1.st.len = l2 ∧ L1.st.skip = l1))))

/-- The part of the loop variables that does not count the bytes left. -/
def Loop.core (L : Loop) : UploadState × Int × List FlashOp := (L.st, L.data, L.ops)


/-! ### Vocabulary of the statements about the flash log -/

/-- The addresses of the page writes of a log, in order. -/
def writeAddrs (ops : List FlashOp) : List Int :=
  ops.filterMap (fun o => match o with
    | .write a _ => some a
    | .erase _ => none)

/-- The buffers of the page writes of a log, in order. -/
def writeData (ops : List FlashOp) : List (List Byte) :=
  ops.filterMap (fun o => match o with
    | .write _ d => some d
    | .erase _ => none)

/-- The sector numbers of the erases of a log, in order. -/
def eraseSectors (ops : List FlashOp) : List Int :=
  ops.filterMap (fun o => match o with
    | .erase k => some k
    | .write _ _ => none)

/-- The page size as a natural number. -/
def pageLen (b : Build) : Nat := (PAGELEN b).toNat

/-- The number of pages of an image of `n` bytes: `n / PAGELEN` rounded up. -/
def pageCount (b : Build) (n : Nat) : Nat := (n + pageLen b - 1) / pageLen b

/-- The flash calls that write `img` in `k` pages from address `addr`: before
each page the erase of its sector when the address starts a sector; the
address of the next page is `addr + PAGELEN` as an `int`. -/
def imageOps (b : Build) : Nat → Int → List Byte → List FlashOp
  | 0, _, _ => []
  | k + 1, addr, img =>
    (if sectorAligned b addr then [FlashOp.erase (sectorOf b addr)] else []) ++
      FlashOp.write addr (img.take (pageLen b)) ::
        imageOps b k (addInt32 addr (PAGELEN b)) (img.drop (pageLen b))

/-- The value of `state->address` after `i` pages were written from `addr`:
`i` times `address+=PAGELEN`. -/
def pageAddr (b : Build) (addr : Int) : Nat → Int
  | 0 => addr
  | i + 1 => pageAddr b (addInt32 addr (PAGELEN b)) i

/-- The capacity the declared length of a single image is compared with:
`def->fwSize`, and for a firmware image in the `ESP32` build the size stored by
`esp32flashGetUpdateMem`. -/
def capacity (b : Build) (r : Request) : Int :=
  if b.esp32 = true ∧ r.cgiArg.type = CGIFLASH_TYPE_FW then toUInt32 r.updSize
  else r.cgiArg.fwSize

/-- The address a single image is written from: `def->fw1Pos`, and for a
firmware image in the `ESP32` build the offset stored by
`esp32flashGetUpdateMem`. -/
def baseAddr (b : Build) (r : Request) : Int :=
  if b.esp32 = true ∧ r.cgiArg.type = CGIFLASH_TYPE_FW then toInt32 r.updOffset
  else r.cgiArg.fw1Pos

/-- The first chunk is a single image for the endpoint: a valid firmware
header on a firmware endpoint, or "ESfs" on a filesystem endpoint. -/
def SingleImage (b : Build) (r : Request) (c : List Byte) : Prop :=
  (r.cgiArg.type = CGIFLASH_TYPE_FW ∧ checkBinHeader b c = some true) ∨
    (r.cgiArg.type = CGIFLASH_TYPE_ESPFS ∧ checkEspfsHeader c = some true)

/-- The session state in which `FLST_START` leaves a fresh session when it
accepts a single image. -/
def acceptedState (b : Build) (r : Request) : UploadState :=
  { initState b with len := r.postLen, address := baseAddr b r, state := FLST_WRITE }

/-- The tag of a combined image whose header starts the buffer, as the
handler compares it: the characters before the first NUL among 27. -/
def headerTag (c : List Byte) : List Byte := cstr ((c.drop 4).take 27)

/-- The tag test and the size test of a combined image both pass: the tag is
the tag name of the endpoint or the request has a `force` argument of non-zero
value, and `post->len` does not exceed twice the slot size plus the header. -/
def PassesChecks (r : Request) (c : List Byte) : Prop :=
  (headerTag c = cstr r.cgiArg.tagName ∨ ∃ v, r.forceArg = some v ∧ v ≠ 0) ∧
    ¬ (toUInt32 r.postLen > toUInt32 (r.cgiArg.fwSize * 2 + sizeofOtaHeader))

/-- The request with the tag name of the route argument replaced. -/
def withTag (r : Request) (tag : List Byte) : Request :=
  { r with cgiArg := { r.cgiArg with tagName := tag } }

/-- Every page write of the log comes after an erase of the sector that
contains the written address. -/
def ErasedBefore (b : Build) (ops : List FlashOp) : Prop :=
  ∀ pre a d post, ops = pre ++ FlashOp.write a d :: post →
    FlashOp.erase (a / (b.SPI_FLASH_SEC_SIZE : Int)) ∈ pre

/-- What the bit mask of the erase test and the page-wise advance of the
address presuppose of the build: the sector size is a power of two that fits
32 bits, and a multiple of the page size. -/
structure SectorGeometry (b : Build) : Prop where
  pow : ∃ e, e < 32 ∧ b.SPI_FLASH_SEC_SIZE = 2 ^ e
  pages : pageLen b ∣ b.SPI_FLASH_SEC_SIZE

/-- An address at the start of a flash sector. -/
def SectorStart (b : Build) (a : Int) : Prop :=
  0 ≤ a ∧ (b.SPI_FLASH_SEC_SIZE : Int) ∣ a

/-- The three addresses `FLST_START` can choose are sector starts. -/
def AlignedBases (b : Build) (r : Request) : Prop :=
  SectorStart b r.cgiArg.fw1Pos ∧ SectorStart b r.cgiArg.fw2Pos ∧
    SectorStart b (toInt32 r.updOffset)

/-- Invariant of a session for the erase-before-write order: the address is
page aligned, the log is in order, and the sector of the current address has
been erased unless the address starts it. -/
def SectorInv (b : Build) (s : UploadState × List FlashOp) : Prop :=
  PAGELEN b ∣ s.1.address ∧ ErasedBefore b s.2 ∧
    ((b.SPI_FLASH_SEC_SIZE : Int) ∣ s.1.address ∨
      FlashOp.erase (s.1.address / (b.SPI_FLASH_SEC_SIZE : Int)) ∈ s.2)

/-! ### Concrete inputs used in the examples -/

/-- A non-ESP32 build with 4096-byte flash sectors. -/
def exBuild : Build := ⟨false, 4096⟩

/-- A 40-byte "EHUG" header with tag "x" and the two length fields given
as their four little-endian bytes. -/
def exHeader (len1 len2 : List Byte) : List Byte :=
  magicEHUG ++ [0x78] ++ List.replicate 27 0 ++ len1 ++ len2

/-- A firmware endpoint with 64-byte slots at 0x1000 and 0x81000, tag "x". -/
def exDef : CgiUploadFlashDef := ⟨CGIFLASH_TYPE_FW, 0x1000, 0x81000, 64, [0x78]⟩

/-- A request for `exDef` that declares 50 bytes, without `force`, on a device
where `system_upgrade_userbin_check()` is 0. -/
def exRequestNeg : Request := ⟨exDef, 50, none, 0, 0, 0⟩

/-- A header that declares `len1 = -5` and `len2 = 10`. -/
def exHeaderNeg : List Byte := exHeader [0xfb, 0xff, 0xff, 0xff] [10, 0, 0, 0]

/-- Ten bytes of payload. -/
def exBody10 : List Byte := [1, 2, 3, 4, 5, 6, 7, 8, 9, 10]

/-- An ESP32 build with 4096-byte flash sectors. -/
def exBuild32 : Build := ⟨true, 4096⟩

/-- Forty bytes that start with a valid ESP32 firmware header: 0xE9, the
16-bit value 0x4008 at offset 6, entry point 0. -/
def exHeader32 : List Byte := [0xE9, 0, 0, 0, 0, 0, 0x08, 0x40] ++ List.replicate 32 0

/-- A firmware request of 40 bytes on an endpoint with `fwSize = 4096`, while
`esp32flashGetUpdateMem` reports a partition of 16 bytes at 0x10000. -/
def exRequest32 : Request := ⟨⟨CGIFLASH_TYPE_FW, 0, 0, 4096, []⟩, 40, none, 0, 0x10000, 16⟩

/-- Forty bytes that start with a valid ESP8266 firmware header: 0xEA, 4, 0,
0, the 16-bit value 0x4010 at offset 6, and 0 in bytes 8 to 11. -/
def exHeader8266 : List Byte := [0xEA, 4, 0, 0, 0, 0, 0x10, 0x40] ++ List.replicate 32 0

/-- A firmware request for `exDef` (64-byte slots) that declares 50 bytes. -/
def exRequestFw : Request := ⟨exDef, 50, none, 1, 0, 0⟩

/-- A firmware request for `exDef` (64-byte slots) that declares 100 bytes. -/
def exRequestLarge : Request := ⟨exDef, 100, none, 1, 0, 0⟩

/-- A header that declares `len1 = 128` and `len2 = 0`. -/
def exHeaderBig : List Byte := exHeader [128, 0, 0, 0] [0, 0, 0, 0]

/-- A request for `exDef` (64-byte slots) that declares 168 bytes, the header
and 128 bytes, on a device where `system_upgrade_userbin_check()` is 1. -/
def exRequestBig : Request := ⟨exDef, 168, none, 1, 0, 0⟩

/-- A header that declares `len1 = 0` and `len2 = 0`. -/
def exHeaderZero : List Byte := exHeader [0, 0, 0, 0] [0, 0, 0, 0]

/-- A request for `exDef` that declares 40 bytes, the header alone, on a
device where `system_upgrade_userbin_check()` is 1. -/
def exRequestZero : Request := ⟨exDef, 40, none, 1, 0, 0⟩

/-- A header that declares `len1 = 3` and `len2 = 4`. -/
def exHeaderSmall : List Byte := exHeader [3, 0, 0, 0] [4, 0, 0, 0]

/-- A request for `exDef` that declares 47 bytes, on a device where
`system_upgrade_userbin_check()` is 1. -/
def exRequestSmall : Request := ⟨exDef, 47, none, 1, 0, 0⟩

/-- Seven bytes of payload. -/
def exBody7 : List Byte := [11, 12, 13, 21, 22, 23, 24]

/-- A request like `exRequestSmall` for a device whose tag is "y". -/
def exRequestTag : Request := ⟨⟨CGIFLASH_TYPE_FW, 0x1000, 0x81000, 64, [0x79]⟩, 47, none, 1, 0, 0⟩

/-- The request `exRequestTag` with the query argument `force=1`. -/
def exRequestForce : Request :=
  ⟨⟨CGIFLASH_TYPE_FW, 0x1000, 0x81000, 64, [0x79]⟩, 47, some 1, 1, 0, 0⟩

/-- A firmware endpoint like `exDef` whose first slot starts at 0x1040, in
the middle of a 4096-byte sector. -/
def exRequestUnaligned : Request :=
  ⟨⟨CGIFLASH_TYPE_FW, 0x1040, 0x81000, 64, [0x78]⟩, 50, none, 1, 0, 0⟩

/-- The first 32 bytes of a combined image: "EHUG" and the 28-byte tag field
with tag "x"; the two length fields are not in the chunk. -/
def exChunk32 : List Byte := magicEHUG ++ [0x78] ++ List.replicate 27 0

/-- The value `SPI_FLASH_RESULT_OK` of `SpiFlashOpResult`. -/
def SPI_FLASH_RESULT_OK : Int := 0

/-- A flash driver: the value `spi_flash_erase_sector` or `spi_flash_write`
returns for a call, given the calls made before it.  The handler makes both
calls as statements and drops the value, so the driver is not an input of
`cgiUploadFirmware`; it tells what each call of a log reported. -/
abbrev FlashDriver := List FlashOp → FlashOp → Int

/-- The calls of a log, each with the value the driver returned for it, where
`before` are the calls made earlier. -/
def observeFrom (fd : FlashDriver) : List FlashOp → List FlashOp → List (FlashOp × Int)
  | _, [] => []
  | before, op :: rest => (op, fd before op) :: observeFrom fd (before ++ [op]) rest

/-- The calls of a session's flash log with the values the driver returned. -/
def observe (fd : FlashDriver) (ops : List FlashOp) : List (FlashOp × Int) :=
  observeFrom fd [] ops

/-- What the handler sends when `post->len == post->received`: the status of
`httpdStartResponse`, the text passed to `httpdSend`, and whether
`esp32flashSetOtaAsCurrentImage` is called. -/
structure Response where
  code : Nat
  body : String
  setOtaAsCurrent : Bool
deriving DecidableEq, Repr

/-- The block `if (connData->post->len==connData->post->received) { ... }` up
to `free(state)`. -/
def response (b : Build) (st : UploadState) : Response :=
  { code := if st.state = FLST_ERROR then 400 else 200
    body :=
      if st.state ≠ FLST_DONE then "Firmware image error:" ++ st.err ++ "\n" else ""
    setOtaAsCurrent := decide (st.state = FLST_DONE) && b.esp32 }

/-- A driver that reports a failure for every call. -/
def exDriverFail : FlashDriver := fun _ _ => 1

/-- A firmware endpoint with 4096-byte slots at 0x1000 and 0x81000 that
declares 100 bytes. -/
def exRequestTwoPages : Request :=
  ⟨⟨CGIFLASH_TYPE_FW, 0x1000, 0x81000, 4096, [0x78]⟩, 100, none, 1, 0, 0⟩

/-- Forty bytes that start with an ESP32 firmware header whose entry point is
0x40400000, the upper end of the accepted window. -/
def exHeaderTop : List Byte :=
  [0xE9, 0, 0, 0, 0, 0, 0x08, 0x40] ++ List.replicate 16 0 ++ [0, 0, 0x40, 0x40] ++
    List.replicate 12 0

/-- The first chunk is recognised as no image for the endpoint: it is not an
"EHUG" file or a valid firmware header on a firmware endpoint, and not an "ESfs"
file on a filesystem endpoint. -/
def Unrecognized (b : Build) (r : Request) (c : List Byte) : Prop :=
  ¬ (r.cgiArg.type = CGIFLASH_TYPE_FW ∧ c.take 4 = magicEHUG) ∧
  ¬ (r.cgiArg.type = CGIFLASH_TYPE_FW ∧ checkBinHeader b c = some true) ∧
  ¬ (r.cgiArg.type = CGIFLASH_TYPE_ESPFS ∧ c.take 4 = magicESfs)

/-- A filesystem endpoint of 4096 bytes at 0x100000. -/
def exDefFs : CgiUploadFlashDef := ⟨CGIFLASH_TYPE_ESPFS, 0x100000, 0, 4096, []⟩

/-- A request for `exDefFs` that declares 44 bytes. -/
def exRequestFs : Request := ⟨exDefFs, 44, none, 1, 0, 0⟩

/-- Forty bytes that start with "ESfs". -/
def exImageFs : List Byte := magicESfs ++ List.replicate 36 7

/-- A header that declares `len1 = 0` and `len2 = 4`. -/
def exHeaderEmptyFirst : List Byte := exHeader [0, 0, 0, 0] [4, 0, 0, 0]

/-- A request for `exDef` that declares 44 bytes, the header and 4 bytes, on a
device where `system_upgrade_userbin_check()` is 1. -/
def exRequestEmptyFirst : Request := ⟨exDef, 44, none, 1, 0, 0⟩

/-- A session in `FLST_SKIP` with 3 bytes to skip and 4 bytes to write. -/
def exSkipState : UploadState :=
  { initState exBuild with state := FLST_SKIP, skip := 3, len := 4, address := 0x81000 }

/-- `Steps b r buf L L1`: the loop of one call with POST buffer `buf`, started
with the variables `L`, has the variables `L1` after some number of
iterations. -/
inductive Steps (b : Build) (r : Request) (buf : List Byte) : Loop → Loop → Prop where
  | refl (L : Loop) : Steps b r buf L L
  | tail {L L1 L2 : Loop} : Steps b r buf L L1 → L1.dataLen ≠ 0 →
      loopBody b r buf L1 = some L2 → Steps b r buf L L2

/-- The loop variables `L`, in a call with POST buffer `buf`, are reached by a
session that starts with state and log `s`: after some calls that returned,
and some iterations of the loop of the call with `buf`. -/
def Reachable (b : Build) (r : Request) (s : UploadState × List FlashOp)
    (buf : List Byte) (L : Loop) : Prop :=
  ∃ cs s1, session b r cs s = .done s1 ∧ Steps b r buf ⟨s1.1, 0, buf.length, s1.2⟩ L

/-- The number of bytes passed to `spi_flash_write` in a log. -/
def written (ops : List FlashOp) : Int :=
  ((writeData ops).map (fun d => (d.length : Int))).sum

/-- A firmware endpoint with 4096-byte slots whose first slot starts at
0x7fffffc0, 64 bytes below 2^31, that declares 100 bytes. -/
def exRequestTop : Request :=
  ⟨⟨CGIFLASH_TYPE_FW, 0x7fffffc0, 0x81000, 4096, [0x78]⟩, 100, none, 1, 0, 0⟩

/-- Sixty bytes of payload. -/
def exChunk60 : List Byte := List.replicate 60 9

/-- A session that has just entered `FLST_WRITE` for an image of 4102 bytes at
address 0x7ffff000, the start of the last 4096-byte sector below 2^31. -/
def exTopState : UploadState :=
  { initState exBuild with state := FLST_WRITE, len := 4102, address := 0x7ffff000 }

/-- The loop variables at the start of the call that brings the last ten
bytes of a 50-byte image for `exRequestFw`, after the call with the 40 header
bytes: the header is in the page buffer and ten bytes are declared to follow. -/
def exLoopHeader : Loop :=
  ⟨bufferBytes (acceptedState exBuild exRequestFw)
    (splice (initState exBuild).pageData 0 exHeader8266) 40, 0, 10, []⟩

/-- The twelve bytes of an ESP8266 firmware header that `checkBinHeader`
reads: 0xEA, 4, 0, 0, the 16-bit value 0x4010 at offset 6, and 0 in bytes 8 to
11. -/
def exHeader12 : List Byte := [0xEA, 4, 0, 0, 0, 0, 0x10, 0x40, 0, 0, 0, 0]

end CgiFlash

/-! ## The OTA upload route of `src/route_flash.c` -/

namespace RouteFlash

open CgiFlash (Byte Outcome CgiUploadFlashDef CGIFLASH_TYPE_FW CGIFLASH_TYPE_ESPFS
  byteAt u16At u32At memcmp4 magicEHUG magicESfs)

/-- The values of `state->state` in route_flash.c. -/
inductive Phase where
  | FLST_START
  | FLST_WRITE
  | FLST_DONE
  | FLST_ERROR
deriving DecidableEq, Repr

open Phase

/-- The `esp_err_t` value `ESP_OK`. -/
def ESP_OK : Int := 0

/-- A call into the OTA API.  A partition is the identity of a non-NULL
`esp_partition_t *`; `none` is `NULL`. -/
inductive OtaCall where
  | esp_ota_begin (partition : Nat)
  | esp_ota_write (handle : Nat) (data : List Byte)
  | esp_ota_end (handle : Nat)
  | esp_ota_set_boot_partition (partition : Option Nat)
deriving DecidableEq, Repr

open OtaCall

/-- The SDK as the handler sees it.  The partition queries return a pointer
or `NULL`; the OTA calls return an `esp_err_t` that may depend on the calls made
before; `ota_begin` also returns the value it leaves in `*out_handle`. -/
structure Platform where
  boot_partition : Option Nat
  running_partition : Option Nat
  find_first : List Byte → Option Nat
  next_update_partition : Option Nat
  ota_begin : List OtaCall → Nat → Int × Nat
  ota_write : List OtaCall → Nat → List Byte → Int
  ota_end : List OtaCall → Nat → Int
  set_boot_partition : List OtaCall → Option Nat → Int

/-- What the route supplies: `conn->route->arg` read as the upload definition,
and the outcome of `cwhttpd_find_param("partition", ...)`: the value assigned to
the `size_t len` and the contents left in `arg_partition_buf`. -/
structure Route where
  arg : CgiUploadFlashDef
  paramLen : Nat
  paramBuf : List Byte
deriving DecidableEq, Repr

/-- The fields of `conn->post` the handler reads; `buf_len` is the length of
`buf`. -/
structure Post where
  len : Int
  received : Int
  buf : List Byte
deriving DecidableEq, Repr

/-- The struct `UploadState` of route_flash.c (the fields the handler uses). -/
structure UploadState where
  update_handle : Nat
  update_partition : Option Nat
  configured : Option Nat
  running : Option Nat
  state : Phase
  address : Int
  len : Int
  err : String
deriving DecidableEq, Repr

/-- What persists between calls: `conn->user`, the OTA calls made so far, and
the values `state->state` has taken, one entry for the creation of the state and
one for each step that assigns or keeps it. -/
structure Session where
  user : Option UploadState
  calls : List OtaCall
  visited : List Phase
deriving DecidableEq, Repr

/-- The local variables of the chunk loop, with the two logs. -/
structure Loop where
  st : UploadState
  dataLen : Int
  calls : List OtaCall
  visited : List Phase
deriving DecidableEq, Repr

/-- The JSON object sent at the end of the upload. -/
structure Response where
  message : String
  success : Bool
deriving DecidableEq, Repr

/-- The return values of the handler. -/
inductive Status where
  | CWHTTPD_STATUS_DONE
  | CWHTTPD_STATUS_MORE
  | CWHTTPD_STATUS_NOTFOUND
deriving DecidableEq, Repr

open Status

/-- Result of one call of the handler. -/
structure Reply where
  status : Status
  session : Session
  response : Option Response
deriving DecidableEq, Repr

/-- The function `check_bin_header`: `true` for return value 1. -/
def check_bin_header (buf : List Byte) : Option Bool := do
  let cd0 ← byteAt buf 0
  let h3 ← u16At buf 6
  let a ← u32At buf 24
  if cd0 ≠ 0xE9 then pure false
  else if h3 ≠ 0x4008 then pure false
  else if a ≠ 0 ∧ (a ≤ 0x3F000000 ∨ a > 0x40400000) then pure false
  else pure true

/-- The function `check_espfs_header`: `true` for return value 1. -/
def check_espfs_header (buf : List Byte) : Option Bool :=
  memcmp4 buf 0 magicESfs

/-- The block `if (state == NULL) { ... }`: the state after `memset`, the check
of the configured and running partitions, and the lookup of the update
partition.  The allocation is taken to succeed. -/
def createState (pf : Platform) (rt : Route) : UploadState :=
  let st0 : UploadState :=
    { update_handle := 0
      update_partition := none
      configured := pf.boot_partition
      running := pf.running_partition
      state := FLST_START
      address := 0
      len := 0
      err := "" }
  let st1 : UploadState :=
    if st0.configured = none ∨ st0.running = none then
      { st0 with state := FLST_ERROR, err := "Partition error, OTA not supported?" }
    else
      { st0 with state := FLST_START, err := "Premature end" }
  let st2 : UploadState :=
    { st1 with
      update_partition :=
        if rt.paramLen > 0 then pf.find_first rt.paramBuf else pf.next_update_partition }
  if st2.update_partition = none then
    { st2 with err := "update_partition not found!", state := FLST_ERROR }
  else st2

/-- Leave the loop variables as they are but for `state->err`, `state->state`
and the record of the phase. -/
def fail (L : Loop) (msg : String) : Loop :=
  { L with
    st := { L.st with err := msg, state := FLST_ERROR }
    visited := L.visited ++ [FLST_ERROR] }

/-- The firmware branch of `FLST_START` past `check_bin_header`: the call of
`esp_ota_begin` on the update partition. -/
def beginOta (pf : Platform) (post : Post) (L : Loop) : Loop :=
  match L.st.update_partition with
  | none => fail L "update_partition not found!"
  | some p =>
    let res := pf.ota_begin L.calls p
    let L1 : Loop :=
      { L with
        st := { L.st with update_handle := res.2 }
        calls := L.calls ++ [esp_ota_begin p] }
    if res.1 ≠ ESP_OK then fail L1 "esp_ota_begin failed!"
    else
      { L1 with
        st := { L1.st with state := FLST_WRITE, len := post.len }
        visited := L1.visited ++ [FLST_WRITE] }

/-- The filesystem branch of `FLST_START` past `check_espfs_header`. -/
def startEspfs (rt : Route) (post : Post) (L : Loop) : Loop :=
  if post.len > rt.arg.fwSize then fail L "Firmware image too large"
  else
    { L with
      st := { L.st with len := post.len, address := rt.arg.fw1Pos, state := FLST_WRITE }
      visited := L.visited ++ [FLST_WRITE] }

/-- The branch `state->state==FLST_START` of the loop body.  `data` still
equals `conn->post->buf` here. -/
def startPhase (pf : Platform) (rt : Route) (post : Post) (L : Loop) : Option Loop :=
  if rt.arg.type = CGIFLASH_TYPE_FW then do
    let ehug ← memcmp4 post.buf 0 magicEHUG
    if ehug then
      pure (fail L "Combined flash images are unneeded/unsupported on ESP32!")
    else do
      let bin ← check_bin_header post.buf
      if bin then pure (beginOta pf post L)
      else pure (fail L "Invalid flash image type!")
  else if rt.arg.type = CGIFLASH_TYPE_ESPFS then do
    let fs ← check_espfs_header post.buf
    if fs then pure (startEspfs rt post L)
    else pure (fail L "Invalid flash image type!")
  else pure (fail L "Invalid flash image type!")

/-- The branch `state->state==FLST_WRITE` of the loop body: the rest of the
chunk goes to `esp_ota_write` in one call. -/
def writePhase (pf : Platform) (post : Post) (L : Loop) : Loop :=
  let data := post.buf.take L.dataLen.toNat
  let err := pf.ota_write L.calls L.st.update_handle data
  let st1 : UploadState :=
    if err ≠ ESP_OK then
      { L.st with err := "Error: esp_ota_write failed!", state := FLST_ERROR }
    else L.st
  let st2 : UploadState :=
    { st1 with len := st1.len - L.dataLen, address := st1.address + L.dataLen }
  let st3 : UploadState :=
    if st2.len = 0 then { st2 with state := FLST_DONE } else st2
  { st := st3
    dataLen := 0
    calls := L.calls ++ [esp_ota_write L.st.update_handle data]
    visited := L.visited ++ [st3.state] }

/-- One iteration of the body of `while (dataLen!=0)`. -/
def loopBody (pf : Platform) (rt : Route) (post : Post) (L : Loop) : Option Loop :=
  match L.st.state with
  | FLST_START => startPhase pf rt post L
  | FLST_WRITE => some (writePhase pf post L)
  | FLST_DONE => some { L with dataLen := 0 }
  | FLST_ERROR => some { L with dataLen := 0 }

/-- The loop `while (dataLen!=0) { ... }`, with fuel. -/
def loop (pf : Platform) (rt : Route) (post : Post) : Nat → Loop → Outcome Loop
  | 0, L => if L.dataLen = 0 then .done L else .outOfFuel
  | n + 1, L =>
    if L.dataLen = 0 then .done L
    else
      match loopBody pf rt post L with
      | none => .fault
      | some L1 => loop pf rt post n L1

/-- The block `if (state->state==FLST_DONE) { ... }` that closes the upload:
`esp_ota_end`, then `esp_ota_set_boot_partition`, whose result is only logged. -/
def commit (pf : Platform) (L : Loop) : Loop :=
  if L.st.state = FLST_DONE then
    let e := pf.ota_end L.calls L.st.update_handle
    let calls1 := L.calls ++ [esp_ota_end L.st.update_handle]
    let L1 : Loop :=
      if e ≠ ESP_OK then
        { L with
          st := { L.st with err := "esp_ota_end failed!", state := FLST_ERROR }
          calls := calls1
          visited := L.visited ++ [FLST_ERROR] }
      else
        { L with st := { L.st with err := "Flash Success." }, calls := calls1 }
    { L1 with calls := L1.calls ++ [esp_ota_set_boot_partition L1.st.update_partition] }
  else L

/-- The handler after its loop: the response when `post->len ==
post->received`, in which case the state is freed, and `CWHTTPD_STATUS_MORE`
otherwise. -/
def respond (pf : Platform) (post : Post) (L : Loop) : Reply :=
  if post.len = post.received then
    let L1 := commit pf L
    { status := CWHTTPD_STATUS_DONE
      session := { user := none, calls := L1.calls, visited := L1.visited }
      response := some ⟨L1.st.err, decide (L1.st.state = FLST_DONE)⟩ }
  else
    { status := CWHTTPD_STATUS_MORE
      session := { user := some L.st, calls := L.calls, visited := L.visited }
      response := none }

/-- The state the loop starts from: `conn->user`, or a new state when it is
`NULL`. -/
def enter (pf : Platform) (rt : Route) (post : Post) (s : Session) : Loop :=
  match s.user with
  | some st => ⟨st, post.buf.length, s.calls, s.visited⟩
  | none =>
    let st := createState pf rt
    ⟨st, post.buf.length, s.calls, s.visited ++ [st.state]⟩

/-- The handler `cwhttpd_route_fw_upload` for one call: `closed` is
`conn->closed`, `post` is `conn->post` (`none` for `NULL`). -/
def cwhttpd_route_fw_upload (pf : Platform) (rt : Route) (closed : Bool)
    (post : Option Post) (s : Session) : Outcome Reply :=
  if closed then
    .done ⟨CWHTTPD_STATUS_DONE, { s with user := none }, none⟩
  else
    match post with
    | none => .done ⟨CWHTTPD_STATUS_NOTFOUND, s, none⟩
    | some p =>
      match loop pf rt p 2 (enter pf rt p s) with
      | .done L => .done (respond pf p L)
      | .fault => .fault
      | .outOfFuel => .outOfFuel

/-- The server side of an upload of declared length `postLen`: one call per
chunk with `post->received` counting the bytes delivered so far, until the
handler returns something other than `CWHTTPD_STATUS_MORE`. -/
def serve (pf : Platform) (rt : Route) (postLen : Int) :
    List (List Byte) → Int → Session → Outcome (Session × Option Response)
  | [], _, s => .done (s, none)
  | c :: cs, received, s =>
    match cwhttpd_route_fw_upload pf rt false (some ⟨postLen, received + c.length, c⟩) s with
    | .done r =>
      if r.status = CWHTTPD_STATUS_MORE then serve pf rt postLen cs (received + c.length) r.session
      else .done (r.session, r.response)
    | .fault => .fault
    | .outOfFuel => .outOfFuel

/-- A whole upload on a fresh connection. -/
def upload (pf : Platform) (rt : Route) (postLen : Int) (chunks : List (List Byte)) :
    Outcome (Session × Option Response) :=
  serve pf rt postLen chunks 0 ⟨none, [], []⟩

/-- The buffers passed to `esp_ota_write`, in order. -/
def writes : List OtaCall → List (List Byte)
  | [] => []
  | esp_ota_write _ data :: cs => data :: writes cs
  | _ :: cs => writes cs

/-- The non-empty chunks. -/
def nonEmpty (chunks : List (List Byte)) : List (List Byte) :=
  chunks.filter (fun c => !c.isEmpty)

/-- A platform on which every call succeeds: partition 1 boots and runs,
partition 2 is the next update partition, and `esp_ota_begin` returns
handle 7. -/
def exPlatform : Platform :=
  { boot_partition := some 1
    running_partition := some 1
    find_first := fun _ => none
    next_update_partition := some 2
    ota_begin := fun _ _ => (ESP_OK, 7)
    ota_write := fun _ _ _ => ESP_OK
    ota_end := fun _ _ => ESP_OK
    set_boot_partition := fun _ _ => ESP_OK }

/-- A firmware endpoint without a `partition` parameter. -/
def exRoute : Route := ⟨⟨CGIFLASH_TYPE_FW, 0, 0, 0, []⟩, 0, []⟩

/-- The first 28 bytes of an ESP32 application image: magic 0xE9, 0x4008 at
offset 6, entry point 0x40080000 at offset 24. -/
def exImageHeader : List Byte :=
  [0xE9, 0, 0, 0, 0, 0, 0x08, 0x40, 0, 0, 0, 0, 0, 0, 0, 0,
   0, 0, 0, 0, 0, 0, 0, 0, 0, 0, 0x08, 0x40]

/-- Three more bytes of the image. -/
def exImageBody : List Byte := [1, 2, 3]

/-- Whether a call is `esp_ota_begin`. -/
def isBegin : OtaCall → Bool
  | esp_ota_begin _ => true
  | _ => false

/-- Whether a call is `esp_ota_write`. -/
def isWrite : OtaCall → Bool
  | esp_ota_write _ _ => true
  | _ => false

/-- Whether a call is `esp_ota_end`. -/
def isEnd : OtaCall → Bool
  | esp_ota_end _ => true
  | _ => false

/-- Whether a call is `esp_ota_set_boot_partition`. -/
def isSetBoot : OtaCall → Bool
  | esp_ota_set_boot_partition _ => true
  | _ => false

/-- The JSON object sent by `cwhttpd_route_fw_set_boot`: the partition whose
label is the value of "boot", and the value of "success". -/
structure BootResponse where
  boot : Nat
  success : Bool
deriving DecidableEq, Repr

/-- The handler `cwhttpd_route_fw_set_boot`: the OTA calls it makes and its
response.  `actual` is what `esp_ota_get_boot_partition()` returns when the
handler calls it, after its `esp_ota_set_boot_partition`; the handler reads
`actual_bootpart->label`, so a `NULL` there gives `none`. -/
def cwhttpd_route_fw_set_boot (pf : Platform) (rt : Route) (closed : Bool)
    (actual : Option Nat) : Option (List OtaCall × Option BootResponse) :=
  if closed then some ([], none)
  else
    let wanted : Option Nat := if rt.paramLen > 0 then pf.find_first rt.paramBuf else none
    let calls : List OtaCall :=
      if rt.paramLen > 0 then [esp_ota_set_boot_partition wanted] else []
    match actual with
    | none => none
    | some a => some (calls, some ⟨a, decide (wanted = none ∨ wanted = some a)⟩)

/-- The platform `exPlatform` with an `esp_ota_write` that fails. -/
def exPlatformWriteFails : Platform :=
  { exPlatform with ota_write := fun _ _ _ => -1 }

/-- The platform `exPlatform` with an `esp_ota_end` that fails. -/
def exPlatformEndFails : Platform :=
  { exPlatform with ota_end := fun _ _ => -1 }

/-- A firmware endpoint called with `partition=nosuch`. -/
def exRouteNamed : Route :=
  ⟨⟨CGIFLASH_TYPE_FW, 0, 0, 0, []⟩, 6, [0x6e, 0x6f, 0x73, 0x75, 0x63, 0x68]⟩

/-- The calls of a log are neither `esp_ota_end` nor
`esp_ota_set_boot_partition`. -/
def Uncommitted (calls : List OtaCall) : Prop :=
  ∀ x ∈ calls, isEnd x = false ∧ isSetBoot x = false

/-- Invariant of an upload that has delivered `received` bytes, fewer than
the declared `postLen`: `FLST_DONE` was never taken, nothing was committed, the
state is still to be classified only when no byte has arrived, and in
`FLST_WRITE` the remaining length is the part of the declared length not yet
delivered. -/
def ShortInv (postLen received : Int) (s : Session) : Prop :=
  FLST_DONE ∉ s.visited ∧ Uncommitted s.calls ∧ (s.user = none → received = 0) ∧
    ∀ st, s.user = some st →
      st.state ≠ FLST_DONE ∧ (st.state = FLST_START → received = 0) ∧
        (st.state = FLST_WRITE → st.len = postLen - received)

/-- The same invariant on the variables of the loop. -/
def ShortLoop (postLen received : Int) (L : Loop) : Prop :=
  FLST_DONE ∉ L.visited ∧ Uncommitted L.calls ∧ L.st.state ≠ FLST_DONE ∧
    (L.st.state = FLST_START → received = 0) ∧
    (L.st.state = FLST_WRITE → L.st.len = postLen - received)

/-- A filesystem endpoint of 4096 bytes, without a `partition` parameter. -/
def exRouteFs : Route := ⟨⟨CGIFLASH_TYPE_ESPFS, 0x100000, 0, 4096, []⟩, 0, []⟩

end RouteFlash

namespace RouteFs

open CgiFlash (Byte Outcome)

/-! ## Serving files and templates from the filesystem (`src/route_fs.c`)

Conventions of this part of the embedding:

* A C string is the list of its characters; `cstr` reads the string stored at
  the start of a buffer, up to the first NUL.
* The `char buf[FILE_CHUNK_LEN]` of the handlers is a list of bytes; an access
  outside it makes `get_filepath` return `none`.
* `size_t` lengths are natural numbers.  A difference `len - out_len` formed
  after `out_len = strlen(path)`, with a NUL stored below index `len`, does
  not wrap around.  The two places where a `size_t` expression can wrap are
  modelled as the out-of-buffer accesses they lead to: the index `out_len - 1`
  for an empty path, and the length `len - out_len - 1` for `len <= out_len`.
* The functions of `cwhttpd/httpd.h` that produce output are recorded, in
  order and with their results, in a log of events; their results are given by
  the environment as a function of the events so far.
-/

/-- The constant `FILE_CHUNK_LEN`: the size of the buffer of a handler and of
one `fread`. -/
def FILE_CHUNK_LEN : Nat := 1024

/-- The size of `char token[32]`. -/
def TOKEN_SIZE : Nat := 32

/-- The character `'%'`. -/
def PERCENT : Byte := 37

/-- The character `'/'`. -/
def SLASH : Byte := 47

/-- The string `"index.html"`. -/
def index_html : List Byte := [105, 110, 100, 101, 120, 46, 104, 116, 109, 108]

/-- The string `"index.tpl"`. -/
def index_tpl : List Byte := [105, 110, 100, 101, 120, 46, 116, 112, 108]

/-- The string `"gzip"`. -/
def gzip : List Byte := [103, 122, 105, 112]

/-- Build-time configuration: which of the macros tested by the `#if` lines
are defined. -/
structure Build where
  ESP_PLATFORM : Bool
  CONFIG_IDF_TARGET_ESP8266 : Bool
deriving DecidableEq, Repr

/-- The values of `cwhttpd_status_t` the handlers return. -/
inductive Status where
  | CWHTTPD_STATUS_DONE
  | CWHTTPD_STATUS_NOTFOUND
  | CWHTTPD_STATUS_FAIL
deriving DecidableEq, Repr

open Status

/-- The request method, as far as the handlers look at it. -/
inductive Method where
  | CWHTTPD_METHOD_GET
  | other (m : Nat)
deriving DecidableEq, Repr

/-- The fields of `conn->route` the handlers read: `path`, `argc` and the
string `argv[0]`. -/
structure Route where
  path : List Byte
  argc : Int
  argv0 : List Byte
deriving DecidableEq, Repr

/-- The fields of `struct stat` the handlers read: `S_ISDIR(st_mode)`,
`S_ISREG(st_mode)`, `st_size`, and `st_spare4[0]` as a 32-bit pattern. -/
structure Stat where
  isDir : Bool
  isReg : Bool
  st_size : Int
  st_spare4_0 : Nat
deriving DecidableEq, Repr

/-! ### `get_filepath` -/

/-- The C string at the start of a buffer: the bytes before the first NUL. -/
def cstr (s : List Byte) : List Byte := s.takeWhile (fun c => decide (c ≠ 0))

/-- The function `strlen` over a buffer; `none` when the buffer holds no NUL. -/
def strlen (buf : List Byte) : Option Nat :=
  if (0 : Byte) ∈ buf then some (cstr buf).length else none

/-- The call `strncpy(path + off, src, n)`: the first `n` characters of `src`,
padded with NUL up to `n` bytes, are stored from offset `off`. -/
def strncpy (path : List Byte) (off : Nat) (src : List Byte) (n : Nat) : Option (List Byte) :=
  if off + n ≤ path.length then
    some (path.take off ++ ((cstr src).take n ++ List.replicate (n - (cstr src).length) 0)
      ++ path.drop (off + n))
  else none

/-- The assignment `path[i] = c`. -/
def store (path : List Byte) (i : Nat) (c : Byte) : Option (List Byte) :=
  if i < path.length then some (path.set i c) else none

/-- The loop `while (*rpath == *url) { rpath++; url++; }` over the two strings:
the rest of the URL where they first differ.  When the strings are equal the
loop runs past both terminators. -/
def skipRoutePrefix : List Byte → List Byte → Option (List Byte)
  | [], [] => none
  | [], u :: us => some (u :: us)
  | _ :: _, [] => some []
  | a :: rp, b :: us => if a = b then skipRoutePrefix rp us else some (b :: us)

/-- The three statements
`strncpy(path + off, src, n); path[z] = '\0'; out_len = strlen(path);`. -/
def copyTerminate (path : List Byte) (off : Nat) (src : List Byte) (n z : Nat) :
    Option (List Byte × Nat) := do
  let p1 ← strncpy path off src n
  let p2 ← store p1 z 0
  let k ← strlen p2
  pure (p2, k)

/-- The block
`if (path[out_len - 1] == '/' && len - out_len > 0) { strncpy(path + out_len, src, len - out_len - 1); path[len - out_len - 1] = '\0'; out_len = strlen(path); }`. -/
def appendIfSlash (path : List Byte) (len out_len : Nat) (src : List Byte) :
    Option (List Byte × Nat) :=
  if out_len = 0 then none
  else
    match path[out_len - 1]? with
    | none => none
    | some c =>
      if c = SLASH ∧ len - out_len > 0 then
        copyTerminate path out_len src (len - out_len - 1) (len - out_len - 1)
      else some (path, out_len)

/-- Lines 41 to 76 of `get_filepath`: the buffer and `out_len` before the first
call of `stat`. -/
def buildPath (route : Route) (url : List Byte) (path : List Byte) (len : Nat)
    (index : List Byte) : Option (List Byte × Nat) := do
  let rest ← skipRoutePrefix (cstr route.path) (cstr url)
  if route.argc < 1 then
    let r ← (if len > 0 then copyTerminate path 0 rest (len - 1) (len - 1) else some (path, 0))
    appendIfSlash r.1 len r.2 index
  else if len > 0 then
    let r ← copyTerminate path 0 route.argv0 len (len - 1)
    let r1 ← appendIfSlash r.1 len r.2 rest
    appendIfSlash r1.1 len r1.2 index
  else some (path, 0)

/-- What `get_filepath` leaves behind: its return value, the buffer, the
`struct stat` of the last successful `stat`, and the paths handed to `stat`. -/
structure Found where
  ok : Bool
  path : List Byte
  st : Option Stat
  stats : List (List Byte)
deriving DecidableEq, Repr

/-- The block `if (S_ISDIR(st->st_mode)) { ... }` up to its call of `stat`:
a `"/"` and the index name are appended while room is left.  For
`len <= out_len` the length `len - out_len - 1` wraps around and the copy runs
over the buffer. -/
def appendIndex (path : List Byte) (len out_len : Nat) (index : List Byte) :
    Option (List Byte × Nat) :=
  if len ≤ out_len then none
  else do
    let r ← (if len - out_len - 1 > 0 then
        copyTerminate path out_len [SLASH] (len - out_len - 1) (len - out_len - 1)
      else some (path, out_len))
    if len - r.2 - 1 > 0 then
      copyTerminate r.1 r.2 index (len - r.2) (len - r.2 - 1)
    else some r

/-- The string a system call reads from the buffer; `none` when the buffer
holds no NUL. -/
def pathArg (path : List Byte) : Option (List Byte) :=
  if (0 : Byte) ∈ path then some (cstr path) else none

/-- The function `get_filepath`; `stat` gives the outcome of the system call
for a path (`none` when it fails). -/
def get_filepath (stat : List Byte → Option Stat) (route : Route) (url : List Byte)
    (path : List Byte) (len : Nat) (index : List Byte) : Option Found := do
  let r ← buildPath route url path len index
  let a ← pathArg r.1
  match stat a with
  | none => some ⟨false, r.1, none, [a]⟩
  | some st =>
    if st.isDir then
      let r1 ← appendIndex r.1 len r.2 index
      let a1 ← pathArg r1.1
      match stat a1 with
      | none => some ⟨false, r1.1, some st, [a, a1]⟩
      | some st1 => some ⟨st1.isReg, r1.1, some st1, [a, a1]⟩
    else some ⟨st.isReg, r.1, some st, [a]⟩

/-! ### Gzip detection -/

/-- The value of `gzip_encoding` in `cwhttpd_route_fs_get` after lines 122 to
137, for `st.st_spare4[0] = m`. -/
def fs_get_gzip_encoding (b : Build) (m : Nat) : Bool :=
  if b.ESP_PLATFORM then
    let g1 := if m = 0x73665345 then (if m &&& 2 ≠ 0 then true else false) else false
    if m = 0x2B534645 ∨ m = 0x676f7246 then (if m &&& 1 ≠ 0 then true else g1) else g1
  else false

/-- The value of `gzip_encoding` in `cwhttpd_route_fs_tpl` after lines 209 to
223, for `st.st_spare4[0] = m`. -/
def fs_tpl_gzip_encoding (m : Nat) : Bool :=
  let g1 := if m = 0x73665345 then (if m &&& 2 ≠ 0 then true else false) else false
  if m = 0x2B534645 then (if m &&& 1 ≠ 0 then true else g1) else g1

/-- Lines 208 to 229 of `cwhttpd_route_fs_tpl`: the status returned by the gzip
check, `none` when the handler goes on. -/
def fs_tpl_gzip_check (b : Build) (m : Nat) : Option Status :=
  if b.CONFIG_IDF_TARGET_ESP8266 ∨ b.ESP_PLATFORM then
    if fs_tpl_gzip_encoding m then some CWHTTPD_STATUS_NOTFOUND else none
  else none

/-! ### Output and environment -/

/-- The output functions of `cwhttpd/httpd.h` the handlers call. -/
inductive Call where
  | response (code : Nat)
  | send_header (name value : List Byte)
  | send_cache_header (mimetype : Option (List Byte))
  | chunk_start (size : Int)
  | send (data : List Byte)
  | chunk_end
deriving DecidableEq, Repr

/-- One entry of the log: an output call with the value it returned, or an
invocation of the template callback with its token (`none` for `NULL`).  The
token is given by the characters stored in `token[]` below the terminator. -/
inductive Event where
  | out (c : Call) (result : Int)
  | cb (token : Option (List Byte))
deriving DecidableEq, Repr

/-- What the handlers consult outside this file: `stat`, `fopen` (the contents
of the file, `none` for `NULL`), `cwhttpd_get_mimetype`, and the results of the
output functions. -/
structure Env where
  stat : List Byte → Option Stat
  fopen : List Byte → Option (List Byte)
  get_mimetype : List Byte → Option (List Byte)
  out : List Event → Call → Int

/-- The fields of the connection the handlers read; `accept_encoding` is the
result of `cwhttpd_get_header(conn, "Accept-Encoding")`. -/
structure Conn where
  method : Method
  url : List Byte
  route : Route
  accept_encoding : Option (List Byte)
deriving DecidableEq, Repr

/-- The macro `TRY(X)` around an output call: the log with the call added, and
whether its result was non-negative (otherwise the handler jumps to
`cleanup`). -/
def call (env : Env) (log : List Event) (c : Call) : List Event × Bool :=
  (log ++ [Event.out c (env.out log c)], decide (0 ≤ env.out log c))

/-- A sequence of output calls, each under `TRY`. -/
def calls (env : Env) : List Call → List Event → List Event × Bool
  | [], log => (log, true)
  | c :: cs, log =>
    if (call env log c).2 then calls env cs (call env log c).1 else ((call env log c).1, false)

/-- The test `strstr(header, needle) != NULL`. -/
def strstr (header needle : List Byte) : Bool :=
  header.tails.any (fun t => needle.isPrefixOf t)

/-- The test `header && strstr(header, "gzip") == NULL` on the
`Accept-Encoding` header of the request. -/
def refusesGzip (conn : Conn) : Bool :=
  match conn.accept_encoding with
  | some h => !(strstr h gzip)
  | none => false

/-- The successive non-empty results of `fread(buf, 1, n, f)` in
`while ((len = fread(...)) > 0)`. -/
def freadAll (n : Nat) : Nat → List Byte → List (List Byte)
  | 0, _ => []
  | fuel + 1, f =>
    if (f.take n).length > 0 then f.take n :: freadAll n fuel (f.drop n) else []

/-- The handler `cwhttpd_route_fs_get`. -/
def cwhttpd_route_fs_get (b : Build) (env : Env) (conn : Conn) : Option (Status × List Event) :=
  if conn.method ≠ Method.CWHTTPD_METHOD_GET then some (CWHTTPD_STATUS_NOTFOUND, [])
  else
    match get_filepath env.stat conn.route conn.url (List.replicate FILE_CHUNK_LEN 0)
        FILE_CHUNK_LEN index_html with
    | none => none
    | some found =>
      match found.ok, found.st with
      | true, some st =>
        let gzip_encoding := fs_get_gzip_encoding b st.st_spare4_0
        let mimetype := env.get_mimetype (cstr found.path)
        match env.fopen (cstr found.path) with
        | none => some (CWHTTPD_STATUS_NOTFOUND, [])
        | some file =>
          if gzip_encoding ∧ refusesGzip conn then
            let r := call env [] (Call.response 500)
            some (if r.2 then CWHTTPD_STATUS_DONE else CWHTTPD_STATUS_FAIL, r.1)
          else
            let r := calls env
              ([Call.response 200]
                ++ (if gzip_encoding then
                    [Call.send_header [67, 111, 110, 116, 101, 110, 116, 45, 69, 110, 99, 111,
                      100, 105, 110, 103] gzip]
                  else [])
                ++ (match mimetype with
                  | some m => [Call.send_header [67, 111, 110, 116, 101, 110, 116, 45, 84, 121,
                      112, 101] m]
                  | none => [])
                ++ [Call.send_cache_header mimetype, Call.chunk_start st.st_size]
                ++ (freadAll FILE_CHUNK_LEN file.length file).map Call.send
                ++ [Call.chunk_end]) []
            some (if r.2 then CWHTTPD_STATUS_DONE else CWHTTPD_STATUS_FAIL, r.1)
      | _, _ => some (CWHTTPD_STATUS_NOTFOUND, [])

/-! ### The template processor -/

/-- A piece of a handler that contains `TRY`: it goes on with a state, or jumps
to `cleanup` with the log so far. -/
inductive Try (α : Type) where
  | go (a : α)
  | cleanup (log : List Event)
deriving DecidableEq, Repr

/-- The locals of `cwhttpd_route_fs_tpl` that live across reads: `token_pos`,
the characters `token[0 .. token_pos)`, and the log. -/
structure Tpl where
  token_pos : Int
  token : List Byte
  log : List Event
deriving DecidableEq, Repr

/-- The locals during the `for` loop over one read: `raw_count`, the offset of
`p` in `buf`, and those of `Tpl`. -/
structure Scan where
  raw_count : Int
  p : Nat
  token_pos : Int
  token : List Byte
  log : List Event
deriving DecidableEq, Repr

/-- The bytes `p[0 .. raw_count)` handed to `cwhttpd_send`. -/
def rawData (buf : List Byte) (s : Scan) : List Byte :=
  (buf.drop s.p).take s.raw_count.toNat

/-- The body of `for (size_t i = 0; i < len; i++)`. -/
def forBody (env : Env) (buf : List Byte) (i : Nat) (s : Scan) : Try Scan :=
  if s.token_pos < 0 then
    if buf.getD i 0 = PERCENT then
      if s.raw_count ≠ 0 then
        if (call env s.log (Call.send (rawData buf s))).2 then
          Try.go { s with
            log := (call env s.log (Call.send (rawData buf s))).1
            raw_count := 0
            token_pos := 0 }
        else Try.cleanup (call env s.log (Call.send (rawData buf s))).1
      else Try.go { s with token_pos := 0 }
    else Try.go { s with raw_count := s.raw_count + 1 }
  else
    if buf.getD i 0 = PERCENT then
      if s.token_pos = 0 then
        if (call env s.log (Call.send [PERCENT])).2 then
          Try.go { s with
            log := (call env s.log (Call.send [PERCENT])).1
            p := i + 1
            token_pos := -1 }
        else Try.cleanup (call env s.log (Call.send [PERCENT])).1
      else
        Try.go { s with
          log := s.log ++ [Event.cb (some (s.token.take s.token_pos.toNat))]
          p := i + 1
          token_pos := -1 }
    else
      if s.token_pos < ((TOKEN_SIZE - 1 : Nat) : Int) then
        Try.go { s with
          token := s.token.take s.token_pos.toNat ++ [buf.getD i 0]
          token_pos := s.token_pos + 1 }
      else Try.go s

/-- The loop `for (size_t i = 0; i < len; i++)`, from index `i` with `k`
iterations left. -/
def forLoop (env : Env) (buf : List Byte) : Nat → Nat → Scan → Try Scan
  | 0, _, s => Try.go s
  | k + 1, i, s =>
    match forBody env buf i s with
    | Try.go s1 => forLoop env buf k (i + 1) s1
    | Try.cleanup log => Try.cleanup log

/-- The body of the `do ... while` after `fread` has returned `buf`: the `for`
loop, then `if (raw_count != 0) TRY(cwhttpd_send(conn, p, raw_count))`. -/
def readChunk (env : Env) (buf : List Byte) (t : Tpl) : Try Tpl :=
  match forLoop env buf buf.length 0 ⟨0, 0, t.token_pos, t.token, t.log⟩ with
  | Try.cleanup log => Try.cleanup log
  | Try.go s =>
    if s.raw_count ≠ 0 then
      if (call env s.log (Call.send (rawData buf s))).2 then
        Try.go ⟨s.token_pos, s.token, (call env s.log (Call.send (rawData buf s))).1⟩
      else Try.cleanup (call env s.log (Call.send (rawData buf s))).1
    else Try.go ⟨s.token_pos, s.token, s.log⟩

/-- The loop `do { len = fread(buf, 1, n, f); ... } while (len == n)` over the
unread rest of the file, with fuel: the value of `r` and the log at `cleanup`. -/
def tplLoop (env : Env) (n : Nat) : Nat → List Byte → Tpl → Outcome (Status × List Event)
  | 0, _, _ => Outcome.outOfFuel
  | fuel + 1, f, t =>
    match readChunk env (f.take n) t with
    | Try.cleanup log => Outcome.done (CWHTTPD_STATUS_FAIL, log)
    | Try.go t1 =>
      if (f.take n).length = n then tplLoop env n fuel (f.drop n) t1
      else Outcome.done (CWHTTPD_STATUS_DONE, t1.log)

/-- Lines 244 to 302 of `cwhttpd_route_fs_tpl` for reads of `n` bytes: the
template loop over the contents of the file, then `cb(conn, NULL, &user)` at
`cleanup`.  The array `token` starts without contents that are ever read. -/
def tplProcess (env : Env) (n : Nat) (file : List Byte) (log : List Event) :
    Outcome (Status × List Event) :=
  match tplLoop env n (file.length + 1) file ⟨-1, [], log⟩ with
  | Outcome.done r => Outcome.done (r.1, r.2 ++ [Event.cb none])
  | Outcome.fault => Outcome.fault
  | Outcome.outOfFuel => Outcome.outOfFuel

/-- The handler `cwhttpd_route_fs_tpl`. -/
def cwhttpd_route_fs_tpl (b : Build) (env : Env) (conn : Conn) :
    Outcome (Status × List Event) :=
  if conn.method ≠ Method.CWHTTPD_METHOD_GET then Outcome.done (CWHTTPD_STATUS_NOTFOUND, [])
  else
    match get_filepath env.stat conn.route conn.url (List.replicate FILE_CHUNK_LEN 0)
        FILE_CHUNK_LEN index_tpl with
    | none => Outcome.fault
    | some found =>
      match found.ok, found.st with
      | true, some st =>
        match fs_tpl_gzip_check b st.st_spare4_0 with
        | some r => Outcome.done (r, [])
        | none =>
          match env.fopen (cstr found.path) with
          | none => Outcome.done (CWHTTPD_STATUS_NOTFOUND, [])
          | some file =>
            let r := calls env
              ([Call.response 200]
                ++ (match env.get_mimetype (cstr found.path) with
                  | some m => [Call.send_header [67, 111, 110, 116, 101, 110, 116, 45, 84, 121,
                      112, 101] m]
                  | none => [])) []
            if r.2 then tplProcess env FILE_CHUNK_LEN file r.1
            else Outcome.done (CWHTTPD_STATUS_FAIL, r.1 ++ [Event.cb none])
      | _, _ => Outcome.done (CWHTTPD_STATUS_NOTFOUND, [])

/-! ### What a client of the template processor observes -/

/-- One unit of the output of the template processor: a byte sent, a callback
with a token name, or the closing callback with `NULL`. -/
inductive Item where
  | byte (b : Byte)
  | token (name : List Byte)
  | finish
deriving DecidableEq, Repr

/-- The output recorded in a log: the bytes of the sends that succeeded and the
callback invocations, in order. -/
def items : List Event → List Item
  | [] => []
  | Event.out (Call.send d) r :: es =>
    (if 0 ≤ r then d.map Item.byte else []) ++ items es
  | Event.out _ _ :: es => items es
  | Event.cb (some t) :: es => Item.token t :: items es
  | Event.cb none :: es => Item.finish :: items es

/-- All output calls succeed. -/
def SendsSucceed (env : Env) : Prop := ∀ log c, 0 ≤ env.out log c

/-- Where a scan of a template stands: in ordinary text, or after an opening
`'%'` with the characters of the name read so far. -/
inductive Mode where
  | text
  | name (n : List Byte)
deriving DecidableEq, Repr

/-- What the closing `'%'` of a marker produces: one `'%'` for an empty name,
else the callback with the first 31 characters of the name. -/
def closeMarker (n : List Byte) : List Item :=
  if n = [] then [Item.byte PERCENT] else [Item.token (n.take 31)]

/-- A scan of template text in one pass, as the description of the template
language reads: text is passed through, `%%` gives one `'%'`, `%name%` gives a
callback, and an unclosed marker gives nothing. -/
def scanFrom : Mode → List Byte → List Item
  | _, [] => []
  | Mode.text, c :: cs =>
    if c = PERCENT then scanFrom (Mode.name []) cs else Item.byte c :: scanFrom Mode.text cs
  | Mode.name n, c :: cs =>
    if c = PERCENT then closeMarker n ++ scanFrom Mode.text cs
    else scanFrom (Mode.name (n ++ [c])) cs

/-- The output of the whole content scanned in one pass, closed by the
callback with `NULL`. -/
def onePass (content : List Byte) : List Item :=
  scanFrom Mode.text content ++ [Item.finish]

/-- The mode in which a scan leaves off. -/
def modeAfter : Mode → List Byte → Mode
  | m, [] => m
  | Mode.text, c :: cs =>
    if c = PERCENT then modeAfter (Mode.name []) cs else modeAfter Mode.text cs
  | Mode.name n, c :: cs =>
    if c = PERCENT then modeAfter Mode.text cs else modeAfter (Mode.name (n ++ [c])) cs

/-- A piece of a template: text without `'%'`, the escape `%%`, or a marker
`%name%`. -/
inductive Segment where
  | text (t : List Byte)
  | escape
  | marker (name : List Byte)
deriving DecidableEq, Repr

/-- The characters of a piece in the template file. -/
def Segment.render : Segment → List Byte
  | Segment.text t => t
  | Segment.escape => [PERCENT, PERCENT]
  | Segment.marker name => PERCENT :: name ++ [PERCENT]

/-- A piece is well formed: text and names hold no `'%'`, and a name is not
empty. -/
def Segment.WellFormed : Segment → Prop
  | Segment.text t => PERCENT ∉ t
  | Segment.escape => True
  | Segment.marker name => name ≠ [] ∧ PERCENT ∉ name

/-- The output a piece stands for: its text, one `'%'`, or one callback with
the first `min(|name|, 31)` characters of the name. -/
def Segment.output : Segment → List Item
  | Segment.text t => t.map Item.byte
  | Segment.escape => [Item.byte PERCENT]
  | Segment.marker name => [Item.token (name.take (min name.length 31))]

/-- The characters of an unmatched final `'%'` and the text after it; `none`
when the template has no such tail. -/
def renderTail : Option (List Byte) → List Byte
  | none => []
  | some t => PERCENT :: t

/-- An environment in which every output call succeeds, without files. -/
def exEnv : Env := ⟨fun _ => none, fun _ => none, fun _ => none, fun _ _ => 0⟩

/-- An environment in which only the first output call succeeds. -/
def exEnvFirstOnly : Env :=
  ⟨fun _ => none, fun _ => none, fun _ => none, fun log _ => if log = [] then 0 else -1⟩

/-! ### Examples and proof vocabulary -/

/-- A route `"/*"` without arguments. -/
def exRoute : Route := ⟨[47, 42], 0, []⟩

/-- The URL `"/"`, 511 letters `a`, `"/"`: what is left after the route prefix
has 512 characters and ends in `'/'`. -/
def exUrlLong : List Byte := SLASH :: (List.replicate 511 97 ++ [SLASH])

/-- A build for the ESP-IDF, where `ESP_PLATFORM` is defined. -/
def exBuild : Build := ⟨true, false⟩

/-- The buffer after lines 41 to 76 for `exRoute`, `exUrlLong` and
`"index.html"`: the NUL stored at index `len - out_len - 1 = 511` stands where
the final `'/'` of the URL was. -/
def exPathLong : List Byte :=
  List.replicate 511 97 ++ 0 :: (index_html ++ List.replicate 502 0)

/-- The locals `token_pos` and `token` stand for a mode of the one-pass scan:
`token_pos < 0` for text, else the first 31 characters of the name so far. -/
def Rep (token_pos : Int) (token : List Byte) : Mode → Prop
  | Mode.text => token_pos < 0
  | Mode.name n =>
    0 ≤ token_pos ∧ token_pos.toNat = min n.length 31 ∧
      token.take token_pos.toNat = n.take 31

/-- The invariant of the `for` loop at index `i`: in text, `p[0 .. raw_count)`
ends at `buf[i]`; in a marker, nothing is pending. -/
def ScanInv (i : Nat) (s : Scan) (m : Mode) : Prop :=
  Rep s.token_pos s.token m ∧
    (s.token_pos < 0 → 0 ≤ s.raw_count ∧ s.p + s.raw_count.toNat = i) ∧
    (0 ≤ s.token_pos → s.raw_count = 0)

/-- The output still held back in `p[0 .. raw_count)`. -/
def pending (buf : List Byte) (s : Scan) : List Item :=
  (rawData buf s).map Item.byte

/-- A template of 1028 bytes: 1024 letters `a`, then `b%x%`. -/
def exTemplateLong : List Byte := List.replicate 1024 97 ++ [98, 37, 120, 37]

/-- A template of 1030 bytes in which the first read ends inside a marker:
1022 letters `a`, then `%name%z`. -/
def exTemplateSplit : List Byte :=
  List.replicate 1022 97 ++ [37, 110, 97, 109, 101, 37, 122]

/-- The pieces of the template `ab%%%name%z`: text, an escape, a marker and
text. -/
def exSegments : List Segment :=
  [Segment.text [97, 98], Segment.escape, Segment.marker [110, 97, 109, 101],
    Segment.text [122]]

end RouteFs

namespace CgiFlash

open Phase

/-! ## Basic facts -/

theorem PAGELEN_pos (b : Build) : 0 < PAGELEN b := by
  unfold PAGELEN; split <;> decide

theorem initState_good (b : Build) : Good b (initState b) := by
  have h := PAGELEN_pos b
  refine ⟨by simp [initState], by simp [initState], by simp [initState], by simpa [initState] using h, ?_⟩
  simp only [initState, List.length_replicate]
  omega

theorem fail_good {b : Build} {st : UploadState} (h : Good b st) (msg : String) :
    Good b (fail st msg) :=
  ⟨h.len_nonneg, h.skip_nonneg, h.pos_nonneg, h.pos_lt, h.page_len⟩

theorem lenLeft_nonneg {b : Build} {st : UploadState} (h : Good b st) : 0 ≤ lenLeft b st := by
  have h1 := h.len_nonneg
  have h2 := h.pos_lt
  unfold lenLeft; split <;> omega

theorem lenLeft_le_len (b : Build) (st : UploadState) : lenLeft b st ≤ st.len := by
  unfold lenLeft; split <;> omega

theorem lenLeft_le_page (b : Build) (st : UploadState) :
    lenLeft b st ≤ PAGELEN b - st.pagePos := by
  unfold lenLeft; split <;> omega

theorem lenLeft_pos {b : Build} {st : UploadState} (h : Good b st) (hl : st.len ≠ 0) :
    0 < lenLeft b st := by
  have h1 := h.len_nonneg
  have h2 := h.pos_lt
  unfold lenLeft; split <;> omega

theorem length_splice (pd : List Byte) (pos : Nat) (src : List Byte)
    (h : pos + src.length ≤ pd.length) : (splice pd pos src).length = pd.length := by
  simp only [splice, List.length_append, List.length_take, List.length_drop]
  omega

theorem splice_nil (pd : List Byte) (pos : Nat) : splice pd pos [] = pd := by
  simp [splice]

theorem splice_append_left (A B x : List Byte) :
    splice (A ++ B) A.length x = A ++ x ++ B.drop x.length := by
  simp [splice, List.drop_append]

theorem splice_splice (pd : List Byte) (pos : Nat) (x y : List Byte)
    (h : pos + x.length ≤ pd.length) :
    splice (splice pd pos x) (pos + x.length) y = splice pd pos (x ++ y) := by
  have h1 : (pd.take pos).length = pos := by simp; omega
  have hpd : pd = pd.take pos ++ pd.drop pos := (List.take_append_drop pos pd).symm
  generalize pd.take pos = A at h1 hpd
  generalize pd.drop pos = B at hpd
  subst hpd
  subst h1
  rw [splice_append_left, splice_append_left]
  have e : A.length + x.length = (A ++ x).length := by simp
  rw [e, splice_append_left]
  simp [List.drop_drop, Nat.add_comm]

theorem take_splice (pd : List Byte) (pos : Nat) (src : List Byte) (h : pos ≤ pd.length) :
    (splice pd pos src).take (pos + src.length) = pd.take pos ++ src := by
  have h1 : (pd.take pos).length = pos := by simp; omega
  simp only [splice]
  rw [List.append_assoc, List.take_append_eq_append_take, List.take_append_eq_append_take]
  simp [h1]

/-! ## One iteration on the unread bytes -/

theorem stepL_done {b : Build} {s : UploadState × List FlashOp} (rest : List Byte)
    (h : s.1.state = FLST_DONE ∨ s.1.state = FLST_ERROR) : stepL b s rest = (s, []) := by
  rcases h with h | h <;> simp [stepL, h]

theorem rank_flushState (b : Build) (st : UploadState) (pd : List Byte) (n : Int)
    (hst : st.state = FLST_WRITE) : rank (flushState b st pd n) = 0 := by
  by_cases hl : st.len - n = 0
  · by_cases hk : st.skip = 0
    · simp [rank, flushState, hl, hk]
    · simp [rank, flushState, hl, hk]
  · simp [rank, flushState, hl, hst]

theorem rank_skipDone (st : UploadState) : rank (skipDone st) = 0 := by
  by_cases hl : st.len = 0
  · simp [rank, skipDone, hl]
  · simp [rank, skipDone, hl]

theorem rank_write (st : UploadState) (hst : st.state = FLST_WRITE) :
    rank st = if st.len = 0 then 1 else 0 := by
  simp [rank, hst]

theorem rank_skip (st : UploadState) (hst : st.state = FLST_SKIP) :
    rank st = if st.skip = 0 then 1 else 0 := by
  simp [rank, hst]

theorem stepL_spec {b : Build} {s : UploadState × List FlashOp} {rest : List Byte}
    (hg : Good b s.1) (hs : s.1.state ≠ FLST_START) (hr : rest ≠ []) :
    Good b (stepL b s rest).1.1 ∧ (stepL b s rest).1.1.state ≠ FLST_START ∧
      (stepL b s rest).2.length + rank (stepL b s rest).1.1 < rest.length + rank s.1 := by
  have hP := PAGELEN_pos b
  have hlen : 0 < rest.length := List.length_pos.mpr hr
  obtain ⟨h1, h2, h3, h4, h5⟩ := hg
  have hll0 : 0 ≤ lenLeft b s.1 := lenLeft_nonneg ⟨h1, h2, h3, h4, h5⟩
  have hll1 := lenLeft_le_len b s.1
  have hll2 := lenLeft_le_page b s.1
  cases hst : s.1.state with
  | FLST_START => exact absurd hst hs
  | FLST_DONE =>
    rw [stepL_done rest (Or.inl hst)]
    exact ⟨⟨h1, h2, h3, h4, h5⟩, hs, by simp [rank, hst]; omega⟩
  | FLST_ERROR =>
    rw [stepL_done rest (Or.inr hst)]
    exact ⟨⟨h1, h2, h3, h4, h5⟩, hs, by simp [rank, hst]; omega⟩
  | FLST_SKIP =>
    simp only [stepL, hst]
    split
    · rename_i hk
      refine ⟨⟨h1, ?_, h3, h4, h5⟩, by simp [skipAll, hst], ?_⟩
      · simp only [skipAll]; omega
      · have : s.1.skip - (rest.length : Int) ≠ 0 := by omega
        simp [rank, skipAll, hst, this]
        omega
    · rename_i hk
      refine ⟨⟨h1, by simp [skipDone], h3, h4, h5⟩, ?_, ?_⟩
      · simp only [skipDone]; split <;> simp
      · rw [rank_skipDone, rank_skip _ hst]
        simp only [List.length_drop]
        split <;> omega
  | FLST_WRITE =>
    simp only [stepL, hst]
    split
    · rename_i hk
      refine ⟨⟨?_, h2, ?_, ?_, ?_⟩, by simp [bufferBytes, hst], ?_⟩
      · simp only [bufferBytes]; omega
      · simp only [bufferBytes]; omega
      · simp only [bufferBytes]; omega
      · simp only [bufferBytes]
        rw [length_splice _ _ _ (by omega)]
        exact h5
      · have : s.1.len - (rest.length : Int) ≠ 0 := by omega
        simp [rank, bufferBytes, hst, this]
        omega
    · rename_i hk
      have hsp : (splice s.1.pageData s.1.pagePos.toNat
          (rest.take (lenLeft b s.1).toNat)).length = s.1.pageData.length := by
        apply length_splice
        simp only [List.length_take]
        omega
      refine ⟨⟨?_, h2, by simp [flushState], by simpa [flushState] using hP, ?_⟩, ?_, ?_⟩
      · simp only [flushState]; omega
      · simp only [flushState]; rw [hsp]; exact h5
      · simp only [flushState]; split
        · split <;> simp
        · simp [hst]
      · rw [rank_flushState _ _ _ _ hst, rank_write _ hst]
        simp only [List.length_drop]
        split
        · omega
        · rename_i hl0
          have := lenLeft_pos ⟨h1, h2, h3, h4, h5⟩ hl0
          omega

theorem feedL_nil (b : Build) (s : UploadState × List FlashOp) : feedL b s [] = s := by
  rw [feedL]; simp

theorem feedL_cons {b : Build} {s : UploadState × List FlashOp} {rest : List Byte}
    (hg : Good b s.1) (hs : s.1.state ≠ FLST_START) (hr : rest ≠ []) :
    feedL b s rest = feedL b (stepL b s rest).1 (stepL b s rest).2 := by
  rw [feedL]
  simp only [hr, if_false, (stepL_spec hg hs hr).2.2, if_true]

theorem feedL_done {b : Build} {s : UploadState × List FlashOp} (rest : List Byte)
    (h : s.1.state = FLST_DONE ∨ s.1.state = FLST_ERROR) : feedL b s rest = s := by
  rw [feedL]
  split
  · rfl
  · rw [stepL_done rest h]
    simp only [feedL_nil]
    split <;> rfl

/-! ## The loop computes `feedL` -/

theorem slice_eq (buf : List Byte) {off n : Int} (h0 : 0 ≤ off) (hn : 0 ≤ n)
    (h : off + n ≤ buf.length) :
    slice buf off n = some ((buf.drop off.toNat).take n.toNat) := by
  simp [slice, h0, hn, h]

theorem memcpyPage_eq (pd : List Byte) {pos : Int} (src : List Byte) (h0 : 0 ≤ pos)
    (h : pos + src.length ≤ pd.length) :
    memcpyPage pd pos src = some (splice pd pos.toNat src) := by
  simp [memcpyPage, h0, h]

theorem loopBody_stepL {b : Build} (r : Request) {buf : List Byte} {L : Loop}
    (hg : Good b L.st) (hs : L.st.state ≠ FLST_START) (h0 : 0 ≤ L.data) (hd : 0 < L.dataLen)
    (hsum : L.data + L.dataLen = buf.length) :
    ∃ L1, loopBody b r buf L = some L1 ∧
      (L1.st, L1.ops) = (stepL b (L.st, L.ops) (buf.drop L.data.toNat)).1 ∧
      ((L1.dataLen = 0 ∧ (stepL b (L.st, L.ops) (buf.drop L.data.toNat)).2 = []) ∨
       (0 ≤ L1.data ∧ 0 < L1.dataLen ∧ L1.data + L1.dataLen = buf.length ∧
        (stepL b (L.st, L.ops) (buf.drop L.data.toNat)).2 = buf.drop L1.data.toNat)) := by
  have hrl : ((buf.drop L.data.toNat).length : Int) = L.dataLen := by
    simp only [List.length_drop]; omega
  obtain ⟨h1, h2, h3, h4, h5⟩ := hg
  have hll0 : 0 ≤ lenLeft b L.st := lenLeft_nonneg ⟨h1, h2, h3, h4, h5⟩
  have hll2 := lenLeft_le_page b L.st
  cases hst : L.st.state with
  | FLST_START => exact absurd hst hs
  | FLST_DONE =>
    refine ⟨{ L with dataLen := 0 }, by simp [loopBody, hst], ?_, Or.inl ⟨rfl, ?_⟩⟩
    · rw [stepL_done _ (Or.inl hst)]
    · rw [stepL_done _ (Or.inl hst)]
  | FLST_ERROR =>
    refine ⟨{ L with dataLen := 0 }, by simp [loopBody, hst], ?_, Or.inl ⟨rfl, ?_⟩⟩
    · rw [stepL_done _ (Or.inr hst)]
    · rw [stepL_done _ (Or.inr hst)]
  | FLST_SKIP =>
    refine ⟨skipPhase L, by simp [loopBody, hst], ?_⟩
    simp only [stepL, hst, skipPhase, hrl]
    split
    · exact ⟨rfl, Or.inl ⟨rfl, rfl⟩⟩
    · rename_i hk
      refine ⟨rfl, ?_⟩
      by_cases he : L.dataLen - L.st.skip = 0
      · left
        refine ⟨he, ?_⟩
        apply List.drop_eq_nil_of_le
        omega
      · right
        refine ⟨by simp only; omega, by simp only; omega, by simp only; omega, ?_⟩
        simp only [List.drop_drop]
        congr 1
        omega
  | FLST_WRITE =>
    simp only [loopBody, hst, writePhase, stepL, hrl]
    split
    · rename_i hk
      have hsl := slice_eq buf h0 (le_of_lt hd) (le_of_eq hsum)
      have htk : (buf.drop L.data.toNat).take L.dataLen.toNat = buf.drop L.data.toNat := by
        apply List.take_of_length_le; omega
      rw [htk] at hsl
      have hmc := memcpyPage_eq L.st.pageData (buf.drop L.data.toNat) h3
        (by omega)
      refine ⟨_, by rw [hsl, Option.bind_eq_bind, Option.some_bind, hmc]; rfl, ?_, Or.inl ⟨rfl, rfl⟩⟩
      simp only [hrl]
    · rename_i hk
      have hsl := slice_eq buf h0 hll0 (by omega)
      have hmc := memcpyPage_eq L.st.pageData
        ((buf.drop L.data.toNat).take (lenLeft b L.st).toNat) h3
        (by simp only [List.length_take]; omega)
      refine ⟨_, by rw [hsl, Option.bind_eq_bind, Option.some_bind, hmc]; rfl, rfl, ?_⟩
      by_cases he : L.dataLen - lenLeft b L.st = 0
      · left
        refine ⟨he, ?_⟩
        apply List.drop_eq_nil_of_le
        omega
      · right
        refine ⟨by simp only; omega, by simp only; omega, by simp only; omega, ?_⟩
        simp only [List.drop_drop]
        congr 1
        omega

theorem loop_succ (b : Build) (r : Request) (buf : List Byte) (n : Nat) (L : Loop) :
    loop b r buf (n + 1) L =
      if L.dataLen = 0 then .done L
      else
        match loopBody b r buf L with
        | none => .fault
        | some L1 => loop b r buf n L1 := rfl

theorem loop_done_of_zero (b : Build) (r : Request) (buf : List Byte) (n : Nat) (L : Loop)
    (h : L.dataLen = 0) : loop b r buf n L = .done L := by
  cases n <;> simp [loop, h]

theorem loop_feedL {b : Build} (r : Request) (buf : List Byte) :
    ∀ (n : Nat) (L : Loop), Good b L.st → L.st.state ≠ FLST_START → 0 ≤ L.data →
      0 ≤ L.dataLen → L.data + L.dataLen = buf.length →
      L.dataLen.toNat + rank L.st ≤ n →
      ∃ L1, loop b r buf n L = .done L1 ∧
        (L1.st, L1.ops) = feedL b (L.st, L.ops) (buf.drop L.data.toNat) := by
  intro n
  induction n with
  | zero =>
    intro L _ _ h0 hd hsum hn
    have hz : L.dataLen = 0 := by omega
    refine ⟨L, loop_done_of_zero b r buf 0 L hz, ?_⟩
    rw [List.drop_eq_nil_of_le (by omega), feedL_nil]
  | succ n ih =>
    intro L hg hs h0 hd hsum hn
    by_cases hz : L.dataLen = 0
    · refine ⟨L, loop_done_of_zero b r buf _ L hz, ?_⟩
      rw [List.drop_eq_nil_of_le (by omega), feedL_nil]
    · have hpos : 0 < L.dataLen := by omega
      have hne : buf.drop L.data.toNat ≠ [] := by
        intro hnil
        have := congrArg List.length hnil
        simp only [List.length_drop, List.length_nil] at this
        omega
      obtain ⟨L1, hb, hout, hrest⟩ := loopBody_stepL r hg hs h0 hpos hsum
      have hsp := stepL_spec (s := (L.st, L.ops)) hg hs hne
      rw [feedL_cons (s := (L.st, L.ops)) hg hs hne]
      simp only [loop, hz, if_false, hb]
      have hst1 : L1.st = (stepL b (L.st, L.ops) (buf.drop L.data.toNat)).1.1 :=
        congrArg Prod.fst hout
      rcases hrest with ⟨hz1, hnil⟩ | ⟨h01, hd1, hsum1, hdrop⟩
      · refine ⟨L1, loop_done_of_zero b r buf n L1 hz1, ?_⟩
        rw [hnil, feedL_nil, hout]
      · have hlen1 : (stepL b (L.st, L.ops) (buf.drop L.data.toNat)).2.length
            = L1.dataLen.toNat := by
          rw [hdrop]; simp only [List.length_drop]; omega
        have hmeas : L1.dataLen.toNat + rank L1.st ≤ n := by
          have := hsp.2.2
          rw [hlen1, ← hst1] at this
          simp only [List.length_drop] at this
          omega
        obtain ⟨L2, hl2, hout2⟩ := ih L1 (hst1 ▸ hsp.1) (hst1 ▸ hsp.2.1) h01 (le_of_lt hd1)
          hsum1 hmeas
        refine ⟨L2, hl2, ?_⟩
        rw [hout2, hdrop, ← hout]

/-! ## Splitting a chunk -/

theorem lenLeft_bufferBytes (b : Build) (st : UploadState) (pd : List Byte) (n : Int) :
    lenLeft b (bufferBytes st pd n) = lenLeft b st - n := by
  simp only [lenLeft, bufferBytes]
  split <;> split <;> omega

theorem flushState_bufferBytes (b : Build) (st : UploadState) (pd1 pd2 : List Byte)
    (n k : Int) :
    flushState b (bufferBytes st pd1 n) pd2 k = flushState b st pd2 (n + k) := by
  simp only [flushState, bufferBytes, Int.sub_sub]

theorem flushOps_bufferBytes (b : Build) (st : UploadState) (pd1 pd2 : List Byte)
    (n k : Int) :
    flushOps b (bufferBytes st pd1 n) pd2 k = flushOps b st pd2 (n + k) := by
  simp only [flushOps, bufferBytes, Int.add_assoc]

theorem bufferBytes_bufferBytes (st : UploadState) (pd1 pd2 : List Byte) (n k : Int) :
    bufferBytes (bufferBytes st pd1 n) pd2 k = bufferBytes st pd2 (n + k) := by
  simp only [bufferBytes, Int.sub_sub, Int.add_assoc]

theorem skipAll_skipAll (st : UploadState) (n k : Int) :
    skipAll (skipAll st n) k = skipAll st (n + k) := by
  simp only [skipAll, Int.sub_sub]

theorem skipDone_skipAll (st : UploadState) (n : Int) :
    skipDone (skipAll st n) = skipDone st := by
  simp only [skipDone, skipAll]

theorem feedL_good {b : Build} :
    ∀ (m : Nat) (rest : List Byte) (s : UploadState × List FlashOp),
      rest.length + rank s.1 ≤ m → Good b s.1 → s.1.state ≠ FLST_START →
      Good b (feedL b s rest).1 ∧ (feedL b s rest).1.state ≠ FLST_START := by
  intro m
  induction m with
  | zero =>
    intro rest s hm hg hs
    have : rest = [] := List.length_eq_zero.mp (by omega)
    subst this
    rw [feedL_nil]; exact ⟨hg, hs⟩
  | succ m ih =>
    intro rest s hm hg hs
    by_cases hr : rest = []
    · subst hr; rw [feedL_nil]; exact ⟨hg, hs⟩
    · have hsp := stepL_spec hg hs hr
      rw [feedL_cons hg hs hr]
      exact ih _ _ (by omega) hsp.1 hsp.2.1

theorem feedL_good' {b : Build} {s : UploadState × List FlashOp} (rest : List Byte)
    (hg : Good b s.1) (hs : s.1.state ≠ FLST_START) :
    Good b (feedL b s rest).1 ∧ (feedL b s rest).1.state ≠ FLST_START :=
  feedL_good _ rest s (le_refl _) hg hs

theorem stepL_skip_all {b : Build} {t : UploadState} (ops : List FlashOp) {l : List Byte}
    (hst : t.state = FLST_SKIP) (h : t.skip > l.length) :
    stepL b (t, ops) l = ((skipAll t l.length, ops), []) := by
  simp only [stepL, hst]; rw [if_pos h]

theorem stepL_skip_done {b : Build} {t : UploadState} (ops : List FlashOp) {l : List Byte}
    (hst : t.state = FLST_SKIP) (h : ¬ t.skip > l.length) :
    stepL b (t, ops) l = ((skipDone t, ops), l.drop t.skip.toNat) := by
  simp only [stepL, hst]; rw [if_neg h]

theorem stepL_write_buffer {b : Build} {t : UploadState} (ops : List FlashOp)
    {l : List Byte} (hst : t.state = FLST_WRITE) (h : (l.length : Int) < lenLeft b t) :
    stepL b (t, ops) l =
      ((bufferBytes t (splice t.pageData t.pagePos.toNat l) l.length, ops), []) := by
  simp only [stepL, hst]; rw [if_pos h]

theorem stepL_write_flush {b : Build} {t : UploadState} (ops : List FlashOp)
    {l : List Byte} (hst : t.state = FLST_WRITE)
    (h : ¬ (l.length : Int) < lenLeft b t) :
    stepL b (t, ops) l =
      ((flushState b t
          (splice t.pageData t.pagePos.toNat (l.take (lenLeft b t).toNat)) (lenLeft b t),
        ops ++ flushOps b t
          (splice t.pageData t.pagePos.toNat (l.take (lenLeft b t).toNat)) (lenLeft b t)),
       l.drop (lenLeft b t).toNat) := by
  simp only [stepL, hst]; rw [if_neg h]

theorem feedL_append {b : Build} (c : List Byte) :
    ∀ (m : Nat) (a : List Byte) (s : UploadState × List FlashOp),
      a.length + rank s.1 ≤ m → Good b s.1 → s.1.state ≠ FLST_START →
      feedL b s (a ++ c) = feedL b (feedL b s a) c := by
  intro m
  induction m with
  | zero =>
    intro a s hm _ _
    have : a = [] := List.length_eq_zero.mp (by omega)
    subst this
    rw [feedL_nil, List.nil_append]
  | succ m ih =>
    intro a s hm hg hs
    obtain ⟨st, ops⟩ := s
    simp only at hm hg hs
    by_cases ha : a = []
    · subst ha; rw [feedL_nil, List.nil_append]
    have hac : a ++ c ≠ [] := by simp [ha]
    have hsp := stepL_spec (s := (st, ops)) hg hs ha
    have halen : 0 < a.length := List.length_pos.mpr ha
    have hP := PAGELEN_pos b
    have hll0 : 0 ≤ lenLeft b st := lenLeft_nonneg hg
    have hll2 := lenLeft_le_page b st
    have hcast : ((a ++ c).length : Int) = a.length + c.length := by
      simp only [List.length_append]; push_cast; rfl
    cases hst : st.state with
    | FLST_START => exact absurd hst hs
    | FLST_DONE => simp only [feedL_done (s := (st, ops)) _ (Or.inl hst)]
    | FLST_ERROR => simp only [feedL_done (s := (st, ops)) _ (Or.inr hst)]
    | FLST_SKIP =>
      rw [feedL_cons (s := (st, ops)) hg hs hac, feedL_cons (s := (st, ops)) hg hs ha]
      by_cases hA : st.skip ≤ a.length
      · -- the skip ends inside `a`
        have e1 := stepL_skip_done (b := b) ops (l := a ++ c) hst (by rw [hcast]; omega)
        have e2 := stepL_skip_done (b := b) ops (l := a) hst (by omega)
        rw [e2] at hsp
        rw [e1, e2, List.drop_append_of_le_length (by omega)]
        simp only at hsp ⊢
        exact ih (a.drop st.skip.toNat) (skipDone st, ops) (by simp only; omega) hsp.1 hsp.2.1
      · have e2 := stepL_skip_all (b := b) ops (l := a) hst (by omega)
        rw [e2] at hsp
        rw [e2]
        simp only at hsp ⊢
        rw [feedL_nil]
        by_cases hB : st.skip ≤ a.length + c.length
        · -- the skip ends inside `c`
          have hc : c ≠ [] := by
            intro h; subst h; simp only [List.length_nil] at hB; omega
          have e1 := stepL_skip_done (b := b) ops (l := a ++ c) hst (by rw [hcast]; omega)
          have e3 := stepL_skip_done (b := b) (t := skipAll st a.length) ops (l := c) hst
            (by simp only [skipAll]; omega)
          rw [e1, feedL_cons (s := (skipAll st a.length, ops)) hsp.1 hsp.2.1 hc, e3,
            skipDone_skipAll, List.drop_append_eq_append_drop,
            List.drop_eq_nil_of_le (by omega), List.nil_append]
          simp only [skipAll]
          congr 2
          omega
        · -- the skip goes on after `c`
          have e1 := stepL_skip_all (b := b) ops (l := a ++ c) hst (by rw [hcast]; omega)
          rw [e1]
          simp only
          rw [feedL_nil, hcast]
          by_cases hc : c = []
          · subst hc; rw [feedL_nil]; simp
          · have e3 := stepL_skip_all (b := b) (t := skipAll st a.length) ops (l := c) hst
              (by simp only [skipAll]; omega)
            rw [feedL_cons (s := (skipAll st a.length, ops)) hsp.1 hsp.2.1 hc, e3]
            simp only
            rw [feedL_nil, skipAll_skipAll]
    | FLST_WRITE =>
      rw [feedL_cons (s := (st, ops)) hg hs hac, feedL_cons (s := (st, ops)) hg hs ha]
      have hpl := hg.page_len
      have hp0 := hg.pos_nonneg
      by_cases hA : lenLeft b st ≤ a.length
      · -- the page is completed inside `a`
        have e1 := stepL_write_flush (b := b) ops (l := a ++ c) hst (by rw [hcast]; omega)
        have e2 := stepL_write_flush (b := b) ops (l := a) hst (by omega)
        rw [e2] at hsp
        rw [e1, e2, List.take_append_of_le_length (by omega),
          List.drop_append_of_le_length (by omega)]
        simp only at hsp ⊢
        exact ih _ (_, _) (by simp only; omega) hsp.1 hsp.2.1
      · have e2 := stepL_write_buffer (b := b) ops (l := a) hst (by omega)
        rw [e2] at hsp
        rw [e2]
        simp only at hsp ⊢
        rw [feedL_nil]
        have hpos : (st.pagePos + (a.length : Int)).toNat = st.pagePos.toNat + a.length := by
          omega
        by_cases hB : lenLeft b st ≤ a.length + c.length
        · -- the page is completed inside `c`
          have hc : c ≠ [] := by
            intro h; subst h; simp only [List.length_nil] at hB; omega
          have htake : (a ++ c).take (lenLeft b st).toNat =
              a ++ c.take (lenLeft b st - a.length).toNat := by
            rw [List.take_append_eq_append_take, List.take_of_length_le (by omega)]
            congr 2
            omega
          have hdrop : (a ++ c).drop (lenLeft b st).toNat =
              c.drop (lenLeft b st - a.length).toNat := by
            rw [List.drop_append_eq_append_drop, List.drop_eq_nil_of_le (by omega),
              List.nil_append]
            congr 1
            omega
          have e1 := stepL_write_flush (b := b) ops (l := a ++ c) hst (by rw [hcast]; omega)
          have e3 := stepL_write_flush (b := b)
            (t := bufferBytes st (splice st.pageData st.pagePos.toNat a) a.length) ops
            (l := c) hst (by rw [lenLeft_bufferBytes]; omega)
          rw [e1, feedL_cons (s := (bufferBytes st _ a.length, ops)) hsp.1 hsp.2.1 hc, e3]
          simp only [lenLeft_bufferBytes, flushState_bufferBytes, flushOps_bufferBytes]
          have hsum : (a.length : Int) + (lenLeft b st - a.length) = lenLeft b st := by omega
          have hpd : (bufferBytes st (splice st.pageData st.pagePos.toNat a) a.length).pageData
              = splice st.pageData st.pagePos.toNat a := rfl
          have hpp : (bufferBytes st (splice st.pageData st.pagePos.toNat a) a.length).pagePos
              = st.pagePos + a.length := rfl
          rw [hsum, htake, hdrop, hpd, hpp, hpos, splice_splice _ _ _ _ (by omega)]
        · -- the page is still open after `c`
          have e1 := stepL_write_buffer (b := b) ops (l := a ++ c) hst (by rw [hcast]; omega)
          rw [e1]
          simp only
          rw [feedL_nil, hcast]
          by_cases hc : c = []
          · subst hc; rw [feedL_nil]; simp
          · have e3 := stepL_write_buffer (b := b)
              (t := bufferBytes st (splice st.pageData st.pagePos.toNat a) a.length) ops
              (l := c) hst (by rw [lenLeft_bufferBytes]; omega)
            have hpd : (bufferBytes st (splice st.pageData st.pagePos.toNat a) a.length).pageData
                = splice st.pageData st.pagePos.toNat a := rfl
            have hpp : (bufferBytes st (splice st.pageData st.pagePos.toNat a) a.length).pagePos
                = st.pagePos + a.length := rfl
            rw [feedL_cons (s := (bufferBytes st _ a.length, ops)) hsp.1 hsp.2.1 hc, e3]
            simp only
            rw [feedL_nil, bufferBytes_bufferBytes, hpd, hpp, hpos,
              splice_splice _ _ _ _ (by omega)]

theorem feedL_append' {b : Build} {s : UploadState × List FlashOp} (a c : List Byte)
    (hg : Good b s.1) (hs : s.1.state ≠ FLST_START) :
    feedL b s (a ++ c) = feedL b (feedL b s a) c :=
  feedL_append c _ a s (le_refl _) hg hs

/-! ## Reading the header -/

theorem byteAt_take {buf : List Byte} {i k : Nat} (h : i < k) :
    byteAt (buf.take k) i = byteAt buf i := by
  simp [byteAt, List.getElem?_take, h]

theorem u16At_take {buf : List Byte} {i k : Nat} (h : i + 1 < k) :
    u16At (buf.take k) i = u16At buf i := by
  simp only [u16At]
  rw [byteAt_take (by omega), byteAt_take (by omega)]

theorem u32At_take {buf : List Byte} {i k : Nat} (h : i + 3 < k) :
    u32At (buf.take k) i = u32At buf i := by
  simp only [u32At]
  rw [byteAt_take (by omega), byteAt_take (by omega), byteAt_take (by omega),
    byteAt_take (by omega)]

theorem i32At_take (buf : List Byte) {off : Int} {k : Nat} (h : off + 3 < k) :
    i32At (buf.take k) off = i32At buf off := by
  simp only [i32At]
  split
  · rw [u32At_take (by omega)]
  · rfl

theorem checkBinHeader_take (b : Build) (buf : List Byte) {k : Nat} (h : 28 ≤ k) :
    checkBinHeader b (buf.take k) = checkBinHeader b buf := by
  simp only [checkBinHeader]
  rw [byteAt_take (by omega), byteAt_take (by omega), byteAt_take (by omega),
    byteAt_take (by omega), u16At_take (by omega), u32At_take (by omega),
    u32At_take (by omega)]

theorem slice_take {buf : List Byte} {off n : Int} {k : Nat} (hk : k ≤ buf.length)
    (h : off + n ≤ k) : slice (buf.take k) off n = slice buf off n := by
  simp only [slice, List.length_take]
  by_cases h1 : 0 ≤ off ∧ 0 ≤ n
  · rw [if_pos ⟨h1.1, h1.2, by omega⟩, if_pos ⟨h1.1, h1.2, by omega⟩, List.drop_take,
      List.take_take]
    congr 2
    omega
  · rw [if_neg (fun hh => h1 ⟨hh.1, hh.2.1⟩), if_neg (fun hh => h1 ⟨hh.1, hh.2.1⟩)]

theorem memcmp4_take {buf : List Byte} {off : Int} (m : List Byte) {k : Nat}
    (hk : k ≤ buf.length) (h : off + 4 ≤ k) :
    memcmp4 (buf.take k) off m = memcmp4 buf off m := by
  simp only [memcmp4]
  rw [slice_take hk h]

theorem tagOf_take {buf : List Byte} {off : Int} {k : Nat} (h : off + 27 ≤ k) :
    tagOf (buf.take k) off = tagOf buf off := by
  simp only [tagOf]
  split
  · have e : ((buf.take k).drop off.toNat).take 27 = (buf.drop off.toNat).take 27 := by
      rw [List.drop_take, List.take_take]
      congr 1
      omega
    rw [e]
  · rfl

theorem startPhase_take (b : Build) (r : Request) (buf : List Byte) (L : Loop)
    (hd : L.data = 0) (hlen : 40 ≤ buf.length) :
    startPhase b r (buf.take 40) L = startPhase b r buf L := by
  simp only [startPhase, startCombined, checkEspfsHeader, hd]
  rw [memcmp4_take _ hlen (by omega), memcmp4_take _ hlen (by omega), tagOf_take (by omega),
    i32At_take _ (by omega), i32At_take _ (by omega), checkBinHeader_take b buf (by omega)]

theorem byteAt_eq {buf : List Byte} {i : Nat} (h : i < buf.length) :
    byteAt buf i = some ((buf[i]).val : Int) := by
  simp [byteAt, List.getElem?_eq_getElem h]

theorem u16At_isSome (buf : List Byte) (i : Nat) (h : i + 1 < buf.length) :
    ∃ v, u16At buf i = some v := by
  simp only [u16At]
  rw [byteAt_eq (by omega), byteAt_eq (by omega)]
  exact ⟨_, rfl⟩

theorem u32At_isSome (buf : List Byte) (i : Nat) (h : i + 3 < buf.length) :
    ∃ v, u32At buf i = some v := by
  simp only [u32At]
  rw [byteAt_eq (by omega), byteAt_eq (by omega), byteAt_eq (by omega), byteAt_eq (by omega)]
  exact ⟨_, rfl⟩

theorem i32At_isSome (buf : List Byte) (off : Int) (h0 : 0 ≤ off) (h : off + 3 < buf.length) :
    ∃ v, i32At buf off = some v := by
  obtain ⟨v, hv⟩ := u32At_isSome buf off.toNat (by omega)
  exact ⟨toInt32 v, by simp [i32At, h0, hv]⟩

theorem checkBinHeader_isSome (b : Build) (buf : List Byte) (h : 28 ≤ buf.length) :
    ∃ v, checkBinHeader b buf = some v := by
  obtain ⟨h3, e3⟩ := u16At_isSome buf 6 (by omega)
  obtain ⟨a, ea⟩ := u32At_isSome buf 24 (by omega)
  obtain ⟨w, ew⟩ := u32At_isSome buf 8 (by omega)
  simp only [checkBinHeader]
  rw [byteAt_eq (by omega), byteAt_eq (by omega), byteAt_eq (by omega), byteAt_eq (by omega),
    e3, ea, ew]
  simp only [Option.bind_eq_bind, Option.some_bind, Option.pure_def]
  split_ifs <;> exact ⟨_, rfl⟩

theorem memcmp4_eq {buf : List Byte} (m : List Byte) (h : 4 ≤ buf.length) :
    memcmp4 buf 0 m = some (buf.take 4 == m) := by
  have : (4 : Int) ≤ buf.length := by omega
  simp [memcmp4, slice, this]

theorem tagOf_eq {buf : List Byte} (h : 31 ≤ buf.length) :
    tagOf buf 4 = some (cstr ((buf.drop 4).take 27)) := by
  simp only [tagOf]
  rw [if_pos (by omega)]
  have : ((buf.drop (4 : Int).toNat).take 27).length = 27 := by
    simp only [List.length_take, List.length_drop]
    have : (4 : Int).toNat = 4 := rfl
    omega
  simp only [this, or_true, if_true]
  rfl

theorem checks_cases (r : Request) (st : UploadState) (tag : List Byte) :
    (sizeCheck r (tagCheck r st tag) = st) ∨
      (∃ msg, sizeCheck r (tagCheck r st tag) = fail st msg) := by
  unfold tagCheck
  split
  · split
    · unfold sizeCheck
      split
      · exact Or.inr ⟨_, rfl⟩
      · exact Or.inl rfl
    · right
      refine ⟨"Firmware not intended for this device!\n", ?_⟩
      unfold sizeCheck
      rw [if_neg (by simp [fail])]
  · unfold sizeCheck
    split
    · exact Or.inr ⟨_, rfl⟩
    · exact Or.inl rfl

theorem acceptSingle_cases (r : Request) (tooLarge : Bool) (addr : Int) (st : UploadState) :
    (∃ msg, acceptSingle r tooLarge addr st = fail st msg) ∨
      acceptSingle r tooLarge addr st =
        { st with len := r.postLen, address := addr, state := FLST_WRITE } := by
  unfold acceptSingle
  split
  · exact Or.inl ⟨_, rfl⟩
  · exact Or.inr rfl

theorem StartShape.of_fail {r : Request} {buf : List Byte} {L : Loop} (msg : String)
    (hd : L.data = 0) : StartShape r buf L { L with st := fail L.st msg } :=
  ⟨rfl, by simp [fail], rfl, rfl, Or.inl ⟨hd, rfl, rfl, Or.inl rfl⟩⟩

theorem StartShape.of_accept {r : Request} {buf : List Byte} {L : Loop} (tooLarge : Bool)
    (addr : Int) (hd : L.data = 0) :
    StartShape r buf L { L with st := acceptSingle r tooLarge addr L.st } := by
  rcases acceptSingle_cases r tooLarge addr L.st with ⟨msg, h⟩ | h
  · rw [h]; exact StartShape.of_fail msg hd
  · rw [h]
    exact ⟨rfl, by simp, rfl, rfl, Or.inl ⟨hd, rfl, rfl, Or.inr ⟨rfl, rfl⟩⟩⟩

theorem startCombined_cases (b : Build) (r : Request) {buf : List Byte} (L : Loop)
    (hd : L.data = 0) (hlen : 40 ≤ buf.length) (hst : L.st.state = FLST_START)
    (hm : buf.take 4 = magicEHUG) :
    ∃ L1, startCombined b r buf L = some L1 ∧ StartShape r buf L L1 := by
  obtain ⟨l1, e1⟩ := i32At_isSome buf 32 (by omega) (by omega)
  obtain ⟨l2, e2⟩ := i32At_isSome buf 36 (by omega) (by omega)
  obtain ⟨st, data, dataLen, ops⟩ := L
  simp only at hd hst
  subst hd
  simp only [startCombined, Int.zero_add]
  by_cases he : b.esp32 = true
  · rw [if_pos he]
    exact ⟨_, rfl, StartShape.of_fail _ rfl⟩
  · rw [if_neg he, tagOf_eq (by omega), e1, e2]
    simp only [Option.bind_eq_bind, Option.some_bind, Option.pure_def, sizeofOtaHeader]
    rcases checks_cases r st (cstr ((buf.drop 4).take 27)) with h | ⟨msg, h⟩
    · rw [h, if_pos (by rw [hst]; decide)]
      refine ⟨_, rfl, rfl, ?_, ?_, ?_, Or.inr ⟨rfl, rfl, hm, l1, l2, e1, e2, ?_⟩⟩
      · simp only [selectImage]; split <;> simp
      · simp only [selectImage]; split <;> rfl
      · simp only [selectImage]; split <;> rfl
      · simp only [selectImage]; split
        · exact Or.inl ⟨rfl, rfl⟩
        · exact Or.inr ⟨rfl, rfl⟩
    · rw [h, if_neg (by simp [fail])]
      exact ⟨_, rfl, StartShape.of_fail _ rfl⟩

theorem startPhase_cases (b : Build) (r : Request) {buf : List Byte} (L : Loop)
    (hd : L.data = 0) (hlen : 40 ≤ buf.length) (hst : L.st.state = FLST_START) :
    ∃ L1, startPhase b r buf L = some L1 ∧ StartShape r buf L L1 := by
  obtain ⟨bin, ebin⟩ := checkBinHeader_isSome b buf (by omega)
  obtain ⟨st, data, dataLen, ops⟩ := L
  simp only at hd hst
  subst hd
  simp only [startPhase, checkEspfsHeader]
  rw [memcmp4_eq _ (by omega), memcmp4_eq _ (by omega), ebin]
  by_cases hfw : r.cgiArg.type = CGIFLASH_TYPE_FW
  · have hfs : r.cgiArg.type ≠ CGIFLASH_TYPE_ESPFS := by rw [hfw]; decide
    simp only [hfw, hfs, if_true, if_false, Option.bind_eq_bind, Option.some_bind,
      Option.pure_def]
    by_cases hm : buf.take 4 = magicEHUG
    · simp only [hm, beq_self_eq_true, if_true]
      exact startCombined_cases b r ⟨st, 0, dataLen, ops⟩ rfl hlen hst hm
    · have hm' : (buf.take 4 == magicEHUG) = false := by simpa using hm
      simp only [hm', Bool.false_eq_true, if_false]
      cases bin with
      | true =>
        simp only [if_true]
        refine ⟨_, rfl, ?_⟩
        unfold startFirmware
        split
        · exact StartShape.of_accept _ _ rfl
        · exact StartShape.of_accept _ _ rfl
      | false =>
        simp only [Bool.false_eq_true, if_false]
        exact ⟨_, rfl, StartShape.of_fail _ rfl⟩
  · simp only [hfw, if_false, Option.bind_eq_bind, Option.some_bind, Option.pure_def,
      Bool.false_eq_true]
    by_cases hfs : r.cgiArg.type = CGIFLASH_TYPE_ESPFS
    · simp only [hfs, if_true, Option.some_bind]
      by_cases hm : (buf.take 4 == magicESfs) = true
      · simp only [hm, if_true]
        exact ⟨_, rfl, StartShape.of_accept _ _ rfl⟩
      · simp only [hm, if_false]
        exact ⟨_, rfl, StartShape.of_fail _ rfl⟩
    · simp only [hfs, if_false, Option.some_bind, Bool.false_eq_true]
      exact ⟨_, rfl, StartShape.of_fail _ rfl⟩

/-! ## A call and a session as `feedL` -/

theorem startCombined_dataLen (b : Build) (r : Request) (buf : List Byte) (st : UploadState)
    (d n m : Int) (ops : List FlashOp) :
    (startCombined b r buf ⟨st, d, n, ops⟩).map Loop.core =
      (startCombined b r buf ⟨st, d, m, ops⟩).map Loop.core := by
  simp only [startCombined]
  split
  · rfl
  · generalize tagOf buf (d + 4) = x4
    rcases x4 with _ | x4
    · rfl
    · simp only [Option.bind_eq_bind, Option.some_bind]
      split
      · generalize i32At buf (d + 32) = x5
        generalize i32At buf (d + 36) = x6
        rcases x5 with _ | x5
        · rfl
        · rcases x6 with _ | x6
          · rfl
          · rfl
      · rfl

theorem startPhase_dataLen (b : Build) (r : Request) (buf : List Byte) (st : UploadState)
    (d n m : Int) (ops : List FlashOp) :
    (startPhase b r buf ⟨st, d, n, ops⟩).map Loop.core =
      (startPhase b r buf ⟨st, d, m, ops⟩).map Loop.core := by
  simp only [startPhase]
  generalize (if r.cgiArg.type = CGIFLASH_TYPE_FW then memcmp4 buf d magicEHUG
    else pure false) = x1
  generalize (if r.cgiArg.type = CGIFLASH_TYPE_FW then checkBinHeader b buf
    else pure false) = x2
  generalize (if r.cgiArg.type = CGIFLASH_TYPE_ESPFS then checkEspfsHeader buf
    else pure false) = x3
  rcases x1 with _ | x1
  · rfl
  · simp only [Option.bind_eq_bind, Option.some_bind]
    cases x1
    · simp only [Bool.false_eq_true, if_false]
      rcases x2 with _ | x2
      · rfl
      · simp only [Option.some_bind]
        cases x2
        · simp only [Bool.false_eq_true, if_false]
          rcases x3 with _ | x3
          · rfl
          · cases x3 <;> rfl
        · simp only [if_true, startFirmware]
          split <;> rfl
    · simp only [if_true]
      exact startCombined_dataLen b r buf st d n m ops

theorem rank_le_one (st : UploadState) : rank st ≤ 1 := by
  unfold rank
  split <;> first | omega | (split <;> omega)

theorem call_feedL {b : Build} (r : Request) (buf : List Byte) {s : UploadState × List FlashOp}
    (hg : Good b s.1) (hs : s.1.state ≠ FLST_START) :
    cgiUploadFirmware b r buf s = .done (feedL b s buf) := by
  have hr := rank_le_one s.1
  obtain ⟨L1, h1, h2⟩ := loop_feedL r buf (fuelFor buf.length)
    ⟨s.1, 0, buf.length, s.2⟩ hg hs (le_refl _) (by simp) (by simp)
    (by simp only [fuelFor]; omega)
  simp only [cgiUploadFirmware, h1, h2]
  rfl

theorem session_feedL {b : Build} (r : Request) :
    ∀ (cs : List (List Byte)) (s : UploadState × List FlashOp), Good b s.1 →
      s.1.state ≠ FLST_START → session b r cs s = .done (feedL b s cs.flatten) := by
  intro cs
  induction cs with
  | nil => intro s _ _; simp [session, feedL_nil]
  | cons c cs ih =>
    intro s hg hs
    have hgf := feedL_good' c hg hs
    simp only [session, call_feedL r c hg hs, List.flatten_cons]
    rw [ih _ hgf.1 hgf.2, feedL_append' _ _ hg hs]

theorem first_call {b : Build} (r : Request) {buf : List Byte}
    {s : UploadState × List FlashOp} {L1 : Loop} (hs : s.1.state = FLST_START)
    (hlen : buf ≠ [])
    (h1 : startPhase b r buf ⟨s.1, 0, buf.length, s.2⟩ = some L1) (hg1 : Good b L1.st)
    (hne : L1.st.state ≠ FLST_START)
    (hd : 0 ≤ L1.data ∧ 0 ≤ L1.dataLen ∧ L1.data + L1.dataLen = buf.length) :
    cgiUploadFirmware b r buf s =
      .done (feedL b (L1.st, L1.ops) (buf.drop L1.data.toNat)) := by
  have hr := rank_le_one L1.st
  have hbody : loopBody b r buf ⟨s.1, 0, buf.length, s.2⟩ = some L1 := by
    simp only [loopBody, hs, h1]
  obtain ⟨L2, h2, h3⟩ := loop_feedL r buf (2 * buf.length + 7) L1 hg1 hne hd.1
    hd.2.1 hd.2.2 (by omega)
  have hz : ¬ ((buf.length : Int) = 0) := by
    have := List.length_pos.mpr hlen
    omega
  have hf : fuelFor buf.length = (2 * buf.length + 7) + 1 := rfl
  unfold cgiUploadFirmware
  rw [hf, loop_succ, if_neg hz]
  simp only [hbody, h2, h3]

/-! ## A whole upload -/

theorem upload_first {b : Build} (r : Request) {c : List Byte} (t : List (List Byte))
    {L1 : Loop} (hlen : c ≠ [])
    (h1 : startPhase b r c ⟨initState b, 0, c.length, []⟩ = some L1) (hg1 : Good b L1.st)
    (hne : L1.st.state ≠ FLST_START)
    (hd : 0 ≤ L1.data ∧ 0 ≤ L1.dataLen ∧ L1.data + L1.dataLen = c.length) :
    upload b r (c :: t) =
      .done (feedL b (L1.st, L1.ops) ((c ++ t.flatten).drop L1.data.toNat)) := by
  have hk : L1.data.toNat ≤ c.length := by omega
  have hfc := first_call r (s := (initState b, [])) rfl hlen h1 hg1 hne hd
  have hgf := feedL_good' (s := (L1.st, L1.ops)) (c.drop L1.data.toNat) hg1 hne
  simp only [upload, session, hfc]
  rw [session_feedL r t _ hgf.1 hgf.2, ← feedL_append' _ _ hg1 hne,
    List.drop_append_of_le_length hk]

theorem upload_good {b : Build} (r : Request) {c : List Byte} (t : List (List Byte))
    {L1 : Loop} (hlen : 40 ≤ c.length)
    (h1 : startPhase b r c ⟨initState b, 0, c.length, []⟩ = some L1) (hg1 : Good b L1.st) :
    upload b r (c :: t) =
      .done (feedL b (L1.st, L1.ops) ((c ++ t.flatten).drop L1.data.toNat)) := by
  obtain ⟨L1', h1', hshape⟩ :=
    startPhase_cases b r ⟨initState b, 0, c.length, []⟩ rfl hlen rfl
  rw [h1] at h1'
  cases h1'
  obtain ⟨_, hne, _, _, hcase⟩ := hshape
  have hc : c ≠ [] := by
    intro h; subst h; simp at hlen
  refine upload_first r t hc h1 hg1 hne ?_
  rcases hcase with ⟨e1, e2, _⟩ | ⟨e1, e2, _⟩
  · simp only at e2; omega
  · simp only at e2; omega

theorem upload_negative {b : Build} (r : Request) {c : List Byte} (t : List (List Byte))
    {L1 : Loop} (hlen : 40 ≤ c.length)
    (h1 : startPhase b r c ⟨initState b, 0, c.length, []⟩ = some L1)
    (hw : L1.st.state = FLST_WRITE) (hneg : L1.st.len < 0) (hd0 : L1.data = 0) :
    upload b r (c :: t) = .fault := by
  obtain ⟨L1', h1', hshape⟩ :=
    startPhase_cases b r ⟨initState b, 0, c.length, []⟩ rfl hlen rfl
  rw [h1] at h1'
  cases h1'
  obtain ⟨_, _, _, hpp, hcase⟩ := hshape
  have hP := PAGELEN_pos b
  have hpos : L1.st.pagePos = 0 := hpp
  have hdl : 0 < L1.dataLen := by
    rcases hcase with ⟨_, e2, _⟩ | ⟨e1, _, _⟩
    · simp only at e2; omega
    · omega
  have hbody : loopBody b r c ⟨initState b, 0, c.length, []⟩ = some L1 := by
    have hs : (initState b).state = FLST_START := rfl
    simp only [loopBody, hs, h1]
  have hll : lenLeft b L1.st = L1.st.len := by
    unfold lenLeft; rw [if_pos (by omega)]
  have hbody2 : loopBody b r c L1 = none := by
    simp only [loopBody, hw, writePhase, hll]
    rw [if_neg (by omega)]
    simp [slice, hneg]
  have hz : ¬ ((c.length : Int) = 0) := by omega
  have hz1 : ¬ (L1.dataLen = 0) := by omega
  have hf : fuelFor c.length = (2 * c.length + 6) + 1 + 1 := rfl
  simp only [upload, session]
  unfold cgiUploadFirmware
  rw [hf, loop_succ, if_neg hz]
  simp only [hbody]
  rw [loop_succ, if_neg hz1]
  simp only [hbody2]

/-! ## C1: chunking independence -/

theorem start_core_stream (b : Build) (r : Request) (c : List Byte) (t : List Byte)
    (st : UploadState) (n : Int) (ops : List FlashOp) (h : 40 ≤ c.length) :
    (startPhase b r c ⟨st, 0, n, ops⟩).map Loop.core =
      (startPhase b r ((c ++ t).take 40) ⟨st, 0, 0, ops⟩).map Loop.core := by
  rw [List.take_append_of_le_length h, startPhase_take b r c _ rfl h]
  exact startPhase_dataLen b r c st 0 n 0 ops

theorem i32At_append {c : List Byte} (t : List Byte) {off : Int} (h : off + 3 < 40)
    (hc : 40 ≤ c.length) : i32At (c ++ t) off = i32At c off := by
  have h40 : off + 3 < ((40 : Nat) : Int) := by omega
  rw [← i32At_take (c ++ t) h40, ← i32At_take c h40,
    List.take_append_of_le_length hc]

theorem start_good {b : Build} {r : Request} {buf : List Byte} {L L1 : Loop}
    (hshape : StartShape r buf L L1) (hg : Good b L.st)
    (hlen : buf.take 4 = magicEHUG → ∀ l1 l2, i32At buf 32 = some l1 →
      i32At buf 36 = some l2 → 0 ≤ l1 ∧ 0 ≤ l2) :
    Good b L1.st ∨ (L1.st.state = FLST_WRITE ∧ L1.st.len < 0 ∧ L1.data = 0) := by
  obtain ⟨_, _, hpd, hpp, hcase⟩ := hshape
  obtain ⟨g1, g2, g3, g4, g5⟩ := hg
  rcases hcase with ⟨e1, _, e3, e4 | ⟨e4, e5⟩⟩ | ⟨_, _, hm, l1, l2, hl1, hl2, hh⟩
  · left
    exact ⟨by rw [e4]; exact g1, by rw [e3]; exact g2, by rw [hpp]; exact g3,
      by rw [hpp]; exact g4, by rw [hpd]; exact g5⟩
  · by_cases hneg : r.postLen < 0
    · right
      exact ⟨e4, by rw [e5]; exact hneg, e1⟩
    · left
      exact ⟨by rw [e5]; omega, by rw [e3]; exact g2, by rw [hpp]; exact g3,
        by rw [hpp]; exact g4, by rw [hpd]; exact g5⟩
  · left
    have := hlen hm l1 l2 hl1 hl2
    rcases hh with ⟨e4, e5⟩ | ⟨e4, e5⟩
    · exact ⟨by rw [e4]; exact this.1, by rw [e5]; exact this.2, by rw [hpp]; exact g3,
        by rw [hpp]; exact g4, by rw [hpd]; exact g5⟩
    · exact ⟨by rw [e4]; exact this.2, by rw [e5]; exact this.1, by rw [hpp]; exact g3,
        by rw [hpp]; exact g4, by rw [hpd]; exact g5⟩

/-- For a first chunk that holds the header, the result of an upload is a
function of the concatenated stream: `feedL` of what follows the consumed
header bytes, or a fault for a single image with a negative declared length. -/
theorem upload_stream {b : Build} (r : Request) (c : List Byte) (t : List (List Byte))
    (hc : 40 ≤ c.length)
    (hlen : (c :: t).flatten.take 4 = magicEHUG → ∀ l1 l2,
      i32At (c :: t).flatten 32 = some l1 → i32At (c :: t).flatten 36 = some l2 →
      0 ≤ l1 ∧ 0 ≤ l2) :
    ∃ L1, startPhase b r ((c :: t).flatten.take 40) ⟨initState b, 0, 0, []⟩ = some L1 ∧
      ((Good b L1.st ∧ upload b r (c :: t) =
          .done (feedL b (L1.st, L1.ops) ((c :: t).flatten.drop L1.data.toNat))) ∨
       (¬ Good b L1.st ∧ upload b r (c :: t) = .fault)) := by
  obtain ⟨L0, h0, hshape⟩ :=
    startPhase_cases b r ⟨initState b, 0, c.length, []⟩ rfl hc rfl
  have hcore := start_core_stream b r c t.flatten (initState b) c.length [] hc
  rw [h0] at hcore
  rw [List.flatten_cons]
  cases hs : startPhase b r ((c ++ t.flatten).take 40) ⟨initState b, 0, 0, []⟩ with
  | none => rw [hs] at hcore; simp at hcore
  | some L1 =>
    rw [hs] at hcore
    simp only [Option.map_some', Option.some.injEq, Loop.core, Prod.mk.injEq] at hcore
    obtain ⟨est, edata, eops⟩ := hcore
    refine ⟨L1, rfl, ?_⟩
    have hlen' : c.take 4 = magicEHUG → ∀ l1 l2, i32At c 32 = some l1 →
        i32At c 36 = some l2 → 0 ≤ l1 ∧ 0 ≤ l2 := by
      intro hm l1 l2 e1 e2
      rw [List.flatten_cons] at hlen
      refine hlen ?_ l1 l2 ?_ ?_
      · rw [List.take_append_of_le_length (by omega)]; exact hm
      · rw [i32At_append _ (by omega) hc]; exact e1
      · rw [i32At_append _ (by omega) hc]; exact e2
    rcases start_good hshape (initState_good b) hlen' with hg | ⟨hw, hneg, hd0⟩
    · left
      refine ⟨est ▸ hg, ?_⟩
      rw [upload_good r t hc h0 hg, est, edata, eops]
    · right
      refine ⟨?_, upload_negative r t hc h0 hw hneg hd0⟩
      intro hg
      have := hg.len_nonneg
      rw [← est] at this
      omega

/-- C1 (amended): for a stream whose combined-image header, if it has one,
declares non-negative lengths, two ways of cutting the stream into chunks whose
first chunk holds the 40 header bytes give the same outcome of the upload: the
same session state (phase and error message included) and the same sequence of
sector erases and page writes. -/
theorem chunking_independence (b : Build) (r : Request) (c1 c2 : List Byte)
    (t1 t2 : List (List Byte)) (hsame : (c1 :: t1).flatten = (c2 :: t2).flatten)
    (h1 : 40 ≤ c1.length) (h2 : 40 ≤ c2.length)
    (hlen : (c1 :: t1).flatten.take 4 = magicEHUG → ∀ l1 l2,
      i32At (c1 :: t1).flatten 32 = some l1 → i32At (c1 :: t1).flatten 36 = some l2 →
      0 ≤ l1 ∧ 0 ≤ l2) :
    upload b r (c1 :: t1) = upload b r (c2 :: t2) := by
  obtain ⟨L1, hs1, hu1⟩ := upload_stream (b := b) r c1 t1 h1 hlen
  obtain ⟨L2, hs2, hu2⟩ := upload_stream (b := b) r c2 t2 h2 (hsame ▸ hlen)
  rw [← hsame, hs1] at hs2
  cases hs2
  rcases hu1 with ⟨hg, e1⟩ | ⟨hg, e1⟩ <;> rcases hu2 with ⟨hg', e2⟩ | ⟨hg', e2⟩
  · rw [e1, e2, hsame]
  · exact absurd hg hg'
  · exact absurd hg' hg
  · rw [e1, e2]

/-- Witness for C1 (amended): a combined image with `len1 = 3` and
`len2 = 4`, sent to a device that flashes image 1, cut after the header, and
cut inside image 1 and inside image 2: both uploads erase sector 1 and write
the three bytes of image 1 to the slot at 0x1000. -/
theorem chunking_independence_witness :
    [exHeaderSmall ++ [11, 12], [13, 21, 22], [23, 24]].flatten =
      [exHeaderSmall, exBody7].flatten ∧
    [exHeaderSmall ++ [11, 12], [13, 21, 22], [23, 24]].flatten.take 4 = magicEHUG ∧
    i32At [exHeaderSmall ++ [11, 12], [13, 21, 22], [23, 24]].flatten 32 = some 3 ∧
    i32At [exHeaderSmall ++ [11, 12], [13, 21, 22], [23, 24]].flatten 36 = some 4 ∧
    upload exBuild exRequestSmall [exHeaderSmall ++ [11, 12], [13, 21, 22], [23, 24]] =
      upload exBuild exRequestSmall [exHeaderSmall, exBody7] ∧
    flashLog (upload exBuild exRequestSmall [exHeaderSmall, exBody7]) =
      some [FlashOp.erase 1, FlashOp.write 0x1000 [11, 12, 13]] ∧
    (finalState (upload exBuild exRequestSmall [exHeaderSmall, exBody7])).map
      (fun st => (st.state, st.err)) = some (FLST_DONE, "Premature end") := by
  have e1 : i32At [exHeaderSmall ++ [11, 12], [13, 21, 22], [23, 24]].flatten 32 =
      some 3 := by decide
  have e2 : i32At [exHeaderSmall ++ [11, 12], [13, 21, 22], [23, 24]].flatten 36 =
      some 4 := by decide
  refine ⟨by decide, by decide, e1, e2, ?_, by decide, by decide⟩
  exact chunking_independence exBuild exRequestSmall (exHeaderSmall ++ [11, 12]) exHeaderSmall
    [[13, 21, 22], [23, 24]] [exBody7] (by decide) (by decide) (by decide)
    (fun _ l1 l2 h1 h2 => by
      rw [e1] at h1
      rw [e2] at h2
      cases h1
      cases h2
      exact ⟨by decide, by decide⟩)

/-- C1 as stated fails: with a header that declares `len1 = -5`, the stream
delivered in one chunk is written to flash (five header bytes included), while
the same stream delivered as header chunk and payload chunk reads before the
start of the second chunk. -/
theorem chunking_dependence_negative_length :
    [exHeaderNeg ++ exBody10].flatten = [exHeaderNeg, exBody10].flatten ∧
    40 ≤ (exHeaderNeg ++ exBody10).length ∧ 40 ≤ exHeaderNeg.length ∧
    upload exBuild exRequestNeg [exHeaderNeg ++ exBody10] ≠
      upload exBuild exRequestNeg [exHeaderNeg, exBody10] ∧
    upload exBuild exRequestNeg [exHeaderNeg, exBody10] = .fault ∧
    flashLog (upload exBuild exRequestNeg [exHeaderNeg ++ exBody10]) =
      some [FlashOp.erase 129, FlashOp.write 0x81000 [0xff, 10, 0, 0, 0, 1, 2, 3, 4, 5]] := by
  refine ⟨by decide, by decide, by decide, by decide, by decide, by decide⟩

/-! ## The write phase on a complete image -/

theorem pageLen_pos (b : Build) : 0 < pageLen b := by
  have := PAGELEN_pos b
  unfold pageLen; omega

theorem pageLen_cast (b : Build) : ((pageLen b : Nat) : Int) = PAGELEN b := by
  have := PAGELEN_pos b
  unfold pageLen; omega

theorem pageCount_small (b : Build) {n : Nat} (h0 : 0 < n) (h : n ≤ pageLen b) :
    pageCount b n = 1 := by
  have hp := pageLen_pos b
  unfold pageCount
  apply Nat.div_eq_of_lt_le
  · omega
  · omega

theorem pageCount_large (b : Build) {n : Nat} (h : pageLen b < n) :
    pageCount b n = pageCount b (n - pageLen b) + 1 := by
  have hp := pageLen_pos b
  unfold pageCount
  have : n + pageLen b - 1 = (n - pageLen b + pageLen b - 1) + pageLen b := by omega
  rw [this, Nat.add_div_right _ hp]

theorem take_splice_zero (pd src : List Byte) :
    (splice pd 0 src).take src.length = src := by
  have := take_splice pd 0 src (Nat.zero_le _)
  simpa using this

theorem flushOps_eq (b : Build) (st : UploadState) (pd : List Byte) (src : List Byte)
    (hp : st.pagePos = 0) :
    flushOps b st (splice pd 0 src) src.length =
      (if sectorAligned b st.address then [FlashOp.erase (sectorOf b st.address)] else []) ++
        [FlashOp.write st.address src] := by
  simp only [flushOps, hp, Int.zero_add, Int.toNat_ofNat, take_splice_zero]

/-- In `FLST_WRITE` with an empty page buffer and the rest of the image at
hand, the loop writes the image page by page and leaves the phase. -/
theorem feedL_image {b : Build} (tail : List Byte) :
    ∀ (n : Nat) (img : List Byte) (st : UploadState) (ops : List FlashOp),
      img.length ≤ n → img ≠ [] → Good b st → st.state = FLST_WRITE → st.pagePos = 0 →
      st.len = img.length →
      ∃ st', feedL b (st, ops) (img ++ tail) =
          feedL b (st', ops ++ imageOps b (pageCount b img.length) st.address img) tail ∧
        st'.state = (if st.skip ≠ 0 then FLST_SKIP else FLST_DONE) ∧ st'.len = 0 ∧
        st'.skip = st.skip ∧ st'.pagePos = 0 ∧
        st'.address = pageAddr b st.address (pageCount b img.length) ∧
        st'.err = st.err ∧ Good b st' := by
  intro n
  induction n with
  | zero =>
    intro img st ops hn hne
    exact absurd (List.length_eq_zero.mp (by omega)) hne
  | succ n ih =>
    intro img st ops hn hne hg hst hp hl
    have hP := pageLen_pos b
    have hPc := pageLen_cast b
    have hilen : 0 < img.length := List.length_pos.mpr hne
    have hs : st.state ≠ FLST_START := by rw [hst]; decide
    have hac : img ++ tail ≠ [] := by simp [hne]
    have hcast : ((img ++ tail).length : Int) = img.length + tail.length := by
      simp only [List.length_append]; push_cast; rfl
    have hsp := stepL_spec (s := (st, ops)) hg hs hac
    rw [feedL_cons (s := (st, ops)) hg hs hac]
    by_cases hsmall : img.length ≤ pageLen b
    · -- the last page
      have hll : lenLeft b st = img.length := by
        unfold lenLeft; rw [hp, hl]; split <;> omega
      have e := stepL_write_flush (b := b) ops (l := img ++ tail) hst (by rw [hcast]; omega)
      rw [hll] at e
      simp only [Int.toNat_ofNat, hp, List.take_left, List.drop_left] at e
      have hz : (0 : Int).toNat = 0 := rfl
      rw [hz, flushOps_eq b st _ img hp] at e
      rw [e] at hsp ⊢
      simp only at hsp ⊢
      refine ⟨flushState b st (splice st.pageData 0 img) img.length,
        ?_, ?_, ?_, rfl, rfl, ?_, rfl, hsp.1⟩
      · rw [pageCount_small b hilen hsmall]
        simp only [imageOps, List.take_of_length_le hsmall]
      · simp only [flushState, hl, sub_self, if_true]
      · simp only [flushState, hl, sub_self]
      · simp only [flushState, pageCount_small b hilen hsmall, pageAddr]
    · -- a full page, more to come
      have hbig : pageLen b < img.length := by omega
      have hll : lenLeft b st = pageLen b := by
        unfold lenLeft; rw [hp, hl]; split <;> omega
      have e := stepL_write_flush (b := b) ops (l := img ++ tail) hst (by rw [hcast]; omega)
      rw [hll] at e
      simp only [Int.toNat_ofNat, hp] at e
      have hz : (0 : Int).toNat = 0 := rfl
      have htk : (img ++ tail).take (pageLen b) = img.take (pageLen b) :=
        List.take_append_of_le_length (by omega)
      have hdr : (img ++ tail).drop (pageLen b) = img.drop (pageLen b) ++ tail :=
        List.drop_append_of_le_length (by omega)
      have htl : (img.take (pageLen b)).length = pageLen b := by
        simp only [List.length_take]; omega
      have hfo := flushOps_eq b st st.pageData (img.take (pageLen b)) hp
      rw [htl] at hfo
      rw [hz, htk, hdr, hfo] at e
      rw [e] at hsp ⊢
      simp only at hsp ⊢
      have hne' : img.drop (pageLen b) ≠ [] := by
        intro h
        have := congrArg List.length h
        simp only [List.length_drop, List.length_nil] at this
        omega
      have hlen' : st.len - (pageLen b : Int) ≠ 0 := by omega
      have hst' : (flushState b st (splice st.pageData 0 (img.take (pageLen b)))
          (pageLen b)).state = FLST_WRITE := by
        simp only [flushState, hlen', if_false, hst]
      obtain ⟨st', h1, h2, h3, h4, h5, h6, h7, h8⟩ := ih (img.drop (pageLen b)) _
        (ops ++ ((if sectorAligned b st.address then [FlashOp.erase (sectorOf b st.address)]
          else []) ++ [FlashOp.write st.address (img.take (pageLen b))]))
        (by simp only [List.length_drop]; omega) hne' hsp.1 hst' rfl
        (by simp only [flushState, List.length_drop, hl]; omega)
      refine ⟨st', ?_, h2, h3, h4, h5, ?_, h7, h8⟩
      · rw [h1, pageCount_large b hbig]
        simp only [imageOps, flushState, List.length_drop, List.append_assoc,
          List.singleton_append]
      · rw [h6, pageCount_large b hbig]
        simp only [flushState, List.length_drop, pageAddr]

/-! ## Single images at `FLST_START` -/

theorem byteAt_zero_cons (x : Byte) (l : List Byte) : byteAt (x :: l) 0 = some (x.val : Int) := by
  simp [byteAt]

theorem checkBinHeader_first {b : Build} {buf : List Byte}
    (h : checkBinHeader b buf = some true) :
    byteAt buf 0 = some 0xE9 ∨ byteAt buf 0 = some 0xEA := by
  unfold checkBinHeader at h
  split at h
  · cases h0 : byteAt buf 0 with
    | none => simp [h0] at h
    | some cd0 =>
      by_cases hc : cd0 = 0xE9
      · left; rw [hc]
      · exfalso
        simp only [h0, Option.bind_eq_bind, Option.some_bind] at h
        cases h1 : u16At buf 6 with
        | none => simp [h1] at h
        | some v1 =>
          cases h2 : u32At buf 24 with
          | none => simp [h1, h2] at h
          | some v2 => simp [h1, h2, hc] at h
  · cases h0 : byteAt buf 0 with
    | none => simp [h0] at h
    | some cd0 =>
      by_cases hc : cd0 = 0xEA
      · right; rw [hc]
      · exfalso
        simp [h0, hc] at h

theorem checkBinHeader_length {b : Build} {buf : List Byte}
    (h : checkBinHeader b buf = some true) : 4 ≤ buf.length := by
  by_contra hlt
  have hnone : ∀ i, 3 ≤ i → byteAt buf i = none := by
    intro i hi
    simp only [byteAt, Option.map_eq_none']
    exact List.getElem?_eq_none (by omega)
  have h16 : u16At buf 6 = none := by simp [u16At, hnone 6 (by omega)]
  unfold checkBinHeader at h
  split at h
  · cases h0 : byteAt buf 0 <;> simp [h0, h16] at h
  · cases h0 : byteAt buf 0 <;> cases h1 : byteAt buf 1 <;> cases h2 : byteAt buf 2 <;>
      simp [h0, h1, h2, hnone 3 (le_refl _)] at h <;> split_ifs at h <;> simp at h

theorem memcmp4_length {buf : List Byte} {m : List Byte} {v : Bool}
    (h : memcmp4 buf 0 m = some v) : 4 ≤ buf.length := by
  by_contra hlt
  have : ¬ ((4 : Int) ≤ buf.length) := by omega
  simp [memcmp4, slice, this] at h

theorem not_ehug_of_bin {b : Build} {buf : List Byte}
    (h : checkBinHeader b buf = some true) : memcmp4 buf 0 magicEHUG = some false := by
  have hlen := checkBinHeader_length h
  rw [memcmp4_eq _ hlen]
  have hne : buf.take 4 ≠ magicEHUG := by
    intro he
    have h0 : (buf.take 4)[0]? = some (0x45 : Byte) := by rw [he]; rfl
    rw [List.getElem?_take] at h0
    simp only [Nat.lt_add_one, Nat.ofNat_pos, if_true] at h0
    have hb : byteAt buf 0 = some 0x45 := by simp only [byteAt, h0]; rfl
    rcases checkBinHeader_first h with h1 | h1 <;> rw [hb] at h1 <;> simp at h1
  simpa using hne

theorem start_single {b : Build} {r : Request} {c : List Byte} (hs : SingleImage b r c)
    (h0 : 0 ≤ r.postLen) (h1 : r.postLen < 2147483648) (st : UploadState) (n : Int)
    (ops : List FlashOp) :
    startPhase b r c ⟨st, 0, n, ops⟩ =
      some ⟨acceptSingle r (decide (r.postLen > capacity b r)) (baseAddr b r) st, 0, n, ops⟩ := by
  rcases hs with ⟨hfw, hbin⟩ | ⟨hfs, hesp⟩
  · simp only [startPhase, hfw, if_true, not_ehug_of_bin hbin, hbin, Option.bind_eq_bind,
      Option.some_bind, Bool.false_eq_true, if_false, Option.pure_def, startFirmware,
      capacity, baseAddr, and_true]
    split
    · have : toUInt32 r.postLen = r.postLen := by unfold toUInt32; omega
      rw [this]
    · rfl
  · have hnfw : ¬ (CGIFLASH_TYPE_ESPFS = CGIFLASH_TYPE_FW) := by decide
    simp only [startPhase, hfs, hnfw, if_true, if_false, hesp, Option.bind_eq_bind,
      Option.some_bind, Bool.false_eq_true, Option.pure_def, startEspfs,
      capacity, baseAddr, and_false]

theorem single_nonempty {b : Build} {r : Request} {c : List Byte} (hs : SingleImage b r c) :
    c ≠ [] := by
  have : 4 ≤ c.length := by
    rcases hs with ⟨_, h⟩ | ⟨_, h⟩
    · exact checkBinHeader_length h
    · exact memcmp4_length h
  intro hc
  subst hc
  simp at this

theorem acceptSingle_good {b : Build} {r : Request} {st : UploadState} (tooLarge : Bool)
    (addr : Int) (hg : Good b st) (h0 : 0 ≤ r.postLen) :
    Good b (acceptSingle r tooLarge addr st) := by
  unfold acceptSingle
  split
  · exact fail_good hg _
  · exact ⟨h0, hg.skip_nonneg, hg.pos_nonneg, hg.pos_lt, hg.page_len⟩

theorem acceptSingle_ne_start (r : Request) (tooLarge : Bool) (addr : Int) (st : UploadState) :
    (acceptSingle r tooLarge addr st).state ≠ FLST_START := by
  unfold acceptSingle
  split <;> simp [fail]

/-- An upload whose first chunk is a single image, as `feedL` of the whole
stream from the state left by `FLST_START`. -/
theorem upload_single {b : Build} {r : Request} {c : List Byte} (t : List (List Byte))
    (hs : SingleImage b r c) (h0 : 0 ≤ r.postLen) (h1 : r.postLen < 2147483648) :
    upload b r (c :: t) =
      .done (feedL b (acceptSingle r (decide (r.postLen > capacity b r)) (baseAddr b r)
        (initState b), []) (c :: t).flatten) := by
  have h := upload_first (b := b) r t (single_nonempty hs)
    (start_single hs h0 h1 (initState b) c.length [])
    (acceptSingle_good _ _ (initState_good b) h0) (acceptSingle_ne_start _ _ _ _)
    ⟨le_refl _, by simp, by simp⟩
  simpa using h

/-! ## The flash log of an image -/

theorem writeAddrs_append (x y : List FlashOp) :
    writeAddrs (x ++ y) = writeAddrs x ++ writeAddrs y := by
  simp [writeAddrs, List.filterMap_append]

theorem writeData_append (x y : List FlashOp) :
    writeData (x ++ y) = writeData x ++ writeData y := by
  simp [writeData, List.filterMap_append]

theorem eraseSectors_append (x y : List FlashOp) :
    eraseSectors (x ++ y) = eraseSectors x ++ eraseSectors y := by
  simp [eraseSectors, List.filterMap_append]

theorem writeAddrs_imageOps (b : Build) :
    ∀ (k : Nat) (a : Int) (img : List Byte),
      writeAddrs (imageOps b k a img) = (List.range k).map (pageAddr b a) := by
  intro k
  induction k with
  | zero => intro a img; rfl
  | succ k ih =>
    intro a img
    rw [List.range_succ_eq_map, imageOps, writeAddrs_append]
    have h1 : writeAddrs (if sectorAligned b a then [FlashOp.erase (sectorOf b a)] else []) = [] := by
      split <;> rfl
    have h2 : writeAddrs (FlashOp.write a (img.take (pageLen b)) ::
        imageOps b k (addInt32 a (PAGELEN b)) (img.drop (pageLen b))) =
        a :: writeAddrs (imageOps b k (addInt32 a (PAGELEN b)) (img.drop (pageLen b))) := by
      simp [writeAddrs]
    rw [h1, h2, ih]
    simp only [List.nil_append, List.map_cons, List.map_map, pageAddr, List.cons.injEq,
      true_and]
    apply List.map_congr_left
    intro i _
    simp only [Function.comp, Nat.succ_eq_add_one, pageAddr]

/-- An `int` stays an `int` when `PAGELEN` is added with wrap-around. -/
theorem addInt32_range (b : Build) {a : Int} (hlo : -2147483648 ≤ a) (hhi : a ≤ 2147483647) :
    -2147483648 ≤ addInt32 a (PAGELEN b) ∧ addInt32 a (PAGELEN b) ≤ 2147483647 := by
  unfold addInt32 PAGELEN
  cases b.esp32 <;> simp only [Bool.false_eq_true, if_false, if_true] <;> split <;> omega

/-- On `int` values `addInt32` is the sum reduced to 32 bits. -/
theorem addInt32_eq (b : Build) {a : Int} (hlo : -2147483648 ≤ a) (hhi : a ≤ 2147483647) :
    addInt32 a (PAGELEN b) = toInt32 (a + PAGELEN b) := by
  unfold addInt32 toInt32 PAGELEN
  cases b.esp32 <;> simp only [Bool.false_eq_true, if_false, if_true] <;> split <;> omega

theorem toInt32_of_range {a : Int} (hlo : -2147483648 ≤ a) (hhi : a ≤ 2147483647) :
    toInt32 a = a := by
  unfold toInt32; omega

theorem toInt32_range (a : Int) : -2147483648 ≤ toInt32 a ∧ toInt32 a ≤ 2147483647 := by
  unfold toInt32; omega

/-- Adding to a value reduced to 32 bits and reducing again is reducing the sum. -/
theorem toInt32_add_left (x y : Int) : toInt32 (toInt32 x + y) = toInt32 (x + y) := by
  unfold toInt32; omega

/-- The address of page `i` of an image written from the `int` address `a`:
`a + i * PAGELEN` reduced to 32 bits. -/
theorem pageAddr_eq (b : Build) :
    ∀ (i : Nat) {a : Int}, -2147483648 ≤ a → a ≤ 2147483647 →
      pageAddr b a i = toInt32 (a + (i : Int) * PAGELEN b) := by
  intro i
  induction i with
  | zero =>
    intro a hlo hhi
    simp only [pageAddr, Nat.cast_zero, zero_mul, add_zero, toInt32_of_range hlo hhi]
  | succ i ih =>
    intro a hlo hhi
    have hr := addInt32_range b hlo hhi
    rw [pageAddr, ih hr.1 hr.2, addInt32_eq b hlo hhi, toInt32_add_left]
    congr 1
    push_cast
    ring

theorem writeData_imageOps (b : Build) :
    ∀ (k : Nat) (a : Int) (img : List Byte),
      writeData (imageOps b k a img) =
        (List.range k).map (fun i => (img.drop (i * pageLen b)).take (pageLen b)) := by
  intro k
  induction k with
  | zero => intro a img; rfl
  | succ k ih =>
    intro a img
    rw [List.range_succ_eq_map, imageOps, writeData_append]
    have h1 : writeData (if sectorAligned b a then [FlashOp.erase (sectorOf b a)] else []) = [] := by
      split <;> rfl
    have h2 : writeData (FlashOp.write a (img.take (pageLen b)) ::
        imageOps b k (addInt32 a (PAGELEN b)) (img.drop (pageLen b))) =
        img.take (pageLen b) ::
          writeData (imageOps b k (addInt32 a (PAGELEN b)) (img.drop (pageLen b))) := by
      simp [writeData]
    rw [h1, h2, ih]
    simp only [List.nil_append, List.map_cons, List.map_map, zero_mul, List.drop_zero,
      List.cons.injEq, true_and]
    apply List.map_congr_left
    intro i _
    simp only [Function.comp, Nat.succ_eq_add_one, List.drop_drop]
    congr 2
    ring

theorem flatten_writeData_imageOps (b : Build) :
    ∀ (k : Nat) (a : Int) (img : List Byte),
      (writeData (imageOps b k a img)).flatten = img.take (k * pageLen b) := by
  intro k
  induction k with
  | zero => intro a img; simp [imageOps, writeData]
  | succ k ih =>
    intro a img
    rw [imageOps, writeData_append]
    have h1 : writeData (if sectorAligned b a then [FlashOp.erase (sectorOf b a)] else []) = [] := by
      split <;> rfl
    have h2 : writeData (FlashOp.write a (img.take (pageLen b)) ::
        imageOps b k (addInt32 a (PAGELEN b)) (img.drop (pageLen b))) =
        img.take (pageLen b) ::
          writeData (imageOps b k (addInt32 a (PAGELEN b)) (img.drop (pageLen b))) := by
      simp [writeData]
    rw [h1, h2, List.nil_append, List.flatten_cons, ih]
    have : (k + 1) * pageLen b = pageLen b + k * pageLen b := by ring
    rw [this, List.take_add]

theorem pageCount_mul_ge (b : Build) (n : Nat) : n ≤ pageCount b n * pageLen b := by
  have hp := pageLen_pos b
  unfold pageCount
  have h1 := Nat.div_add_mod (n + pageLen b - 1) (pageLen b)
  have h2 := Nat.mod_lt (n + pageLen b - 1) hp
  have h3 : pageLen b * ((n + pageLen b - 1) / pageLen b) =
      (n + pageLen b - 1) / pageLen b * pageLen b := Nat.mul_comm _ _
  omega

theorem flatten_writeData_image (b : Build) (a : Int) (img : List Byte) :
    (writeData (imageOps b (pageCount b img.length) a img)).flatten = img := by
  rw [flatten_writeData_imageOps, List.take_of_length_le (pageCount_mul_ge b _)]

/-! ## C7: oversize rejection, and C2: contents of a single image -/

theorem acceptSingle_reject (r : Request) (addr : Int) (st : UploadState) :
    acceptSingle r true addr st = fail st "Firmware image too large" := rfl

theorem acceptSingle_accept (r : Request) (addr : Int) (st : UploadState) :
    acceptSingle r false addr st =
      { st with len := r.postLen, address := addr, state := FLST_WRITE } := rfl

theorem upload_too_large {b : Build} {r : Request} {c : List Byte} (t : List (List Byte))
    (hs : SingleImage b r c) (h0 : 0 ≤ r.postLen) (h1 : r.postLen < 2147483648)
    (hbig : r.postLen > capacity b r) :
    upload b r (c :: t) = .done (fail (initState b) "Firmware image too large", []) := by
  rw [upload_single t hs h0 h1, decide_eq_true hbig, acceptSingle_reject,
    feedL_done _ (Or.inr rfl)]

theorem start_accepts {b : Build} {r : Request} {c : List Byte}
    (hs : SingleImage b r c) (h0 : 0 ≤ r.postLen) (h1 : r.postLen < 2147483648)
    (hfit : r.postLen ≤ capacity b r) :
    loopBody b r c ⟨initState b, 0, c.length, []⟩ =
      some ⟨acceptedState b r, 0, c.length, []⟩ := by
  have hs0 : (initState b).state = FLST_START := rfl
  have hd : decide (r.postLen > capacity b r) = false := decide_eq_false (by omega)
  simp only [loopBody, hs0, start_single hs h0 h1, hd, acceptSingle_accept, acceptedState]

/-- C7: when the first chunk is a single image for the endpoint and the
declared length `post->len` (a non-negative `int`) exceeds the capacity, every
upload ends in `FLST_ERROR` with the message "Firmware image too large" and an
empty flash log, whatever chunks follow; when it does not exceed the capacity,
the `FLST_START` iteration leaves the session in `FLST_WRITE` with
`len = post->len`, at the base address, with no byte consumed. -/
theorem oversize_rejection (b : Build) (r : Request) (c : List Byte) (t : List (List Byte))
    (hs : SingleImage b r c) (h0 : 0 ≤ r.postLen) (h1 : r.postLen < 2147483648) :
    (r.postLen > capacity b r →
      upload b r (c :: t) = .done (fail (initState b) "Firmware image too large", [])) ∧
    (r.postLen ≤ capacity b r →
      loopBody b r c ⟨initState b, 0, c.length, []⟩ =
        some ⟨acceptedState b r, 0, c.length, []⟩) :=
  ⟨upload_too_large t hs h0 h1, start_accepts hs h0 h1⟩

/-- Witness for C7: the 40-byte ESP8266 header with 100 declared bytes on a
64-byte slot. -/
theorem oversize_rejection_witness :
    SingleImage exBuild exRequestLarge exHeader8266 ∧
    (exRequestLarge.postLen > capacity exBuild exRequestLarge →
      upload exBuild exRequestLarge [exHeader8266, exBody10] =
        .done (fail (initState exBuild) "Firmware image too large", [])) :=
  ⟨Or.inl ⟨rfl, by decide⟩,
    (oversize_rejection exBuild exRequestLarge exHeader8266 [exBody10]
      (Or.inl ⟨rfl, by decide⟩) (by decide) (by decide)).1⟩

/-- The base address of a single image is an `int` when `def->fw1Pos` is. -/
theorem baseAddr_range (b : Build) (r : Request)
    (hpos : -2147483648 ≤ r.cgiArg.fw1Pos ∧ r.cgiArg.fw1Pos ≤ 2147483647) :
    -2147483648 ≤ baseAddr b r ∧ baseAddr b r ≤ 2147483647 := by
  unfold baseAddr
  split
  · exact toInt32_range _
  · exact hpos

/-- C2 (amended): for a single image for the endpoint with declared length
`L = post->len`, `1 ≤ L ≤ capacity`, delivered in chunks that total `L`
bytes, the upload ends in `FLST_DONE`, the page writes go to
`base, base+PAGELEN, ...` in this order, one per page of the image, and the
concatenation of their buffers is the whole stream, header included. The
capacity and base are `def->fwSize` and `def->fw1Pos`, and for firmware in the
`ESP32` build the size and offset stored by `esp32flashGetUpdateMem`. The
values `post->len` and `def->fw1Pos` are of type `int`, and so is the address
of a page: the sum `base + i*PAGELEN` reduced to 32 bits. -/
theorem single_image_contents (b : Build) (r : Request) (c : List Byte)
    (t : List (List Byte)) (hs : SingleImage b r c)
    (hL : r.postLen = ((c :: t).flatten.length : Int)) (h1 : 1 ≤ r.postLen)
    (hint : r.postLen < 2147483648)
    (hpos : -2147483648 ≤ r.cgiArg.fw1Pos ∧ r.cgiArg.fw1Pos ≤ 2147483647)
    (hcap : r.postLen ≤ capacity b r) :
    ∃ st ops, upload b r (c :: t) = .done (st, ops) ∧ st.state = FLST_DONE ∧
      writeAddrs ops = (List.range (pageCount b (c :: t).flatten.length)).map
        (fun (i : Nat) => toInt32 (baseAddr b r + (i : Int) * PAGELEN b)) ∧
      (writeData ops).flatten = (c :: t).flatten := by
  have hd : decide (r.postLen > capacity b r) = false := decide_eq_false (by omega)
  have hne : (c :: t).flatten ≠ [] := by
    intro h
    rw [h] at hL
    simp only [List.length_nil, Nat.cast_zero] at hL
    omega
  have hg : Good b (acceptedState b r) :=
    ⟨by simp only [acceptedState]; omega, (initState_good b).skip_nonneg,
      (initState_good b).pos_nonneg, (initState_good b).pos_lt, (initState_good b).page_len⟩
  obtain ⟨st', h2, h3, _, _, _, _, _, _⟩ := feedL_image (b := b) [] _ (c :: t).flatten
    (acceptedState b r) [] (le_refl _) hne hg rfl rfl hL
  rw [List.append_nil, feedL_nil] at h2
  have hbase := baseAddr_range b r hpos
  refine ⟨st', [] ++ imageOps b (pageCount b (c :: t).flatten.length)
    (acceptedState b r).address (c :: t).flatten, ?_, ?_, ?_, ?_⟩
  · rw [upload_single t hs (by omega) hint, hd, acceptSingle_accept]
    exact congrArg Outcome.done h2
  · rw [h3]; rfl
  · rw [List.nil_append, writeAddrs_imageOps]
    apply List.map_congr_left
    intro i _
    exact pageAddr_eq b i hbase.1 hbase.2
  · rw [List.nil_append, flatten_writeData_image]

/-- Witness for C2 (amended): a 100-byte ESP8266 firmware image in two chunks,
for a slot that starts 64 bytes below 2^31: the second page is written at
`-0x80000000`. -/
theorem single_image_contents_witness :
    SingleImage exBuild exRequestTop exHeader8266 ∧
    (List.range (pageCount exBuild [exHeader8266, exChunk60].flatten.length)).map
        (fun (i : Nat) => toInt32 (baseAddr exBuild exRequestTop + (i : Int) * PAGELEN exBuild)) =
      [2147483584, -2147483648] ∧
    ∃ st ops, upload exBuild exRequestTop [exHeader8266, exChunk60] = .done (st, ops) ∧
      st.state = FLST_DONE ∧
      writeAddrs ops =
        (List.range (pageCount exBuild [exHeader8266, exChunk60].flatten.length)).map
          (fun (i : Nat) =>
            toInt32 (baseAddr exBuild exRequestTop + (i : Int) * PAGELEN exBuild)) ∧
      (writeData ops).flatten = [exHeader8266, exChunk60].flatten :=
  ⟨Or.inl ⟨rfl, by decide⟩, by decide,
    single_image_contents exBuild exRequestTop exHeader8266 [exChunk60]
      (Or.inl ⟨rfl, by decide⟩) (by decide) (by decide) (by decide) (by decide) (by decide)⟩

/-- C2 as stated fails in the `ESP32` build: a valid 40-byte firmware image
with `1 ≤ 40 ≤ def->fwSize` is rejected as too large, because the length is
compared with the size stored by `esp32flashGetUpdateMem`; nothing is written. -/
theorem single_image_rejected_esp32 :
    SingleImage exBuild32 exRequest32 exHeader32 ∧
    exRequest32.postLen = ([exHeader32].flatten.length : Int) ∧
    1 ≤ exRequest32.postLen ∧ exRequest32.postLen ≤ exRequest32.cgiArg.fwSize ∧
    upload exBuild32 exRequest32 [exHeader32] =
      .done (fail (initState exBuild32) "Firmware image too large", []) := by
  refine ⟨Or.inl ⟨rfl, by decide⟩, by decide, by decide, by decide, ?_⟩
  exact upload_too_large [] (Or.inl ⟨rfl, by decide⟩) (by decide) (by decide) (by decide)

/-! ## C4: number and size of the page writes -/

theorem feedL_after_image {b : Build} {st : UploadState} (ops : List FlashOp)
    (tail : List Byte) (hg : Good b st) (hl : st.len = 0)
    (hst : st.state = FLST_SKIP ∨ st.state = FLST_DONE) :
    (feedL b (st, ops) tail).2 = ops ∧
      (st.skip ≤ tail.length → tail ≠ [] → (feedL b (st, ops) tail).1.state = FLST_DONE) := by
  rcases hst with hst | hst
  · by_cases ht : tail = []
    · subst ht
      rw [feedL_nil]
      exact ⟨rfl, fun _ h => absurd rfl h⟩
    · have hs : st.state ≠ FLST_START := by rw [hst]; decide
      rw [feedL_cons (s := (st, ops)) hg hs ht]
      by_cases hk : st.skip > tail.length
      · rw [stepL_skip_all ops hst hk]
        simp only [feedL_nil, true_and]
        intro h _
        exact absurd h (by omega)
      · rw [stepL_skip_done ops hst hk]
        have hd : (skipDone st).state = FLST_DONE := by
          simp only [skipDone, hl, ne_eq, not_true_eq_false, if_false]
        simp only
        rw [feedL_done (s := (skipDone st, ops)) _ (Or.inl hd)]
        exact ⟨rfl, fun _ _ => hd⟩
  · rw [feedL_done (s := (st, ops)) _ (Or.inl hst)]
    exact ⟨rfl, fun _ _ => hst⟩

theorem pageCount_pos (b : Build) {n : Nat} (h : 0 < n) : 0 < pageCount b n := by
  have hge := pageCount_mul_ge b n
  by_contra h0
  have hz : pageCount b n = 0 := by omega
  rw [hz, Nat.zero_mul] at hge
  omega

/-- The size of the last page of an image of `n` bytes. -/
theorem lengths_imageOps (b : Build) :
    ∀ (m : Nat) (a : Int) (img : List Byte), img.length ≤ m → img ≠ [] →
      (writeData (imageOps b (pageCount b img.length) a img)).map List.length =
        List.replicate (pageCount b img.length - 1) (pageLen b) ++
          [if img.length % pageLen b = 0 then pageLen b else img.length % pageLen b] := by
  intro m
  induction m with
  | zero =>
    intro a img hm hne
    exact absurd (List.length_eq_zero.mp (by omega)) hne
  | succ m ih =>
    intro a img hm hne
    have hp := pageLen_pos b
    have hilen : 0 < img.length := List.length_pos.mpr hne
    have h1 : ∀ (x : Int), writeData (if sectorAligned b x then [FlashOp.erase (sectorOf b x)]
        else []) = [] := by
      intro x; split <;> rfl
    by_cases hsmall : img.length ≤ pageLen b
    · rw [pageCount_small b hilen hsmall]
      simp only [imageOps, writeData_append, h1, List.nil_append, Nat.sub_self,
        List.replicate_zero]
      simp only [writeData, List.filterMap_cons, List.filterMap_nil, List.map_cons,
        List.map_nil, List.length_take, List.cons.injEq, and_true]
      by_cases he : img.length = pageLen b
      · rw [he]; simp
      · have hlt : img.length < pageLen b := by omega
        rw [Nat.mod_eq_of_lt hlt, if_neg (by omega)]
        omega
    · have hbig : pageLen b < img.length := by omega
      have hne' : img.drop (pageLen b) ≠ [] := by
        intro h
        have := congrArg List.length h
        simp only [List.length_drop, List.length_nil] at this
        omega
      have hk := pageCount_pos b (n := img.length - pageLen b) (by omega)
      have hmod : (img.length - pageLen b) % pageLen b = img.length % pageLen b := by
        have : img.length = (img.length - pageLen b) + pageLen b := by omega
        conv_rhs => rw [this, Nat.add_mod_right]
      rw [pageCount_large b hbig]
      have hih := ih (addInt32 a (PAGELEN b)) (img.drop (pageLen b))
        (by simp only [List.length_drop]; omega) hne'
      simp only [List.length_drop] at hih
      simp only [imageOps, writeData_append, h1, List.nil_append]
      have h2 : writeData (FlashOp.write a (img.take (pageLen b)) ::
          imageOps b (pageCount b (img.length - pageLen b)) (addInt32 a (PAGELEN b))
            (img.drop (pageLen b))) =
          img.take (pageLen b) ::
            writeData (imageOps b (pageCount b (img.length - pageLen b)) (addInt32 a (PAGELEN b))
              (img.drop (pageLen b))) := by
        simp [writeData]
      rw [h2, List.map_cons, hih, hmod]
      have hrep : pageCount b (img.length - pageLen b) + 1 - 1 =
          (pageCount b (img.length - pageLen b) - 1) + 1 := by omega
      rw [hrep, List.replicate_succ, List.length_take, List.cons_append]
      congr 1
      omega

/-- A session that enters `FLST_WRITE` with an empty page buffer and receives
the whole image: the state and log after the image, then the rest. -/
theorem session_image {b : Build} (r : Request) {st : UploadState} (cs : List (List Byte))
    {n : Nat} (hg : Good b st) (hst : st.state = FLST_WRITE) (hp : st.pagePos = 0)
    (hl : st.len = n) (hn : 1 ≤ n) (hall : n ≤ cs.flatten.length) :
    ∃ st', session b r cs (st, []) =
        .done (st', imageOps b (pageCount b n) st.address (cs.flatten.take n)) ∧
      (st.skip ≤ cs.flatten.length - n → n < cs.flatten.length → st'.state = FLST_DONE) ∧
      (st.skip = 0 → st'.state = FLST_DONE) := by
  have hs : st.state ≠ FLST_START := by rw [hst]; decide
  have hlen : (cs.flatten.take n).length = n := by
    simp only [List.length_take]; omega
  have hne : cs.flatten.take n ≠ [] := by
    intro h; rw [h] at hlen; simp at hlen; omega
  obtain ⟨st1, h1, h2, h3, h4, _, _, _, h8⟩ := feedL_image (b := b) (cs.flatten.drop n) _
    (cs.flatten.take n) st [] (le_refl _) hne hg hst hp (by rw [hlen]; exact hl)
  rw [List.take_append_drop, hlen, List.nil_append] at h1
  have hst1 : st1.state = FLST_SKIP ∨ st1.state = FLST_DONE := by
    rw [h2]; split
    · exact Or.inl rfl
    · exact Or.inr rfl
  obtain ⟨h9, h10⟩ := feedL_after_image
    (imageOps b (pageCount b n) st.address (cs.flatten.take n)) (cs.flatten.drop n) h8 h3 hst1
  refine ⟨(feedL b (st1, imageOps b (pageCount b n) st.address (cs.flatten.take n))
    (cs.flatten.drop n)).1, ?_, ?_, ?_⟩
  · rw [session_feedL r cs _ hg hs, h1]
    congr 1
    exact Prod.ext rfl h9
  · intro hk hmore
    apply h10
    · rw [h4]; simp only [List.length_drop]; omega
    · intro h
      have := congrArg List.length h
      simp only [List.length_drop, List.length_nil] at this
      omega
  · intro hk0
    have hd : st1.state = FLST_DONE := by rw [h2, if_neg (by simp [hk0])]
    rw [feedL_done (s := (st1, _)) _ (Or.inl hd)]
    exact hd

/-- C4: a session that enters `FLST_WRITE` with an empty page buffer for an
image of `N ≥ 1` bytes, and receives at least `N` bytes in any chunking, issues
`ceil(N/PAGELEN)` page writes: all but the last of length `PAGELEN`, the last
of length `N mod PAGELEN`, or `PAGELEN` when `N` is a multiple of it. -/
theorem page_write_count (b : Build) (r : Request) (st : UploadState)
    (cs : List (List Byte)) (n : Nat) (hg : Good b st) (hst : st.state = FLST_WRITE)
    (hp : st.pagePos = 0) (hl : st.len = n) (hn : 1 ≤ n) (hall : n ≤ cs.flatten.length) :
    ∃ st' ops, session b r cs (st, []) = .done (st', ops) ∧
      (writeData ops).length = (n + pageLen b - 1) / pageLen b ∧
      (writeData ops).map List.length =
        List.replicate ((n + pageLen b - 1) / pageLen b - 1) (pageLen b) ++
          [if n % pageLen b = 0 then pageLen b else n % pageLen b] := by
  obtain ⟨st', h1, _⟩ := session_image r cs hg hst hp hl hn hall
  have hlen : (cs.flatten.take n).length = n := by
    simp only [List.length_take]; omega
  have hne : cs.flatten.take n ≠ [] := by
    intro h; rw [h] at hlen; simp at hlen; omega
  have hL := lengths_imageOps b _ st.address (cs.flatten.take n) (le_refl _) hne
  rw [hlen] at hL
  refine ⟨st', _, h1, ?_, hL⟩
  have := congrArg List.length hL
  simp only [List.length_map, List.length_append, List.length_replicate, List.length_singleton]
    at this
  have hk := pageCount_pos b (n := n) (by omega)
  rw [this]
  unfold pageCount at hk ⊢
  omega

/-- Witness for C4: a 70-byte image in a session with 64-byte pages. -/
theorem page_write_count_witness :
    ∃ st' ops, session exBuild exRequestFw [exHeader8266, exHeader8266]
        ({ initState exBuild with state := FLST_WRITE, len := 70 }, []) = .done (st', ops) ∧
      (writeData ops).length = (70 + pageLen exBuild - 1) / pageLen exBuild ∧
      (writeData ops).map List.length =
        List.replicate ((70 + pageLen exBuild - 1) / pageLen exBuild - 1) (pageLen exBuild) ++
          [if 70 % pageLen exBuild = 0 then pageLen exBuild else 70 % pageLen exBuild] :=
  page_write_count exBuild exRequestFw { initState exBuild with state := FLST_WRITE, len := 70 }
    [exHeader8266, exHeader8266] 70
    ⟨by decide, by decide, by decide, by decide, by decide⟩ rfl rfl rfl (by decide) (by decide)

/-! ## C8: the slot size is not enforced for combined images -/

/-- C8 fails on the code: a combined image whose header declares
`len1 = 128` for 64-byte slots passes the size test, since `post->len = 168`
is not greater than `fwSize*2 + 40`, and its second page is written at
`fw1Pos + fwSize`, outside the slot. -/
theorem combined_image_overruns_slot :
    exRequestBig.cgiArg.fw1Pos + exRequestBig.cgiArg.fwSize = 0x1040 ∧
    flashLog (upload exBuild exRequestBig [exHeaderBig ++ List.replicate 128 7]) =
      some [FlashOp.erase 1, FlashOp.write 0x1000 (List.replicate 64 7),
        FlashOp.write 0x1040 (List.replicate 64 7)] := by
  constructor
  · decide
  · set_option maxRecDepth 100000 in decide

/-! ## C3: the image taken from a combined file -/

theorem checks_pass {r : Request} {c : List Byte} (st : UploadState)
    (h : PassesChecks r c) : sizeCheck r (tagCheck r st (headerTag c)) = st := by
  obtain ⟨h1, h2⟩ := h
  have ht : tagCheck r st (headerTag c) = st := by
    unfold tagCheck
    rcases h1 with h1 | h1
    · rw [if_neg (by simp [h1])]
    · obtain ⟨v, hv, hne⟩ := h1
      have hf : forced r = true := by
        unfold forced
        rw [hv]
        simpa using hne
      simp only [hf, if_true, ite_self]
  rw [ht]
  unfold sizeCheck
  rw [if_neg (fun hh => h2 hh.2)]

theorem start_combined {b : Build} {r : Request} {c : List Byte} {l1 l2 : Int}
    (hb : b.esp32 = false) (hfw : r.cgiArg.type = CGIFLASH_TYPE_FW) (hc : 40 ≤ c.length)
    (hm : c.take 4 = magicEHUG) (hck : PassesChecks r c) (hl1 : i32At c 32 = some l1)
    (hl2 : i32At c 36 = some l2) (st : UploadState) (hst : st.state = FLST_START) (n : Int)
    (ops : List FlashOp) :
    startPhase b r c ⟨st, 0, n, ops⟩ = some ⟨selectImage r st l1 l2, 40, n - 40, ops⟩ := by
  have hne : st.state ≠ FLST_ERROR := by rw [hst]; decide
  have htag : tagOf c 4 = some (headerTag c) := tagOf_eq (by omega)
  simp only [startPhase, hfw, if_true, memcmp4_eq _ (show 4 ≤ c.length by omega), hm,
    beq_self_eq_true, Option.bind_eq_bind, Option.some_bind, startCombined, hb,
    Bool.false_eq_true, if_false, Int.zero_add, htag, checks_pass st hck, hne, ne_eq,
    not_false_eq_true, hl1, hl2, Option.pure_def, sizeofOtaHeader]

theorem selectImage_good {b : Build} {r : Request} {st : UploadState} {l1 l2 : Int}
    (hg : Good b st) (h1 : 0 ≤ l1) (h2 : 0 ≤ l2) : Good b (selectImage r st l1 l2) := by
  unfold selectImage
  split
  · exact ⟨h1, h2, hg.pos_nonneg, hg.pos_lt, hg.page_len⟩
  · exact ⟨h2, h1, hg.pos_nonneg, hg.pos_lt, hg.page_len⟩

theorem selectImage_ne_start (r : Request) (st : UploadState) (l1 l2 : Int) :
    (selectImage r st l1 l2).state ≠ FLST_START := by
  unfold selectImage
  split <;> simp

/-- An upload whose first chunk holds the header of an accepted combined
image, as `feedL` of what follows the header. -/
theorem upload_combined {b : Build} {r : Request} {c : List Byte} (t : List (List Byte))
    {l1 l2 : Int} (hb : b.esp32 = false) (hfw : r.cgiArg.type = CGIFLASH_TYPE_FW)
    (hc : 40 ≤ c.length) (hm : c.take 4 = magicEHUG) (hck : PassesChecks r c)
    (hl1 : i32At c 32 = some l1) (hl2 : i32At c 36 = some l2) (h1 : 0 ≤ l1) (h2 : 0 ≤ l2) :
    upload b r (c :: t) =
      .done (feedL b (selectImage r (initState b) l1 l2, []) ((c :: t).flatten.drop 40)) := by
  have hne : c ≠ [] := by
    intro h; subst h; simp at hc
  have h := upload_first (b := b) r t hne
    (start_combined hb hfw hc hm hck hl1 hl2 (initState b) rfl c.length [])
    (selectImage_good (initState_good b) h1 h2) (selectImage_ne_start _ _ _ _)
    ⟨by simp, by simp only; omega, by simp only; omega⟩
  simpa using h

theorem feedL_zero_write {b : Build} {st : UploadState} (ops : List FlashOp)
    {l : List Byte} (hg : Good b st) (hst : st.state = FLST_WRITE) (hl : st.len = 0)
    (hp : st.pagePos = 0) (hne : l ≠ []) :
    ∃ st', feedL b (st, ops) l = feedL b (st', ops ++
        ((if sectorAligned b st.address then [FlashOp.erase (sectorOf b st.address)] else []) ++
          [FlashOp.write st.address []])) l ∧
      Good b st' ∧ st'.len = 0 ∧ st'.skip = st.skip ∧
      st'.state = (if st.skip ≠ 0 then FLST_SKIP else FLST_DONE) := by
  have hs : st.state ≠ FLST_START := by rw [hst]; decide
  have hll : lenLeft b st = 0 := by
    have := PAGELEN_pos b
    unfold lenLeft; rw [hl, hp]; split <;> omega
  have hsp := stepL_spec (s := (st, ops)) hg hs hne
  have e := stepL_write_flush (b := b) ops (l := l) hst (by rw [hll]; omega)
  rw [hll] at e
  have hz : (0 : Int).toNat = 0 := rfl
  simp only [hz, List.take_zero, List.drop_zero, hp] at e
  have hfo := flushOps_eq b st st.pageData [] hp
  simp only [List.length_nil, Nat.cast_zero] at hfo
  rw [hfo] at e
  rw [e] at hsp
  rw [feedL_cons (s := (st, ops)) hg hs hne, e]
  refine ⟨flushState b st (splice st.pageData 0 []) 0, rfl, hsp.1, ?_, rfl, ?_⟩
  · simp only [flushState, hl, sub_zero]
  · simp only [flushState, hl, sub_zero, if_true]

/-- In `FLST_WRITE` with an empty page buffer and the rest of the image among
the unread bytes: the log after all of them, and when the phase is
`FLST_DONE`. -/
theorem feedL_image_total {b : Build} {st : UploadState} (ops : List FlashOp)
    (l : List Byte) {n : Nat} (hg : Good b st) (hst : st.state = FLST_WRITE)
    (hp : st.pagePos = 0) (hl : st.len = n) (hn : 1 ≤ n) (hall : n ≤ l.length) :
    ∃ st', feedL b (st, ops) l =
        (st', ops ++ imageOps b (pageCount b n) st.address (l.take n)) ∧
      (st.skip ≤ l.length - n → n < l.length → st'.state = FLST_DONE) ∧
      (st.skip = 0 → st'.state = FLST_DONE) := by
  have hlen : (l.take n).length = n := by
    simp only [List.length_take]; omega
  have hne : l.take n ≠ [] := by
    intro h; rw [h] at hlen; simp at hlen; omega
  obtain ⟨st1, h1, h2, h3, h4, _, _, _, h8⟩ := feedL_image (b := b) (l.drop n) _
    (l.take n) st ops (le_refl _) hne hg hst hp (by rw [hlen]; exact hl)
  rw [List.take_append_drop, hlen] at h1
  have hst1 : st1.state = FLST_SKIP ∨ st1.state = FLST_DONE := by
    rw [h2]; split
    · exact Or.inl rfl
    · exact Or.inr rfl
  obtain ⟨h9, h10⟩ := feedL_after_image
    (ops ++ imageOps b (pageCount b n) st.address (l.take n)) (l.drop n) h8 h3 hst1
  refine ⟨(feedL b (st1, ops ++ imageOps b (pageCount b n) st.address (l.take n))
    (l.drop n)).1, ?_, ?_, ?_⟩
  · rw [h1]
    exact Prod.ext rfl h9
  · intro hk hmore
    apply h10
    · rw [h4]; simp only [List.length_drop]; omega
    · intro h
      have := congrArg List.length h
      simp only [List.length_drop, List.length_nil] at this
      omega
  · intro hk0
    have hd : st1.state = FLST_DONE := by rw [h2, if_neg (by simp [hk0])]
    rw [feedL_done (s := (st1, _)) _ (Or.inl hd)]
    exact hd

theorem writeData_erase_write (b : Build) (a : Int) (d : List Byte) :
    writeData ((if sectorAligned b a then [FlashOp.erase (sectorOf b a)] else []) ++
      [FlashOp.write a d]) = [d] := by
  split <;> rfl

theorem writeAddrs_erase_write (b : Build) (a : Int) (d : List Byte) :
    writeAddrs ((if sectorAligned b a then [FlashOp.erase (sectorOf b a)] else []) ++
      [FlashOp.write a d]) = [a] := by
  split <;> rfl

theorem selectImage_one {r : Request} (st : UploadState) (l1 l2 : Int) (hu : r.userbin = 1) :
    (selectImage r st l1 l2).state = FLST_WRITE ∧ (selectImage r st l1 l2).len = l1 ∧
      (selectImage r st l1 l2).skip = l2 ∧
      (selectImage r st l1 l2).address = r.cgiArg.fw1Pos ∧
      (selectImage r st l1 l2).pagePos = st.pagePos := by
  simp only [selectImage, hu, if_true, and_self]

theorem selectImage_other {r : Request} (st : UploadState) (l1 l2 : Int) (hu : r.userbin ≠ 1) :
    (selectImage r st l1 l2).state = FLST_SKIP ∧ (selectImage r st l1 l2).len = l2 ∧
      (selectImage r st l1 l2).skip = l1 ∧
      (selectImage r st l1 l2).address = r.cgiArg.fw2Pos ∧
      (selectImage r st l1 l2).pagePos = st.pagePos := by
  simp only [selectImage, hu, if_false, and_self]

/-- C3 (amended): in the non-ESP32 build, for a stream that starts with a
40-byte "EHUG" header with non-negative lengths `len1`, `len2`, passes the tag
and size tests, carries at least `40+len1+len2` bytes and at least one byte
after the header, with the header in the first chunk: the upload ends in
`FLST_DONE`; if `system_upgrade_userbin_check()` is 1 the written data is
`stream[40, 40+len1)`, at page addresses from `def->fw1Pos`, otherwise it is
`stream[40+len1, 40+len1+len2)`, at page addresses from `def->fw2Pos`. The
values `def->fw1Pos` and `def->fw2Pos` are of type `int`, and so is the address
of a page: the sum `base + i*PAGELEN` reduced to 32 bits. -/
theorem combined_image_selection (b : Build) (r : Request) (c : List Byte)
    (t : List (List Byte)) (l1 l2 : Int) (hb : b.esp32 = false)
    (hfw : r.cgiArg.type = CGIFLASH_TYPE_FW) (hc : 40 ≤ c.length)
    (hm : c.take 4 = magicEHUG) (hck : PassesChecks r c) (hl1 : i32At c 32 = some l1)
    (hl2 : i32At c 36 = some l2) (h1 : 0 ≤ l1) (h2 : 0 ≤ l2)
    (hpos1 : -2147483648 ≤ r.cgiArg.fw1Pos ∧ r.cgiArg.fw1Pos ≤ 2147483647)
    (hpos2 : -2147483648 ≤ r.cgiArg.fw2Pos ∧ r.cgiArg.fw2Pos ≤ 2147483647)
    (hlen : 40 + l1 + l2 ≤ (c :: t).flatten.length) (hbody : 40 < (c :: t).flatten.length) :
    ∃ st ops, upload b r (c :: t) = .done (st, ops) ∧ st.state = FLST_DONE ∧
      (r.userbin = 1 →
        (writeData ops).flatten = ((c :: t).flatten.drop 40).take l1.toNat ∧
        ∃ k, writeAddrs ops = (List.range k).map
          (fun (i : Nat) => toInt32 (r.cgiArg.fw1Pos + (i : Int) * PAGELEN b))) ∧
      (r.userbin ≠ 1 →
        (writeData ops).flatten = ((c :: t).flatten.drop (40 + l1.toNat)).take l2.toNat ∧
        ∃ k, writeAddrs ops = (List.range k).map
          (fun (i : Nat) => toInt32 (r.cgiArg.fw2Pos + (i : Int) * PAGELEN b))) := by
  have hmap : ∀ (k : Nat) (a : Int), -2147483648 ≤ a ∧ a ≤ 2147483647 →
      (List.range k).map (pageAddr b a) =
        (List.range k).map (fun (i : Nat) => toInt32 (a + (i : Int) * PAGELEN b)) := by
    intro k a ha
    apply List.map_congr_left
    intro i _
    exact pageAddr_eq b i ha.1 ha.2
  rw [upload_combined t hb hfw hc hm hck hl1 hl2 h1 h2]
  generalize (c :: t).flatten = stream at hlen hbody ⊢
  have hbl : (stream.drop 40).length = stream.length - 40 := List.length_drop _ _
  have hbne : stream.drop 40 ≠ [] := by
    intro h
    rw [h] at hbl
    simp only [List.length_nil] at hbl
    omega
  have hg0 := selectImage_good (b := b) (r := r) (initState_good b) h1 h2
  have hp0 : (initState b).pagePos = 0 := rfl
  generalize hs0 : selectImage r (initState b) l1 l2 = s0 at hg0 ⊢
  by_cases hu : r.userbin = 1
  · obtain ⟨f1, f2, f3, f4, f5⟩ := selectImage_one (initState b) l1 l2 hu
    rw [hs0] at f1 f2 f3 f4 f5
    rw [hp0] at f5
    by_cases hz : l1 = 0
    · subst hz
      obtain ⟨st', e1, g1, e2, e3, e4⟩ := feedL_zero_write (b := b) [] hg0 f1 f2 f5 hbne
      have hst1 : st'.state = FLST_SKIP ∨ st'.state = FLST_DONE := by
        rw [e4]; split
        · exact Or.inl rfl
        · exact Or.inr rfl
      obtain ⟨e5, e6⟩ := feedL_after_image (b := b)
        ([] ++ ((if sectorAligned b s0.address then
          [FlashOp.erase (sectorOf b s0.address)] else []) ++
          [FlashOp.write s0.address []])) (stream.drop 40) g1 e2 hst1
      refine ⟨(feedL b (st', [] ++ ((if sectorAligned b s0.address then
          [FlashOp.erase (sectorOf b s0.address)] else []) ++
          [FlashOp.write s0.address []])) (stream.drop 40)).1,
        [] ++ ((if sectorAligned b s0.address then
          [FlashOp.erase (sectorOf b s0.address)] else []) ++
          [FlashOp.write s0.address []]),
        congrArg Outcome.done (e1.trans (Prod.ext rfl e5)), ?_, ?_, ?_⟩
      · apply e6
        · rw [e3, f3, hbl]; omega
        · exact hbne
      · intro _
        rw [List.nil_append, writeData_erase_write, writeAddrs_erase_write, f4]
        refine ⟨rfl, 1, ?_⟩
        show _ = [toInt32 (r.cgiArg.fw1Pos + ((0 : Nat) : Int) * PAGELEN b)]
        rw [Nat.cast_zero, zero_mul, add_zero, toInt32_of_range hpos1.1 hpos1.2]
      · intro h; exact absurd hu h
    · have hn : 1 ≤ l1.toNat := by omega
      obtain ⟨st', e1, e2, e3⟩ := feedL_image_total (b := b) [] (stream.drop 40)
        (n := l1.toNat) hg0 f1 f5 (by rw [f2]; omega) hn (by rw [hbl]; omega)
      refine ⟨st', _, congrArg Outcome.done e1, ?_, ?_, ?_⟩
      · by_cases hmore : l1.toNat < (stream.drop 40).length
        · exact e2 (by rw [hbl, f3]; omega) hmore
        · exact e3 (by rw [hbl] at hmore; rw [f3]; omega)
      · intro _
        have hlen' : ((stream.drop 40).take l1.toNat).length = l1.toNat := by
          simp only [List.length_take, hbl]; omega
        refine ⟨?_, _, by rw [List.nil_append, writeAddrs_imageOps, f4, hmap _ _ hpos1]⟩
        rw [List.nil_append]
        have := flatten_writeData_image b s0.address ((stream.drop 40).take l1.toNat)
        rw [hlen'] at this
        exact this
      · intro h; exact absurd hu h
  · obtain ⟨f1, f2, f3, f4, f5⟩ := selectImage_other (initState b) l1 l2 hu
    rw [hs0] at f1 f2 f3 f4 f5
    rw [hp0] at f5
    have hs : s0.state ≠ FLST_START := by rw [f1]; decide
    have hsp := stepL_spec (b := b) (s := (s0, [])) hg0 hs hbne
    have e := stepL_skip_done (b := b) [] (l := stream.drop 40) f1 (by rw [hbl, f3]; omega)
    rw [e] at hsp
    rw [feedL_cons (s := (s0, [])) hg0 hs hbne, e]
    simp only [List.drop_drop, f3] at hsp ⊢
    by_cases hz : l2 = 0
    · subst hz
      have hd : (skipDone s0).state = FLST_DONE := by
        simp only [skipDone, f2, ne_eq, not_true_eq_false, if_false]
      rw [feedL_done (s := (skipDone s0, [])) _ (Or.inl hd)]
      refine ⟨_, _, rfl, hd, fun h => absurd h hu, fun _ => ⟨by simp [writeData], 0, rfl⟩⟩
    · have hn : 1 ≤ l2.toNat := by omega
      have hw : (skipDone s0).state = FLST_WRITE := by
        simp only [skipDone, f2, ne_eq, hz, not_false_eq_true, if_true]
      have hdl : (stream.drop (40 + l1.toNat)).length = stream.length - (40 + l1.toNat) :=
        List.length_drop _ _
      obtain ⟨st', e1, _, e3⟩ := feedL_image_total (b := b) [] (stream.drop (40 + l1.toNat))
        (n := l2.toNat) hsp.1 hw f5 (by simp only [skipDone, f2]; omega) hn
        (by rw [hdl]; omega)
      refine ⟨st', _, congrArg Outcome.done e1, e3 rfl, fun h => absurd h hu, ?_⟩
      intro _
      have hlen' : ((stream.drop (40 + l1.toNat)).take l2.toNat).length = l2.toNat := by
        simp only [List.length_take, hdl]; omega
      have hadr : (skipDone s0).address = r.cgiArg.fw2Pos := f4
      refine ⟨?_, _, by rw [List.nil_append, writeAddrs_imageOps, hadr, hmap _ _ hpos2]⟩
      rw [List.nil_append]
      have := flatten_writeData_image b (skipDone s0).address
        ((stream.drop (40 + l1.toNat)).take l2.toNat)
      rw [hlen'] at this
      exact this

/-- Witness for C3 (amended): a header with `len1 = 3`, `len2 = 4` and seven
payload bytes, in two chunks. -/
theorem combined_image_selection_witness :
    PassesChecks exRequestSmall exHeaderSmall ∧
    ∃ st ops, upload exBuild exRequestSmall [exHeaderSmall, exBody7] = .done (st, ops) ∧
      st.state = FLST_DONE ∧
      (exRequestSmall.userbin = 1 →
        (writeData ops).flatten = ([exHeaderSmall, exBody7].flatten.drop 40).take (3 : Int).toNat ∧
        ∃ k, writeAddrs ops = (List.range k).map
          (fun (i : Nat) => toInt32 (exRequestSmall.cgiArg.fw1Pos + (i : Int) * PAGELEN exBuild))) ∧
      (exRequestSmall.userbin ≠ 1 →
        (writeData ops).flatten =
          ([exHeaderSmall, exBody7].flatten.drop (40 + (3 : Int).toNat)).take (4 : Int).toNat ∧
        ∃ k, writeAddrs ops = (List.range k).map
          (fun (i : Nat) => toInt32 (exRequestSmall.cgiArg.fw2Pos + (i : Int) * PAGELEN exBuild))) :=
  ⟨⟨Or.inl (by decide), by decide⟩,
    combined_image_selection exBuild exRequestSmall exHeaderSmall [exBody7] 3 4 rfl rfl
      (by decide) (by decide) ⟨Or.inl (by decide), by decide⟩ (by decide) (by decide)
      (by decide) (by decide) (by decide) (by decide) (by decide) (by decide)⟩

/-- C3 as stated fails: a 40-byte stream whose header declares
`len1 = len2 = 0` satisfies its hypotheses, but the loop ends with the header
and the session stays in `FLST_WRITE`. -/
theorem combined_empty_images_not_done :
    40 ≤ exHeaderZero.length ∧ exHeaderZero.take 4 = magicEHUG ∧
    PassesChecks exRequestZero exHeaderZero ∧
    i32At exHeaderZero 32 = some 0 ∧ i32At exHeaderZero 36 = some 0 ∧
    (40 + 0 + 0 : Int) ≤ [exHeaderZero].flatten.length ∧
    (finalState (upload exBuild exRequestZero [exHeaderZero])).map (fun s => s.state) =
      some FLST_WRITE := by
  refine ⟨by decide, by decide, ⟨Or.inl (by decide), by decide⟩, by decide, by decide,
    by decide, by decide⟩

/-! ## C9: tag test and `force` -/

theorem startCombined_ne_start {b : Build} {r : Request} {buf : List Byte} {L L1 : Loop}
    (h : startCombined b r buf L = some L1) :
    L1.st.state ≠ FLST_START := by
  simp only [startCombined] at h
  split at h
  · cases h; simp [fail]
  · cases h4 : tagOf buf (L.data + 4) with
    | none => simp [h4] at h
    | some tag =>
      simp only [h4, Option.bind_eq_bind, Option.some_bind] at h
      split at h
      · cases h5 : i32At buf (L.data + 32) with
        | none => simp [h5] at h
        | some l1 =>
          cases h6 : i32At buf (L.data + 36) with
          | none => simp [h5, h6] at h
          | some l2 =>
            simp only [h5, h6, Option.some_bind, Option.pure_def, Option.some.injEq] at h
            rw [← h]
            exact selectImage_ne_start _ _ _ _
      · rename_i herr
        simp only [Option.pure_def, Option.some.injEq] at h
        rw [← h]
        simp only [ne_eq, Decidable.not_not] at herr
        simp only [herr]
        decide

theorem startPhase_ne_start {b : Build} {r : Request} {buf : List Byte} {L L1 : Loop}
    (h : startPhase b r buf L = some L1) :
    L1.st.state ≠ FLST_START := by
  simp only [startPhase] at h
  generalize (if r.cgiArg.type = CGIFLASH_TYPE_FW then memcmp4 buf L.data magicEHUG
    else pure false) = x1 at h
  generalize (if r.cgiArg.type = CGIFLASH_TYPE_FW then checkBinHeader b buf
    else pure false) = x2 at h
  generalize (if r.cgiArg.type = CGIFLASH_TYPE_ESPFS then checkEspfsHeader buf
    else pure false) = x3 at h
  rcases x1 with _ | x1
  · simp at h
  · simp only [Option.bind_eq_bind, Option.some_bind] at h
    cases x1
    · simp only [Bool.false_eq_true, if_false] at h
      rcases x2 with _ | x2
      · simp at h
      · simp only [Option.some_bind] at h
        cases x2
        · simp only [Bool.false_eq_true, if_false] at h
          rcases x3 with _ | x3
          · simp at h
          · cases x3
            · simp only [Option.some_bind, Bool.false_eq_true, if_false, Option.pure_def,
                Option.some.injEq] at h
              rw [← h]; simp [fail]
            · simp only [Option.some_bind, if_true, Option.pure_def, Option.some.injEq] at h
              rw [← h]
              exact acceptSingle_ne_start _ _ _ _
        · simp only [if_true, Option.pure_def, Option.some.injEq] at h
          rw [← h]
          unfold startFirmware
          split <;> exact acceptSingle_ne_start _ _ _ _
    · simp only [if_true] at h
      exact startCombined_ne_start h

theorem loopBody_ne_start {b : Build} {r : Request} {buf : List Byte} {L L1 : Loop}
    (h : loopBody b r buf L = some L1) : L1.st.state ≠ FLST_START := by
  cases hst : L.st.state with
  | FLST_START =>
    simp only [loopBody, hst] at h
    exact startPhase_ne_start h
  | FLST_SKIP =>
    simp only [loopBody, hst, Option.some.injEq] at h
    rw [← h]
    simp only [skipPhase]
    split
    · simp [skipAll, hst]
    · simp only [skipDone]; split <;> simp
  | FLST_WRITE =>
    simp only [loopBody, hst, writePhase] at h
    split at h
    · cases h1 : slice buf L.data L.dataLen with
      | none => simp [h1] at h
      | some src =>
        cases h2 : memcpyPage L.st.pageData L.st.pagePos src with
        | none => simp [h1, h2] at h
        | some pd =>
          simp only [h1, h2, Option.bind_eq_bind, Option.some_bind, Option.pure_def,
            Option.some.injEq] at h
          rw [← h]; simp [bufferBytes, hst]
    · cases h1 : slice buf L.data (lenLeft b L.st) with
      | none => simp [h1] at h
      | some src =>
        cases h2 : memcpyPage L.st.pageData L.st.pagePos src with
        | none => simp [h1, h2] at h
        | some pd =>
          simp only [h1, h2, Option.bind_eq_bind, Option.some_bind, Option.pure_def,
            Option.some.injEq] at h
          rw [← h]
          simp only [flushState]
          split
          · split <;> simp
          · simp [hst]
  | FLST_DONE =>
    simp only [loopBody, hst, Option.some.injEq] at h
    rw [← h]; simp [hst]
  | FLST_ERROR =>
    simp only [loopBody, hst, Option.some.injEq] at h
    rw [← h]; simp [hst]

theorem loopBody_congr {b : Build} (r r' : Request) (buf : List Byte) {L : Loop}
    (hst : L.st.state ≠ FLST_START) : loopBody b r buf L = loopBody b r' buf L := by
  cases h : L.st.state with
  | FLST_START => exact absurd h hst
  | FLST_SKIP => simp only [loopBody, h]
  | FLST_WRITE => simp only [loopBody, h]
  | FLST_DONE => simp only [loopBody, h]
  | FLST_ERROR => simp only [loopBody, h]

theorem loop_congr {b : Build} (r r' : Request) (buf : List Byte) :
    ∀ (n : Nat) (L : Loop), L.st.state ≠ FLST_START →
      loop b r buf n L = loop b r' buf n L := by
  intro n
  induction n with
  | zero => intro L _; rfl
  | succ n ih =>
    intro L hst
    rw [loop_succ, loop_succ, ← loopBody_congr r r' buf hst]
    split
    · rfl
    · cases hb : loopBody b r buf L with
      | none => rfl
      | some L1 => exact ih L1 (loopBody_ne_start hb)

theorem loop_ne_start {b : Build} (r : Request) (buf : List Byte) :
    ∀ (n : Nat) (L L1 : Loop), L.st.state ≠ FLST_START → loop b r buf n L = .done L1 →
      L1.st.state ≠ FLST_START := by
  intro n
  induction n with
  | zero =>
    intro L L1 hst h
    simp only [loop] at h
    split at h
    · cases h; exact hst
    · cases h
  | succ n ih =>
    intro L L1 hst h
    rw [loop_succ] at h
    split at h
    · cases h; exact hst
    · cases hb : loopBody b r buf L with
      | none => simp [hb] at h
      | some L2 =>
        simp only [hb] at h
        exact ih L2 L1 (loopBody_ne_start hb) h

theorem call_congr {b : Build} (r r' : Request) (buf : List Byte)
    (s : UploadState × List FlashOp) (hst : s.1.state ≠ FLST_START) :
    cgiUploadFirmware b r buf s = cgiUploadFirmware b r' buf s := by
  unfold cgiUploadFirmware
  rw [loop_congr r r' buf _ _ hst]

theorem call_ne_start {b : Build} (r : Request) (buf : List Byte)
    (s s1 : UploadState × List FlashOp) (hst : s.1.state ≠ FLST_START)
    (h : cgiUploadFirmware b r buf s = .done s1) : s1.1.state ≠ FLST_START := by
  unfold cgiUploadFirmware at h
  cases hl : loop b r buf (fuelFor buf.length) ⟨s.1, 0, buf.length, s.2⟩ with
  | done L =>
    rw [hl] at h
    simp only [Outcome.done.injEq] at h
    rw [← h]
    exact loop_ne_start r buf _ _ L hst hl
  | fault => rw [hl] at h; cases h
  | outOfFuel => rw [hl] at h; cases h

theorem session_congr {b : Build} (r r' : Request) :
    ∀ (cs : List (List Byte)) (s : UploadState × List FlashOp), s.1.state ≠ FLST_START →
      session b r cs s = session b r' cs s := by
  intro cs
  induction cs with
  | nil => intro s _; rfl
  | cons c cs ih =>
    intro s hst
    simp only [session]
    rw [← call_congr r r' c s hst]
    cases h : cgiUploadFirmware b r c s with
    | done s1 => exact ih s1 (call_ne_start r c s s1 hst h)
    | fault => rfl
    | outOfFuel => rfl

theorem call_leaves_start {b : Build} (r : Request) {c : List Byte}
    (s s1 : UploadState × List FlashOp) (hc : c ≠ [])
    (h : cgiUploadFirmware b r c s = .done s1) : s1.1.state ≠ FLST_START := by
  have hz : ¬ ((c.length : Int) = 0) := by
    have := List.length_pos.mpr hc
    omega
  have hf : fuelFor c.length = (2 * c.length + 7) + 1 := rfl
  unfold cgiUploadFirmware at h
  rw [hf, loop_succ, if_neg hz] at h
  cases hb : loopBody b r c ⟨s.1, 0, c.length, s.2⟩ with
  | none => simp [hb] at h
  | some L1 =>
    simp only [hb] at h
    cases hl : loop b r c (2 * c.length + 7) L1 with
    | done L =>
      rw [hl] at h
      simp only [Outcome.done.injEq] at h
      rw [← h]
      exact loop_ne_start r c _ _ L (loopBody_ne_start hb) hl
    | fault => rw [hl] at h; cases h
    | outOfFuel => rw [hl] at h; cases h

/-- Two requests whose `FLST_START` iteration on the first chunk agrees give
the same upload. -/
theorem upload_congr {b : Build} (r r' : Request) {c : List Byte} (t : List (List Byte))
    (hc : c ≠ [])
    (h : startPhase b r c ⟨initState b, 0, c.length, []⟩ =
      startPhase b r' c ⟨initState b, 0, c.length, []⟩) :
    upload b r (c :: t) = upload b r' (c :: t) := by
  have hs0 : (initState b).state = FLST_START := rfl
  have hz : ¬ ((c.length : Int) = 0) := by
    have := List.length_pos.mpr hc
    omega
  have hf : fuelFor c.length = (2 * c.length + 7) + 1 := rfl
  have hloop : loop b r c (fuelFor c.length) ⟨initState b, 0, c.length, []⟩ =
      loop b r' c (fuelFor c.length) ⟨initState b, 0, c.length, []⟩ := by
    rw [hf, loop_succ, loop_succ, if_neg hz, if_neg hz]
    simp only [loopBody, hs0, ← h]
    cases hb : startPhase b r c ⟨initState b, 0, c.length, []⟩ with
    | none => rfl
    | some L1 => exact loop_congr r r' c _ L1 (startPhase_ne_start hb)
  have hcall : cgiUploadFirmware b r c (initState b, []) =
      cgiUploadFirmware b r' c (initState b, []) := by
    unfold cgiUploadFirmware
    rw [hloop]
  simp only [upload, session]
  rw [← hcall]
  cases hcl : cgiUploadFirmware b r c (initState b, []) with
  | done s1 => exact session_congr r r' t s1 (call_leaves_start r _ s1 hc hcl)
  | fault => rfl
  | outOfFuel => rfl

theorem cstr_cstr (x : List Byte) : cstr (cstr x) = cstr x := by
  unfold cstr
  exact List.takeWhile_idem

theorem tagCheck_mismatch {r : Request} (st : UploadState) {tag : List Byte}
    (hmis : tag ≠ cstr r.cgiArg.tagName) (hf : forced r = false) :
    tagCheck r st tag = fail st "Firmware not intended for this device!\n" := by
  unfold tagCheck
  rw [if_pos hmis, if_neg (by simp [hf])]

theorem tagCheck_forced {r : Request} (st : UploadState) (tag : List Byte)
    (hf : forced r = true) : tagCheck r st tag = st := by
  unfold tagCheck
  simp only [hf, if_true, ite_self]

theorem tagCheck_match {r : Request} (st : UploadState) {tag : List Byte}
    (h : tag = cstr r.cgiArg.tagName) : tagCheck r st tag = st := by
  unfold tagCheck
  rw [if_neg (by simp [h])]

theorem sizeCheck_fail (r : Request) (st : UploadState) (msg : String) :
    sizeCheck r (fail st msg) = fail st msg := by
  unfold sizeCheck
  rw [if_neg (by simp [fail])]

theorem start_mismatch {b : Build} {r : Request} {c : List Byte} (hb : b.esp32 = false)
    (hfw : r.cgiArg.type = CGIFLASH_TYPE_FW) (hc : 40 ≤ c.length)
    (hm : c.take 4 = magicEHUG) (hmis : headerTag c ≠ cstr r.cgiArg.tagName)
    (hf : forced r = false) (st : UploadState) (n : Int) (ops : List FlashOp) :
    startPhase b r c ⟨st, 0, n, ops⟩ =
      some ⟨fail st "Firmware not intended for this device!\n", 0, n, ops⟩ := by
  have htag : tagOf c 4 = some (headerTag c) := tagOf_eq (by omega)
  have herr : (fail st "Firmware not intended for this device!\n").state = FLST_ERROR := rfl
  simp only [startPhase, hfw, if_true, memcmp4_eq _ (show 4 ≤ c.length by omega), hm,
    beq_self_eq_true, Option.bind_eq_bind, Option.some_bind, startCombined, hb,
    Bool.false_eq_true, if_false, Int.zero_add, htag, tagCheck_mismatch st hmis hf,
    sizeCheck_fail, herr, ne_eq, not_true_eq_false, Option.pure_def]

theorem start_forced {b : Build} {r : Request} {c : List Byte} (hb : b.esp32 = false)
    (hfw : r.cgiArg.type = CGIFLASH_TYPE_FW) (hc : 40 ≤ c.length)
    (hm : c.take 4 = magicEHUG) (hf : forced r = true) (L : Loop) (hd : L.data = 0) :
    startPhase b r c L = startPhase b (withTag r (headerTag c)) c L := by
  have htag : tagOf c 4 = some (headerTag c) := tagOf_eq (by omega)
  have hfw' : (withTag r (headerTag c)).cgiArg.type = CGIFLASH_TYPE_FW := hfw
  have ht1 : tagCheck r L.st (headerTag c) = L.st := tagCheck_forced _ _ hf
  have ht2 : tagCheck (withTag r (headerTag c)) L.st (headerTag c) = L.st :=
    tagCheck_match _ (cstr_cstr _).symm
  simp only [startPhase, hfw, hfw', if_true, hd, memcmp4_eq _ (show 4 ≤ c.length by omega),
    hm, beq_self_eq_true, Option.bind_eq_bind, Option.some_bind, startCombined, hb,
    Bool.false_eq_true, if_false, Int.zero_add, htag, ht1, ht2]
  rfl

/-- The test `len!=-1 && atoi(buff)` fails when the `force` argument is absent
or has the value 0. -/
theorem forced_false {r : Request} (h : r.forceArg = none ∨ r.forceArg = some 0) :
    forced r = false := by
  unfold forced
  rcases h with h | h
  · rw [h]
  · rw [h]; rfl

/-- The test `len!=-1 && atoi(buff)` holds when the `force` argument has a
non-zero value. -/
theorem forced_true {r : Request} {v : Int} (h : r.forceArg = some v) (hv : v ≠ 0) :
    forced r = true := by
  unfold forced
  rw [h]
  simpa using hv

/-- C9: in the non-ESP32 build, for a firmware endpoint and a stream that
starts with "EHUG" whose tag differs from `def->tagName`: when the request has
no `force` argument, or one whose integer value is 0, the upload ends in
`FLST_ERROR` with the message "Firmware not intended for this device!\n" and
an empty flash log, whatever chunks follow; when it has a `force` argument of
non-zero integer value, the upload is the upload of the same chunks to a device
whose tag name is the tag of the stream. -/
theorem tag_check_and_force (b : Build) (r : Request) (c : List Byte) (t : List (List Byte))
    (hb : b.esp32 = false) (hfw : r.cgiArg.type = CGIFLASH_TYPE_FW) (hc : 40 ≤ c.length)
    (hm : c.take 4 = magicEHUG) (hmis : headerTag c ≠ cstr r.cgiArg.tagName) :
    ((r.forceArg = none ∨ r.forceArg = some 0) →
      upload b r (c :: t) =
        .done (fail (initState b) "Firmware not intended for this device!\n", [])) ∧
    (∀ v, r.forceArg = some v → v ≠ 0 →
      upload b r (c :: t) = upload b (withTag r (headerTag c)) (c :: t)) := by
  have hne : c ≠ [] := by
    intro h; subst h; simp at hc
  constructor
  · intro hf
    have h := upload_first (b := b) r t hne
      (start_mismatch hb hfw hc hm hmis (forced_false hf) (initState b) c.length [])
      (fail_good (initState_good b) _) (by simp [fail]) ⟨le_refl _, by simp, by simp⟩
    rw [h]
    simp only
    rw [feedL_done _ (Or.inr rfl)]
  · intro v hf hv
    exact upload_congr r _ t hne (start_forced hb hfw hc hm (forced_true hf hv) _ rfl)

/-- Witness for C9: the header with tag "x" sent to a device with tag "y":
without a `force` argument the upload is refused and nothing is flashed; with
`force=1` the three bytes of image 1 are written to slot 1, as they are for a
device with tag "x". -/
theorem tag_check_and_force_witness :
    headerTag exHeaderSmall ≠ cstr exRequestTag.cgiArg.tagName ∧
    exRequestTag.forceArg = none ∧ exRequestForce.forceArg = some 1 ∧
    upload exBuild exRequestTag [exHeaderSmall, exBody7] =
      .done (fail (initState exBuild) "Firmware not intended for this device!\n", []) ∧
    upload exBuild exRequestForce [exHeaderSmall, exBody7] =
      upload exBuild (withTag exRequestForce (headerTag exHeaderSmall))
        [exHeaderSmall, exBody7] ∧
    flashLog (upload exBuild exRequestForce [exHeaderSmall, exBody7]) =
      some [FlashOp.erase 1, FlashOp.write 0x1000 [11, 12, 13]] :=
  ⟨by decide, rfl, rfl,
    (tag_check_and_force exBuild exRequestTag exHeaderSmall [exBody7] rfl rfl (by decide)
      (by decide) (by decide)).1 (Or.inl rfl),
    (tag_check_and_force exBuild exRequestForce exHeaderSmall [exBody7] rfl rfl (by decide)
      (by decide) (by decide)).2 1 rfl (by decide),
    by decide⟩

/-! ## Sector arithmetic -/

theorem sector_pos {b : Build} (hgeo : SectorGeometry b) : 0 < b.SPI_FLASH_SEC_SIZE := by
  obtain ⟨e, _, he⟩ := hgeo.pow
  rw [he]
  exact Nat.pos_pow_of_pos e (by decide)

theorem aligned_iff {b : Build} (hgeo : SectorGeometry b) (a : Int) :
    sectorAligned b a = true ↔ (b.SPI_FLASH_SEC_SIZE : Int) ∣ a := by
  obtain ⟨e, he32, he⟩ := hgeo.pow
  have h32 : ((2 : Int) ^ e) ∣ 4294967296 := by
    have : (4294967296 : Int) = 2 ^ 32 := by norm_num
    rw [this]
    exact pow_dvd_pow 2 (le_of_lt he32)
  have hnn : 0 ≤ toUInt32 a := by unfold toUInt32; omega
  unfold sectorAligned
  rw [he, Nat.and_pow_two_sub_one_eq_mod, beq_iff_eq]
  have hcast : (((toUInt32 a).toNat % 2 ^ e : Nat) : Int) = a % 2 ^ e := by
    push_cast
    rw [Int.toNat_of_nonneg hnn]
    unfold toUInt32
    exact Int.emod_emod_of_dvd a h32
  constructor
  · intro h
    have : a % (2 : Int) ^ e = 0 := by rw [← hcast, h]; rfl
    push_cast
    exact Int.dvd_of_emod_eq_zero this
  · intro h
    push_cast at h
    have : a % (2 : Int) ^ e = 0 := Int.emod_eq_zero_of_dvd h
    rw [← hcast] at this
    exact_mod_cast this

/-- At the start of a sector the argument of the erase, a C division, is the
number of the sector. -/
theorem sectorOf_aligned {b : Build} {a : Int} (h : (b.SPI_FLASH_SEC_SIZE : Int) ∣ a) :
    sectorOf b a = a / (b.SPI_FLASH_SEC_SIZE : Int) := by
  unfold sectorOf
  exact Int.tdiv_eq_ediv_of_dvd h

/-- A power of two that fits 32 bits divides 2^31. -/
theorem sector_dvd_top {b : Build} (hgeo : SectorGeometry b) :
    (b.SPI_FLASH_SEC_SIZE : Int) ∣ 2147483648 := by
  obtain ⟨e, he32, he⟩ := hgeo.pow
  have : (2147483648 : Int) = 2 ^ 31 := by norm_num
  rw [this, he]
  push_cast
  exact pow_dvd_pow 2 (show e ≤ 31 by omega)

/-- When a page is written at a page-aligned `int` address, the address
either grows by `PAGELEN`, or it was the last page below 2^31 and wraps
around to `-2^31`. -/
theorem addInt32_page (b : Build) {a : Int} (hpa : PAGELEN b ∣ a) :
    addInt32 a (PAGELEN b) = a + PAGELEN b ∨ addInt32 a (PAGELEN b) = -2147483648 := by
  obtain ⟨q, hq⟩ := hpa
  unfold addInt32
  split
  · right
    rename_i h
    revert h hq
    unfold PAGELEN
    cases b.esp32 <;> simp only [Bool.false_eq_true, if_false, if_true] <;> intro hq h <;> omega
  · exact Or.inl rfl

/-- Within a sector, the next page has the same sector number. -/
theorem next_page_sector {b : Build} (hgeo : SectorGeometry b) {a : Int}
    (hpa : PAGELEN b ∣ a) (hn : ¬ (b.SPI_FLASH_SEC_SIZE : Int) ∣ (a + PAGELEN b)) :
    (a + PAGELEN b) / (b.SPI_FLASH_SEC_SIZE : Int) = a / (b.SPI_FLASH_SEC_SIZE : Int) := by
  have hS := sector_pos hgeo
  have hP := PAGELEN_pos b
  have hSi : (0 : Int) < b.SPI_FLASH_SEC_SIZE := by omega
  obtain ⟨m, hm⟩ := hgeo.pages
  have hmS : (b.SPI_FLASH_SEC_SIZE : Int) = PAGELEN b * m := by
    rw [hm, ← pageLen_cast]; push_cast; rfl
  obtain ⟨q, hq⟩ := hpa
  have hr0 := Int.emod_nonneg a (ne_of_gt hSi)
  have hr1 := Int.emod_lt_of_pos a hSi
  have hdm := Int.emod_add_ediv a (b.SPI_FLASH_SEC_SIZE : Int)
  -- the remainder is a multiple of the page size
  have hrem : a % (b.SPI_FLASH_SEC_SIZE : Int) =
      PAGELEN b * (q - m * (a / (b.SPI_FLASH_SEC_SIZE : Int))) := by
    have : a % (b.SPI_FLASH_SEC_SIZE : Int) =
        a - (b.SPI_FLASH_SEC_SIZE : Int) * (a / (b.SPI_FLASH_SEC_SIZE : Int)) := by omega
    rw [this, hmS, hq]; ring
  generalize hx : q - m * (a / (b.SPI_FLASH_SEC_SIZE : Int)) = x at hrem
  have hxm : x < m := by
    have : PAGELEN b * x < PAGELEN b * m := by rw [← hrem, ← hmS]; exact hr1
    exact lt_of_mul_lt_mul_left this (le_of_lt hP)
  have hx1 : x + 1 ≠ m := by
    intro h
    apply hn
    refine ⟨a / (b.SPI_FLASH_SEC_SIZE : Int) + 1, ?_⟩
    have : a = a % (b.SPI_FLASH_SEC_SIZE : Int) +
        (b.SPI_FLASH_SEC_SIZE : Int) * (a / (b.SPI_FLASH_SEC_SIZE : Int)) := hdm.symm
    rw [mul_add, mul_one]
    conv_lhs => rw [this, hrem]
    rw [hmS, ← h]
    ring
  have hlt : a % (b.SPI_FLASH_SEC_SIZE : Int) + PAGELEN b < b.SPI_FLASH_SEC_SIZE := by
    have h2 : x + 1 < m := by omega
    have : PAGELEN b * (x + 1) < PAGELEN b * m := by
      exact mul_lt_mul_of_pos_left h2 hP
    rw [hrem, hmS]
    linarith
  have := (Int.ediv_emod_unique (a := a + PAGELEN b) (b := (b.SPI_FLASH_SEC_SIZE : Int))
    (r := a % (b.SPI_FLASH_SEC_SIZE : Int) + PAGELEN b)
    (q := a / (b.SPI_FLASH_SEC_SIZE : Int)) hSi).mpr ⟨by omega, by omega, hlt⟩
  exact this.1

/-! ## C6: erase before write -/

theorem erasedBefore_nil (b : Build) : ErasedBefore b [] := by
  intro pre a d post h
  have := congrArg List.length h
  simp at this
  omega

theorem erasedBefore_concat_erase {b : Build} {xs : List FlashOp} (k : Int)
    (h : ErasedBefore b xs) : ErasedBefore b (xs ++ [FlashOp.erase k]) := by
  intro pre a d post heq
  rcases post.eq_nil_or_concat with rfl | ⟨post', o, rfl⟩
  · have := List.append_inj' heq (by simp)
    simp at this
  · have e : pre ++ FlashOp.write a d :: post'.concat o =
        (pre ++ FlashOp.write a d :: post') ++ [o] := by simp
    rw [e] at heq
    have := List.append_inj' heq (by simp)
    exact h pre a d post' this.1

theorem erasedBefore_concat_write {b : Build} {xs : List FlashOp} (a : Int) (d : List Byte)
    (h : ErasedBefore b xs) (hin : FlashOp.erase (a / (b.SPI_FLASH_SEC_SIZE : Int)) ∈ xs) :
    ErasedBefore b (xs ++ [FlashOp.write a d]) := by
  intro pre a' d' post heq
  rcases post.eq_nil_or_concat with rfl | ⟨post', o, rfl⟩
  · have := List.append_inj' heq (by simp)
    simp only [List.cons.injEq, FlashOp.write.injEq, and_true] at this
    obtain ⟨h1, h2, _⟩ := this
    rw [← h1, ← h2]
    exact hin
  · have e : pre ++ FlashOp.write a' d' :: post'.concat o =
        (pre ++ FlashOp.write a' d' :: post') ++ [o] := by simp
    rw [e] at heq
    have := List.append_inj' heq (by simp)
    exact h pre a' d' post' this.1

theorem startCombined_address {b : Build} {r : Request} {buf : List Byte} {L L1 : Loop}
    (h : startCombined b r buf L = some L1) :
    L1.ops = L.ops ∧ (L1.st.address = L.st.address ∨ L1.st.address = r.cgiArg.fw1Pos ∨
      L1.st.address = r.cgiArg.fw2Pos) := by
  simp only [startCombined] at h
  split at h
  · cases h; exact ⟨rfl, Or.inl rfl⟩
  · cases h4 : tagOf buf (L.data + 4) with
    | none => simp [h4] at h
    | some tag =>
      simp only [h4, Option.bind_eq_bind, Option.some_bind] at h
      have hadr : (sizeCheck r (tagCheck r L.st tag)).address = L.st.address := by
        rcases checks_cases r L.st tag with e | ⟨msg, e⟩ <;> rw [e]
        rfl
      split at h
      · cases h5 : i32At buf (L.data + 32) with
        | none => simp [h5] at h
        | some l1 =>
          cases h6 : i32At buf (L.data + 36) with
          | none => simp [h5, h6] at h
          | some l2 =>
            simp only [h5, h6, Option.some_bind, Option.pure_def, Option.some.injEq] at h
            rw [← h]
            refine ⟨rfl, Or.inr ?_⟩
            simp only [selectImage]
            split
            · exact Or.inl rfl
            · exact Or.inr rfl
      · simp only [Option.pure_def, Option.some.injEq] at h
        rw [← h]
        exact ⟨rfl, Or.inl hadr⟩

theorem acceptSingle_address (r : Request) (tooLarge : Bool) (addr : Int) (st : UploadState) :
    (acceptSingle r tooLarge addr st).address = st.address ∨
      (acceptSingle r tooLarge addr st).address = addr := by
  unfold acceptSingle
  split
  · exact Or.inl rfl
  · exact Or.inr rfl

theorem startPhase_address {b : Build} {r : Request} {buf : List Byte} {L L1 : Loop}
    (h : startPhase b r buf L = some L1) :
    L1.ops = L.ops ∧ (L1.st.address = L.st.address ∨ L1.st.address = r.cgiArg.fw1Pos ∨
      L1.st.address = r.cgiArg.fw2Pos ∨ L1.st.address = toInt32 r.updOffset) := by
  simp only [startPhase] at h
  generalize (if r.cgiArg.type = CGIFLASH_TYPE_FW then memcmp4 buf L.data magicEHUG
    else pure false) = x1 at h
  generalize (if r.cgiArg.type = CGIFLASH_TYPE_FW then checkBinHeader b buf
    else pure false) = x2 at h
  generalize (if r.cgiArg.type = CGIFLASH_TYPE_ESPFS then checkEspfsHeader buf
    else pure false) = x3 at h
  rcases x1 with _ | x1
  · simp at h
  · simp only [Option.bind_eq_bind, Option.some_bind] at h
    cases x1
    · simp only [Bool.false_eq_true, if_false] at h
      rcases x2 with _ | x2
      · simp at h
      · simp only [Option.some_bind] at h
        cases x2
        · simp only [Bool.false_eq_true, if_false] at h
          rcases x3 with _ | x3
          · simp at h
          · cases x3
            · simp only [Option.some_bind, Bool.false_eq_true, if_false, Option.pure_def,
                Option.some.injEq] at h
              rw [← h]; exact ⟨rfl, Or.inl rfl⟩
            · simp only [Option.some_bind, if_true, Option.pure_def, Option.some.injEq] at h
              rw [← h]
              refine ⟨rfl, ?_⟩
              rcases acceptSingle_address r (decide (r.postLen > r.cgiArg.fwSize))
                r.cgiArg.fw1Pos L.st with e | e
              · exact Or.inl e
              · exact Or.inr (Or.inl e)
        · simp only [if_true, Option.pure_def, Option.some.injEq] at h
          rw [← h]
          unfold startFirmware
          split
          · refine ⟨rfl, ?_⟩
            rcases acceptSingle_address r (decide (toUInt32 r.postLen > toUInt32 r.updSize))
              (toInt32 r.updOffset) L.st with e | e
            · exact Or.inl e
            · exact Or.inr (Or.inr (Or.inr e))
          · refine ⟨rfl, ?_⟩
            rcases acceptSingle_address r (decide (r.postLen > r.cgiArg.fwSize))
              r.cgiArg.fw1Pos L.st with e | e
            · exact Or.inl e
            · exact Or.inr (Or.inl e)
    · simp only [if_true] at h
      obtain ⟨h1, h2⟩ := startCombined_address h
      refine ⟨h1, ?_⟩
      rcases h2 with e | e | e
      · exact Or.inl e
      · exact Or.inr (Or.inl e)
      · exact Or.inr (Or.inr (Or.inl e))

theorem sectorInv_base {b : Build} (hgeo : SectorGeometry b) {a : Int} {ops : List FlashOp}
    {st : UploadState} (ha : SectorStart b a) (hadr : st.address = a)
    (he : ErasedBefore b ops) : SectorInv b (st, ops) := by
  obtain ⟨_, hd⟩ := ha
  have hps : PAGELEN b ∣ (b.SPI_FLASH_SEC_SIZE : Int) := by
    rw [← pageLen_cast]
    exact Int.natCast_dvd_natCast.mpr hgeo.pages
  refine ⟨?_, he, Or.inl (by rw [hadr]; exact hd)⟩
  rw [hadr]
  exact dvd_trans hps hd

theorem flush_inv {b : Build} (hgeo : SectorGeometry b) {st : UploadState}
    {ops : List FlashOp} (pd : List Byte) (n : Int) (h : SectorInv b (st, ops)) :
    SectorInv b (flushState b st pd n, ops ++ flushOps b st pd n) := by
  obtain ⟨hp, he, hs⟩ := h
  simp only at hp he hs
  have hP := PAGELEN_pos b
  have hps : PAGELEN b ∣ (b.SPI_FLASH_SEC_SIZE : Int) := by
    rw [← pageLen_cast]
    exact Int.natCast_dvd_natCast.mpr hgeo.pages
  have htop : (b.SPI_FLASH_SEC_SIZE : Int) ∣ -2147483648 :=
    (Int.dvd_neg).mpr (sector_dvd_top hgeo)
  -- the log after the flush, and the erase of the written sector in it
  have hlog : ErasedBefore b (ops ++ flushOps b st pd n) ∧
      FlashOp.erase (st.address / (b.SPI_FLASH_SEC_SIZE : Int)) ∈
        ops ++ flushOps b st pd n := by
    unfold flushOps
    by_cases hal : sectorAligned b st.address = true
    · rw [if_pos hal, sectorOf_aligned ((aligned_iff hgeo _).mp hal), ← List.append_assoc]
      have hin : FlashOp.erase (st.address / (b.SPI_FLASH_SEC_SIZE : Int)) ∈
          ops ++ [FlashOp.erase (st.address / (b.SPI_FLASH_SEC_SIZE : Int))] := by simp
      exact ⟨erasedBefore_concat_write _ _ (erasedBefore_concat_erase _ he) hin,
        List.mem_append_left _ hin⟩
    · rw [if_neg hal, List.nil_append]
      have hin : FlashOp.erase (st.address / (b.SPI_FLASH_SEC_SIZE : Int)) ∈ ops := by
        rcases hs with hs | hs
        · exact absurd ((aligned_iff hgeo _).mpr hs) hal
        · exact hs
      exact ⟨erasedBefore_concat_write _ _ he hin, List.mem_append_left _ hin⟩
  have hadr : (flushState b st pd n).address = addInt32 st.address (PAGELEN b) := rfl
  refine ⟨?_, hlog.1, ?_⟩
  · simp only [hadr]
    rcases addInt32_page b hp with e | e
    · rw [e]; exact dvd_add hp (dvd_refl _)
    · rw [e]; exact dvd_trans hps htop
  · simp only [hadr]
    rcases addInt32_page b hp with e | e
    · rw [e]
      by_cases hd : (b.SPI_FLASH_SEC_SIZE : Int) ∣ (st.address + PAGELEN b)
      · exact Or.inl hd
      · right
        rw [next_page_sector hgeo hp hd]
        exact hlog.2
    · rw [e]; exact Or.inl htop

theorem writePhase_inv {b : Build} (hgeo : SectorGeometry b) {buf : List Byte} {L L1 : Loop}
    (h : writePhase b buf L = some L1) (hi : SectorInv b (L.st, L.ops)) :
    SectorInv b (L1.st, L1.ops) := by
  simp only [writePhase] at h
  split at h
  · cases h1 : slice buf L.data L.dataLen with
    | none => simp [h1] at h
    | some src =>
      cases h2 : memcpyPage L.st.pageData L.st.pagePos src with
      | none => simp [h1, h2] at h
      | some pd =>
        simp only [h1, h2, Option.bind_eq_bind, Option.some_bind, Option.pure_def,
          Option.some.injEq] at h
        rw [← h]
        exact hi
  · cases h1 : slice buf L.data (lenLeft b L.st) with
    | none => simp [h1] at h
    | some src =>
      cases h2 : memcpyPage L.st.pageData L.st.pagePos src with
      | none => simp [h1, h2] at h
      | some pd =>
        simp only [h1, h2, Option.bind_eq_bind, Option.some_bind, Option.pure_def,
          Option.some.injEq] at h
        rw [← h]
        exact flush_inv hgeo pd _ hi

theorem loopBody_inv {b : Build} (hgeo : SectorGeometry b) {r : Request}
    (hal : AlignedBases b r) {buf : List Byte} {L L1 : Loop}
    (h : loopBody b r buf L = some L1) (hi : SectorInv b (L.st, L.ops)) :
    SectorInv b (L1.st, L1.ops) := by
  cases hst : L.st.state with
  | FLST_START =>
    simp only [loopBody, hst] at h
    obtain ⟨h1, h2⟩ := startPhase_address h
    have he : ErasedBefore b L1.ops := by rw [h1]; exact hi.2.1
    rcases h2 with e | e | e | e
    · obtain ⟨i2, _, i4⟩ := hi
      simp only at i2 i4
      exact ⟨by simp only [e]; exact i2, he, by simp only [e, h1]; exact i4⟩
    · exact sectorInv_base hgeo hal.1 e he
    · exact sectorInv_base hgeo hal.2.1 e he
    · exact sectorInv_base hgeo hal.2.2 e he
  | FLST_SKIP =>
    simp only [loopBody, hst, Option.some.injEq] at h
    rw [← h]
    simp only [skipPhase]
    split <;> exact hi
  | FLST_WRITE =>
    simp only [loopBody, hst] at h
    exact writePhase_inv hgeo h hi
  | FLST_DONE =>
    simp only [loopBody, hst, Option.some.injEq] at h
    rw [← h]; exact hi
  | FLST_ERROR =>
    simp only [loopBody, hst, Option.some.injEq] at h
    rw [← h]; exact hi

theorem loop_inv {b : Build} (hgeo : SectorGeometry b) {r : Request}
    (hal : AlignedBases b r) (buf : List Byte) :
    ∀ (n : Nat) (L L1 : Loop), SectorInv b (L.st, L.ops) → loop b r buf n L = .done L1 →
      SectorInv b (L1.st, L1.ops) := by
  intro n
  induction n with
  | zero =>
    intro L L1 hi h
    simp only [loop] at h
    split at h
    · cases h; exact hi
    · cases h
  | succ n ih =>
    intro L L1 hi h
    rw [loop_succ] at h
    split at h
    · cases h; exact hi
    · cases hb : loopBody b r buf L with
      | none => simp [hb] at h
      | some L2 =>
        simp only [hb] at h
        exact ih L2 L1 (loopBody_inv hgeo hal hb hi) h

theorem call_inv {b : Build} (hgeo : SectorGeometry b) {r : Request}
    (hal : AlignedBases b r) (buf : List Byte) {s s1 : UploadState × List FlashOp}
    (hi : SectorInv b s) (h : cgiUploadFirmware b r buf s = .done s1) : SectorInv b s1 := by
  unfold cgiUploadFirmware at h
  cases hl : loop b r buf (fuelFor buf.length) ⟨s.1, 0, buf.length, s.2⟩ with
  | done L =>
    rw [hl] at h
    simp only [Outcome.done.injEq] at h
    rw [← h]
    exact loop_inv hgeo hal buf _ _ L hi hl
  | fault => rw [hl] at h; cases h
  | outOfFuel => rw [hl] at h; cases h

theorem session_inv {b : Build} (hgeo : SectorGeometry b) {r : Request}
    (hal : AlignedBases b r) :
    ∀ (cs : List (List Byte)) (s s1 : UploadState × List FlashOp), SectorInv b s →
      session b r cs s = .done s1 → SectorInv b s1 := by
  intro cs
  induction cs with
  | nil =>
    intro s s1 hi h
    simp only [session, Outcome.done.injEq] at h
    rw [← h]; exact hi
  | cons c cs ih =>
    intro s s1 hi h
    simp only [session] at h
    cases hc : cgiUploadFirmware b r c s with
    | done s2 =>
      rw [hc] at h
      exact ih s2 s1 (call_inv hgeo hal c hi hc) h
    | fault => rw [hc] at h; cases h
    | outOfFuel => rw [hc] at h; cases h

/-- C6 (amended): when the sector size is a power of two and a multiple of
`PAGELEN`, and the addresses `FLST_START` can choose (`def->fw1Pos`,
`def->fw2Pos`, the offset of the update partition) are sector starts, then in
the flash log of every upload each page write comes after an erase of the
sector that contains the written address. -/
theorem erase_before_write (b : Build) (r : Request) (chunks : List (List Byte))
    (st : UploadState) (ops : List FlashOp) (hgeo : SectorGeometry b)
    (hal : AlignedBases b r) (h : upload b r chunks = .done (st, ops)) :
    ErasedBefore b ops := by
  have hinit : SectorInv b (initState b, []) :=
    ⟨dvd_zero _, erasedBefore_nil b, Or.inl (dvd_zero _)⟩
  exact (session_inv hgeo hal chunks _ _ hinit h).2.1

theorem exBuild_geometry : SectorGeometry exBuild :=
  ⟨⟨12, by decide, by decide⟩, ⟨64, by decide⟩⟩

/-- Witness for C6 (amended): a 50-byte firmware image written to the slot at
0x1000. -/
theorem erase_before_write_witness :
    SectorGeometry exBuild ∧ AlignedBases exBuild exRequestFw ∧
    upload exBuild exRequestFw [exHeader8266, exBody10] =
      .done (flushState exBuild
        (bufferBytes (acceptedState exBuild exRequestFw)
          (splice (initState exBuild).pageData 0 exHeader8266) 40)
        (splice (initState exBuild).pageData 0 (exHeader8266 ++ exBody10)) 10,
        [FlashOp.erase 1, FlashOp.write 0x1000 (exHeader8266 ++ exBody10)]) ∧
    ErasedBefore exBuild [FlashOp.erase 1, FlashOp.write 0x1000 (exHeader8266 ++ exBody10)] := by
  have hal : AlignedBases exBuild exRequestFw :=
    ⟨⟨by decide, ⟨1, by decide⟩⟩, ⟨by decide, ⟨129, by decide⟩⟩, ⟨by decide, ⟨0, by decide⟩⟩⟩
  have hup : upload exBuild exRequestFw [exHeader8266, exBody10] =
      .done (flushState exBuild
        (bufferBytes (acceptedState exBuild exRequestFw)
          (splice (initState exBuild).pageData 0 exHeader8266) 40)
        (splice (initState exBuild).pageData 0 (exHeader8266 ++ exBody10)) 10,
        [FlashOp.erase 1, FlashOp.write 0x1000 (exHeader8266 ++ exBody10)]) := by
    decide
  exact ⟨exBuild_geometry, hal, hup,
    erase_before_write exBuild exRequestFw [exHeader8266, exBody10] _ _ exBuild_geometry hal hup⟩

/-- C6 as stated fails for a target address inside a sector: the image sent
to the slot at 0x1040 is written without any erase. -/
theorem write_without_erase :
    flashLog (upload exBuild exRequestUnaligned [exHeader8266 ++ exBody10]) =
      some [FlashOp.write 0x1040 (exHeader8266 ++ exBody10)] := by
  decide
/-! ## C5: one erase per sector -/

theorem imageOps_add (b : Build) :
    ∀ (j k : Nat) (a : Int) (img : List Byte),
      imageOps b (j + k) a img =
        imageOps b j a img ++
          imageOps b k (pageAddr b a j) (img.drop (j * pageLen b)) := by
  intro j
  induction j with
  | zero => intro k a img; simp [imageOps, pageAddr]
  | succ j ih =>
    intro k a img
    have e : j + 1 + k = (j + k) + 1 := by omega
    rw [e, imageOps, imageOps, ih]
    simp only [List.append_assoc, List.cons_append, List.drop_drop, pageAddr]
    have e2 : pageLen b + j * pageLen b = (j + 1) * pageLen b := by ring
    rw [e2]

theorem inside_sector {b : Build} (hgeo : SectorGeometry b) {a y : Int}
    (ha : (b.SPI_FLASH_SEC_SIZE : Int) ∣ a) (h0 : 0 ≤ y) (h1 : y < b.SPI_FLASH_SEC_SIZE) :
    (a + y) / (b.SPI_FLASH_SEC_SIZE : Int) = a / (b.SPI_FLASH_SEC_SIZE : Int) ∧
      (0 < y → ¬ (b.SPI_FLASH_SEC_SIZE : Int) ∣ (a + y)) := by
  have hS := sector_pos hgeo
  have hSi : (0 : Int) < b.SPI_FLASH_SEC_SIZE := by omega
  obtain ⟨q, hq⟩ := ha
  have hdiv : a / (b.SPI_FLASH_SEC_SIZE : Int) = q := by
    rw [hq, Int.mul_ediv_cancel_left _ (ne_of_gt hSi)]
  have hu := (Int.ediv_emod_unique (a := a + y) (b := (b.SPI_FLASH_SEC_SIZE : Int))
    (r := y) (q := q) hSi).mpr ⟨by rw [hq]; ring, h0, h1⟩
  refine ⟨by rw [hu.1, hdiv], ?_⟩
  intro hy hd
  have := Int.emod_eq_zero_of_dvd hd
  rw [hu.2] at this
  omega

/-- A sum that stays an `int` does not wrap around. -/
theorem addInt32_of_le {x y : Int} (h : x + y ≤ 2147483647) : addInt32 x y = x + y := by
  unfold addInt32
  rw [if_neg (by omega)]

/-- A sector that starts at an `int` address ends at 2^31 or below. -/
theorem sector_room {b : Build} (hgeo : SectorGeometry b) {a : Int}
    (ha : (b.SPI_FLASH_SEC_SIZE : Int) ∣ a) (hhi : a ≤ 2147483647) :
    a + (b.SPI_FLASH_SEC_SIZE : Int) ≤ 2147483648 := by
  have h := Int.le_of_dvd (show (0 : Int) < 2147483648 - a by omega)
    (dvd_sub (sector_dvd_top hgeo) ha)
  omega

/-- The reduction to 32 bits of a sector start is a sector start. -/
theorem toInt32_dvd {b : Build} (hgeo : SectorGeometry b) {x : Int}
    (h : (b.SPI_FLASH_SEC_SIZE : Int) ∣ x) : (b.SPI_FLASH_SEC_SIZE : Int) ∣ toInt32 x := by
  have htop := sector_dvd_top hgeo
  have h32 : (b.SPI_FLASH_SEC_SIZE : Int) ∣ 4294967296 := by
    have e : (4294967296 : Int) = 2147483648 * 2 := by norm_num
    rw [e]
    exact Dvd.dvd.mul_right htop 2
  unfold toInt32
  have e : (x + 2147483648) % 4294967296 =
      (x + 2147483648) - 4294967296 * ((x + 2147483648) / 4294967296) := by omega
  rw [e]
  exact dvd_sub (dvd_sub (dvd_add h htop) (Dvd.dvd.mul_right h32 _)) htop

/-- Pages that follow the first page of a sector and stay inside it: no
erase, and every write in the sector. -/
theorem imageOps_inside {b : Build} (hgeo : SectorGeometry b) {a : Int} {m : Nat}
    (hm : b.SPI_FLASH_SEC_SIZE = pageLen b * m) (ha : (b.SPI_FLASH_SEC_SIZE : Int) ∣ a)
    (hhi : a ≤ 2147483647) :
    ∀ (j i : Nat) (img : List Byte), 1 ≤ i → i + j ≤ m →
      eraseSectors (imageOps b j (a + (i : Int) * PAGELEN b) img) = [] ∧
      ∀ x ∈ writeAddrs (imageOps b j (a + (i : Int) * PAGELEN b) img),
        x / (b.SPI_FLASH_SEC_SIZE : Int) = a / (b.SPI_FLASH_SEC_SIZE : Int) := by
  have hP := PAGELEN_pos b
  have hpc := pageLen_cast b
  have hroom := sector_room hgeo ha hhi
  have hSP : (b.SPI_FLASH_SEC_SIZE : Int) = (m : Int) * PAGELEN b := by
    rw [hm, ← hpc]; push_cast; ring
  intro j
  induction j with
  | zero =>
    intro i img _ _
    simp [imageOps, eraseSectors, writeAddrs]
  | succ j ih =>
    intro i img hi him
    have hy0 : (0 : Int) < (i : Int) * PAGELEN b := by positivity
    have hy1 : (i : Int) * PAGELEN b < b.SPI_FLASH_SEC_SIZE := by
      rw [hSP]
      have : (i : Int) < m := by omega
      nlinarith
    obtain ⟨hsec, hnot⟩ := inside_sector hgeo ha (le_of_lt hy0) hy1
    have hna : ¬ sectorAligned b (a + (i : Int) * PAGELEN b) = true := by
      intro h
      exact hnot hy0 ((aligned_iff hgeo _).mp h)
    have key : imageOps b j (addInt32 (a + (i : Int) * PAGELEN b) (PAGELEN b))
          (img.drop (pageLen b)) =
        imageOps b j (a + ((i + 1 : Nat) : Int) * PAGELEN b) (img.drop (pageLen b)) := by
      cases j with
      | zero => rfl
      | succ j' =>
        have h2 : (i : Int) * PAGELEN b + PAGELEN b + PAGELEN b ≤ (m : Int) * PAGELEN b := by
          have : (i : Int) + 2 ≤ m := by omega
          nlinarith
        rw [addInt32_of_le (by omega)]
        congr 1
        push_cast
        ring
    obtain ⟨ih1, ih2⟩ := ih (i + 1) (img.drop (pageLen b)) (by omega) (by omega)
    rw [imageOps, if_neg hna, key, List.nil_append]
    constructor
    · simpa [eraseSectors] using ih1
    · intro x hx
      have hx' : x = a + (i : Int) * PAGELEN b ∨
          x ∈ writeAddrs (imageOps b j (a + ((i + 1 : Nat) : Int) * PAGELEN b)
            (img.drop (pageLen b))) := by
        simpa [writeAddrs] using hx
      rcases hx' with hx' | hx'
      · rw [hx']; exact hsec
      · exact ih2 x hx'

/-- The pages of one sector, from its start: one erase, of that sector, and
every write in it. -/
theorem imageOps_block {b : Build} (hgeo : SectorGeometry b) {a : Int} {m : Nat}
    (hm : b.SPI_FLASH_SEC_SIZE = pageLen b * m) (ha : (b.SPI_FLASH_SEC_SIZE : Int) ∣ a)
    (hhi : a ≤ 2147483647) (j : Nat) (img : List Byte) (h1 : 1 ≤ j) (hj : j ≤ m) :
    eraseSectors (imageOps b j a img) = [a / (b.SPI_FLASH_SEC_SIZE : Int)] ∧
      (∀ x ∈ writeAddrs (imageOps b j a img),
        x / (b.SPI_FLASH_SEC_SIZE : Int) = a / (b.SPI_FLASH_SEC_SIZE : Int)) ∧
      a ∈ writeAddrs (imageOps b j a img) := by
  obtain ⟨j', rfl⟩ : ∃ j', j = j' + 1 := ⟨j - 1, by omega⟩
  have hP := PAGELEN_pos b
  have hroom := sector_room hgeo ha hhi
  have hSP : (b.SPI_FLASH_SEC_SIZE : Int) = (m : Int) * PAGELEN b := by
    rw [hm, ← pageLen_cast b]; push_cast; ring
  have hal : sectorAligned b a = true := (aligned_iff hgeo a).mpr ha
  have key : imageOps b j' (addInt32 a (PAGELEN b)) (img.drop (pageLen b)) =
      imageOps b j' (a + ((1 : Nat) : Int) * PAGELEN b) (img.drop (pageLen b)) := by
    cases j' with
    | zero => rfl
    | succ j'' =>
      have h2 : PAGELEN b + PAGELEN b ≤ (m : Int) * PAGELEN b := by
        have : (2 : Int) ≤ m := by omega
        nlinarith
      rw [addInt32_of_le (by omega)]
      congr 1
      push_cast
      ring
  obtain ⟨i1, i2⟩ := imageOps_inside hgeo hm ha hhi j' 1 (img.drop (pageLen b)) (le_refl _)
    (by omega)
  rw [imageOps, if_pos hal, sectorOf_aligned ha, key]
  refine ⟨?_, ?_, ?_⟩
  · simpa [eraseSectors] using i1
  · intro x hx
    have hx' : x = a ∨ x ∈ writeAddrs (imageOps b j' (a + ((1 : Nat) : Int) * PAGELEN b)
        (img.drop (pageLen b))) := by
      simpa [writeAddrs] using hx
    rcases hx' with hx' | hx'
    · rw [hx']
    · exact i2 x hx'
  · simp [writeAddrs]

/-- The erases of an image of `k` pages written from a sector start, and the
sectors of its writes: sector `j` of the image starts at the `int` address
`a + j * SPI_FLASH_SEC_SIZE`, reduced to 32 bits. -/
theorem imageOps_sectors {b : Build} (hgeo : SectorGeometry b) {m : Nat}
    (hm : b.SPI_FLASH_SEC_SIZE = pageLen b * m) :
    ∀ (n k : Nat) (a : Int) (img : List Byte), k ≤ n → 1 ≤ k →
      (b.SPI_FLASH_SEC_SIZE : Int) ∣ a → -2147483648 ≤ a → a ≤ 2147483647 →
      eraseSectors (imageOps b k a img) =
        (List.range ((k + m - 1) / m)).map
          (fun (j : Nat) => toInt32 (a + (j : Int) * (b.SPI_FLASH_SEC_SIZE : Int)) /
            (b.SPI_FLASH_SEC_SIZE : Int)) ∧
      ∀ s, s ∈ (writeAddrs (imageOps b k a img)).map
            (fun x => x / (b.SPI_FLASH_SEC_SIZE : Int)) ↔
          s ∈ (List.range ((k + m - 1) / m)).map
            (fun (j : Nat) => toInt32 (a + (j : Int) * (b.SPI_FLASH_SEC_SIZE : Int)) /
              (b.SPI_FLASH_SEC_SIZE : Int)) := by
  have hS := sector_pos hgeo
  have hm0 : 0 < m := by
    rcases Nat.eq_zero_or_pos m with h | h
    · rw [h, Nat.mul_zero] at hm; omega
    · exact h
  have hSi : (0 : Int) < b.SPI_FLASH_SEC_SIZE := by omega
  have hSP : (m : Int) * PAGELEN b = (b.SPI_FLASH_SEC_SIZE : Int) := by
    rw [hm, ← pageLen_cast b]; push_cast; ring
  intro n
  induction n with
  | zero => intro k a img hk h1; omega
  | succ n ih =>
    intro k a img hk h1 ha hlo hhi
    have hhead : toInt32 (a + ((0 : Nat) : Int) * (b.SPI_FLASH_SEC_SIZE : Int)) /
        (b.SPI_FLASH_SEC_SIZE : Int) = a / (b.SPI_FLASH_SEC_SIZE : Int) := by
      rw [Nat.cast_zero, zero_mul, add_zero, toInt32_of_range hlo hhi]
    by_cases hsmall : k ≤ m
    · have hc : (k + m - 1) / m = 1 := by
        apply Nat.div_eq_of_lt_le <;> omega
      obtain ⟨b1, b2, b3⟩ := imageOps_block hgeo hm ha hhi k img h1 hsmall
      rw [hc]
      have hr : (List.range 1).map
          (fun (j : Nat) => toInt32 (a + (j : Int) * (b.SPI_FLASH_SEC_SIZE : Int)) /
            (b.SPI_FLASH_SEC_SIZE : Int)) =
          [a / (b.SPI_FLASH_SEC_SIZE : Int)] := by
        show [toInt32 (a + ((0 : Nat) : Int) * (b.SPI_FLASH_SEC_SIZE : Int)) /
          (b.SPI_FLASH_SEC_SIZE : Int)] = _
        rw [hhead]
      rw [hr]
      refine ⟨b1, fun s => ?_⟩
      simp only [List.mem_map, List.mem_singleton]
      constructor
      · rintro ⟨x, hx, rfl⟩
        exact b2 x hx
      · intro hs
        exact ⟨a, b3, hs.symm⟩
    · have hbig : m < k := by omega
      have hc : (k + m - 1) / m = (k - m + m - 1) / m + 1 := by
        have : k + m - 1 = (k - m + m - 1) + m := by omega
        rw [this, Nat.add_div_right _ hm0]
      have hk' : k = m + (k - m) := by omega
      have hnext : pageAddr b a m = toInt32 (a + (b.SPI_FLASH_SEC_SIZE : Int)) := by
        rw [pageAddr_eq b m hlo hhi, hSP]
      have hS' : (b.SPI_FLASH_SEC_SIZE : Int) ∣ toInt32 (a + (b.SPI_FLASH_SEC_SIZE : Int)) :=
        toInt32_dvd hgeo (dvd_add ha (dvd_refl _))
      have hr' := toInt32_range (a + (b.SPI_FLASH_SEC_SIZE : Int))
      obtain ⟨b1, b2, b3⟩ := imageOps_block hgeo hm ha hhi m img hm0 (le_refl _)
      obtain ⟨c1, c2⟩ := ih (k - m) (toInt32 (a + (b.SPI_FLASH_SEC_SIZE : Int)))
        (img.drop (m * pageLen b)) (by omega) (by omega) hS' hr'.1 hr'.2
      have hshift : (List.range ((k - m + m - 1) / m)).map
          (fun (j : Nat) => toInt32 (toInt32 (a + (b.SPI_FLASH_SEC_SIZE : Int)) +
            (j : Int) * (b.SPI_FLASH_SEC_SIZE : Int)) / (b.SPI_FLASH_SEC_SIZE : Int)) =
          (List.map Nat.succ (List.range ((k - m + m - 1) / m))).map
            (fun (j : Nat) => toInt32 (a + (j : Int) * (b.SPI_FLASH_SEC_SIZE : Int)) /
              (b.SPI_FLASH_SEC_SIZE : Int)) := by
        rw [List.map_map]
        apply List.map_congr_left
        intro i _
        simp only [Function.comp, Nat.succ_eq_add_one]
        rw [toInt32_add_left]
        congr 2
        push_cast
        ring
      rw [hshift] at c1 c2
      have hsplit : imageOps b k a img = imageOps b m a img ++
          imageOps b (k - m) (toInt32 (a + (b.SPI_FLASH_SEC_SIZE : Int)))
            (img.drop (m * pageLen b)) := by
        have h := imageOps_add b m (k - m) a img
        rwa [← hk', hnext] at h
      rw [hc, List.range_succ_eq_map, List.map_cons, hhead, hsplit]
      constructor
      · rw [eraseSectors_append, b1, c1]
        rfl
      · intro s
        rw [writeAddrs_append, List.map_append, List.mem_append, c2, List.mem_cons]
        constructor
        · rintro (h | h)
          · left
            simp only [List.mem_map] at h
            obtain ⟨x, hx, rfl⟩ := h
            exact b2 x hx
          · exact Or.inr h
        · rintro (h | h)
          · left
            simp only [List.mem_map]
            exact ⟨a, b3, h.symm⟩
          · exact Or.inr h

theorem pageCount_sectors (b : Build) {m : Nat} (hm0 : 0 < m) (n : Nat) :
    (pageCount b n + m - 1) / m = (n + pageLen b * m - 1) / (pageLen b * m) := by
  have hp := pageLen_pos b
  obtain ⟨m', rfl⟩ : ∃ m', m = m' + 1 := ⟨m - 1, by omega⟩
  unfold pageCount
  have e1 : (n + pageLen b - 1) / pageLen b + (m' + 1) - 1 =
      (n + pageLen b - 1 + m' * pageLen b) / pageLen b := by
    rw [Nat.add_mul_div_right _ _ hp]
    generalize (n + pageLen b - 1) / pageLen b = x
    omega
  have e2 : n + pageLen b - 1 + m' * pageLen b = n + pageLen b * (m' + 1) - 1 := by
    have : pageLen b * (m' + 1) = m' * pageLen b + pageLen b := by ring
    omega
  rw [e1, e2, Nat.div_div_eq_div_mul]

/-- The geometry of a build with the sector size of the SDK headers,
`#define SPI_FLASH_SEC_SIZE 4096`. -/
theorem geometry_4096 {b : Build} (hsec : b.SPI_FLASH_SEC_SIZE = 4096) : SectorGeometry b := by
  refine ⟨⟨12, by decide, by rw [hsec]; rfl⟩, ?_⟩
  rw [hsec]
  unfold pageLen PAGELEN
  cases b.esp32
  · exact ⟨64, by decide⟩
  · exact ⟨1, by decide⟩

/-- C5: with the sector size of the SDK headers, `SPI_FLASH_SEC_SIZE = 4096` (a
multiple of `PAGELEN` in both builds), a session that enters `FLST_WRITE` with
an empty page buffer at a base address that is a multiple of the sector size,
for an image of `N ≥ 1` bytes, and receives at least `N` bytes in any chunking,
makes `ceil(N/S)` erases, one for each of the consecutive sectors of the image,
each sector once; the erased sectors are exactly the sectors `address / S` of
the page writes.  The address and `N` are of type `int`; sector `j` of the
image starts at `base + j*S` reduced to 32 bits. -/
theorem erase_once_per_sector (b : Build) (r : Request) (st : UploadState)
    (cs : List (List Byte)) (n : Nat) (hsec : b.SPI_FLASH_SEC_SIZE = 4096) (hg : Good b st)
    (hst : st.state = FLST_WRITE) (hp : st.pagePos = 0) (hl : st.len = n) (hn : 1 ≤ n)
    (hint : n ≤ 2147483647) (hall : n ≤ cs.flatten.length)
    (hbase : (b.SPI_FLASH_SEC_SIZE : Int) ∣ st.address)
    (hadr : -2147483648 ≤ st.address ∧ st.address ≤ 2147483647) :
    ∃ st' ops, session b r cs (st, []) = .done (st', ops) ∧
      eraseSectors ops =
        (List.range ((n + b.SPI_FLASH_SEC_SIZE - 1) / b.SPI_FLASH_SEC_SIZE)).map
          (fun (j : Nat) => toInt32 (st.address + (j : Int) * (b.SPI_FLASH_SEC_SIZE : Int)) /
            (b.SPI_FLASH_SEC_SIZE : Int)) ∧
      (eraseSectors ops).Nodup ∧
      ∀ s, s ∈ eraseSectors ops ↔
        s ∈ (writeAddrs ops).map (fun a => a / (b.SPI_FLASH_SEC_SIZE : Int)) := by
  have hgeo := geometry_4096 hsec
  obtain ⟨st', h1, _⟩ := session_image r cs hg hst hp hl hn hall
  obtain ⟨m, hm⟩ := hgeo.pages
  have hS := sector_pos hgeo
  have hm0 : 0 < m := by
    rcases Nat.eq_zero_or_pos m with h | h
    · rw [h, Nat.mul_zero] at hm; omega
    · exact h
  obtain ⟨e1, e2⟩ := imageOps_sectors hgeo hm _ (pageCount b n) st.address (cs.flatten.take n)
    (le_refl _) (pageCount_pos b (by omega)) hbase hadr.1 hadr.2
  rw [pageCount_sectors b hm0 n, ← hm] at e1 e2
  refine ⟨st', _, h1, e1, ?_, fun s => ?_⟩
  · rw [e1]
    apply List.Nodup.map_on _ (List.nodup_range _)
    intro i hi j hj hij
    rw [List.mem_range] at hi hj
    rw [hsec] at hi hj hij hbase
    obtain ⟨q, hq⟩ := hbase
    simp only [toInt32] at hij
    push_cast at hij hq
    omega
  · rw [e2 s, e1]

/-- Witness for C5: an image of 4102 bytes written from 0x7ffff000, the last
4096-byte sector below 2^31, with 64-byte pages: two erases, of sector 0x7ffff
and, after the address wrapped around, of sector -0x80000. -/
theorem erase_once_per_sector_witness :
    exBuild.SPI_FLASH_SEC_SIZE = 4096 ∧
    (exBuild.SPI_FLASH_SEC_SIZE : Int) ∣ exTopState.address ∧
    (List.range ((4102 + exBuild.SPI_FLASH_SEC_SIZE - 1) / exBuild.SPI_FLASH_SEC_SIZE)).map
        (fun (j : Nat) =>
          toInt32 (exTopState.address + (j : Int) * (exBuild.SPI_FLASH_SEC_SIZE : Int)) /
            (exBuild.SPI_FLASH_SEC_SIZE : Int)) = [524287, -524288] ∧
    ∃ st' ops, session exBuild exRequestFw [List.replicate 4102 9] (exTopState, []) =
        .done (st', ops) ∧
      eraseSectors ops =
        (List.range ((4102 + exBuild.SPI_FLASH_SEC_SIZE - 1) / exBuild.SPI_FLASH_SEC_SIZE)).map
          (fun (j : Nat) =>
            toInt32 (exTopState.address + (j : Int) * (exBuild.SPI_FLASH_SEC_SIZE : Int)) /
              (exBuild.SPI_FLASH_SEC_SIZE : Int)) ∧
      (eraseSectors ops).Nodup ∧
      ∀ s, s ∈ eraseSectors ops ↔
        s ∈ (writeAddrs ops).map (fun a => a / (exBuild.SPI_FLASH_SEC_SIZE : Int)) :=
  ⟨rfl, ⟨524287, by decide⟩, by decide,
    erase_once_per_sector exBuild exRequestFw exTopState [List.replicate 4102 9] 4102 rfl
      ⟨by decide, by decide, by decide, by decide, by decide⟩ rfl rfl rfl
      (by decide) (by decide)
      (le_of_eq (by rw [List.flatten_cons, List.flatten_nil, List.append_nil,
        List.length_replicate]))
      ⟨524287, by decide⟩ ⟨by decide, by decide⟩⟩

/-! ## Terminal phases and header predicates -/

/-- C15: in `FLST_DONE` or `FLST_ERROR` a further chunk of any length leaves
the loop with `dataLen = 0`, the `data` pointer, every field of the session
state and the flash log unchanged; so does any sequence of further chunks. -/
theorem done_error_absorbing (b : Build) (r : Request) (buf : List Byte)
    (st : UploadState) (ops : List FlashOp)
    (h : st.state = FLST_DONE ∨ st.state = FLST_ERROR) :
    loop b r buf (fuelFor buf.length) ⟨st, 0, buf.length, ops⟩ = .done ⟨st, 0, 0, ops⟩ ∧
    cgiUploadFirmware b r buf (st, ops) = .done (st, ops) ∧
    ∀ cs : List (List Byte), session b r cs (st, ops) = .done (st, ops) := by
  have hloop : ∀ c : List Byte,
      loop b r c (fuelFor c.length) ⟨st, 0, c.length, ops⟩ = .done ⟨st, 0, 0, ops⟩ := by
    intro c
    have hf : fuelFor c.length = (2 * c.length + 7) + 1 := by simp only [fuelFor]
    rw [hf, loop_succ]
    by_cases hz : (c.length : Int) = 0
    · simp only [hz, if_true]
    · rw [if_neg hz]
      have hb : loopBody b r c ⟨st, 0, c.length, ops⟩ = some ⟨st, 0, 0, ops⟩ := by
        rcases h with h | h <;> simp [loopBody, h]
      simp only [hb]
      exact loop_done_of_zero b r c _ _ rfl
  have hcall : ∀ c : List Byte, cgiUploadFirmware b r c (st, ops) = .done (st, ops) := by
    intro c
    simp only [cgiUploadFirmware, hloop c]
  refine ⟨hloop buf, hcall buf, ?_⟩
  intro cs
  induction cs with
  | nil => rfl
  | cons c cs ih => simp only [session, hcall c, ih]

/-- Witness for C15: a session in `FLST_ERROR` receives ten more bytes. -/
theorem done_error_absorbing_witness :
    loop exBuild exRequestFw exBody10 (fuelFor exBody10.length)
        ⟨fail (initState exBuild) "Invalid flash image type!", 0, exBody10.length, []⟩ =
      .done ⟨fail (initState exBuild) "Invalid flash image type!", 0, 0, []⟩ ∧
    cgiUploadFirmware exBuild exRequestFw exBody10
        (fail (initState exBuild) "Invalid flash image type!", []) =
      .done (fail (initState exBuild) "Invalid flash image type!", []) ∧
    ∀ cs : List (List Byte),
      session exBuild exRequestFw cs (fail (initState exBuild) "Invalid flash image type!", []) =
        .done (fail (initState exBuild) "Invalid flash image type!", []) :=
  done_error_absorbing exBuild exRequestFw exBody10
    (fail (initState exBuild) "Invalid flash image type!") [] (Or.inr rfl)

theorem byteAt_getD {buf : List Byte} {i : Nat} (h : i < buf.length) :
    byteAt buf i = some (((buf.getD i 0).val : Nat) : Int) := by
  simp [byteAt, List.getD, List.getElem?_eq_getElem h]

theorem u16At_getD {buf : List Byte} {i : Nat} (h : i + 1 < buf.length) :
    u16At buf i =
      some ((((buf.getD i 0).val : Nat) : Int) + 256 * (((buf.getD (i + 1) 0).val : Nat) : Int)) := by
  simp only [u16At]
  rw [byteAt_getD (by omega), byteAt_getD (by omega)]
  rfl

theorem u32At_getD {buf : List Byte} {i : Nat} (h : i + 3 < buf.length) :
    u32At buf i =
      some ((((buf.getD i 0).val : Nat) : Int) + 256 * (((buf.getD (i + 1) 0).val : Nat) : Int) +
        65536 * (((buf.getD (i + 2) 0).val : Nat) : Int) +
        16777216 * (((buf.getD (i + 3) 0).val : Nat) : Int)) := by
  simp only [u32At]
  rw [byteAt_getD (by omega), byteAt_getD (by omega), byteAt_getD (by omega),
    byteAt_getD (by omega)]
  rfl

/-- C20: in the non-ESP32 build, on a buffer of at least 12 bytes
`checkBinHeader` returns 1 exactly when byte 0 is 0xEA, byte 1 is 4, byte 2 is
at most 3, byte 3 is at most 0x40, the little-endian 16-bit value at offset 6
is 0x4010 and the little-endian 32-bit value at offset 8 is 0; otherwise it
returns 0. -/
theorem checkBinHeader_esp8266 (b : Build) (buf : List Byte) (hb : b.esp32 = false)
    (hlen : 12 ≤ buf.length) :
    checkBinHeader b buf = some (decide (
      (buf.getD 0 0).val = 0xEA ∧ (buf.getD 1 0).val = 4 ∧ (buf.getD 2 0).val ≤ 3 ∧
      (buf.getD 3 0).val ≤ 0x40 ∧
      (buf.getD 6 0).val + 256 * (buf.getD 7 0).val = 0x4010 ∧
      (buf.getD 8 0).val + 256 * (buf.getD 9 0).val + 65536 * (buf.getD 10 0).val +
        16777216 * (buf.getD 11 0).val = 0)) := by
  simp only [checkBinHeader, hb, Bool.false_eq_true, if_false]
  rw [byteAt_getD (by omega), byteAt_getD (by omega), byteAt_getD (by omega),
    byteAt_getD (by omega), u16At_getD (by omega), u32At_getD (by omega)]
  simp only [Option.bind_eq_bind, Option.some_bind, Option.pure_def, Nat.reduceAdd]
  split_ifs <;> simp only [Option.some.injEq, Bool.true_eq, Bool.false_eq, decide_eq_true_eq,
    decide_eq_false_iff_not] <;> omega

/-- Witness for C20: the header of `exHeader8266` is accepted. -/
theorem checkBinHeader_esp8266_witness :
    checkBinHeader exBuild exHeader8266 = some (decide (
      (exHeader8266.getD 0 0).val = 0xEA ∧ (exHeader8266.getD 1 0).val = 4 ∧
      (exHeader8266.getD 2 0).val ≤ 3 ∧ (exHeader8266.getD 3 0).val ≤ 0x40 ∧
      (exHeader8266.getD 6 0).val + 256 * (exHeader8266.getD 7 0).val = 0x4010 ∧
      (exHeader8266.getD 8 0).val + 256 * (exHeader8266.getD 9 0).val +
        65536 * (exHeader8266.getD 10 0).val + 16777216 * (exHeader8266.getD 11 0).val = 0)) :=
  checkBinHeader_esp8266 exBuild exHeader8266 rfl (by decide)

/-- C13: the handler goes on after a failed flash call. Both
`spi_flash_erase_sector` and `spi_flash_write` are called as statements and the
value they return is dropped, so with a driver that reports a failure for every
call a 100-byte firmware image is still written in full: after the failed erase
of sector 1 and the failed write of the first page, the second page is written,
the session ends in `FLST_DONE` and not in `FLST_ERROR`, and the response is
status 200 with no error text. -/
theorem flash_failure_does_not_stop_upload :
    (flashLog (upload exBuild exRequestTwoPages
      [exHeader8266, exHeader8266 ++ exBody10 ++ exBody10])).map
        (fun ops => observe exDriverFail ops) =
      some [(FlashOp.erase 1, 1),
        (FlashOp.write 0x1000
          ((exHeader8266 ++ (exHeader8266 ++ exBody10 ++ exBody10)).take 64), 1),
        (FlashOp.write 0x1040
          ((exHeader8266 ++ (exHeader8266 ++ exBody10 ++ exBody10)).drop 64), 1)] ∧
    (finalState (upload exBuild exRequestTwoPages
      [exHeader8266, exHeader8266 ++ exBody10 ++ exBody10])).map (fun st => st.state) =
        some FLST_DONE ∧
    (finalState (upload exBuild exRequestTwoPages
      [exHeader8266, exHeader8266 ++ exBody10 ++ exBody10])).map (response exBuild) =
        some ⟨200, "", false⟩ := by
  refine ⟨?_, ?_, ?_⟩ <;> set_option maxRecDepth 100000 in decide

/-- C19 as stated fails: a first chunk of 32 bytes that holds "EHUG" and the
tag field of a combined image is accepted up to the size test, and the handler
then reads `h->len1` at offset 32, outside the chunk; `dataLen` after the
subtraction of `sizeof(OtaHeader)` is 32 - 40 < 0. -/
theorem header_read_outside_chunk :
    32 ≤ exChunk32.length ∧
    tagOf exChunk32 4 = some [0x78] ∧
    i32At exChunk32 32 = none ∧
    startPhase exBuild exRequestZero exChunk32
      ⟨initState exBuild, 0, exChunk32.length, []⟩ = none ∧
    (exChunk32.length : Int) - sizeofOtaHeader < 0 := by
  refine ⟨by decide, by decide, by decide, by decide, by decide⟩

/-- C19 (amended): for every first chunk of at least `sizeof(OtaHeader)` = 40
bytes handed to the handler in `FLST_START`, the classification and the header
parsing read only bytes of the chunk (the iteration returns), and the number of
chunk bytes left is the chunk length or, after a combined-image header was
skipped, the chunk length minus 40; it is not negative, and `data` and
`dataLen` still add up to the chunk length. -/
theorem header_fits_first_chunk (b : Build) (r : Request) (c : List Byte)
    (st : UploadState) (ops : List FlashOp) (hst : st.state = FLST_START)
    (hlen : 40 ≤ c.length) :
    ∃ L1, startPhase b r c ⟨st, 0, c.length, ops⟩ = some L1 ∧
      0 ≤ L1.dataLen ∧
      ((L1.data = 0 ∧ L1.dataLen = c.length) ∨
        (L1.data = sizeofOtaHeader ∧ L1.dataLen = c.length - sizeofOtaHeader ∧
          c.take 4 = magicEHUG)) ∧
      L1.ops = ops := by
  obtain ⟨L1, h1, hops, _, _, _, hcase⟩ :=
    startPhase_cases b r ⟨st, 0, c.length, ops⟩ rfl hlen hst
  refine ⟨L1, h1, ?_, ?_, hops⟩
  · rcases hcase with ⟨_, e2, _⟩ | ⟨_, e2, _⟩
    · simp only at e2; omega
    · simp only at e2; omega
  · rcases hcase with ⟨e1, e2, _⟩ | ⟨e1, e2, e3, _⟩
    · exact Or.inl ⟨e1, e2⟩
    · exact Or.inr ⟨e1, e2, e3⟩

/-- Witness for C19 (amended): the 40-byte header `exHeaderSmall`. -/
theorem header_fits_first_chunk_witness :
    ∃ L1, startPhase exBuild exRequestSmall exHeaderSmall
        ⟨initState exBuild, 0, exHeaderSmall.length, []⟩ = some L1 ∧
      0 ≤ L1.dataLen ∧
      ((L1.data = 0 ∧ L1.dataLen = exHeaderSmall.length) ∨
        (L1.data = sizeofOtaHeader ∧ L1.dataLen = exHeaderSmall.length - sizeofOtaHeader ∧
          exHeaderSmall.take 4 = magicEHUG)) ∧
      L1.ops = [] :=
  header_fits_first_chunk exBuild exRequestSmall exHeaderSmall (initState exBuild) [] rfl
    (by decide)

/-- C18: `check_bin_header` of route_flash.c and `checkBinHeader` of the
`ESP32` build are the same function of the buffer, and on a buffer of at least
28 bytes they return 1 exactly when byte 0 is 0xE9, the little-endian 16-bit
value at offset 6 is 0x4008 and the little-endian 32-bit value `a` at offset 24
is 0 or satisfies `0x3F000000 < a ≤ 0x40400000`; otherwise they return 0. -/
theorem checkBinHeader_esp32 (b : Build) (buf : List Byte) (hb : b.esp32 = true)
    (hlen : 28 ≤ buf.length) :
    (∀ any : List Byte, RouteFlash.check_bin_header any = checkBinHeader b any) ∧
    checkBinHeader b buf = some (decide (
      (buf.getD 0 0).val = 0xE9 ∧
      (buf.getD 6 0).val + 256 * (buf.getD 7 0).val = 0x4008 ∧
      ((buf.getD 24 0).val + 256 * (buf.getD 25 0).val + 65536 * (buf.getD 26 0).val +
          16777216 * (buf.getD 27 0).val = 0 ∨
        (0x3F000000 < (buf.getD 24 0).val + 256 * (buf.getD 25 0).val +
            65536 * (buf.getD 26 0).val + 16777216 * (buf.getD 27 0).val ∧
          (buf.getD 24 0).val + 256 * (buf.getD 25 0).val + 65536 * (buf.getD 26 0).val +
            16777216 * (buf.getD 27 0).val ≤ 0x40400000)))) := by
  constructor
  · intro any
    simp [RouteFlash.check_bin_header, checkBinHeader, hb]
  · simp only [checkBinHeader, hb, if_true]
    rw [byteAt_getD (by omega), u16At_getD (by omega), u32At_getD (by omega)]
    simp only [Option.bind_eq_bind, Option.some_bind, Option.pure_def, Nat.reduceAdd]
    split_ifs <;> simp only [Option.some.injEq, Bool.true_eq, Bool.false_eq, decide_eq_true_eq,
      decide_eq_false_iff_not] <;> omega

/-- Witness for C18: a header whose entry point is 0x40400000, the upper end of
the window. -/
theorem checkBinHeader_esp32_witness :
    (∀ any : List Byte, RouteFlash.check_bin_header any = checkBinHeader exBuild32 any) ∧
    checkBinHeader exBuild32 exHeaderTop = some (decide (
      (exHeaderTop.getD 0 0).val = 0xE9 ∧
      (exHeaderTop.getD 6 0).val + 256 * (exHeaderTop.getD 7 0).val = 0x4008 ∧
      ((exHeaderTop.getD 24 0).val + 256 * (exHeaderTop.getD 25 0).val +
          65536 * (exHeaderTop.getD 26 0).val + 16777216 * (exHeaderTop.getD 27 0).val = 0 ∨
        (0x3F000000 < (exHeaderTop.getD 24 0).val + 256 * (exHeaderTop.getD 25 0).val +
            65536 * (exHeaderTop.getD 26 0).val + 16777216 * (exHeaderTop.getD 27 0).val ∧
          (exHeaderTop.getD 24 0).val + 256 * (exHeaderTop.getD 25 0).val +
            65536 * (exHeaderTop.getD 26 0).val + 16777216 * (exHeaderTop.getD 27 0).val ≤
              0x40400000)))) :=
  checkBinHeader_esp32 exBuild32 exHeaderTop rfl (by decide)

/-! ## Classification at `FLST_START` -/

/-- C21: on a buffer of at least 4 bytes `checkEspfsHeader` and
`check_espfs_header` return 1 exactly when the first four bytes are "ESfs",
whatever the later bytes are; on a filesystem endpoint with
`post->len ≤ def->fwSize` the `FLST_START` iteration then goes to `FLST_WRITE`
with `address = def->fw1Pos` and `len = post->len`, and to `FLST_ERROR`
otherwise. -/
theorem espfs_classification (b : Build) (r : Request) (buf : List Byte)
    (st : UploadState) (n : Int) (ops : List FlashOp) (hlen : 4 ≤ buf.length)
    (hty : r.cgiArg.type = CGIFLASH_TYPE_ESPFS) (hcap : r.postLen ≤ r.cgiArg.fwSize) :
    checkEspfsHeader buf = some (decide (buf.take 4 = magicESfs)) ∧
    RouteFlash.check_espfs_header buf = some (decide (buf.take 4 = magicESfs)) ∧
    (∀ rest : List Byte, checkEspfsHeader (buf.take 4 ++ rest) = checkEspfsHeader buf) ∧
    startPhase b r buf ⟨st, 0, n, ops⟩ =
      some ⟨if buf.take 4 = magicESfs then
          { st with len := r.postLen, address := r.cgiArg.fw1Pos, state := FLST_WRITE }
        else fail st "Invalid flash image type!", 0, n, ops⟩ := by
  have hbeq : (buf.take 4 == magicESfs) = decide (buf.take 4 = magicESfs) := by
    by_cases h : buf.take 4 = magicESfs <;> simp [h]
  have h1 : checkEspfsHeader buf = some (decide (buf.take 4 = magicESfs)) := by
    rw [checkEspfsHeader, memcmp4_eq _ hlen, hbeq]
  have hnfw : ¬ (CGIFLASH_TYPE_ESPFS = CGIFLASH_TYPE_FW) := by decide
  refine ⟨h1, ?_, ?_, ?_⟩
  · rw [RouteFlash.check_espfs_header, memcmp4_eq _ hlen, hbeq]
  · intro rest
    have hl : 4 ≤ (buf.take 4 ++ rest).length := by
      simp only [List.length_append, List.length_take]; omega
    rw [h1, checkEspfsHeader, memcmp4_eq _ hl, List.take_append_of_le_length (by
      simp only [List.length_take]; omega), List.take_take]
    simp only [min_self]
    by_cases h : buf.take 4 = magicESfs <;> simp [h]
  · have hd : decide (r.postLen > r.cgiArg.fwSize) = false := decide_eq_false (by omega)
    simp only [startPhase, hnfw, hty, if_true, if_false, h1, Option.pure_def,
      Option.bind_eq_bind, Option.some_bind, Bool.false_eq_true, startEspfs, hd, acceptSingle]
    by_cases h : buf.take 4 = magicESfs <;> simp [h]

/-- Witness for C21: the "ESfs" image of `exImageFs` on the endpoint
`exDefFs`. -/
theorem espfs_classification_witness :
    checkEspfsHeader exImageFs = some (decide (exImageFs.take 4 = magicESfs)) ∧
    RouteFlash.check_espfs_header exImageFs = some (decide (exImageFs.take 4 = magicESfs)) ∧
    (∀ rest : List Byte,
      checkEspfsHeader (exImageFs.take 4 ++ rest) = checkEspfsHeader exImageFs) ∧
    startPhase exBuild exRequestFs exImageFs ⟨initState exBuild, 0, 40, []⟩ =
      some ⟨if exImageFs.take 4 = magicESfs then
          { initState exBuild with
            len := exRequestFs.postLen, address := exRequestFs.cgiArg.fw1Pos,
            state := FLST_WRITE }
        else fail (initState exBuild) "Invalid flash image type!", 0, 40, []⟩ :=
  espfs_classification exBuild exRequestFs exImageFs (initState exBuild) 40 [] (by decide) rfl
    (by decide)

theorem take4_first {c : List Byte} {m : List Byte} {x : Byte} (h : c.take 4 = m)
    (hm : m[0]? = some x) : byteAt c 0 = some ((x.val : Nat) : Int) := by
  have h0 : (c.take 4)[0]? = some x := by rw [h]; exact hm
  rw [List.getElem?_take] at h0
  simp only [Nat.lt_add_one, Nat.ofNat_pos, if_true] at h0
  simp only [byteAt, h0]
  rfl

theorem not_bin_of_esfs {b : Build} {c : List Byte} (h : c.take 4 = magicESfs) :
    checkBinHeader b c ≠ some true := by
  intro hb
  have h0 := take4_first h (x := 0x45) rfl
  rcases checkBinHeader_first hb with h1 | h1 <;> rw [h0] at h1 <;> exact absurd h1 (by decide)

theorem not_esfs_of_bin {b : Build} {c : List Byte} (h : checkBinHeader b c = some true) :
    c.take 4 ≠ magicESfs := fun he => not_bin_of_esfs he h

/-- The `FLST_START` iteration on a first chunk that is no image for the
endpoint. -/
theorem start_unrecognized {b : Build} {r : Request} {c : List Byte} (hlen : 28 ≤ c.length)
    (hun : Unrecognized b r c) (st : UploadState) (n : Int) (ops : List FlashOp) :
    startPhase b r c ⟨st, 0, n, ops⟩ =
      some ⟨fail st "Invalid flash image type!", 0, n, ops⟩ := by
  obtain ⟨h1, h2, h3⟩ := hun
  obtain ⟨v, hv⟩ := checkBinHeader_isSome b c hlen
  have hbeq : ∀ m : List Byte, (c.take 4 == m) = decide (c.take 4 = m) := by
    intro m
    by_cases h : c.take 4 = m <;> simp [h]
  simp only [startPhase, checkEspfsHeader]
  rw [memcmp4_eq _ (by omega), memcmp4_eq _ (by omega), hv, hbeq, hbeq]
  have hd1 : ¬ (CGIFLASH_TYPE_FW = CGIFLASH_TYPE_ESPFS) := by decide
  have hd2 : ¬ (CGIFLASH_TYPE_ESPFS = CGIFLASH_TYPE_FW) := by decide
  by_cases hfw : r.cgiArg.type = CGIFLASH_TYPE_FW
  · have hfs : ¬ (r.cgiArg.type = CGIFLASH_TYPE_ESPFS) := by rw [hfw]; decide
    have e1 : ¬ (c.take 4 = magicEHUG) := fun h => h1 ⟨hfw, h⟩
    have e2 : v = false := by
      cases v
      · rfl
      · exact absurd ⟨hfw, hv⟩ h2
    simp [hfw, hd1, e1, e2]
  · by_cases hfs : r.cgiArg.type = CGIFLASH_TYPE_ESPFS
    · have e3 : ¬ (c.take 4 = magicESfs) := fun h => h3 ⟨hfs, h⟩
      simp [hfs, hd2, e3]
    · simp [hfw, hfs]

/-- C22: a first chunk that, for the endpoint's `def->type`, is neither an
"EHUG" file nor a valid firmware header (firmware endpoint) nor an "ESfs" file
(filesystem endpoint) puts the session in `FLST_ERROR` with the message
"Invalid flash image type!", and no flash call is made, whatever chunks follow.
An "ESfs" file sent to a firmware endpoint and a valid firmware header sent to
a filesystem endpoint are such chunks. -/
theorem unrecognized_rejected (b : Build) (r : Request) (c : List Byte)
    (t : List (List Byte)) (hlen : 28 ≤ c.length)
    (hun : Unrecognized b r c ∨
      (r.cgiArg.type = CGIFLASH_TYPE_FW ∧ c.take 4 = magicESfs) ∨
      (r.cgiArg.type = CGIFLASH_TYPE_ESPFS ∧ checkBinHeader b c = some true)) :
    upload b r (c :: t) = .done (fail (initState b) "Invalid flash image type!", []) := by
  have hun' : Unrecognized b r c := by
    rcases hun with h | ⟨hfw, he⟩ | ⟨hfs, hb⟩
    · exact h
    · refine ⟨?_, ?_, ?_⟩
      · rintro ⟨_, h⟩
        rw [he] at h
        revert h
        decide
      · rintro ⟨_, h⟩
        exact not_bin_of_esfs he h
      · rintro ⟨h, _⟩
        rw [hfw] at h
        revert h
        decide
    · refine ⟨?_, ?_, ?_⟩
      · rintro ⟨h, _⟩
        rw [hfs] at h
        revert h
        decide
      · rintro ⟨h, _⟩
        rw [hfs] at h
        revert h
        decide
      · rintro ⟨_, h⟩
        exact not_esfs_of_bin hb h
  have hne : c ≠ [] := by
    intro h; subst h; simp at hlen
  have h := upload_first (b := b) r t hne
    (start_unrecognized hlen hun' (initState b) c.length [])
    (fail_good (initState_good b) _) (by simp [fail]) ⟨le_refl _, by simp, by simp⟩
  rw [h]
  simp only
  rw [feedL_done _ (Or.inr rfl)]

/-- Witness for C22: the "ESfs" file `exImageFs` sent to the firmware
endpoint `exDef`. -/
theorem unrecognized_rejected_witness :
    exRequestFw.cgiArg.type = CGIFLASH_TYPE_FW ∧ exImageFs.take 4 = magicESfs ∧
    upload exBuild exRequestFw [exImageFs, exBody10] =
      .done (fail (initState exBuild) "Invalid flash image type!", []) :=
  ⟨rfl, by decide,
    unrecognized_rejected exBuild exRequestFw exImageFs [exBody10] (by decide)
      (Or.inr (Or.inl ⟨rfl, by decide⟩))⟩

/-! ## The skip step -/

/-- C25: in `FLST_SKIP` with `skip = s ≥ 0` and `n > 0` bytes left of the
chunk, the iteration makes no flash call; if `s > n` it drops the rest of the
chunk, leaves `skip = s - n` and stays in `FLST_SKIP`; otherwise it moves
`data` past `s` bytes, sets `skip = 0`, goes to `FLST_WRITE` when `len ≠ 0` and
to `FLST_DONE` when `len = 0`, and the loop goes on with the `n - s` bytes that
remain. -/
theorem skip_step (b : Build) (r : Request) (buf : List Byte) (L : Loop)
    (hst : L.st.state = FLST_SKIP) (hs : 0 ≤ L.st.skip) (hn : 0 < L.dataLen) :
    (L.st.skip > L.dataLen →
      loopBody b r buf L =
        some ⟨{ L.st with skip := L.st.skip - L.dataLen }, L.data, 0, L.ops⟩) ∧
    (L.st.skip ≤ L.dataLen →
      loopBody b r buf L =
        some ⟨{ L.st with
                skip := 0, state := if L.st.len ≠ 0 then FLST_WRITE else FLST_DONE },
          L.data + L.st.skip, L.dataLen - L.st.skip, L.ops⟩ ∧
      0 ≤ L.dataLen - L.st.skip ∧ L.data ≤ L.data + L.st.skip ∧
      ∀ k : Nat, loop b r buf (k + 1) L =
        loop b r buf k ⟨{ L.st with
                skip := 0, state := if L.st.len ≠ 0 then FLST_WRITE else FLST_DONE },
          L.data + L.st.skip, L.dataLen - L.st.skip, L.ops⟩) := by
  constructor
  · intro h
    simp only [loopBody, hst, skipPhase, if_pos h, skipAll]
  · intro h
    have hb : loopBody b r buf L =
        some ⟨{ L.st with
                skip := 0, state := if L.st.len ≠ 0 then FLST_WRITE else FLST_DONE },
          L.data + L.st.skip, L.dataLen - L.st.skip, L.ops⟩ := by
      simp only [loopBody, hst, skipPhase, if_neg (not_lt.mpr h), skipDone]
    refine ⟨hb, by omega, by omega, ?_⟩
    intro k
    rw [loop_succ, if_neg (by omega), hb]

/-- Witness for C25: 3 bytes to skip and 10 bytes at hand. -/
theorem skip_step_witness :
    (exSkipState.skip > (10 : Int) →
      loopBody exBuild exRequestFw exBody10 ⟨exSkipState, 0, 10, []⟩ =
        some ⟨{ exSkipState with skip := exSkipState.skip - 10 }, 0, 0, []⟩) ∧
    (exSkipState.skip ≤ (10 : Int) →
      loopBody exBuild exRequestFw exBody10 ⟨exSkipState, 0, 10, []⟩ =
        some ⟨{ exSkipState with
                skip := 0, state := if exSkipState.len ≠ 0 then FLST_WRITE else FLST_DONE },
          0 + exSkipState.skip, 10 - exSkipState.skip, []⟩ ∧
      0 ≤ (10 : Int) - exSkipState.skip ∧ (0 : Int) ≤ 0 + exSkipState.skip ∧
      ∀ k : Nat, loop exBuild exRequestFw exBody10 (k + 1) ⟨exSkipState, 0, 10, []⟩ =
        loop exBuild exRequestFw exBody10 k ⟨{ exSkipState with
                skip := 0, state := if exSkipState.len ≠ 0 then FLST_WRITE else FLST_DONE },
          0 + exSkipState.skip, 10 - exSkipState.skip, []⟩) :=
  skip_step exBuild exRequestFw exBody10 ⟨exSkipState, 0, 10, []⟩ rfl (by decide) (by decide)

/-! ## An empty first image -/

/-- C26, at a failing input: a combined image with `len1 = 0` and `len2 = 4`
on a device that flashes the first image.  The four bytes after the header
reach `FLST_WRITE` with `len = 0`: sector 1 is erased and a page write of no
bytes is made at 0x1000. -/
theorem empty_image_erases_sector :
    flashLog (upload exBuild exRequestEmptyFirst [exHeaderEmptyFirst ++ [1, 2, 3, 4]]) =
      some [FlashOp.erase 1, FlashOp.write 0x1000 []] ∧
    (finalState (upload exBuild exRequestEmptyFirst
      [exHeaderEmptyFirst ++ [1, 2, 3, 4]])).map (fun st => st.state) = some FLST_DONE := by
  constructor <;> set_option maxRecDepth 100000 in decide

/-! ## The final response -/

/-- A property of the session state and flash log that every iteration of the
loop keeps holds after every sequence of calls. -/
theorem session_lift (b : Build) (r : Request) (P : UploadState × List FlashOp → Prop)
    (hstep : ∀ (buf : List Byte) (L L1 : Loop), loopBody b r buf L = some L1 →
      P (L.st, L.ops) → P (L1.st, L1.ops)) :
    ∀ (cs : List (List Byte)) (s s1 : UploadState × List FlashOp), P s →
      session b r cs s = .done s1 → P s1 := by
  have hloop : ∀ (buf : List Byte) (n : Nat) (L L1 : Loop), P (L.st, L.ops) →
      loop b r buf n L = .done L1 → P (L1.st, L1.ops) := by
    intro buf n
    induction n with
    | zero =>
      intro L L1 hi h
      simp only [loop] at h
      split at h
      · cases h; exact hi
      · cases h
    | succ n ih =>
      intro L L1 hi h
      rw [loop_succ] at h
      split at h
      · cases h; exact hi
      · cases hb : loopBody b r buf L with
        | none => simp [hb] at h
        | some L2 =>
          simp only [hb] at h
          exact ih L2 L1 (hstep buf L L2 hb hi) h
  intro cs
  induction cs with
  | nil =>
    intro s s1 hi h
    simp only [session, Outcome.done.injEq] at h
    rw [← h]; exact hi
  | cons c cs ih =>
    intro s s1 hi h
    simp only [session] at h
    cases hc : cgiUploadFirmware b r c s with
    | done s2 =>
      rw [hc] at h
      refine ih s2 s1 ?_ h
      unfold cgiUploadFirmware at hc
      cases hl : loop b r c (fuelFor c.length) ⟨s.1, 0, c.length, s.2⟩ with
      | done L =>
        rw [hl] at hc
        simp only [Outcome.done.injEq] at hc
        rw [← hc]
        exact hloop c _ _ L hi hl
      | fault => rw [hl] at hc; cases hc
      | outOfFuel => rw [hl] at hc; cases hc
    | fault => rw [hc] at h; cases h
    | outOfFuel => rw [hc] at h; cases h

theorem acceptSingle_err (r : Request) (tooLarge : Bool) (addr : Int) (st : UploadState) :
    (acceptSingle r tooLarge addr st).state ≠ FLST_ERROR →
      (acceptSingle r tooLarge addr st).err = st.err := by
  unfold acceptSingle
  split
  · intro hne; exact absurd rfl hne
  · intro _; rfl

theorem startCombined_err {b : Build} {r : Request} {buf : List Byte} {L L1 : Loop}
    (h : startCombined b r buf L = some L1) (hne : L1.st.state ≠ FLST_ERROR) :
    L1.st.err = L.st.err := by
  simp only [startCombined] at h
  split at h
  · cases h; exact absurd rfl hne
  · cases h4 : tagOf buf (L.data + 4) with
    | none => simp [h4] at h
    | some tag =>
      simp only [h4, Option.bind_eq_bind, Option.some_bind] at h
      have herr : (sizeCheck r (tagCheck r L.st tag)).state ≠ FLST_ERROR →
          (sizeCheck r (tagCheck r L.st tag)).err = L.st.err := by
        rcases checks_cases r L.st tag with e | ⟨msg, e⟩ <;> rw [e]
        · intro _; rfl
        · intro hc; exact absurd rfl hc
      split at h
      · rename_i hok
        cases h5 : i32At buf (L.data + 32) with
        | none => simp [h5] at h
        | some l1 =>
          cases h6 : i32At buf (L.data + 36) with
          | none => simp [h5, h6] at h
          | some l2 =>
            simp only [h5, h6, Option.some_bind, Option.pure_def, Option.some.injEq] at h
            rw [← h]
            simp only [selectImage]
            split <;> exact herr hok
      · simp only [Option.pure_def, Option.some.injEq] at h
        rw [← h] at hne ⊢
        exact herr hne

theorem startPhase_err {b : Build} {r : Request} {buf : List Byte} {L L1 : Loop}
    (h : startPhase b r buf L = some L1) (hne : L1.st.state ≠ FLST_ERROR) :
    L1.st.err = L.st.err := by
  simp only [startPhase] at h
  generalize (if r.cgiArg.type = CGIFLASH_TYPE_FW then memcmp4 buf L.data magicEHUG
    else pure false) = x1 at h
  generalize (if r.cgiArg.type = CGIFLASH_TYPE_FW then checkBinHeader b buf
    else pure false) = x2 at h
  generalize (if r.cgiArg.type = CGIFLASH_TYPE_ESPFS then checkEspfsHeader buf
    else pure false) = x3 at h
  rcases x1 with _ | x1
  · simp at h
  · simp only [Option.bind_eq_bind, Option.some_bind] at h
    cases x1
    · simp only [Bool.false_eq_true, if_false] at h
      rcases x2 with _ | x2
      · simp at h
      · simp only [Option.some_bind] at h
        cases x2
        · simp only [Bool.false_eq_true, if_false] at h
          rcases x3 with _ | x3
          · simp at h
          · cases x3
            · simp only [Option.some_bind, Bool.false_eq_true, if_false, Option.pure_def,
                Option.some.injEq] at h
              rw [← h] at hne
              exact absurd rfl hne
            · simp only [Option.some_bind, if_true, Option.pure_def, Option.some.injEq] at h
              rw [← h] at hne ⊢
              exact acceptSingle_err _ _ _ _ hne
        · simp only [if_true, Option.pure_def, Option.some.injEq] at h
          rw [← h] at hne ⊢
          unfold startFirmware at hne ⊢
          split at hne
          · rw [if_pos (by assumption)]
            exact acceptSingle_err _ _ _ _ hne
          · rw [if_neg (by assumption)]
            exact acceptSingle_err _ _ _ _ hne
    · simp only [if_true] at h
      exact startCombined_err h hne

/-- Outside `FLST_ERROR` the message is the one set when the state was
created: an iteration of the loop keeps this. -/
theorem loopBody_err {b : Build} {r : Request} {buf : List Byte} {L L1 : Loop}
    (h : loopBody b r buf L = some L1)
    (hi : L.st.state ≠ FLST_ERROR → L.st.err = "Premature end") :
    L1.st.state ≠ FLST_ERROR → L1.st.err = "Premature end" := by
  cases hst : L.st.state with
  | FLST_START =>
    simp only [loopBody, hst] at h
    intro hne
    rw [startPhase_err h hne]
    exact hi (by rw [hst]; decide)
  | FLST_SKIP =>
    simp only [loopBody, hst, Option.some.injEq] at h
    rw [← h]
    intro _
    have := hi (by rw [hst]; decide)
    simp only [skipPhase]
    split
    · simpa [skipAll] using this
    · simpa [skipDone] using this
  | FLST_WRITE =>
    simp only [loopBody, hst, writePhase] at h
    have he := hi (by rw [hst]; decide)
    intro _
    split at h
    · cases h1 : slice buf L.data L.dataLen with
      | none => simp [h1] at h
      | some src =>
        cases h2 : memcpyPage L.st.pageData L.st.pagePos src with
        | none => simp [h1, h2] at h
        | some pd =>
          simp only [h1, h2, Option.bind_eq_bind, Option.some_bind, Option.pure_def,
            Option.some.injEq] at h
          rw [← h]
          simpa [bufferBytes] using he
    · cases h1 : slice buf L.data (lenLeft b L.st) with
      | none => simp [h1] at h
      | some src =>
        cases h2 : memcpyPage L.st.pageData L.st.pagePos src with
        | none => simp [h1, h2] at h
        | some pd =>
          simp only [h1, h2, Option.bind_eq_bind, Option.some_bind, Option.pure_def,
            Option.some.injEq] at h
          rw [← h]
          simpa [flushState] using he
  | FLST_DONE =>
    simp only [loopBody, hst, Option.some.injEq] at h
    rw [← h]; exact hi
  | FLST_ERROR =>
    simp only [loopBody, hst, Option.some.injEq] at h
    rw [← h]; exact hi

/-- C28: the response to the last chunk of an upload has status 400 exactly
when the final phase is `FLST_ERROR` and 200 otherwise; the text
"Firmware image error:" followed by `err` is sent exactly when the final phase
is not `FLST_DONE`; an upload that ends in `FLST_START`, `FLST_SKIP` or
`FLST_WRITE` is answered with status 200 and the text of "Premature end"; and
`esp32flashSetOtaAsCurrentImage` is called exactly when the build is `ESP32` and
the final phase is `FLST_DONE`. -/
theorem final_response (b : Build) (r : Request) (chunks : List (List Byte))
    (st : UploadState) (ops : List FlashOp) (h : upload b r chunks = .done (st, ops)) :
    ((response b st).code = 400 ↔ st.state = FLST_ERROR) ∧
    ((response b st).code = 200 ↔ st.state ≠ FLST_ERROR) ∧
    (st.state ≠ FLST_DONE →
      (response b st).body = "Firmware image error:" ++ st.err ++ "\n") ∧
    (st.state = FLST_DONE → (response b st).body = "") ∧
    (st.state = FLST_START ∨ st.state = FLST_SKIP ∨ st.state = FLST_WRITE →
      response b st = ⟨200, "Firmware image error:Premature end\n", false⟩) ∧
    ((response b st).setOtaAsCurrent = true ↔ b.esp32 = true ∧ st.state = FLST_DONE) := by
  have herr : st.state ≠ FLST_ERROR → st.err = "Premature end" :=
    session_lift b r (fun s => s.1.state ≠ FLST_ERROR → s.1.err = "Premature end")
      (fun buf L L1 hb hi => loopBody_err hb hi) chunks (initState b, []) (st, ops)
      (fun _ => rfl) h
  refine ⟨?_, ?_, ?_, ?_, ?_, ?_⟩
  · simp only [response]
    by_cases hs : st.state = FLST_ERROR <;> simp [hs]
  · simp only [response]
    by_cases hs : st.state = FLST_ERROR <;> simp [hs]
  · intro hs
    simp [response, hs]
  · intro hs
    simp [response, hs]
  · intro hs
    have hne : st.state ≠ FLST_ERROR := by
      rcases hs with e | e | e <;> rw [e] <;> decide
    have hnd : st.state ≠ FLST_DONE := by
      rcases hs with e | e | e <;> rw [e] <;> decide
    simp only [response, hne, hnd, herr hne, if_false, ne_eq, not_false_eq_true, if_true,
      decide_False, Bool.false_and]
    rfl
  · simp only [response, Bool.and_eq_true, decide_eq_true_eq]
    exact and_comm

/-- Witness for C28: an upload that stops after the 40 header bytes of a
50-byte image ends in `FLST_WRITE`. -/
theorem final_response_witness :
    ((response exBuild (bufferBytes (acceptedState exBuild exRequestFw)
        (splice (initState exBuild).pageData 0 exHeader8266) 40)).code = 400 ↔
      (bufferBytes (acceptedState exBuild exRequestFw)
        (splice (initState exBuild).pageData 0 exHeader8266) 40).state = FLST_ERROR) ∧
    response exBuild (bufferBytes (acceptedState exBuild exRequestFw)
        (splice (initState exBuild).pageData 0 exHeader8266) 40) =
      ⟨200, "Firmware image error:Premature end\n", false⟩ := by
  have h := final_response exBuild exRequestFw [exHeader8266]
    (bufferBytes (acceptedState exBuild exRequestFw)
      (splice (initState exBuild).pageData 0 exHeader8266) 40) []
    (by set_option maxRecDepth 100000 in decide)
  exact ⟨h.1, h.2.2.2.2.1 (Or.inr (Or.inr rfl))⟩

/-! ## Invariants of the loop -/

/-- The variables of the loop outside `FLST_START` in a call with buffer `buf`:
a good session state, and unread bytes that lie in the buffer. -/
theorem steps_lift {b : Build} {r : Request} {buf : List Byte}
    (P : UploadState × List FlashOp → Prop)
    (hstep : ∀ (s : UploadState × List FlashOp) (rest : List Byte), Good b s.1 →
      s.1.state ≠ FLST_START → rest ≠ [] → P s → P (stepL b s rest).1)
    {L0 L : Loop} (h : Steps b r buf L0 L) (hg : Good b L0.st)
    (hs : L0.st.state ≠ FLST_START) (hd : 0 ≤ L0.dataLen)
    (hb : L0.dataLen ≠ 0 → 0 ≤ L0.data ∧ L0.data + L0.dataLen = buf.length)
    (hP : P (L0.st, L0.ops)) :
    Good b L.st ∧ L.st.state ≠ FLST_START ∧ 0 ≤ L.dataLen ∧
      (L.dataLen ≠ 0 → 0 ≤ L.data ∧ L.data + L.dataLen = buf.length) ∧ P (L.st, L.ops) := by
  induction h with
  | refl => exact ⟨hg, hs, hd, hb, hP⟩
  | tail hsteps hne hbody ih =>
    rename_i L1 L2
    obtain ⟨g1, g2, g3, g4, g5⟩ := ih
    obtain ⟨k1, k2⟩ := g4 hne
    have hpos : 0 < L1.dataLen := by omega
    have hrest : buf.drop L1.data.toNat ≠ [] := by
      intro hnil
      have := congrArg List.length hnil
      simp only [List.length_drop, List.length_nil] at this
      omega
    obtain ⟨L2', e1, e2, e3⟩ := loopBody_stepL r g1 g2 k1 hpos k2
    rw [hbody] at e1
    cases e1
    have hsp := stepL_spec (s := (L1.st, L1.ops)) g1 g2 hrest
    have hPs := hstep (L1.st, L1.ops) _ g1 g2 hrest g5
    rw [← e2] at hsp hPs
    refine ⟨hsp.1, hsp.2.1, ?_, ?_, hPs⟩
    · rcases e3 with ⟨z, _⟩ | ⟨_, p, _, _⟩
      · omega
      · omega
    · intro hnz
      rcases e3 with ⟨z, _⟩ | ⟨p0, _, p2, _⟩
      · exact absurd z hnz
      · exact ⟨p0, p2⟩

/-- The same for the bytes of a sequence of chunks. -/
theorem feedL_lift {b : Build} (P : UploadState × List FlashOp → Prop)
    (hstep : ∀ (s : UploadState × List FlashOp) (rest : List Byte), Good b s.1 →
      s.1.state ≠ FLST_START → rest ≠ [] → P s → P (stepL b s rest).1) :
    ∀ (m : Nat) (rest : List Byte) (s : UploadState × List FlashOp),
      rest.length + rank s.1 ≤ m → Good b s.1 → s.1.state ≠ FLST_START → P s →
      P (feedL b s rest) := by
  intro m
  induction m with
  | zero =>
    intro rest s hm _ _ hP
    have : rest = [] := List.length_eq_zero.mp (by omega)
    subst this
    rw [feedL_nil]; exact hP
  | succ m ih =>
    intro rest s hm hg hs hP
    by_cases hr : rest = []
    · subst hr; rw [feedL_nil]; exact hP
    · have hsp := stepL_spec hg hs hr
      rw [feedL_cons hg hs hr]
      exact ih _ _ (by omega) hsp.1 hsp.2.1 (hstep s rest hg hs hr hP)

/-- What holds of the start of a session outside `FLST_START` and is kept by
an iteration holds of every reachable state of the loop. -/
theorem reachable_lift {b : Build} {r : Request} {s : UploadState × List FlashOp}
    {buf : List Byte} {L : Loop} (P : UploadState × List FlashOp → Prop)
    (hstep : ∀ (s : UploadState × List FlashOp) (rest : List Byte), Good b s.1 →
      s.1.state ≠ FLST_START → rest ≠ [] → P s → P (stepL b s rest).1)
    (hg : Good b s.1) (hs : s.1.state ≠ FLST_START) (hP : P s)
    (h : Reachable b r s buf L) :
    Good b L.st ∧ L.st.state ≠ FLST_START ∧ 0 ≤ L.dataLen ∧
      (L.dataLen ≠ 0 → 0 ≤ L.data ∧ L.data + L.dataLen = buf.length) ∧ P (L.st, L.ops) := by
  obtain ⟨cs, s1, h1, h2⟩ := h
  rw [session_feedL r cs s hg hs] at h1
  cases h1
  have hgf := feedL_good' cs.flatten hg hs
  have hPf := feedL_lift P hstep _ cs.flatten s (le_refl _) hg hs hP
  exact steps_lift P hstep h2 hgf.1 hgf.2 (by simp) (fun _ => ⟨le_refl _, by simp⟩) hPf

theorem stepL_ops (b : Build) (s : UploadState × List FlashOp) (rest : List Byte) :
    ∃ new, (stepL b s rest).1.2 = s.2 ++ new ∧
      ∀ sec, FlashOp.erase sec ∈ new →
        sectorAligned b s.1.address = true ∧ sec = sectorOf b s.1.address := by
  have hnil : ∀ x : List FlashOp, x = s.2 → ∃ new, x = s.2 ++ new ∧
      ∀ sec, FlashOp.erase sec ∈ new →
        sectorAligned b s.1.address = true ∧ sec = sectorOf b s.1.address := by
    intro x hx
    exact ⟨[], by rw [hx, List.append_nil], fun sec h => by cases h⟩
  cases hst : s.1.state with
  | FLST_START => simp only [stepL, hst]; exact hnil _ rfl
  | FLST_DONE => simp only [stepL, hst]; exact hnil _ rfl
  | FLST_ERROR => simp only [stepL, hst]; exact hnil _ rfl
  | FLST_SKIP =>
    simp only [stepL, hst]
    split <;> exact hnil _ rfl
  | FLST_WRITE =>
    simp only [stepL, hst]
    split
    · exact hnil _ rfl
    · refine ⟨_, rfl, ?_⟩
      intro sec hmem
      unfold flushOps at hmem
      by_cases hal : sectorAligned b s.1.address = true
      · rw [if_pos hal] at hmem
        simp only [List.singleton_append, List.mem_cons, FlashOp.erase.injEq, List.mem_singleton,
          reduceCtorEq, or_false, List.not_mem_nil] at hmem
        exact ⟨hal, hmem⟩
      · rw [if_neg hal] at hmem
        simp at hmem

/-- C23: with the sector size of the SDK headers, `SPI_FLASH_SEC_SIZE = 4096`,
in every state the loop reaches from a session state with non-negative lengths
and a page position inside the page, `0 ≤ pagePos < PAGELEN` holds; the next
iteration returns, so its copy into `pageData` stays at the indices from
`pagePos` up to `pagePos` plus the number of bytes copied, at most `PAGELEN`;
and it issues a sector erase only when the write address is a multiple of
`SPI_FLASH_SEC_SIZE`. -/
theorem page_buffer_invariant (b : Build) (r : Request) (s : UploadState × List FlashOp)
    (buf : List Byte) (L : Loop) (hsec : b.SPI_FLASH_SEC_SIZE = 4096) (hg : Good b s.1)
    (hs : s.1.state ≠ FLST_START) (hreach : Reachable b r s buf L) :
    (0 ≤ L.st.pagePos ∧ L.st.pagePos < PAGELEN b) ∧
    (L.dataLen ≠ 0 → ∃ L1 new, loopBody b r buf L = some L1 ∧ L1.ops = L.ops ++ new ∧
      (0 ≤ L1.st.pagePos ∧ L1.st.pagePos < PAGELEN b) ∧
      (L.st.state = FLST_WRITE →
        (L.st.pageData.length : Int) = PAGELEN b ∧ 0 ≤ min L.dataLen (lenLeft b L.st) ∧
          L.st.pagePos + min L.dataLen (lenLeft b L.st) ≤ PAGELEN b) ∧
      ∀ sec, FlashOp.erase sec ∈ new →
        (b.SPI_FLASH_SEC_SIZE : Int) ∣ L.st.address ∧ sec = sectorOf b L.st.address) := by
  have hgeo := geometry_4096 hsec
  obtain ⟨g1, g2, g3, g4, _⟩ := reachable_lift (fun _ => True) (fun _ _ _ _ _ _ => trivial)
    hg hs trivial hreach
  refine ⟨⟨g1.pos_nonneg, g1.pos_lt⟩, ?_⟩
  intro hne
  obtain ⟨k1, k2⟩ := g4 hne
  have hpos : 0 < L.dataLen := by omega
  have hrest : buf.drop L.data.toNat ≠ [] := by
    intro hnil
    have := congrArg List.length hnil
    simp only [List.length_drop, List.length_nil] at this
    omega
  obtain ⟨L1, e1, e2, _⟩ := loopBody_stepL r g1 g2 k1 hpos k2
  obtain ⟨new, n1, n2⟩ := stepL_ops b (L.st, L.ops) (buf.drop L.data.toNat)
  have hsp := stepL_spec (s := (L.st, L.ops)) g1 g2 hrest
  rw [← e2] at n1 hsp
  refine ⟨L1, new, e1, n1, ⟨hsp.1.pos_nonneg, hsp.1.pos_lt⟩, ?_, ?_⟩
  · intro _
    have h0 := lenLeft_nonneg g1
    have h2 := lenLeft_le_page b L.st
    have h3 := g1.pos_nonneg
    refine ⟨g1.page_len, ?_, ?_⟩
    · exact le_min (by omega) h0
    · have := min_le_right L.dataLen (lenLeft b L.st)
      omega
  · intro sec hmem
    obtain ⟨a1, a2⟩ := n2 sec hmem
    exact ⟨(aligned_iff hgeo _).mp a1, a2⟩

/-- Witness for C23: the state after the 40 header bytes of a 50-byte image
for the slot at 0x1000, with the last ten bytes at hand: the next iteration
completes the image, erases sector 1 and writes the page. -/
theorem page_buffer_invariant_witness :
    exBuild.SPI_FLASH_SEC_SIZE = 4096 ∧
    Reachable exBuild exRequestFw (acceptedState exBuild exRequestFw, []) exBody10
      exLoopHeader ∧
    loopBody exBuild exRequestFw exBody10 exLoopHeader =
      some ⟨flushState exBuild exLoopHeader.st
          (splice (initState exBuild).pageData 0 (exHeader8266 ++ exBody10)) 10, 10, 0,
        [FlashOp.erase 1, FlashOp.write 0x1000 (exHeader8266 ++ exBody10)]⟩ ∧
    ((0 ≤ exLoopHeader.st.pagePos ∧ exLoopHeader.st.pagePos < PAGELEN exBuild) ∧
    (exLoopHeader.dataLen ≠ 0 → ∃ L1 new,
      loopBody exBuild exRequestFw exBody10 exLoopHeader = some L1 ∧
      L1.ops = exLoopHeader.ops ++ new ∧
      (0 ≤ L1.st.pagePos ∧ L1.st.pagePos < PAGELEN exBuild) ∧
      (exLoopHeader.st.state = FLST_WRITE →
        (exLoopHeader.st.pageData.length : Int) = PAGELEN exBuild ∧
          0 ≤ min exLoopHeader.dataLen (lenLeft exBuild exLoopHeader.st) ∧
          exLoopHeader.st.pagePos + min exLoopHeader.dataLen (lenLeft exBuild exLoopHeader.st) ≤
            PAGELEN exBuild) ∧
      ∀ sec, FlashOp.erase sec ∈ new →
        (exBuild.SPI_FLASH_SEC_SIZE : Int) ∣ exLoopHeader.st.address ∧
          sec = sectorOf exBuild exLoopHeader.st.address)) := by
  have hr : Reachable exBuild exRequestFw (acceptedState exBuild exRequestFw, []) exBody10
      exLoopHeader :=
    ⟨[exHeader8266], (exLoopHeader.st, []),
      by set_option maxRecDepth 100000 in decide, Steps.refl _⟩
  exact ⟨rfl, hr, by set_option maxRecDepth 100000 in decide,
    page_buffer_invariant exBuild exRequestFw (acceptedState exBuild exRequestFw, [])
      exBody10 exLoopHeader rfl
      ⟨by decide, by decide, by decide, by decide, by decide⟩ (by decide) hr⟩

theorem written_append (x y : List FlashOp) : written (x ++ y) = written x + written y := by
  simp [written, writeData_append]

theorem written_flushOps (b : Build) (st : UploadState) (pd : List Byte) (n : Int) :
    written (flushOps b st pd n) = ((pd.take (st.pagePos + n).toNat).length : Int) := by
  simp only [written, flushOps, writeData_erase_write, List.map_cons, List.map_nil,
    List.sum_cons, List.sum_nil, add_zero]

/-- An iteration keeps the count of the image bytes: those written to flash,
those in the page buffer and those still to come. -/
theorem stepL_count {b : Build} (C : Int) (s : UploadState × List FlashOp)
    (rest : List Byte) (hg : Good b s.1) (_hs : s.1.state ≠ FLST_START) (_hr : rest ≠ [])
    (hP : written s.2 + s.1.pagePos + s.1.len = C ∧
      (s.1.state ≠ FLST_WRITE → s.1.pagePos = 0) ∧ (s.1.state = FLST_DONE → s.1.len = 0)) :
    written (stepL b s rest).1.2 + (stepL b s rest).1.1.pagePos + (stepL b s rest).1.1.len = C ∧
      ((stepL b s rest).1.1.state ≠ FLST_WRITE → (stepL b s rest).1.1.pagePos = 0) ∧
      ((stepL b s rest).1.1.state = FLST_DONE → (stepL b s rest).1.1.len = 0) := by
  obtain ⟨p1, p2, p3⟩ := hP
  obtain ⟨h1, h2, h3, h4, h5⟩ := hg
  have hll0 : 0 ≤ lenLeft b s.1 := lenLeft_nonneg ⟨h1, h2, h3, h4, h5⟩
  have hll2 := lenLeft_le_page b s.1
  cases hst : s.1.state with
  | FLST_START =>
    have e : (stepL b s rest).1 = s := by simp only [stepL, hst]
    rw [e]; exact ⟨p1, p2, p3⟩
  | FLST_DONE =>
    have e : (stepL b s rest).1 = s := by simp only [stepL, hst]
    rw [e]; exact ⟨p1, p2, p3⟩
  | FLST_ERROR =>
    have e : (stepL b s rest).1 = s := by simp only [stepL, hst]
    rw [e]; exact ⟨p1, p2, p3⟩
  | FLST_SKIP =>
    have hp0 : s.1.pagePos = 0 := p2 (by rw [hst]; decide)
    simp only [stepL, hst]
    split
    · refine ⟨by simpa [skipAll] using p1, fun _ => by simpa [skipAll] using hp0, ?_⟩
      intro hd
      simp [skipAll, hst] at hd
    · refine ⟨by simpa [skipDone] using p1, fun _ => by simpa [skipDone] using hp0, ?_⟩
      intro hd
      simp only [skipDone] at hd ⊢
      by_contra hl
      simp [hl] at hd
  | FLST_WRITE =>
    simp only [stepL, hst]
    split
    · refine ⟨?_, ?_, ?_⟩
      · simp only [bufferBytes]; omega
      · intro hw; simp [bufferBytes, hst] at hw
      · intro hd; simp [bufferBytes, hst] at hd
    · rename_i hk
      have hsp : (splice s.1.pageData s.1.pagePos.toNat
          (rest.take (lenLeft b s.1).toNat)).length = s.1.pageData.length := by
        apply length_splice
        simp only [List.length_take]
        omega
      refine ⟨?_, ?_, ?_⟩
      · rw [written_append, written_flushOps]
        simp only [flushState, List.length_take, hsp]
        omega
      · intro _; simp [flushState]
      · intro hd
        simp only [flushState] at hd ⊢
        by_contra hl
        simp [hl, hst] at hd

/-- C24: in every state the loop reaches from a session state that enters
`FLST_WRITE` or `FLST_SKIP` with an empty page buffer, non-negative lengths and
`len = N`, the bytes passed to `spi_flash_write` since then, plus `pagePos`,
plus `len`, are `N`; and in `FLST_DONE` both `pagePos` and `len` are 0, so
all `N` bytes were passed to `spi_flash_write`. -/
theorem nothing_buffered_at_done (b : Build) (r : Request)
    (s : UploadState × List FlashOp) (buf : List Byte) (L : Loop) (N : Int)
    (hg : Good b s.1) (hst : s.1.state = FLST_WRITE ∨ s.1.state = FLST_SKIP)
    (hp : s.1.pagePos = 0) (hN : s.1.len = N) (hreach : Reachable b r s buf L) :
    written L.ops - written s.2 + L.st.pagePos + L.st.len = N ∧
    (L.st.state = FLST_DONE →
      L.st.pagePos = 0 ∧ L.st.len = 0 ∧ written L.ops - written s.2 = N) := by
  have hs : s.1.state ≠ FLST_START := by
    rcases hst with e | e <;> rw [e] <;> decide
  have hnd : s.1.state ≠ FLST_DONE := by
    rcases hst with e | e <;> rw [e] <;> decide
  obtain ⟨_, _, _, _, q1, q2, q3⟩ := reachable_lift
    (fun x => written x.2 + x.1.pagePos + x.1.len = written s.2 + N ∧
      (x.1.state ≠ FLST_WRITE → x.1.pagePos = 0) ∧ (x.1.state = FLST_DONE → x.1.len = 0))
    (fun x rest h1 h2 h3 h4 => stepL_count _ x rest h1 h2 h3 h4)
    hg hs ⟨by omega, fun _ => hp, fun h => absurd h hnd⟩ hreach
  simp only at q1 q2 q3
  refine ⟨by omega, ?_⟩
  intro hd
  have e1 := q2 (by rw [hd]; decide)
  have e2 := q3 hd
  exact ⟨e1, e2, by omega⟩

/-- Witness for C24: the state after the header of a 50-byte image. -/
theorem nothing_buffered_at_done_witness :
    Reachable exBuild exRequestFw (acceptedState exBuild exRequestFw, []) exBody10
      ⟨bufferBytes (acceptedState exBuild exRequestFw)
        (splice (initState exBuild).pageData 0 exHeader8266) 40, 0, 10, []⟩ ∧
    written ([] : List FlashOp) - written ([] : List FlashOp) +
      (bufferBytes (acceptedState exBuild exRequestFw)
        (splice (initState exBuild).pageData 0 exHeader8266) 40).pagePos +
      (bufferBytes (acceptedState exBuild exRequestFw)
        (splice (initState exBuild).pageData 0 exHeader8266) 40).len = 50 := by
  have hr : Reachable exBuild exRequestFw (acceptedState exBuild exRequestFw, []) exBody10
      ⟨bufferBytes (acceptedState exBuild exRequestFw)
        (splice (initState exBuild).pageData 0 exHeader8266) 40, 0, 10, []⟩ :=
    ⟨[exHeader8266], (bufferBytes (acceptedState exBuild exRequestFw)
        (splice (initState exBuild).pageData 0 exHeader8266) 40, []),
      by set_option maxRecDepth 100000 in decide, Steps.refl _⟩
  exact ⟨hr, (nothing_buffered_at_done exBuild exRequestFw
    (acceptedState exBuild exRequestFw, []) exBody10 _ 50
    ⟨by decide, by decide, by decide, by decide, by decide⟩ (Or.inl rfl) rfl rfl hr).1⟩

/-! ## Termination of the loop -/

theorem loop_done_dataLen (b : Build) (r : Request) (buf : List Byte) :
    ∀ (n : Nat) (L L1 : Loop), loop b r buf n L = .done L1 → L1.dataLen = 0 := by
  intro n
  induction n with
  | zero =>
    intro L L1 h
    simp only [loop] at h
    split at h
    · cases h; assumption
    · cases h
  | succ n ih =>
    intro L L1 h
    rw [loop_succ] at h
    split at h
    · cases h; assumption
    · cases hb : loopBody b r buf L with
      | none => simp [hb] at h
      | some L2 =>
        simp only [hb] at h
        exact ih L2 L1 h

/-- The first iteration of a run of at least one iteration. -/
theorem steps_head {b : Build} {r : Request} {buf : List Byte} {L0 L : Loop}
    (h : Steps b r buf L0 L) :
    L = L0 ∨ (L0.dataLen ≠ 0 ∧ ∃ L1, loopBody b r buf L0 = some L1 ∧ Steps b r buf L1 L) := by
  induction h with
  | refl => exact Or.inl rfl
  | tail hsteps hne hbody ih =>
    rename_i La Lb
    rcases ih with e | ⟨n0, L1, e1, e2⟩
    · subst e
      exact Or.inr ⟨hne, Lb, hbody, Steps.refl _⟩
    · exact Or.inr ⟨n0, L1, e1, Steps.tail e2 hne hbody⟩

theorem byteAt_length {buf : List Byte} {i : Nat} {v : Int} (h : byteAt buf i = some v) :
    i < buf.length := by
  by_contra hc
  simp only [byteAt, List.getElem?_eq_none (show buf.length ≤ i by omega), Option.map_none',
    reduceCtorEq] at h

/-- A 32-bit value read at offset `off` lies inside the chunk. -/
theorem i32At_length {buf : List Byte} {off v : Int} (h : i32At buf off = some v) :
    0 ≤ off ∧ off + 3 < buf.length := by
  unfold i32At at h
  split at h
  · rename_i h0
    refine ⟨h0, ?_⟩
    cases h3 : byteAt buf (off.toNat + 3) with
    | none =>
      exfalso
      cases hb0 : byteAt buf off.toNat <;> cases hb1 : byteAt buf (off.toNat + 1) <;>
        cases hb2 : byteAt buf (off.toNat + 2) <;>
        simp [u32At, hb0, hb1, hb2, h3] at h
    | some x =>
      have := byteAt_length h3
      omega
  · cases h

/-- What the `FLST_START` iteration leaves alone when it returns: the page
buffer, and the chunk position, unless it skipped a 40-byte header that lies
inside the chunk. -/
theorem startCombined_frame {b : Build} {r : Request} {buf : List Byte} {L L1 : Loop}
    (h : startCombined b r buf L = some L1) :
    L1.st.state ≠ FLST_START ∧ L1.st.pageData = L.st.pageData ∧
      L1.st.pagePos = L.st.pagePos ∧
      ((L1.data = L.data ∧ L1.dataLen = L.dataLen) ∨
        (L1.data = L.data + 40 ∧ L1.dataLen = L.dataLen - 40 ∧ L.data + 40 ≤ buf.length)) := by
  simp only [startCombined] at h
  split at h
  · cases h
    exact ⟨by simp [fail], rfl, rfl, Or.inl ⟨rfl, rfl⟩⟩
  · cases h4 : tagOf buf (L.data + 4) with
    | none => simp [h4] at h
    | some tag =>
      simp only [h4, Option.bind_eq_bind, Option.some_bind] at h
      have hpd : (sizeCheck r (tagCheck r L.st tag)).pageData = L.st.pageData ∧
          (sizeCheck r (tagCheck r L.st tag)).pagePos = L.st.pagePos := by
        rcases checks_cases r L.st tag with e | ⟨msg, e⟩ <;> rw [e] <;> exact ⟨rfl, rfl⟩
      split at h
      · cases h5 : i32At buf (L.data + 32) with
        | none => simp [h5] at h
        | some l1 =>
          cases h6 : i32At buf (L.data + 36) with
          | none => simp [h5, h6] at h
          | some l2 =>
            simp only [h5, h6, Option.some_bind, Option.pure_def, Option.some.injEq] at h
            have hin := (i32At_length h6).2
            rw [← h]
            refine ⟨?_, ?_, ?_, Or.inr ⟨rfl, rfl, by omega⟩⟩
            · simp only [selectImage]; split <;> simp
            · simp only [selectImage]; split <;> exact hpd.1
            · simp only [selectImage]; split <;> exact hpd.2
      · rename_i herr
        simp only [Option.pure_def, Option.some.injEq] at h
        rw [← h]
        refine ⟨?_, hpd.1, hpd.2, Or.inl ⟨rfl, rfl⟩⟩
        simp only [ne_eq, not_not] at herr
        simp only [herr]
        decide

theorem acceptSingle_frame (r : Request) (tooLarge : Bool) (addr : Int) (st : UploadState) :
    (acceptSingle r tooLarge addr st).state ≠ FLST_START ∧
      (acceptSingle r tooLarge addr st).pageData = st.pageData ∧
      (acceptSingle r tooLarge addr st).pagePos = st.pagePos := by
  rcases acceptSingle_cases r tooLarge addr st with ⟨msg, e⟩ | e <;> rw [e]
  · exact ⟨by simp [fail], rfl, rfl⟩
  · exact ⟨by simp, rfl, rfl⟩

theorem startPhase_frame {b : Build} {r : Request} {buf : List Byte} {L L1 : Loop}
    (h : startPhase b r buf L = some L1) :
    L1.st.state ≠ FLST_START ∧ L1.st.pageData = L.st.pageData ∧
      L1.st.pagePos = L.st.pagePos ∧
      ((L1.data = L.data ∧ L1.dataLen = L.dataLen) ∨
        (L1.data = L.data + 40 ∧ L1.dataLen = L.dataLen - 40 ∧ L.data + 40 ≤ buf.length)) := by
  simp only [startPhase] at h
  generalize (if r.cgiArg.type = CGIFLASH_TYPE_FW then memcmp4 buf L.data magicEHUG
    else pure false) = x1 at h
  generalize (if r.cgiArg.type = CGIFLASH_TYPE_FW then checkBinHeader b buf
    else pure false) = x2 at h
  generalize (if r.cgiArg.type = CGIFLASH_TYPE_ESPFS then checkEspfsHeader buf
    else pure false) = x3 at h
  rcases x1 with _ | x1
  · simp at h
  · simp only [Option.bind_eq_bind, Option.some_bind] at h
    cases x1
    · simp only [Bool.false_eq_true, if_false] at h
      rcases x2 with _ | x2
      · simp at h
      · simp only [Option.some_bind] at h
        cases x2
        · simp only [Bool.false_eq_true, if_false] at h
          rcases x3 with _ | x3
          · simp at h
          · cases x3
            · simp only [Option.some_bind, Bool.false_eq_true, if_false, Option.pure_def,
                Option.some.injEq] at h
              rw [← h]
              exact ⟨by simp [fail], rfl, rfl, Or.inl ⟨rfl, rfl⟩⟩
            · simp only [Option.some_bind, if_true, Option.pure_def, Option.some.injEq] at h
              rw [← h]
              obtain ⟨f1, f2, f3⟩ := acceptSingle_frame r (decide (r.postLen > r.cgiArg.fwSize))
                r.cgiArg.fw1Pos L.st
              exact ⟨f1, f2, f3, Or.inl ⟨rfl, rfl⟩⟩
        · simp only [if_true, Option.pure_def, Option.some.injEq] at h
          rw [← h]
          unfold startFirmware
          split
          · obtain ⟨f1, f2, f3⟩ := acceptSingle_frame r
              (decide (toUInt32 r.postLen > toUInt32 r.updSize)) (toInt32 r.updOffset) L.st
            exact ⟨f1, f2, f3, Or.inl ⟨rfl, rfl⟩⟩
          · obtain ⟨f1, f2, f3⟩ := acceptSingle_frame r (decide (r.postLen > r.cgiArg.fwSize))
              r.cgiArg.fw1Pos L.st
            exact ⟨f1, f2, f3, Or.inl ⟨rfl, rfl⟩⟩
    · simp only [if_true] at h
      exact startCombined_frame h

/-- A first chunk of at least 40 bytes, with `post->len ≥ 0` and, for a
combined image, header lengths that are not negative, is read inside the chunk
by the `FLST_START` iteration, which leaves `len ≥ 0` and `skip ≥ 0`. -/
theorem start_lengths_nonneg {b : Build} (r : Request) {buf : List Byte} {st : UploadState}
    (ops : List FlashOp) (hg : Good b st) (hs : st.state = FLST_START)
    (hlen : 40 ≤ buf.length) (hpl : 0 ≤ r.postLen)
    (hhdr : buf.take 4 = magicEHUG → ∀ l1 l2, i32At buf 32 = some l1 →
      i32At buf 36 = some l2 → 0 ≤ l1 ∧ 0 ≤ l2) :
    ∃ L1, startPhase b r buf ⟨st, 0, buf.length, ops⟩ = some L1 ∧
      0 ≤ L1.st.len ∧ 0 ≤ L1.st.skip := by
  obtain ⟨L1, h1, hshape⟩ := startPhase_cases b r ⟨st, 0, buf.length, ops⟩ rfl hlen hs
  refine ⟨L1, h1, ?_⟩
  rcases start_good hshape hg hhdr with g | ⟨e1, e2, _⟩
  · exact ⟨g.len_nonneg, g.skip_nonneg⟩
  · exfalso
    obtain ⟨_, _, _, _, hcase⟩ := hshape
    rcases hcase with ⟨_, _, _, e4 | ⟨_, e5⟩⟩ | ⟨_, _, hm, l1, l2, hl1, hl2, hh⟩
    · have := hg.len_nonneg
      simp only at e4
      omega
    · omega
    · have := hhdr hm l1 l2 hl1 hl2
      rcases hh with ⟨e4, _⟩ | ⟨e4, _⟩ <;> omega

/-- C27 (amended): for a session state with `len ≥ 0`, `skip ≥ 0` and
`0 ≤ pagePos < PAGELEN` and every chunk, where in `FLST_START` the first
iteration on a non-empty chunk reads only bytes of the chunk (for a combined
image, the 40 bytes of its header) and leaves `len ≥ 0` and `skip ≥ 0` in the
session, that is, the lengths it takes over (`post->len` of a single image,
`len1` and `len2` of a combined image) are not negative: the loop of the call
ends with `dataLen = 0`, and `dataLen` is not negative after any number of
iterations. -/
theorem loop_terminates (b : Build) (r : Request) (buf : List Byte) (st : UploadState)
    (ops : List FlashOp) (hg : Good b st)
    (hstart : st.state = FLST_START → buf ≠ [] →
      ∃ L1, startPhase b r buf ⟨st, 0, buf.length, ops⟩ = some L1 ∧
        0 ≤ L1.st.len ∧ 0 ≤ L1.st.skip) :
    ∃ L1, loop b r buf (fuelFor buf.length) ⟨st, 0, buf.length, ops⟩ = .done L1 ∧
      L1.dataLen = 0 ∧
      ∀ L, Steps b r buf ⟨st, 0, buf.length, ops⟩ L → 0 ≤ L.dataLen := by
  have hfuel : fuelFor buf.length = (2 * buf.length + 7) + 1 := rfl
  by_cases hs : st.state = FLST_START
  · by_cases hnil : buf = []
    · subst hnil
      refine ⟨_, loop_done_of_zero b r [] _ _ rfl, rfl, ?_⟩
      intro L hL
      rcases steps_head hL with e | ⟨hne, _⟩
      · rw [e]; exact le_refl _
      · exact absurd rfl hne
    · obtain ⟨L1, h1, hlen1, hskip1⟩ := hstart hs hnil
      obtain ⟨hne1, hpd, hpp, hcase⟩ := startPhase_frame h1
      simp only at hpd hpp hcase
      have hg1 : Good b L1.st :=
        ⟨hlen1, hskip1, by rw [hpp]; exact hg.pos_nonneg, by rw [hpp]; exact hg.pos_lt,
          by rw [hpd]; exact hg.page_len⟩
      have hd : 0 ≤ L1.data ∧ 0 ≤ L1.dataLen ∧ L1.data + L1.dataLen = buf.length := by
        rcases hcase with ⟨e1, e2⟩ | ⟨e1, e2, e3⟩
        · omega
        · omega
      have hbody : loopBody b r buf ⟨st, 0, buf.length, ops⟩ = some L1 := by
        simp only [loopBody, hs, h1]
      have hz : ¬ ((buf.length : Int) = 0) := by
        have := List.length_pos.mpr hnil
        omega
      obtain ⟨L2, h2, _⟩ := loop_feedL r buf (2 * buf.length + 7) L1 hg1 hne1 hd.1 hd.2.1
        hd.2.2 (by have := rank_le_one L1.st; omega)
      refine ⟨L2, ?_, loop_done_dataLen b r buf _ _ _ h2, ?_⟩
      · rw [hfuel, loop_succ, if_neg hz]
        simp only [hbody, h2]
      · intro L hL
        rcases steps_head hL with e | ⟨_, L1', e1, e2⟩
        · rw [e]; simp
        · rw [hbody] at e1
          cases e1
          exact (steps_lift (fun _ => True) (fun _ _ _ _ _ _ => trivial) e2 hg1 hne1 hd.2.1
            (fun _ => ⟨hd.1, hd.2.2⟩) trivial).2.2.1
  · obtain ⟨L2, h2, _⟩ := loop_feedL r buf (fuelFor buf.length) ⟨st, 0, buf.length, ops⟩ hg hs
      (le_refl _) (by simp) (by simp)
      (by have := rank_le_one st; simp only [fuelFor]; omega)
    refine ⟨L2, h2, loop_done_dataLen b r buf _ _ _ h2, ?_⟩
    intro L hL
    exact (steps_lift (fun _ => True) (fun _ _ _ _ _ _ => trivial) hL hg hs (by simp)
      (fun _ => ⟨le_refl _, by simp⟩) trivial).2.2.1

/-- Witness for C27 (amended): a fresh session receives, as a chunk of its
own, the 12 bytes of an ESP8266 firmware header that `checkBinHeader` reads;
and a fresh session receives the first chunk of a combined image with
`len1 = 3` and `len2 = 4`, header and seven bytes. -/
theorem loop_terminates_witness :
    startPhase exBuild exRequestFw exHeader12 ⟨initState exBuild, 0, exHeader12.length, []⟩ =
      some ⟨acceptedState exBuild exRequestFw, 0, 12, []⟩ ∧
    (∃ L1, loop exBuild exRequestFw exHeader12 (fuelFor exHeader12.length)
        ⟨initState exBuild, 0, exHeader12.length, []⟩ = .done L1 ∧
      L1.dataLen = 0 ∧
      ∀ L, Steps exBuild exRequestFw exHeader12
        ⟨initState exBuild, 0, exHeader12.length, []⟩ L → 0 ≤ L.dataLen) ∧
    startPhase exBuild exRequestSmall (exHeaderSmall ++ exBody7)
        ⟨initState exBuild, 0, (exHeaderSmall ++ exBody7).length, []⟩ =
      some ⟨selectImage exRequestSmall (initState exBuild) 3 4, 40, 7, []⟩ ∧
    ∃ L1, loop exBuild exRequestSmall (exHeaderSmall ++ exBody7)
        (fuelFor (exHeaderSmall ++ exBody7).length)
        ⟨initState exBuild, 0, (exHeaderSmall ++ exBody7).length, []⟩ = .done L1 ∧
      L1.dataLen = 0 ∧
      ∀ L, Steps exBuild exRequestSmall (exHeaderSmall ++ exBody7)
        ⟨initState exBuild, 0, (exHeaderSmall ++ exBody7).length, []⟩ L → 0 ≤ L.dataLen :=
  ⟨by decide,
    loop_terminates exBuild exRequestFw exHeader12 (initState exBuild) []
      (initState_good exBuild)
      (fun _ _ => ⟨⟨acceptedState exBuild exRequestFw, 0, 12, []⟩, by decide, by decide,
        by decide⟩),
    by decide,
    loop_terminates exBuild exRequestSmall (exHeaderSmall ++ exBody7) (initState exBuild) []
      (initState_good exBuild)
      (fun _ _ => ⟨⟨selectImage exRequestSmall (initState exBuild) 3 4, 40, 7, []⟩, by decide,
        by decide, by decide⟩)⟩

/-- C27 as stated fails: a fresh session (`len = 0`, `skip = 0`, `pagePos =
0`) receives a 50-byte chunk that is a combined image whose header declares
`len1 = -5`, on a device that flashes the first image.  The `FLST_START`
iteration goes to `FLST_WRITE` with `len = -5`; the write iteration computes
`lenLeft = -5` and calls `memcpy` with this length, and the loop does not end
with the chunk consumed. -/
theorem loop_faults_on_negative_length :
    40 ≤ (exHeaderNeg ++ exBody10).length ∧ (exHeaderNeg ++ exBody10).take 4 = magicEHUG ∧
    (initState exBuild).len = 0 ∧ (initState exBuild).skip = 0 ∧
    (initState exBuild).pagePos = 0 ∧
    (startPhase exBuild exRequestFw (exHeaderNeg ++ exBody10)
      ⟨initState exBuild, 0, (exHeaderNeg ++ exBody10).length, []⟩).map
        (fun L => (L.st.state, L.st.len, lenLeft exBuild L.st, L.dataLen)) =
      some (FLST_WRITE, -5, -5, 10) ∧
    loop exBuild exRequestFw (exHeaderNeg ++ exBody10)
      (fuelFor (exHeaderNeg ++ exBody10).length)
      ⟨initState exBuild, 0, (exHeaderNeg ++ exBody10).length, []⟩ = .fault := by
  refine ⟨by decide, by decide, rfl, rfl, rfl, ?_, ?_⟩ <;>
    set_option maxRecDepth 100000 in decide

end CgiFlash

namespace RouteFlash

open CgiFlash (Byte Outcome CgiUploadFlashDef CGIFLASH_TYPE_FW CGIFLASH_TYPE_ESPFS
  byteAt u16At u32At memcmp4 magicEHUG magicESfs)
open Phase OtaCall Status

/-! ## The OTA upload route: one call -/

theorem check_bin_header_eq (buf : List Byte) (S : Nat) :
    check_bin_header buf = CgiFlash.checkBinHeader ⟨true, S⟩ buf := by
  simp [check_bin_header, CgiFlash.checkBinHeader]

theorem route_loop_succ (pf : Platform) (rt : Route) (p : Post) (n : Nat) (L : Loop) :
    loop pf rt p (n + 1) L =
      if L.dataLen = 0 then .done L
      else
        match loopBody pf rt p L with
        | none => .fault
        | some L1 => loop pf rt p n L1 := rfl

theorem route_loop_zero (pf : Platform) (rt : Route) (p : Post) (n : Nat) (L : Loop)
    (h : L.dataLen = 0) : loop pf rt p n L = .done L := by
  cases n <;> simp [loop, h]

theorem writePhase_dataLen (pf : Platform) (p : Post) (L : Loop) :
    (writePhase pf p L).dataLen = 0 := rfl

/-- A call with an empty chunk leaves the loop at once. -/
theorem route_call_empty (pf : Platform) (rt : Route) (p : Post) (s : Session)
    (h : p.buf = []) :
    cwhttpd_route_fw_upload pf rt false (some p) s = .done (respond pf p (enter pf rt p s)) := by
  have hz : (enter pf rt p s).dataLen = 0 := by
    unfold enter
    cases s.user <;> simp [h]
  simp [cwhttpd_route_fw_upload, route_loop_zero pf rt p 2 _ hz]

/-- A call in `FLST_WRITE` with a non-empty chunk makes one `esp_ota_write`. -/
theorem route_call_write (pf : Platform) (rt : Route) (p : Post) (s : Session)
    (st : UploadState) (hu : s.user = some st) (hst : st.state = FLST_WRITE)
    (hne : p.buf ≠ []) :
    cwhttpd_route_fw_upload pf rt false (some p) s =
      .done (respond pf p (writePhase pf p ⟨st, p.buf.length, s.calls, s.visited⟩)) := by
  have hl : (p.buf.length : Int) ≠ 0 := by
    have := List.length_pos.mpr hne
    omega
  have he : enter pf rt p s = ⟨st, p.buf.length, s.calls, s.visited⟩ := by
    simp [enter, hu]
  simp only [cwhttpd_route_fw_upload, Bool.false_eq_true, if_false, he]
  rw [route_loop_succ, if_neg hl]
  simp only [loopBody, hst]
  rw [route_loop_zero _ _ _ _ _ (writePhase_dataLen _ _ _)]

/-- What a successful `esp_ota_write` of a whole chunk leads to: the commit
when the chunk was the last one, `CWHTTPD_STATUS_MORE` otherwise. -/
theorem respond_write (pf : Platform) (p : Post) (st : UploadState)
    (calls : List OtaCall) (visited : List Phase) (hst : st.state = FLST_WRITE)
    (hw : ∀ cl h data, pf.ota_write cl h data = ESP_OK)
    (he : ∀ cl h, pf.ota_end cl h = ESP_OK)
    (hsync : p.len - p.received = st.len - p.buf.length) :
    respond pf p (writePhase pf p ⟨st, p.buf.length, calls, visited⟩) =
      if st.len = p.buf.length then
        { status := CWHTTPD_STATUS_DONE
          session :=
            { user := none
              calls := calls ++ [esp_ota_write st.update_handle p.buf,
                esp_ota_end st.update_handle, esp_ota_set_boot_partition st.update_partition]
              visited := visited ++ [FLST_DONE] }
          response := some ⟨"Flash Success.", true⟩ }
      else
        { status := CWHTTPD_STATUS_MORE
          session :=
            { user := some { st with len := st.len - p.buf.length,
                                     address := st.address + p.buf.length }
              calls := calls ++ [esp_ota_write st.update_handle p.buf]
              visited := visited ++ [FLST_WRITE] }
          response := none } := by
  have htake : List.take ((p.buf.length : Int)).toNat p.buf = p.buf := by simp
  by_cases hlen : st.len = p.buf.length
  · have hrec : p.len = p.received := by omega
    simp [respond, commit, writePhase, hw, he, htake, hlen, hrec, hst]
  · have hrec : ¬ p.len = p.received := by omega
    have hlen' : ¬ st.len - p.buf.length = 0 := by omega
    simp [respond, writePhase, hw, htake, hlen, hlen', hrec, hst]

/-! ## The OTA upload route: a whole upload -/

theorem nonEmpty_nil_cons (cs : List (List Byte)) : nonEmpty ([] :: cs) = nonEmpty cs := by
  simp [nonEmpty]

theorem nonEmpty_cons {c : List Byte} (cs : List (List Byte)) (h : c ≠ []) :
    nonEmpty (c :: cs) = c :: nonEmpty cs := by
  simp [nonEmpty, h]

theorem flatten_nonEmpty (cs : List (List Byte)) : (nonEmpty cs).flatten = cs.flatten := by
  induction cs with
  | nil => rfl
  | cons c cs ih =>
    by_cases h : c = []
    · subst h
      rw [nonEmpty_nil_cons, ih]
      rfl
    · rw [nonEmpty_cons cs h, List.flatten_cons, List.flatten_cons, ih]

theorem nonEmpty_pos (cs : List (List Byte)) (h : 0 < cs.flatten.length) :
    0 < (nonEmpty cs).length := by
  rcases Nat.eq_zero_or_pos (nonEmpty cs).length with h0 | h0
  · have hn : nonEmpty cs = [] := List.length_eq_zero.mp h0
    have := flatten_nonEmpty cs
    rw [hn] at this
    rw [← this] at h
    simp at h
  · exact h0

theorem nonEmpty_of_empty (cs : List (List Byte)) (h : cs.flatten.length = 0) :
    nonEmpty cs = [] := by
  induction cs with
  | nil => rfl
  | cons c cs ih =>
    rw [List.flatten_cons, List.length_append] at h
    have hc : c = [] := List.length_eq_zero.mp (by omega)
    subst hc
    rw [nonEmpty_nil_cons]
    exact ih (by omega)

theorem writes_append (a b : List OtaCall) : writes (a ++ b) = writes a ++ writes b := by
  induction a with
  | nil => rfl
  | cons x a ih => cases x <;> simp [writes, ih]

theorem writes_map (h : Nat) (cs : List (List Byte)) :
    writes (cs.map (esp_ota_write h)) = cs := by
  induction cs with
  | nil => rfl
  | cons c cs ih => simp [writes, ih]

/-- From `FLST_WRITE` with the remaining chunks holding exactly the remaining
`state->len > 0` bytes, and every `esp_ota_write` and `esp_ota_end` succeeding,
the upload ends with the commit and the success response. -/
theorem serve_write (pf : Platform) (rt : Route) (postLen : Int)
    (hw : ∀ cl h data, pf.ota_write cl h data = ESP_OK)
    (he : ∀ cl h, pf.ota_end cl h = ESP_OK) :
    ∀ (cs : List (List Byte)) (received : Int) (st : UploadState) (calls : List OtaCall)
      (visited : List Phase),
      st.state = FLST_WRITE → st.len = cs.flatten.length → 0 < st.len →
      postLen = received + st.len →
      ∃ fin, serve pf rt postLen cs received ⟨some st, calls, visited⟩ =
          .done (fin, some ⟨"Flash Success.", true⟩) ∧
        fin.user = none ∧
        fin.calls = calls ++ (nonEmpty cs).map (esp_ota_write st.update_handle) ++
          [esp_ota_end st.update_handle, esp_ota_set_boot_partition st.update_partition] ∧
        fin.visited = visited ++ List.replicate ((nonEmpty cs).length - 1) FLST_WRITE ++
          [FLST_DONE] := by
  intro cs
  induction cs with
  | nil =>
    intro received st calls visited _ hlen hpos _
    simp at hlen
    omega
  | cons c cs ih =>
    intro received st calls visited hst hlen hpos hpost
    by_cases hc : c = []
    · subst hc
      have hne : ¬ postLen = received + 0 := by omega
      have hcall := route_call_empty pf rt ⟨postLen, received + ((([] : List Byte).length : Nat) : Int), []⟩
        ⟨some st, calls, visited⟩ rfl
      simp only [serve, hcall]
      simp only [respond, enter, List.length_nil, Nat.cast_zero, hne, if_false, if_true]
      rw [nonEmpty_nil_cons]
      have := ih (received + 0) st calls visited hst (by simpa using hlen) hpos (by omega)
      simpa using this
    · have hcall := route_call_write pf rt ⟨postLen, received + (c.length : Int), c⟩
        ⟨some st, calls, visited⟩ st rfl hst hc
      have hlen' : st.len = (c.length : Int) + (cs.flatten.length : Int) := by
        rw [hlen, List.flatten_cons, List.length_append]; push_cast; rfl
      have hresp := respond_write pf ⟨postLen, received + (c.length : Int), c⟩ st calls visited
        hst hw he (by simp only []; omega)
      simp only [serve, hcall, hresp]
      rw [nonEmpty_cons cs hc]
      by_cases hlast : st.len = (c.length : Int)
      · have hcs : cs.flatten.length = 0 := by omega
        simp [hlast, nonEmpty_of_empty cs hcs]
      · simp only [hlast, if_false, if_true]
        obtain ⟨fin, h1, h2, h3, h4⟩ := ih (received + (c.length : Int))
          { st with len := st.len - (c.length : Int), address := st.address + (c.length : Int) }
          (calls ++ [esp_ota_write st.update_handle c]) (visited ++ [FLST_WRITE]) hst
          (by simp only []; omega) (by simp only []; omega) (by simp only []; omega)
        refine ⟨fin, h1, h2, ?_, ?_⟩
        · rw [h3]; simp
        · rw [h4]
          have hp := nonEmpty_pos cs (by omega)
          obtain ⟨k, hk⟩ : ∃ k, (nonEmpty cs).length = k + 1 := ⟨(nonEmpty cs).length - 1, by omega⟩
          simp [hk, List.replicate_succ]

/-- The state created on the first call when the configured, running and
update partitions are found. -/
theorem createState_ok (pf : Platform) (rt : Route) (q : Nat)
    (hboot : pf.boot_partition ≠ none) (hrun : pf.running_partition ≠ none)
    (hpart : (if rt.paramLen > 0 then pf.find_first rt.paramBuf
      else pf.next_update_partition) = some q) :
    createState pf rt =
      { update_handle := 0
        update_partition := some q
        configured := pf.boot_partition
        running := pf.running_partition
        state := FLST_START
        address := 0
        len := 0
        err := "Premature end" } := by
  simp [createState, hboot, hrun, hpart]

/-- The first call, on a firmware endpoint, with a chunk that starts with a
firmware header, when the partitions are found and `esp_ota_begin` succeeds:
the state goes to `FLST_WRITE` and the whole chunk is written. -/
theorem route_first_call (pf : Platform) (rt : Route) (p : Post) (q : Nat)
    (hfw : rt.arg.type = CGIFLASH_TYPE_FW) (hhdr : check_bin_header p.buf = some true)
    (hboot : pf.boot_partition ≠ none) (hrun : pf.running_partition ≠ none)
    (hpart : (if rt.paramLen > 0 then pf.find_first rt.paramBuf
      else pf.next_update_partition) = some q)
    (hbegin : (pf.ota_begin [] q).1 = ESP_OK) :
    cwhttpd_route_fw_upload pf rt false (some p) ⟨none, [], []⟩ =
      .done (respond pf p (writePhase pf p
        ⟨{ update_handle := (pf.ota_begin [] q).2
           update_partition := some q
           configured := pf.boot_partition
           running := pf.running_partition
           state := FLST_WRITE
           address := 0
           len := p.len
           err := "Premature end" },
          p.buf.length, [esp_ota_begin q], [FLST_START, FLST_WRITE]⟩)) := by
  have hbin : CgiFlash.checkBinHeader ⟨true, 0⟩ p.buf = some true := by
    rw [← check_bin_header_eq]; exact hhdr
  have hl4 := CgiFlash.checkBinHeader_length hbin
  have hl : (p.buf.length : Int) ≠ 0 := by omega
  have hehug := CgiFlash.not_ehug_of_bin hbin
  have he : enter pf rt p ⟨none, [], []⟩ =
      ⟨createState pf rt, p.buf.length, [], [FLST_START]⟩ := by
    simp [enter, createState_ok pf rt q hboot hrun hpart]
  simp only [cwhttpd_route_fw_upload, Bool.false_eq_true, if_false, he]
  rw [route_loop_succ, if_neg hl]
  rw [createState_ok pf rt q hboot hrun hpart]
  simp only [loopBody, startPhase, hfw, if_true, hehug, hhdr, Option.bind_eq_bind,
    Option.some_bind, Bool.false_eq_true, if_false, Option.pure_def, beginOta, hbegin,
    ne_eq, not_true_eq_false, List.nil_append, List.singleton_append]
  rw [route_loop_succ, if_neg hl]
  simp only [loopBody]
  rw [route_loop_zero _ _ _ _ _ (writePhase_dataLen _ _ _)]

/-- C10: on a firmware endpoint, for a stream of declared length `L` delivered
as chunks totalling `L` bytes whose first chunk starts with a header accepted by
`check_bin_header`, when the configured, running and update partitions are
found and `esp_ota_begin`, every `esp_ota_write` and `esp_ota_end` succeed, the
upload ends with the response `success = true`, message "Flash Success."; the
phases taken are `FLST_START`, then `FLST_WRITE` (once per non-empty chunk), then
`FLST_DONE`; the buffers passed to `esp_ota_write` concatenate to the whole
stream; and the OTA calls are one `esp_ota_begin`, the writes, one
`esp_ota_end` and one `esp_ota_set_boot_partition` of the update partition. -/
theorem fw_upload_happy_path (pf : Platform) (rt : Route) (c : List Byte)
    (cs : List (List Byte)) (L q : Nat)
    (hfw : rt.arg.type = CGIFLASH_TYPE_FW) (hhdr : check_bin_header c = some true)
    (hL : (c :: cs).flatten.length = L)
    (hboot : pf.boot_partition ≠ none) (hrun : pf.running_partition ≠ none)
    (hpart : (if rt.paramLen > 0 then pf.find_first rt.paramBuf
      else pf.next_update_partition) = some q)
    (hbegin : (pf.ota_begin [] q).1 = ESP_OK)
    (hw : ∀ cl h data, pf.ota_write cl h data = ESP_OK)
    (he : ∀ cl h, pf.ota_end cl h = ESP_OK) :
    ∃ fin, upload pf rt (L : Int) (c :: cs) = .done (fin, some ⟨"Flash Success.", true⟩) ∧
      fin.visited =
        FLST_START :: (List.replicate (nonEmpty (c :: cs)).length FLST_WRITE ++ [FLST_DONE]) ∧
      (writes fin.calls).flatten = (c :: cs).flatten ∧
      fin.calls = esp_ota_begin q ::
        ((nonEmpty (c :: cs)).map (esp_ota_write (pf.ota_begin [] q).2) ++
          [esp_ota_end (pf.ota_begin [] q).2, esp_ota_set_boot_partition (some q)]) := by
  have hbin : CgiFlash.checkBinHeader ⟨true, 0⟩ c = some true := by
    rw [← check_bin_header_eq]; exact hhdr
  have hl4 := CgiFlash.checkBinHeader_length hbin
  have hc : c ≠ [] := by
    intro h; rw [h] at hl4; simp at hl4
  have hLc : (L : Int) = (c.length : Int) + (cs.flatten.length : Int) := by
    rw [← hL, List.flatten_cons, List.length_append]; push_cast; rfl
  have hcall := route_first_call pf rt ⟨(L : Int), 0 + (c.length : Int), c⟩ q hfw hhdr
    hboot hrun hpart hbegin
  have hresp := respond_write pf ⟨(L : Int), 0 + (c.length : Int), c⟩
    { update_handle := (pf.ota_begin [] q).2
      update_partition := some q
      configured := pf.boot_partition
      running := pf.running_partition
      state := FLST_WRITE
      address := 0
      len := (L : Int)
      err := "Premature end" }
    [esp_ota_begin q] [FLST_START, FLST_WRITE] rfl hw he (by simp only []; omega)
  have hflat : ((nonEmpty (c :: cs)).flatten) = (c :: cs).flatten := flatten_nonEmpty _
  simp only [upload, serve, hcall, hresp]
  rw [nonEmpty_cons cs hc] at hflat ⊢
  by_cases hlast : (L : Int) = (c.length : Int)
  · have hcs : cs.flatten.length = 0 := by omega
    have hcs' : cs.flatten = [] := List.length_eq_zero.mp hcs
    simp [hlast, nonEmpty_of_empty cs hcs, writes, hcs']
  · simp only [hlast, if_false, if_true]
    obtain ⟨fin, h1, _, h3, h4⟩ := serve_write pf rt (L : Int) hw he cs (0 + (c.length : Int))
      { update_handle := (pf.ota_begin [] q).2
        update_partition := some q
        configured := pf.boot_partition
        running := pf.running_partition
        state := FLST_WRITE
        address := 0 + (c.length : Int)
        len := (L : Int) - (c.length : Int)
        err := "Premature end" }
      ([esp_ota_begin q] ++ [esp_ota_write (pf.ota_begin [] q).2 c])
      ([FLST_START, FLST_WRITE] ++ [FLST_WRITE]) rfl
      (by simp only []; omega) (by simp only []; omega) (by simp only []; omega)
    refine ⟨fin, h1, ?_, ?_, ?_⟩
    · rw [h4]
      have hp := nonEmpty_pos cs (by omega)
      obtain ⟨k, hk⟩ : ∃ k, (nonEmpty cs).length = k + 1 :=
        ⟨(nonEmpty cs).length - 1, by omega⟩
      simp [hk, List.replicate_succ]
    · rw [h3]
      simp [writes_append, writes_map, writes, flatten_nonEmpty]
    · rw [h3]; simp

/-- Witness for C10: a 31-byte image delivered as its 28-byte header, an empty
chunk and three more bytes, on a platform where every call succeeds. -/
theorem fw_upload_happy_path_witness :
    exRoute.arg.type = CGIFLASH_TYPE_FW ∧ check_bin_header exImageHeader = some true ∧
    [exImageHeader, [], exImageBody].flatten.length = 31 ∧
    ∃ fin, upload exPlatform exRoute ((31 : Nat) : Int) [exImageHeader, [], exImageBody] =
        .done (fin, some ⟨"Flash Success.", true⟩) ∧
      fin.visited =
        FLST_START :: (List.replicate (nonEmpty [exImageHeader, [], exImageBody]).length
          FLST_WRITE ++ [FLST_DONE]) ∧
      (writes fin.calls).flatten = [exImageHeader, [], exImageBody].flatten ∧
      fin.calls = esp_ota_begin 2 ::
        ((nonEmpty [exImageHeader, [], exImageBody]).map
            (esp_ota_write (exPlatform.ota_begin [] 2).2) ++
          [esp_ota_end (exPlatform.ota_begin [] 2).2, esp_ota_set_boot_partition (some 2)]) :=
  ⟨rfl, by decide, by decide,
    fw_upload_happy_path exPlatform exRoute exImageHeader [[], exImageBody] 31 2 rfl
      (by decide) (by decide) (by decide) (by decide) rfl rfl (fun _ _ _ => rfl)
      (fun _ _ => rfl)⟩

/-! ## The OTA upload route: failures -/

/-- C12, at a failing input: the 31-byte image sent as one chunk to a platform
whose `esp_ota_write` fails.  The write phase sets `FLST_ERROR` and then,
because the remaining length is 0, `FLST_DONE`; the upload is committed and
answered with `success = true`. -/
theorem write_failure_on_last_chunk_reports_success :
    exPlatformWriteFails.ota_write [esp_ota_begin 2] 7 (exImageHeader ++ exImageBody) ≠ ESP_OK ∧
    upload exPlatformWriteFails exRoute 31 [exImageHeader ++ exImageBody] =
      .done (⟨none,
          [esp_ota_begin 2, esp_ota_write 7 (exImageHeader ++ exImageBody), esp_ota_end 7,
            esp_ota_set_boot_partition (some 2)],
          [FLST_START, FLST_WRITE, FLST_DONE]⟩,
        some ⟨"Flash Success.", true⟩) := by
  constructor
  · decide
  · rfl

/-- C14, at a failing input: the 31-byte image sent as one chunk to a platform
whose `esp_ota_end` fails.  The session goes to `FLST_ERROR`, the response is
`success = false`, and `esp_ota_set_boot_partition` is called all the same,
after the failed `esp_ota_end`. -/
theorem set_boot_after_failed_end :
    exPlatformEndFails.ota_end
      [esp_ota_begin 2, esp_ota_write 7 (exImageHeader ++ exImageBody)] 7 ≠ ESP_OK ∧
    upload exPlatformEndFails exRoute 31 [exImageHeader ++ exImageBody] =
      .done (⟨none,
          [esp_ota_begin 2, esp_ota_write 7 (exImageHeader ++ exImageBody), esp_ota_end 7,
            esp_ota_set_boot_partition (some 2)],
          [FLST_START, FLST_WRITE, FLST_DONE, FLST_ERROR]⟩,
        some ⟨"esp_ota_end failed!", false⟩) := by
  constructor
  · decide
  · rfl

/-- C17, at a failing input: `partition=nosuch` when no application partition
has that label and partition 1 is the boot partition.  The handler calls
`esp_ota_set_boot_partition(NULL)` and answers `success = true`. -/
theorem set_boot_unknown_name_reports_success :
    exRouteNamed.paramLen > 0 ∧ exPlatform.find_first exRouteNamed.paramBuf = none ∧
    cwhttpd_route_fw_set_boot exPlatform exRouteNamed false (some 1) =
      some ([esp_ota_set_boot_partition none], some ⟨1, true⟩) := by
  refine ⟨by decide, rfl, rfl⟩

/-- A call that starts in `FLST_ERROR` only drops the chunk. -/
theorem route_call_error (pf : Platform) (rt : Route) (p : Post) (s : Session)
    (h : (enter pf rt p s).st.state = FLST_ERROR) :
    cwhttpd_route_fw_upload pf rt false (some p) s =
      .done (respond pf p { enter pf rt p s with dataLen := 0 }) := by
  simp only [cwhttpd_route_fw_upload, Bool.false_eq_true, if_false]
  rw [route_loop_succ]
  by_cases hz : (enter pf rt p s).dataLen = 0
  · rw [if_pos hz]
    have : ({ enter pf rt p s with dataLen := 0 } : Loop) = enter pf rt p s := by
      cases hL : enter pf rt p s
      rw [hL] at hz
      simp only at hz
      rw [hz]
    rw [this]
  · rw [if_neg hz]
    simp only [loopBody, h]
    rw [route_loop_zero _ _ _ _ _ rfl]

/-- The response of a call that ends in `FLST_ERROR`. -/
theorem respond_error (pf : Platform) (p : Post) (L : Loop) (h : L.st.state = FLST_ERROR) :
    respond pf p L =
      if p.len = p.received then
        ⟨CWHTTPD_STATUS_DONE, ⟨none, L.calls, L.visited⟩, some ⟨L.st.err, false⟩⟩
      else ⟨CWHTTPD_STATUS_MORE, ⟨some L.st, L.calls, L.visited⟩, none⟩ := by
  simp [respond, commit, h]

/-- From `FLST_ERROR` every further chunk is dropped without an OTA call, and
the response, when the declared length is reached, carries `state->err` and
`success = false`. -/
theorem serve_error (pf : Platform) (rt : Route) (postLen : Int) (st : UploadState)
    (calls : List OtaCall) (visited : List Phase) (hst : st.state = FLST_ERROR) :
    ∀ (cs : List (List Byte)) (received : Int),
      ∃ fin resp, serve pf rt postLen cs received ⟨some st, calls, visited⟩ = .done (fin, resp) ∧
        fin.calls = calls ∧ fin.visited = visited ∧
        (fin.user = some st ∨ fin.user = none) ∧
        (resp = none ∨ resp = some ⟨st.err, false⟩) ∧
        (cs ≠ [] → received + (cs.flatten.length : Int) = postLen →
          resp = some ⟨st.err, false⟩) := by
  intro cs
  induction cs with
  | nil =>
    intro received
    exact ⟨_, _, rfl, rfl, rfl, Or.inl rfl, Or.inl rfl, fun h => absurd rfl h⟩
  | cons c cs ih =>
    intro received
    have he : enter pf rt ⟨postLen, received + (c.length : Int), c⟩ ⟨some st, calls, visited⟩ =
        ⟨st, c.length, calls, visited⟩ := rfl
    have hcall := route_call_error pf rt ⟨postLen, received + (c.length : Int), c⟩
      ⟨some st, calls, visited⟩ (by rw [he]; exact hst)
    rw [he] at hcall
    simp only [serve, hcall]
    rw [respond_error pf _ _ hst]
    by_cases hfin : postLen = received + (c.length : Int)
    · simp only [hfin, if_true]
      exact ⟨_, _, rfl, rfl, rfl, Or.inr rfl, Or.inr rfl, fun _ _ => rfl⟩
    · simp only [hfin, if_false, if_true]
      obtain ⟨fin, resp, h1, h2, h3, h4, h5, h6⟩ := ih (received + (c.length : Int))
      refine ⟨fin, resp, h1, h2, h3, h4, h5, ?_⟩
      intro _ htot
      apply h6
      · intro hnil
        subst hnil
        simp at htot
        omega
      · rw [List.flatten_cons, List.length_append] at htot
        push_cast at htot
        omega

/-- The state created when a `partition` parameter names no partition. -/
theorem createState_not_found (pf : Platform) (rt : Route) (hp : rt.paramLen > 0)
    (hnf : pf.find_first rt.paramBuf = none) :
    (createState pf rt).state = FLST_ERROR ∧
      (createState pf rt).err = "update_partition not found!" := by
  simp [createState, hp, hnf]

/-- C16: when the `partition` parameter is found and
`esp_partition_find_first` returns `NULL` for it, then for every body the
session is in `FLST_ERROR` from its creation and never leaves it, no OTA call
is made, a response can only be `success = false` with the message
"update_partition not found!", and it is sent when the chunks reach the
declared length. -/
theorem unknown_partition_rejected (pf : Platform) (rt : Route) (postLen : Int)
    (c : List Byte) (cs : List (List Byte)) (hp : rt.paramLen > 0)
    (hnf : pf.find_first rt.paramBuf = none) :
    ∃ fin resp, upload pf rt postLen (c :: cs) = .done (fin, resp) ∧
      fin.calls = [] ∧ fin.visited = [FLST_ERROR] ∧
      (resp = none ∨ resp = some ⟨"update_partition not found!", false⟩) ∧
      (((c :: cs).flatten.length : Int) = postLen →
        resp = some ⟨"update_partition not found!", false⟩) := by
  obtain ⟨hst, herr⟩ := createState_not_found pf rt hp hnf
  have he : enter pf rt ⟨postLen, 0 + (c.length : Int), c⟩ ⟨none, [], []⟩ =
      ⟨createState pf rt, c.length, [], [] ++ [(createState pf rt).state]⟩ := rfl
  have hcall := route_call_error pf rt ⟨postLen, 0 + (c.length : Int), c⟩ ⟨none, [], []⟩
    (by rw [he]; exact hst)
  rw [he] at hcall
  simp only [upload, serve, hcall]
  rw [respond_error pf _ _ hst]
  by_cases hfin : postLen = 0 + (c.length : Int)
  · simp only [hfin, if_true]
    refine ⟨_, _, rfl, rfl, ?_, Or.inr ?_, fun _ => ?_⟩
    · simp [hst]
    · simp [herr]
    · simp [herr]
  · simp only [hfin, if_false, if_true]
    obtain ⟨fin, resp, h1, h2, h3, _, h5, h6⟩ := serve_error pf rt postLen (createState pf rt)
      [] ([] ++ [(createState pf rt).state]) hst cs (0 + (c.length : Int))
    rw [herr] at h5 h6
    refine ⟨fin, resp, h1, h2, ?_, h5, ?_⟩
    · rw [h3, hst]; rfl
    · intro htot
      apply h6
      · intro hnil
        subst hnil
        simp at htot
        omega
      · rw [List.flatten_cons, List.length_append] at htot
        push_cast at htot
        omega

/-- Witness for C16: `partition=nosuch` and a 31-byte image in two chunks. -/
theorem unknown_partition_rejected_witness :
    exRouteNamed.paramLen > 0 ∧ exPlatform.find_first exRouteNamed.paramBuf = none ∧
    ∃ fin resp, upload exPlatform exRouteNamed 31 [exImageHeader, exImageBody] =
        .done (fin, resp) ∧
      fin.calls = [] ∧ fin.visited = [FLST_ERROR] ∧
      (resp = none ∨ resp = some ⟨"update_partition not found!", false⟩) ∧
      (([exImageHeader, exImageBody].flatten.length : Int) = 31 →
        resp = some ⟨"update_partition not found!", false⟩) :=
  ⟨by decide, rfl,
    unknown_partition_rejected exPlatform exRouteNamed 31 exImageHeader [exImageBody]
      (by decide) rfl⟩

/-! ## The OTA upload route: short uploads -/

theorem uncommitted_append {a b : List OtaCall} (ha : Uncommitted a) (hb : Uncommitted b) :
    Uncommitted (a ++ b) := by
  intro x hx
  rcases List.mem_append.mp hx with h | h
  · exact ha x h
  · exact hb x h

theorem uncommitted_begin (q : Nat) : Uncommitted [esp_ota_begin q] := by
  intro x hx
  simp only [List.mem_singleton] at hx
  subst hx
  exact ⟨rfl, rfl⟩

theorem uncommitted_write (h : Nat) (d : List Byte) : Uncommitted [esp_ota_write h d] := by
  intro x hx
  simp only [List.mem_singleton] at hx
  subst hx
  exact ⟨rfl, rfl⟩

theorem not_done_append {v : List Phase} {x : Phase} (hv : FLST_DONE ∉ v)
    (hx : x ≠ FLST_DONE) : FLST_DONE ∉ v ++ [x] := by
  intro h
  rcases List.mem_append.mp h with h | h
  · exact hv h
  · simp only [List.mem_singleton] at h
    exact hx h.symm

/-- With the header bytes in the chunk, the `FLST_START` iteration returns. -/
theorem route_startPhase_total (pf : Platform) (rt : Route) (p : Post) (L : Loop)
    (hlen : 28 ≤ p.buf.length) : ∃ L1, startPhase pf rt p L = some L1 := by
  obtain ⟨v, hv⟩ := CgiFlash.checkBinHeader_isSome ⟨true, 0⟩ p.buf hlen
  rw [← check_bin_header_eq] at hv
  simp only [startPhase, check_espfs_header]
  rw [CgiFlash.memcmp4_eq _ (by omega), CgiFlash.memcmp4_eq _ (by omega), hv]
  simp only [Option.bind_eq_bind, Option.some_bind, Option.pure_def]
  split_ifs <;> exact ⟨_, rfl⟩

/-- What the `FLST_START` iteration does to the loop variables: it goes to
`FLST_WRITE` with `len = post->len` or to `FLST_ERROR`, records the phase, keeps
`dataLen`, and calls at most `esp_ota_begin`. -/
theorem route_startPhase_shape (pf : Platform) (rt : Route) (p : Post) (L L1 : Loop)
    (h : startPhase pf rt p L = some L1) :
    L1.dataLen = L.dataLen ∧
    (L1.st.state = FLST_WRITE ∨ L1.st.state = FLST_ERROR) ∧
    L1.visited = L.visited ++ [L1.st.state] ∧
    (L1.calls = L.calls ∨ ∃ q, L1.calls = L.calls ++ [esp_ota_begin q]) ∧
    (L1.st.state = FLST_WRITE → L1.st.len = p.len) := by
  have hfail : ∀ msg, (fail L msg).dataLen = L.dataLen ∧
      ((fail L msg).st.state = FLST_WRITE ∨ (fail L msg).st.state = FLST_ERROR) ∧
      (fail L msg).visited = L.visited ++ [(fail L msg).st.state] ∧
      ((fail L msg).calls = L.calls ∨ ∃ q, (fail L msg).calls = L.calls ++ [esp_ota_begin q]) ∧
      ((fail L msg).st.state = FLST_WRITE → (fail L msg).st.len = p.len) := by
    intro msg
    refine ⟨rfl, Or.inr rfl, rfl, Or.inl rfl, ?_⟩
    intro hw
    simp [fail] at hw
  have hbegin : (beginOta pf p L).dataLen = L.dataLen ∧
      ((beginOta pf p L).st.state = FLST_WRITE ∨ (beginOta pf p L).st.state = FLST_ERROR) ∧
      (beginOta pf p L).visited = L.visited ++ [(beginOta pf p L).st.state] ∧
      ((beginOta pf p L).calls = L.calls ∨
        ∃ q, (beginOta pf p L).calls = L.calls ++ [esp_ota_begin q]) ∧
      ((beginOta pf p L).st.state = FLST_WRITE → (beginOta pf p L).st.len = p.len) := by
    unfold beginOta
    cases hq : L.st.update_partition with
    | none => exact hfail _
    | some q =>
      simp only
      by_cases hb : (pf.ota_begin L.calls q).1 = ESP_OK
      · rw [if_neg (not_not.mpr hb)]
        exact ⟨rfl, Or.inl rfl, rfl, Or.inr ⟨q, rfl⟩, fun _ => rfl⟩
      · rw [if_pos hb]
        refine ⟨rfl, Or.inr rfl, rfl, Or.inr ⟨q, rfl⟩, ?_⟩
        intro hw
        simp [fail] at hw
  have hfs : (startEspfs rt p L).dataLen = L.dataLen ∧
      ((startEspfs rt p L).st.state = FLST_WRITE ∨ (startEspfs rt p L).st.state = FLST_ERROR) ∧
      (startEspfs rt p L).visited = L.visited ++ [(startEspfs rt p L).st.state] ∧
      ((startEspfs rt p L).calls = L.calls ∨
        ∃ q, (startEspfs rt p L).calls = L.calls ++ [esp_ota_begin q]) ∧
      ((startEspfs rt p L).st.state = FLST_WRITE → (startEspfs rt p L).st.len = p.len) := by
    unfold startEspfs
    split
    · exact hfail _
    · exact ⟨rfl, Or.inl rfl, rfl, Or.inl rfl, fun _ => rfl⟩
  unfold startPhase at h
  split at h
  · cases h1 : memcmp4 p.buf 0 magicEHUG with
    | none => simp [h1] at h
    | some e =>
      cases h2 : check_bin_header p.buf with
      | none =>
        cases e
        · simp [h1, h2] at h
        · simp only [h1, Option.bind_eq_bind, Option.some_bind, if_true, Option.pure_def,
            Option.some.injEq] at h
          subst h
          exact hfail _
      | some v =>
        cases e <;> cases v <;>
          simp only [h1, h2, Option.bind_eq_bind, Option.some_bind, if_true, if_false,
            Bool.false_eq_true, Option.pure_def, Option.some.injEq] at h <;> subst h
        · exact hfail _
        · exact hbegin
        · exact hfail _
        · exact hfail _
  · split at h
    · cases h3 : check_espfs_header p.buf with
      | none => simp [h3] at h
      | some v =>
        cases v <;>
          simp only [h3, Option.bind_eq_bind, Option.some_bind, if_true, if_false,
            Bool.false_eq_true, Option.pure_def, Option.some.injEq] at h <;> subst h
        · exact hfail _
        · exact hfs
    · simp only [Option.pure_def, Option.some.injEq] at h
      subst h
      exact hfail _

theorem createState_state (pf : Platform) (rt : Route) :
    (createState pf rt).state = FLST_START ∨ (createState pf rt).state = FLST_ERROR := by
  unfold createState
  simp only
  split_ifs <;> simp

/-- A write that does not exhaust the declared length keeps the invariant of a
short upload. -/
theorem writePhase_short (pf : Platform) (p : Post) (L : Loop) (postLen received : Int)
    (hst : L.st.state = FLST_WRITE) (hv : FLST_DONE ∉ L.visited) (hc : Uncommitted L.calls)
    (hlen : L.st.len - L.dataLen = postLen - received) (hpos : postLen - received ≠ 0) :
    ShortLoop postLen received (writePhase pf p L) ∧
      (writePhase pf p L).st.state ≠ FLST_START := by
  have hne : ¬ (L.st.len - L.dataLen = 0) := by omega
  by_cases he : pf.ota_write L.calls L.st.update_handle (p.buf.take L.dataLen.toNat) = ESP_OK
  · have hs : (writePhase pf p L).st.state = FLST_WRITE := by
      simp [writePhase, he, hne, hst]
    have hl : (writePhase pf p L).st.len = L.st.len - L.dataLen := by
      simp [writePhase, he, hne]
    have hvis : (writePhase pf p L).visited = L.visited ++ [FLST_WRITE] := by
      simp [writePhase, he, hne, hst]
    refine ⟨⟨?_, ?_, ?_, ?_, ?_⟩, ?_⟩
    · rw [hvis]; exact not_done_append hv (by decide)
    · exact uncommitted_append hc (uncommitted_write _ _)
    · rw [hs]; decide
    · intro h; rw [hs] at h; cases h
    · intro _; rw [hl]; exact hlen
    · rw [hs]; decide
  · have hs : (writePhase pf p L).st.state = FLST_ERROR := by
      simp [writePhase, he, hne]
    have hvis : (writePhase pf p L).visited = L.visited ++ [FLST_ERROR] := by
      simp [writePhase, he, hne]
    refine ⟨⟨?_, ?_, ?_, ?_, ?_⟩, ?_⟩
    · rw [hvis]; exact not_done_append hv (by decide)
    · exact uncommitted_append hc (uncommitted_write _ _)
    · rw [hs]; decide
    · intro h; rw [hs] at h; cases h
    · intro h; rw [hs] at h; cases h
    · rw [hs]; decide

/-- The loop of one call of a short upload: it returns, and keeps the
invariant. -/
theorem route_loop_short (pf : Platform) (rt : Route) (postLen received : Int)
    (c : List Byte) (L : Loop) (hL : ShortLoop postLen received L)
    (hd : L.dataLen = c.length) (hshort : received + (c.length : Int) < postLen)
    (hhdr : L.st.state = FLST_START → c = [] ∨ 28 ≤ c.length) :
    ∃ L1, loop pf rt ⟨postLen, received + (c.length : Int), c⟩ 2 L = .done L1 ∧
      ShortLoop postLen (received + (c.length : Int)) L1 ∧
      (L1.st.state = FLST_START → c = [] ∧ L.st.state = FLST_START) := by
  obtain ⟨hv, hc, hnd, hstart, hwrite⟩ := hL
  by_cases hz : c = []
  · subst hz
    refine ⟨L, route_loop_zero _ _ _ _ _ (by simpa using hd), ?_, fun h => ⟨rfl, h⟩⟩
    simp only [List.length_nil, Nat.cast_zero, Int.add_zero]
    exact ⟨hv, hc, hnd, hstart, hwrite⟩
  · have hpos : 0 < c.length := List.length_pos.mpr hz
    have hdz : ¬ L.dataLen = 0 := by omega
    rw [route_loop_succ, if_neg hdz]
    cases hs : L.st.state with
    | FLST_START =>
      have h28 : 28 ≤ c.length := by
        rcases hhdr hs with h | h
        · exact absurd h hz
        · exact h
      have hr0 := hstart hs
      obtain ⟨L1, h1⟩ := route_startPhase_total pf rt ⟨postLen, received + (c.length : Int), c⟩ L
        h28
      obtain ⟨e1, e2, e3, e4, e5⟩ := route_startPhase_shape pf rt _ L L1 h1
      have hc1 : Uncommitted L1.calls := by
        rcases e4 with h | ⟨q, h⟩
        · rw [h]; exact hc
        · rw [h]; exact uncommitted_append hc (uncommitted_begin q)
      have hv1 : FLST_DONE ∉ L1.visited := by
        rw [e3]
        refine not_done_append hv ?_
        rcases e2 with h | h <;> rw [h] <;> decide
      simp only [loopBody, hs, h1]
      rw [route_loop_succ, if_neg (by rw [e1]; exact hdz)]
      rcases e2 with hw | herr
      · simp only [loopBody, hw]
        rw [route_loop_zero _ _ _ _ _ (writePhase_dataLen _ _ _)]
        obtain ⟨g1, g2⟩ := writePhase_short pf ⟨postLen, received + (c.length : Int), c⟩ L1
          postLen (received + (c.length : Int)) hw hv1 hc1
          (by rw [e5 hw, e1, hd]; simp only []; omega) (by omega)
        exact ⟨_, rfl, g1, fun h => absurd h g2⟩
      · simp only [loopBody, herr]
        rw [route_loop_zero _ _ _ _ _ rfl]
        refine ⟨_, rfl, ⟨hv1, hc1, ?_, ?_, ?_⟩, fun h => ?_⟩
        · simp only [herr]; decide
        · intro h; simp only [herr] at h; cases h
        · intro h; simp only [herr] at h; cases h
        · simp only [herr] at h; cases h
    | FLST_WRITE =>
      simp only [loopBody, hs]
      rw [route_loop_zero _ _ _ _ _ (writePhase_dataLen _ _ _)]
      obtain ⟨g1, g2⟩ := writePhase_short pf ⟨postLen, received + (c.length : Int), c⟩ L
        postLen (received + (c.length : Int)) hs hv hc
        (by rw [hwrite hs, hd]; omega) (by omega)
      exact ⟨_, rfl, g1, fun h => absurd h g2⟩
    | FLST_DONE => exact absurd hs hnd
    | FLST_ERROR =>
      simp only [loopBody, hs]
      rw [route_loop_zero _ _ _ _ _ rfl]
      refine ⟨_, rfl, ⟨hv, hc, ?_, ?_, ?_⟩, fun h => ?_⟩
      · simp only [hs]; decide
      · intro h; simp only [hs] at h; cases h
      · intro h; simp only [hs] at h; cases h
      · simp only [hs] at h; cases h

/-- The variables the loop starts from keep the invariant of a short upload. -/
theorem enter_short (pf : Platform) (rt : Route) (p : Post) (postLen received : Int)
    (s : Session) (h : ShortInv postLen received s) :
    ShortLoop postLen received (enter pf rt p s) ∧
      (enter pf rt p s).dataLen = p.buf.length ∧
      ((enter pf rt p s).st.state = FLST_START →
        s.user = none ∨ ∃ st, s.user = some st ∧ st.state = FLST_START) := by
  obtain ⟨hv, hc, hn, hsome⟩ := h
  cases hu : s.user with
  | none =>
    have hr := hn hu
    have he : enter pf rt p s =
        ⟨createState pf rt, p.buf.length, s.calls, s.visited ++ [(createState pf rt).state]⟩ := by
      simp [enter, hu]
    rw [he]
    refine ⟨⟨?_, hc, ?_, fun _ => hr, ?_⟩, rfl, fun _ => Or.inl rfl⟩
    · refine not_done_append hv ?_
      rcases createState_state pf rt with h | h <;> rw [h] <;> decide
    · rcases createState_state pf rt with h | h <;> simp only [h] <;> decide
    · intro hw
      rcases createState_state pf rt with h | h <;> simp only [h] at hw <;> cases hw
  | some st =>
    have he : enter pf rt p s = ⟨st, p.buf.length, s.calls, s.visited⟩ := by
      simp [enter, hu]
    obtain ⟨g1, g2, g3⟩ := hsome st hu
    rw [he]
    exact ⟨⟨hv, hc, g1, g2, g3⟩, rfl, fun h => Or.inr ⟨st, rfl, h⟩⟩

/-- One call of a short upload: the handler returns `CWHTTPD_STATUS_MORE`
without a response and keeps the invariant. -/
theorem route_call_short (pf : Platform) (rt : Route) (postLen received : Int)
    (c : List Byte) (s : Session) (hinv : ShortInv postLen received s)
    (hshort : received + (c.length : Int) < postLen)
    (hhdr : (s.user = none ∨ ∃ st, s.user = some st ∧ st.state = FLST_START) →
      c = [] ∨ 28 ≤ c.length) :
    ∃ s1, cwhttpd_route_fw_upload pf rt false
        (some ⟨postLen, received + (c.length : Int), c⟩) s =
          .done ⟨CWHTTPD_STATUS_MORE, s1, none⟩ ∧
      ShortInv postLen (received + (c.length : Int)) s1 ∧
      ∃ st, s1.user = some st ∧
        (st.state = FLST_START →
          c = [] ∧ (s.user = none ∨ ∃ st0, s.user = some st0 ∧ st0.state = FLST_START)) := by
  obtain ⟨hL, hd, hfresh⟩ := enter_short pf rt ⟨postLen, received + (c.length : Int), c⟩
    postLen received s hinv
  obtain ⟨L1, h1, ⟨g1, g2, g3, g4, g5⟩, h3⟩ := route_loop_short pf rt postLen received c _ hL hd
    hshort (fun h => hhdr (hfresh h))
  have hne : ¬ postLen = received + (c.length : Int) := by omega
  refine ⟨⟨some L1.st, L1.calls, L1.visited⟩, ?_, ?_, L1.st, rfl,
    fun h => ⟨(h3 h).1, hfresh (h3 h).2⟩⟩
  · simp only [cwhttpd_route_fw_upload, Bool.false_eq_true, if_false, h1, respond, hne]
  · refine ⟨g1, g2, (fun h => Option.noConfusion h), ?_⟩
    intro st hst
    simp only [Option.some.injEq] at hst
    subst hst
    exact ⟨g3, g4, g5⟩

/-- A short upload, chunk by chunk: every call returns
`CWHTTPD_STATUS_MORE` and the invariant holds at the end. -/
theorem serve_short (pf : Platform) (rt : Route) (postLen : Int) :
    ∀ (cs : List (List Byte)) (received : Int) (s : Session),
      ShortInv postLen received s → received + (cs.flatten.length : Int) < postLen →
      ((s.user = none ∨ ∃ st, s.user = some st ∧ st.state = FLST_START) →
        ∀ c, (nonEmpty cs).head? = some c → 28 ≤ c.length) →
      ∃ fin, serve pf rt postLen cs received s = .done (fin, none) ∧
        ShortInv postLen (received + (cs.flatten.length : Int)) fin := by
  intro cs
  induction cs with
  | nil =>
    intro received s hinv _ _
    refine ⟨s, rfl, ?_⟩
    simpa using hinv
  | cons c cs ih =>
    intro received s hinv hshort hhdr
    have hlen : ((c :: cs).flatten.length : Int) = (c.length : Int) + (cs.flatten.length : Int) := by
      rw [List.flatten_cons, List.length_append]; push_cast; rfl
    obtain ⟨s1, h1, h2, st1, h3, h4⟩ := route_call_short pf rt postLen received c s hinv
      (by omega) (by
        intro hf
        by_cases hc : c = []
        · exact Or.inl hc
        · right
          apply hhdr hf c
          rw [nonEmpty_cons cs hc]
          rfl)
    obtain ⟨fin, g1, g2⟩ := ih (received + (c.length : Int)) s1 h2 (by omega) (by
      intro hf c1 hc1
      have hst1 : st1.state = FLST_START := by
        rcases hf with hf | ⟨st2, hf1, hf2⟩
        · rw [h3] at hf; cases hf
        · rw [h3] at hf1
          simp only [Option.some.injEq] at hf1
          rw [hf1]; exact hf2
      obtain ⟨hc, hfresh⟩ := h4 hst1
      subst hc
      apply hhdr hfresh c1
      rw [nonEmpty_nil_cons]
      exact hc1)
    refine ⟨fin, ?_, ?_⟩
    · simp only [serve, h1, if_true]
      exact g1
    · rw [hlen, ← Int.add_assoc]
      exact g2

/-- C11: for every sequence of chunks whose total length is less than the
declared length (the first non-empty chunk holding the 28 header bytes), every
call returns `CWHTTPD_STATUS_MORE` without a response, the session never takes
`FLST_DONE`, neither `esp_ota_end` nor `esp_ota_set_boot_partition` is called,
and a call with `conn->closed` after that returns `CWHTTPD_STATUS_DONE`, frees
the state and makes no call. -/
theorem no_commit_on_short_upload (pf : Platform) (rt : Route) (postLen : Int)
    (chunks : List (List Byte)) (hshort : (chunks.flatten.length : Int) < postLen)
    (hhdr : ∀ c, (nonEmpty chunks).head? = some c → 28 ≤ c.length) :
    ∃ fin, upload pf rt postLen chunks = .done (fin, none) ∧
      FLST_DONE ∉ fin.visited ∧ (∀ st, fin.user = some st → st.state ≠ FLST_DONE) ∧
      (∀ x ∈ fin.calls, isEnd x = false ∧ isSetBoot x = false) ∧
      ∀ post : Option Post, cwhttpd_route_fw_upload pf rt true post fin =
        .done ⟨CWHTTPD_STATUS_DONE, ⟨none, fin.calls, fin.visited⟩, none⟩ := by
  have hinit : ShortInv postLen 0 ⟨none, [], []⟩ :=
    ⟨by simp, (by intro x hx; cases hx), fun _ => rfl, fun st h => Option.noConfusion h⟩
  obtain ⟨fin, h1, h2, h3, _, h5⟩ := serve_short pf rt postLen chunks 0 ⟨none, [], []⟩ hinit
    (by omega) (fun _ => hhdr)
  refine ⟨fin, h1, h2, fun st hst => (h5 st hst).1, h3, fun post => ?_⟩
  simp [cwhttpd_route_fw_upload]

/-- Witness for C11: the 28 header bytes of an image declared as 31 bytes,
then the connection is closed. -/
theorem no_commit_on_short_upload_witness :
    ([exImageHeader].flatten.length : Int) < 31 ∧
    ∃ fin, upload exPlatform exRoute 31 [exImageHeader] = .done (fin, none) ∧
      FLST_DONE ∉ fin.visited ∧ (∀ st, fin.user = some st → st.state ≠ FLST_DONE) ∧
      (∀ x ∈ fin.calls, isEnd x = false ∧ isSetBoot x = false) ∧
      ∀ post : Option Post, cwhttpd_route_fw_upload exPlatform exRoute true post fin =
        .done ⟨CWHTTPD_STATUS_DONE, ⟨none, fin.calls, fin.visited⟩, none⟩ :=
  ⟨by decide,
    no_commit_on_short_upload exPlatform exRoute 31 [exImageHeader] (by decide)
      (by
        intro c hc
        have h : c = exImageHeader := by
          simp only [nonEmpty, List.filter, exImageHeader, List.isEmpty_cons, Bool.not_false,
            List.head?_cons, Option.some.injEq] at hc
          exact hc.symm
        rw [h]
        decide)⟩

/-! ## The OTA upload route: the response and the handle -/

/-- C30, at a failing input: a 40-byte "ESfs" image sent to a filesystem
endpoint.  `esp_ota_begin` is never called; the image is passed to
`esp_ota_write` with the handle 0 left by `memset`, and `esp_ota_end` is called
with the same handle. -/
theorem espfs_upload_writes_without_begin :
    upload exPlatform exRouteFs 40 [CgiFlash.exImageFs] =
      .done (⟨none,
          [esp_ota_write 0 CgiFlash.exImageFs, esp_ota_end 0,
            esp_ota_set_boot_partition (some 2)],
          [FLST_START, FLST_WRITE, FLST_DONE]⟩,
        some ⟨"Flash Success.", true⟩) ∧
    ([esp_ota_write 0 CgiFlash.exImageFs, esp_ota_end 0,
      esp_ota_set_boot_partition (some 2)].filter isBegin = []) := by
  constructor
  · rfl
  · rfl

theorem createState_msg (pf : Platform) (rt : Route) :
    (createState pf rt).err ≠ "Flash Success." := by
  unfold createState
  simp only
  split_ifs <;> simp

theorem route_startPhase_msg (pf : Platform) (rt : Route) (p : Post) (L L1 : Loop)
    (h : startPhase pf rt p L = some L1) (he : L.st.err ≠ "Flash Success.") :
    L1.st.err ≠ "Flash Success." := by
  have hfail : ∀ msg : String, msg ≠ "Flash Success." →
      (fail L msg).st.err ≠ "Flash Success." := fun msg hm => hm
  have hbegin : (beginOta pf p L).st.err ≠ "Flash Success." := by
    unfold beginOta
    cases hq : L.st.update_partition with
    | none => exact hfail _ (by decide)
    | some q =>
      simp only
      by_cases hb : (pf.ota_begin L.calls q).1 = ESP_OK
      · rw [if_neg (not_not.mpr hb)]
        exact he
      · rw [if_pos hb]
        simp only [fail]
        decide
  have hfs : (startEspfs rt p L).st.err ≠ "Flash Success." := by
    unfold startEspfs
    split
    · exact hfail _ (by decide)
    · exact he
  unfold startPhase at h
  split at h
  · cases h1 : memcmp4 p.buf 0 magicEHUG with
    | none => simp [h1] at h
    | some e =>
      cases h2 : check_bin_header p.buf with
      | none =>
        cases e
        · simp [h1, h2] at h
        · simp only [h1, Option.bind_eq_bind, Option.some_bind, if_true, Option.pure_def,
            Option.some.injEq] at h
          subst h
          exact hfail _ (by decide)
      | some v =>
        cases e <;> cases v <;>
          simp only [h1, h2, Option.bind_eq_bind, Option.some_bind, if_true, if_false,
            Bool.false_eq_true, Option.pure_def, Option.some.injEq] at h <;> subst h
        · exact hfail _ (by decide)
        · exact hbegin
        · exact hfail _ (by decide)
        · exact hfail _ (by decide)
  · split at h
    · cases h3 : check_espfs_header p.buf with
      | none => simp [h3] at h
      | some v =>
        cases v <;>
          simp only [h3, Option.bind_eq_bind, Option.some_bind, if_true, if_false,
            Bool.false_eq_true, Option.pure_def, Option.some.injEq] at h <;> subst h
        · exact hfail _ (by decide)
        · exact hfs
    · simp only [Option.pure_def, Option.some.injEq] at h
      subst h
      exact hfail _ (by decide)

theorem writePhase_msg (pf : Platform) (p : Post) (L : Loop)
    (he : L.st.err ≠ "Flash Success.") : (writePhase pf p L).st.err ≠ "Flash Success." := by
  by_cases hw : pf.ota_write L.calls L.st.update_handle (p.buf.take L.dataLen.toNat) = ESP_OK
  · have : (writePhase pf p L).st.err = L.st.err := by
      simp only [writePhase, hw, ne_eq, not_true_eq_false, if_false]
      split <;> rfl
    rw [this]; exact he
  · have : (writePhase pf p L).st.err = "Error: esp_ota_write failed!" := by
      simp only [writePhase, ne_eq, hw, not_false_eq_true, if_true]
      split <;> rfl
    rw [this]; decide

/-- Before the commit the message is not "Flash Success." and neither
`esp_ota_end` nor `esp_ota_set_boot_partition` has been called: an iteration of
the loop keeps this. -/
theorem route_loopBody_pre (pf : Platform) (rt : Route) (p : Post) (L L1 : Loop)
    (h : loopBody pf rt p L = some L1)
    (hi : L.st.err ≠ "Flash Success." ∧ Uncommitted L.calls) :
    L1.st.err ≠ "Flash Success." ∧ Uncommitted L1.calls := by
  cases hs : L.st.state with
  | FLST_START =>
    simp only [loopBody, hs] at h
    refine ⟨route_startPhase_msg pf rt p L L1 h hi.1, ?_⟩
    obtain ⟨_, _, _, e4, _⟩ := route_startPhase_shape pf rt p L L1 h
    rcases e4 with e | ⟨q, e⟩
    · rw [e]; exact hi.2
    · rw [e]; exact uncommitted_append hi.2 (uncommitted_begin q)
  | FLST_WRITE =>
    simp only [loopBody, hs, Option.some.injEq] at h
    rw [← h]
    exact ⟨writePhase_msg pf p L hi.1, uncommitted_append hi.2 (uncommitted_write _ _)⟩
  | FLST_DONE =>
    simp only [loopBody, hs, Option.some.injEq] at h
    rw [← h]; exact hi
  | FLST_ERROR =>
    simp only [loopBody, hs, Option.some.injEq] at h
    rw [← h]; exact hi

theorem route_loop_pre (pf : Platform) (rt : Route) (p : Post) :
    ∀ (n : Nat) (L L1 : Loop), loop pf rt p n L = .done L1 →
      L.st.err ≠ "Flash Success." ∧ Uncommitted L.calls →
      L1.st.err ≠ "Flash Success." ∧ Uncommitted L1.calls := by
  intro n
  induction n with
  | zero =>
    intro L L1 h hi
    simp only [loop] at h
    split at h
    · cases h; exact hi
    · cases h
  | succ n ih =>
    intro L L1 h hi
    rw [route_loop_succ] at h
    split at h
    · cases h; exact hi
    · cases hb : loopBody pf rt p L with
      | none => simp [hb] at h
      | some L2 =>
        simp only [hb] at h
        exact ih L2 L1 h (route_loopBody_pre pf rt p L L2 hb hi)

/-- The response of a call, from loop variables that are not yet committed:
the success flag, the message and the two closing calls go together. -/
theorem respond_consistent (pf : Platform) (p : Post) (L : Loop) (resp : Response)
    (hi : L.st.err ≠ "Flash Success." ∧ Uncommitted L.calls)
    (h : (respond pf p L).response = some resp) :
    (resp.success = true ↔ resp.message = "Flash Success.") ∧
    (resp.success = true ↔
      ∃ pre hd q, (respond pf p L).session.calls =
          pre ++ [esp_ota_end hd, esp_ota_set_boot_partition q] ∧ pf.ota_end pre hd = ESP_OK) := by
  obtain ⟨he, hc⟩ := hi
  unfold respond at h ⊢
  by_cases hfin : p.len = p.received
  · simp only [hfin, if_true, Option.some.injEq] at h ⊢
    rw [← h]
    by_cases hd : L.st.state = FLST_DONE
    · by_cases hend : pf.ota_end L.calls L.st.update_handle = ESP_OK
      · have hcm : commit pf L =
            { L with
              st := { L.st with err := "Flash Success." }
              calls := L.calls ++ [esp_ota_end L.st.update_handle] ++
                [esp_ota_set_boot_partition L.st.update_partition] } := by
          simp [commit, hd, hend]
        rw [hcm]
        simp only [hd, decide_True, true_iff]
        exact ⟨trivial, L.calls, L.st.update_handle, L.st.update_partition, by simp, hend⟩
      · have hcm : commit pf L =
            { L with
              st := { L.st with err := "esp_ota_end failed!", state := FLST_ERROR }
              calls := L.calls ++ [esp_ota_end L.st.update_handle] ++
                [esp_ota_set_boot_partition L.st.update_partition]
              visited := L.visited ++ [FLST_ERROR] } := by
          simp [commit, hd, hend]
        rw [hcm]
        simp only [reduceCtorEq, decide_False, Bool.false_eq_true, false_iff]
        refine ⟨by decide, ?_⟩
        rintro ⟨pre, h0, q, e1, e2⟩
        have e3 : L.calls ++ [esp_ota_end L.st.update_handle,
            esp_ota_set_boot_partition L.st.update_partition] =
            pre ++ [esp_ota_end h0, esp_ota_set_boot_partition q] := by
          simpa using e1
        have e4 := List.append_inj' e3 rfl
        obtain ⟨e5, e6⟩ := e4
        simp only [List.cons.injEq, esp_ota_end.injEq, esp_ota_set_boot_partition.injEq,
          and_true] at e6
        rw [← e5, ← e6.1] at e2
        exact hend e2
    · have hcm : commit pf L = L := by simp [commit, hd]
      rw [hcm]
      simp only [hd, decide_False, Bool.false_eq_true, false_iff]
      refine ⟨he, ?_⟩
      rintro ⟨pre, h0, q, e1, _⟩
      have hmem : esp_ota_end h0 ∈ L.calls := by
        rw [e1]; simp
      have := (hc _ hmem).1
      simp [isEnd] at this
  · simp [hfin] at h

/-- The value returned by `esp_ota_set_boot_partition` is not used: one call
of the handler is the same on a platform that differs only in it. -/
theorem route_call_set_boot (pf : Platform) (g : List OtaCall → Option Nat → Int)
    (rt : Route) (closed : Bool) (post : Option Post) (s : Session) :
    cwhttpd_route_fw_upload { pf with set_boot_partition := g } rt closed post s =
      cwhttpd_route_fw_upload pf rt closed post s := rfl

theorem serve_set_boot (pf : Platform) (g : List OtaCall → Option Nat → Int) (rt : Route)
    (postLen : Int) :
    ∀ (cs : List (List Byte)) (received : Int) (s : Session),
      serve { pf with set_boot_partition := g } rt postLen cs received s =
        serve pf rt postLen cs received s := by
  intro cs
  induction cs with
  | nil => intro received s; rfl
  | cons c cs ih =>
    intro received s
    simp only [serve, route_call_set_boot, ih]

/-- The final response of an upload from a session that is not committed. -/
theorem serve_consistent (pf : Platform) (rt : Route) (postLen : Int) :
    ∀ (cs : List (List Byte)) (received : Int) (s fin : Session) (resp : Response),
      Uncommitted s.calls → (∀ st, s.user = some st → st.err ≠ "Flash Success.") →
      serve pf rt postLen cs received s = .done (fin, some resp) →
      (resp.success = true ↔ resp.message = "Flash Success.") ∧
      (resp.success = true ↔
        ∃ pre hd q, fin.calls = pre ++ [esp_ota_end hd, esp_ota_set_boot_partition q] ∧
          pf.ota_end pre hd = ESP_OK) := by
  intro cs
  induction cs with
  | nil =>
    intro received s fin resp _ _ h
    simp [serve] at h
  | cons c cs ih =>
    intro received s fin resp hc hu h
    simp only [serve, cwhttpd_route_fw_upload, Bool.false_eq_true, if_false] at h
    have hent : (enter pf rt ⟨postLen, received + (c.length : Int), c⟩ s).st.err ≠
        "Flash Success." ∧
        Uncommitted (enter pf rt ⟨postLen, received + (c.length : Int), c⟩ s).calls := by
      unfold enter
      cases hus : s.user with
      | none => exact ⟨createState_msg pf rt, hc⟩
      | some st => exact ⟨hu st hus, hc⟩
    cases hl : loop pf rt ⟨postLen, received + (c.length : Int), c⟩ 2
        (enter pf rt ⟨postLen, received + (c.length : Int), c⟩ s) with
    | fault => rw [hl] at h; cases h
    | outOfFuel => rw [hl] at h; cases h
    | done L =>
      rw [hl] at h
      simp only at h
      have hpre := route_loop_pre pf rt _ 2 _ L hl hent
      by_cases hfin : postLen = received + (c.length : Int)
      · have hst : (respond pf ⟨postLen, received + (c.length : Int), c⟩ L).status =
            CWHTTPD_STATUS_DONE := by simp [respond, hfin]
        rw [hst] at h
        simp only [reduceCtorEq, if_false, Outcome.done.injEq, Prod.mk.injEq] at h
        obtain ⟨h1, h2⟩ := h
        have := respond_consistent pf ⟨postLen, received + (c.length : Int), c⟩ L resp hpre h2
        rw [h1] at this
        exact this
      · have hrs : respond pf ⟨postLen, received + (c.length : Int), c⟩ L =
            ⟨CWHTTPD_STATUS_MORE, ⟨some L.st, L.calls, L.visited⟩, none⟩ := by
          simp [respond, hfin]
        rw [hrs] at h
        simp only [if_true] at h
        refine ih _ _ fin resp hpre.2 ?_ h
        intro st hst
        simp only [Option.some.injEq] at hst
        rw [← hst]
        exact hpre.1

/-- C29: in every final response of an upload the success flag is true exactly
when the message is "Flash Success.", and exactly when the handler has called
`esp_ota_end` (which it does when the session is in `FLST_DONE` at the declared
length) and the call returned `ESP_OK`; the same session and response result
on a platform whose `esp_ota_set_boot_partition` returns anything else. -/
theorem result_consistency (pf : Platform) (rt : Route) (postLen : Int)
    (chunks : List (List Byte)) (fin : Session) (resp : Response)
    (h : upload pf rt postLen chunks = .done (fin, some resp)) :
    (resp.success = true ↔ resp.message = "Flash Success.") ∧
    (resp.success = true ↔
      ∃ pre hd q, fin.calls = pre ++ [esp_ota_end hd, esp_ota_set_boot_partition q] ∧
        pf.ota_end pre hd = ESP_OK) ∧
    ∀ g : List OtaCall → Option Nat → Int,
      upload { pf with set_boot_partition := g } rt postLen chunks = .done (fin, some resp) := by
  have hcons := serve_consistent pf rt postLen chunks 0 ⟨none, [], []⟩ fin resp
    (by intro x hx; cases hx) (fun st hst => Option.noConfusion hst) h
  refine ⟨hcons.1, hcons.2, ?_⟩
  intro g
  unfold upload
  rw [serve_set_boot]
  exact h

/-- Witness for C29: the 31-byte image in one chunk on the platform where
every call succeeds. -/
theorem result_consistency_witness :
    ((true = true ↔ "Flash Success." = "Flash Success.") ∧
    (true = true ↔
      ∃ pre hd q, [esp_ota_begin 2, esp_ota_write 7 (exImageHeader ++ exImageBody),
          esp_ota_end 7, esp_ota_set_boot_partition (some 2)] =
            pre ++ [esp_ota_end hd, esp_ota_set_boot_partition q] ∧
        exPlatform.ota_end pre hd = ESP_OK) ∧
    ∀ g : List OtaCall → Option Nat → Int,
      upload { exPlatform with set_boot_partition := g } exRoute 31
          [exImageHeader ++ exImageBody] =
        .done (⟨none,
            [esp_ota_begin 2, esp_ota_write 7 (exImageHeader ++ exImageBody), esp_ota_end 7,
              esp_ota_set_boot_partition (some 2)],
            [FLST_START, FLST_WRITE, FLST_DONE]⟩,
          some ⟨"Flash Success.", true⟩)) :=
  result_consistency exPlatform exRoute 31 [exImageHeader ++ exImageBody]
    ⟨none,
      [esp_ota_begin 2, esp_ota_write 7 (exImageHeader ++ exImageBody), esp_ota_end 7,
        esp_ota_set_boot_partition (some 2)],
      [FLST_START, FLST_WRITE, FLST_DONE]⟩
    ⟨"Flash Success.", true⟩ rfl
end RouteFlash

namespace RouteFs

open CgiFlash (Byte Outcome)
open Status

/-! ## Gzip detection -/

/-- C33. On a build that defines `ESP_PLATFORM` (the one in which
`st.st_spare4[0]` is read), for every value `m` of `st.st_spare4[0]`:
`cwhttpd_route_fs_get` sets `gzip_encoding` exactly when `m = 0x2B534645`, so it
stays false for the magic values `0x73665345` and `0x676f7246`, and the gzip
check of `cwhttpd_route_fs_tpl` returns `CWHTTPD_STATUS_NOTFOUND` exactly when
`m = 0x2B534645`. -/
theorem gzip_detection (b : Build) (hb : b.ESP_PLATFORM = true) (m : Nat) :
    (fs_get_gzip_encoding b m = true ↔ m = 0x2B534645) ∧
    fs_get_gzip_encoding b 0x73665345 = false ∧
    fs_get_gzip_encoding b 0x676f7246 = false ∧
    (fs_tpl_gzip_check b m = some CWHTTPD_STATUS_NOTFOUND ↔ m = 0x2B534645) := by
  have key : ∀ k : Nat, fs_get_gzip_encoding b k = true ↔ k = 0x2B534645 := by
    intro k
    unfold fs_get_gzip_encoding
    rw [if_pos hb]
    by_cases h1 : k = 0x73665345
    · subst h1; decide
    · by_cases h2 : k = 0x2B534645
      · subst h2; decide
      · by_cases h3 : k = 0x676f7246
        · subst h3; decide
        · simp [h1, h2, h3]
  refine ⟨key m, ?_, ?_, ?_⟩
  · cases h : fs_get_gzip_encoding b 0x73665345
    · rfl
    · exact absurd ((key _).mp h) (by decide)
  · cases h : fs_get_gzip_encoding b 0x676f7246
    · rfl
    · exact absurd ((key _).mp h) (by decide)
  · unfold fs_tpl_gzip_check fs_tpl_gzip_encoding
    rw [if_pos (Or.inr hb)]
    by_cases h1 : m = 0x73665345
    · subst h1; decide
    · by_cases h2 : m = 0x2B534645
      · subst h2; decide
      · simp [h1, h2]

theorem gzip_detection_witness :
    exBuild.ESP_PLATFORM = true ∧
    ((fs_get_gzip_encoding exBuild 0x2B534645 = true ↔ 0x2B534645 = 0x2B534645) ∧
    fs_get_gzip_encoding exBuild 0x73665345 = false ∧
    fs_get_gzip_encoding exBuild 0x676f7246 = false ∧
    (fs_tpl_gzip_check exBuild 0x2B534645 = some CWHTTPD_STATUS_NOTFOUND ↔
      0x2B534645 = 0x2B534645)) :=
  ⟨rfl, gzip_detection exBuild rfl 0x2B534645⟩

/-! ## `get_filepath` -/

theorem buildPath_exUrlLong :
    buildPath exRoute exUrlLong (List.replicate FILE_CHUNK_LEN 0) FILE_CHUNK_LEN index_html =
      some (exPathLong, 511) := by
  set_option maxRecDepth 100000 in decide

theorem pathArg_exPathLong : pathArg exPathLong = some (List.replicate 511 97) := by
  set_option maxRecDepth 100000 in decide

theorem appendIndex_exPathLong :
    ((appendIndex exPathLong FILE_CHUNK_LEN 511 index_html).bind
      (fun r => pathArg r.1)).isSome = true := by
  set_option maxRecDepth 100000 in decide

/-- C34, at a failing input: a route `"/*"` without arguments, the buffer of
`FILE_CHUNK_LEN = 1024` bytes the handlers pass, the index name `"index.html"`,
and the URL `"/"`, 511 letters `a`, `"/"`.  The remainder `r` after the route
prefix has 512 characters, ends in `'/'`, and `|r| + |index| < len`; yet the path
handed to `stat` is the 511 letters alone, not `r` followed by the index name,
whatever `stat` answers. -/
theorem index_path_cut_short (stat : List Byte → Option Stat) :
    exRoute.argc < 1 ∧
    skipRoutePrefix (cstr exRoute.path) (cstr exUrlLong) =
      some (List.replicate 511 97 ++ [SLASH]) ∧
    (List.replicate 511 (97 : Byte) ++ [SLASH]).length + index_html.length < FILE_CHUNK_LEN ∧
    (∃ f, get_filepath stat exRoute exUrlLong (List.replicate FILE_CHUNK_LEN 0) FILE_CHUNK_LEN
        index_html = some f ∧ f.stats.head? = some (List.replicate 511 97)) ∧
    List.replicate 511 (97 : Byte) ≠ List.replicate 511 97 ++ [SLASH] ++ index_html := by
  refine ⟨by decide, by set_option maxRecDepth 100000 in decide,
    by set_option maxRecDepth 100000 in decide, ?_,
    by set_option maxRecDepth 100000 in decide⟩
  unfold get_filepath
  rw [buildPath_exUrlLong]
  simp only [Option.bind_eq_bind, Option.some_bind, pathArg_exPathLong]
  cases h1 : stat (List.replicate 511 97) with
  | none => exact ⟨_, rfl, rfl⟩
  | some st =>
    simp only []
    by_cases hd : st.isDir = true
    · obtain ⟨a1, ha1⟩ := Option.isSome_iff_exists.mp appendIndex_exPathLong
      obtain ⟨r1, hr1, hp1⟩ := Option.bind_eq_some.mp ha1
      rw [if_pos hd, hr1]
      simp only [Option.some_bind, hp1]
      cases h2 : stat a1 with
      | none => exact ⟨_, rfl, rfl⟩
      | some st1 => exact ⟨_, rfl, rfl⟩
    · rw [if_neg hd]
      exact ⟨_, rfl, rfl⟩

/-! ### The path built for a route without arguments -/

theorem cstr_append_zero (s t : List Byte) (h : (0 : Byte) ∉ s) : cstr (s ++ 0 :: t) = s := by
  induction s with
  | nil => simp [cstr]
  | cons c cs ih =>
    have hc : c ≠ 0 := fun e => h (by simp [e])
    have hcs : (0 : Byte) ∉ cs := fun e => h (by simp [e])
    have := ih hcs
    unfold cstr at this ⊢
    rw [List.cons_append, List.takeWhile_cons_of_pos (by simpa using hc), this]

theorem cstr_eq_self (s : List Byte) (h : (0 : Byte) ∉ s) : cstr s = s := by
  induction s with
  | nil => rfl
  | cons c cs ih =>
    have hc : c ≠ 0 := fun e => h (by simp [e])
    have hcs : (0 : Byte) ∉ cs := fun e => h (by simp [e])
    have := ih hcs
    unfold cstr at this ⊢
    rw [List.takeWhile_cons_of_pos (by simpa using hc), this]

theorem zero_not_mem_cstr (s : List Byte) : (0 : Byte) ∉ cstr s := by
  intro h
  have := List.mem_takeWhile_imp h
  simp at this

theorem skipRoutePrefix_suffix :
    ∀ (a b r : List Byte), skipRoutePrefix a b = some r → ∃ pre, b = pre ++ r := by
  intro a
  induction a with
  | nil =>
    intro b r h
    cases b with
    | nil => simp [skipRoutePrefix] at h
    | cons u us =>
      simp only [skipRoutePrefix, Option.some.injEq] at h
      exact ⟨[], by simp [h]⟩
  | cons x xs ih =>
    intro b r h
    cases b with
    | nil =>
      simp only [skipRoutePrefix, Option.some.injEq] at h
      exact ⟨[], by simp [h]⟩
    | cons u us =>
      simp only [skipRoutePrefix] at h
      by_cases hxu : x = u
      · rw [if_pos hxu] at h
        obtain ⟨pre, hpre⟩ := ih us r h
        exact ⟨u :: pre, by simp [hpre]⟩
      · rw [if_neg hxu] at h
        simp only [Option.some.injEq] at h
        exact ⟨[], by simp [h]⟩

/-- The rest of the URL after the route prefix holds no NUL. -/
theorem skipRoutePrefix_no_nul (rpath url r : List Byte)
    (h : skipRoutePrefix (cstr rpath) (cstr url) = some r) : (0 : Byte) ∉ r := by
  obtain ⟨pre, hpre⟩ := skipRoutePrefix_suffix _ _ _ h
  intro h0
  apply zero_not_mem_cstr url
  rw [hpre]
  simp [h0]

theorem set_last (X Y : List Byte) (hY : Y.length = 1) (c : Byte) :
    (X ++ Y).set X.length c = X ++ [c] := by
  match Y, hY with
  | [y], _ => simp [List.set_append]

/-- The first copy of a route without arguments: the rest of the URL, then NUL
up to the end of the buffer. -/
theorem copyTerminate_first (path r : List Byte) (len : Nat) (hlen : path.length = len)
    (hr0 : (0 : Byte) ∉ r) (hrl : r.length < len) :
    copyTerminate path 0 r (len - 1) (len - 1) =
      some (r ++ List.replicate (len - r.length) 0, r.length) := by
  have hc : cstr r = r := cstr_eq_self r hr0
  have hk : len - r.length = (len - 1 - r.length) + 1 := by omega
  have h1 : strncpy path 0 r (len - 1) =
      some ((r ++ List.replicate (len - 1 - r.length) 0) ++ path.drop (len - 1)) := by
    have ht : r.take (len - 1) = r := List.take_of_length_le (by omega)
    unfold strncpy
    rw [if_pos (by omega), hc, ht]
    simp
  have hX : (r ++ List.replicate (len - 1 - r.length) (0 : Byte)).length = len - 1 := by
    simp
    omega
  have h2 : store ((r ++ List.replicate (len - 1 - r.length) 0) ++ path.drop (len - 1))
      (len - 1) 0 = some (r ++ List.replicate (len - r.length) 0) := by
    unfold store
    rw [if_pos (by simp; omega)]
    have := set_last (r ++ List.replicate (len - 1 - r.length) 0) (path.drop (len - 1))
      (by simp; omega) 0
    rw [hX] at this
    rw [this, hk, List.replicate_succ', List.append_assoc]
  have h3 : strlen (r ++ List.replicate (len - r.length) 0) = some r.length := by
    unfold strlen
    rw [hk, List.replicate_succ, cstr_append_zero r _ hr0, if_pos (by simp)]
  unfold copyTerminate
  rw [h1]
  simp only [Option.bind_eq_bind, Option.some_bind]
  rw [h2]
  simp only [Option.some_bind]
  rw [h3]
  rfl

theorem getElem?_last_append (r Z : List Byte) (hr : r ≠ []) :
    (r ++ Z)[r.length - 1]? = r.getLast? := by
  have hpos : 0 < r.length := List.length_pos.mpr hr
  rw [List.getElem?_append_left (by omega), List.getLast?_eq_getElem?]

/-- A path that does not end in `'/'` is left as it is. -/
theorem appendIfSlash_plain (r index : List Byte) (len k : Nat) (hr : r ≠ [])
    (hlast : r.getLast? ≠ some SLASH) :
    appendIfSlash (r ++ List.replicate k 0) len r.length index =
      some (r ++ List.replicate k 0, r.length) := by
  have hpos : 0 < r.length := List.length_pos.mpr hr
  unfold appendIfSlash
  rw [if_neg (by omega), getElem?_last_append r _ hr]
  cases hl : r.getLast? with
  | none => simp [List.getLast?_eq_none_iff] at hl; exact absurd hl hr
  | some c =>
    have hc : c ≠ SLASH := fun e => hlast (by rw [hl, e])
    simp [hc]

theorem cstr_set_zero (S : List Byte) (K z : Nat) (hS : (0 : Byte) ∉ S) (hK : 0 < K) :
    cstr ((S ++ List.replicate K 0).set z 0) = S.take z := by
  by_cases hz : z < S.length
  · rw [List.set_append, if_pos hz, List.set_eq_take_append_cons_drop, if_pos hz,
      List.append_assoc, List.cons_append]
    apply cstr_append_zero
    intro h
    exact hS (List.mem_of_mem_take h)
  · have hzl : S.length ≤ z := by omega
    rw [List.set_append, if_neg hz, List.take_of_length_le hzl]
    have hrep : (List.replicate K (0 : Byte)).set (z - S.length) 0 = List.replicate K 0 := by
      apply List.ext_getElem
      · simp
      · intro i h1 h2
        simp [List.getElem_set]
    rw [hrep]
    obtain ⟨K1, rfl⟩ : ∃ K1, K = K1 + 1 := ⟨K - 1, by omega⟩
    rw [List.replicate_succ]
    exact cstr_append_zero S _ hS

/-- A path that ends in `'/'` gets the index name, and then a NUL at index
`len - out_len - 1` of the buffer: the string left is `r` followed by the index
name, cut at that index. -/
theorem appendIfSlash_index (r index : List Byte) (len : Nat) (hr0 : (0 : Byte) ∉ r)
    (hi0 : (0 : Byte) ∉ index) (hlast : r.getLast? = some SLASH)
    (hfit : r.length + index.length < len) :
    ∃ p k, appendIfSlash (r ++ List.replicate (len - r.length) 0) len r.length index =
        some (p, k) ∧
      cstr p = (r ++ index).take (len - r.length - 1) := by
  have hr : r ≠ [] := by
    intro h
    rw [h] at hlast
    simp at hlast
  have hpos : 0 < r.length := List.length_pos.mpr hr
  have hci : cstr index = index := cstr_eq_self index hi0
  have hdrop : (r ++ List.replicate (len - r.length) (0 : Byte)).drop (len - 1) = [0] := by
    rw [List.drop_append_eq_append_drop, List.drop_of_length_le (by omega)]
    simp
    have : len - r.length - (len - 1 - r.length) = 1 := by omega
    rw [this]
    rfl
  have h1 : strncpy (r ++ List.replicate (len - r.length) 0) r.length index
      (len - r.length - 1) =
      some ((r ++ index) ++ List.replicate (len - r.length - index.length) 0) := by
    have e : r.length + (len - r.length - 1) = len - 1 := by omega
    have hcond : r.length + (len - r.length - 1) ≤
        (r ++ List.replicate (len - r.length) (0 : Byte)).length := by
      simp only [List.length_append, List.length_replicate]
      omega
    have ht1 : (r ++ List.replicate (len - r.length) (0 : Byte)).take r.length = r := by simp
    have ht2 : index.take (len - r.length - 1) = index := List.take_of_length_le (by omega)
    have hk : len - r.length - index.length = (len - r.length - 1 - index.length) + 1 := by
      omega
    unfold strncpy
    rw [if_pos hcond, hci, ht1, ht2, e, hdrop, hk, List.replicate_succ']
    simp [List.append_assoc]
  have hS : (0 : Byte) ∉ r ++ index := by
    simp only [List.mem_append, not_or]
    exact ⟨hr0, hi0⟩
  have h2 : store ((r ++ index) ++ List.replicate (len - r.length - index.length) 0)
      (len - r.length - 1) 0 =
      some (((r ++ index) ++ List.replicate (len - r.length - index.length) 0).set
        (len - r.length - 1) 0) := by
    unfold store
    rw [if_pos (by simp; omega)]
  have h3 : cstr (((r ++ index) ++ List.replicate (len - r.length - index.length) 0).set
      (len - r.length - 1) 0) = (r ++ index).take (len - r.length - 1) :=
    cstr_set_zero _ _ _ hS (by omega)
  have hmem : (0 : Byte) ∈ ((r ++ index) ++
      List.replicate (len - r.length - index.length) 0).set (len - r.length - 1) 0 := by
    apply List.mem_iff_getElem.mpr
    refine ⟨len - r.length - 1, by simp; omega, ?_⟩
    simp
  refine ⟨_, (cstr (((r ++ index) ++ List.replicate (len - r.length - index.length) 0).set
    (len - r.length - 1) 0)).length, ?_, h3⟩
  unfold appendIfSlash
  rw [if_neg (by omega), getElem?_last_append r _ hr, hlast]
  simp only [true_and]
  rw [if_pos (by omega)]
  unfold copyTerminate
  rw [h1]
  simp only [Option.bind_eq_bind, Option.some_bind, h2]
  unfold strlen
  rw [if_pos hmem]
  rfl

/-- The path handed to the first `stat` is the string in the buffer after
lines 41 to 76. -/
theorem get_filepath_first_stat (stat : List Byte → Option Stat) (route : Route)
    (url path : List Byte) (len : Nat) (index : List Byte) (f : Found)
    (h : get_filepath stat route url path len index = some f) :
    ∃ r, buildPath route url path len index = some r ∧ f.stats.head? = some (cstr r.1) := by
  unfold get_filepath at h
  cases hb : buildPath route url path len index with
  | none => rw [hb] at h; simp at h
  | some r =>
    rw [hb] at h
    simp only [Option.bind_eq_bind, Option.some_bind] at h
    refine ⟨r, rfl, ?_⟩
    cases hpa : pathArg r.1 with
    | none => rw [hpa] at h; simp at h
    | some a =>
      have ha : a = cstr r.1 := by
        unfold pathArg at hpa
        split_ifs at hpa
        exact (Option.some.inj hpa).symm
      rw [hpa] at h
      simp only [Option.some_bind] at h
      rw [← ha]
      cases h1 : stat a with
      | none =>
        rw [h1] at h
        simp only [Option.some.injEq] at h
        rw [← h]
        rfl
      | some st =>
        rw [h1] at h
        simp only [] at h
        by_cases hd : st.isDir = true
        · rw [if_pos hd] at h
          cases hx : appendIndex r.1 len r.2 index with
          | none => rw [hx] at h; simp at h
          | some r1 =>
            rw [hx] at h
            simp only [Option.some_bind] at h
            cases hpa1 : pathArg r1.1 with
            | none => rw [hpa1] at h; simp at h
            | some a1 =>
              rw [hpa1] at h
              simp only [Option.some_bind] at h
              cases h2 : stat a1 with
              | none =>
                rw [h2] at h
                simp only [Option.some.injEq] at h
                rw [← h]
                rfl
              | some st1 =>
                rw [h2] at h
                simp only [Option.some.injEq] at h
                rw [← h]
                rfl
        · rw [if_neg hd] at h
          simp only [Option.some.injEq] at h
          rw [← h]
          rfl

/-- For a route without arguments and a rest `r` of the URL that does not end
in `'/'`, with `|r| < len`: the string built is exactly `r`. -/
theorem buildPath_plain (route : Route) (url path : List Byte) (len : Nat)
    (index r : List Byte) (hargc : route.argc < 1)
    (hskip : skipRoutePrefix (cstr route.path) (cstr url) = some r)
    (hlen : path.length = len) (hr : r ≠ []) (hlast : r.getLast? ≠ some SLASH)
    (hrl : r.length < len) :
    ∃ p k, buildPath route url path len index = some (p, k) ∧ cstr p = r := by
  have hr0 := skipRoutePrefix_no_nul _ _ _ hskip
  have hpos : 0 < len := by omega
  refine ⟨r ++ List.replicate (len - r.length) 0, r.length, ?_, ?_⟩
  · unfold buildPath
    rw [hskip]
    simp only [Option.bind_eq_bind, Option.some_bind]
    rw [if_pos hargc, if_pos hpos, copyTerminate_first path r len hlen hr0 hrl]
    simp only [Option.some_bind]
    exact appendIfSlash_plain r index len _ hr hlast
  · obtain ⟨K1, hK1⟩ : ∃ K1, len - r.length = K1 + 1 := ⟨len - r.length - 1, by omega⟩
    rw [hK1, List.replicate_succ]
    exact cstr_append_zero r _ hr0

/-- For a route without arguments and a rest `r` of the URL that ends in `'/'`,
with `|r| + |index| < len`: the string built is `r` followed by the index name,
cut after `len - |r| - 1` characters.  It is the whole of it exactly when
`2 |r| + |index| < len`. -/
theorem buildPath_index (route : Route) (url path : List Byte) (len : Nat)
    (index r : List Byte) (hargc : route.argc < 1)
    (hskip : skipRoutePrefix (cstr route.path) (cstr url) = some r)
    (hlen : path.length = len) (hi0 : (0 : Byte) ∉ index) (hlast : r.getLast? = some SLASH)
    (hfit : r.length + index.length < len) :
    ∃ p k, buildPath route url path len index = some (p, k) ∧
      cstr p = (r ++ index).take (len - r.length - 1) ∧
      (cstr p = r ++ index ↔ 2 * r.length + index.length < len) := by
  have hr0 := skipRoutePrefix_no_nul _ _ _ hskip
  have hpos : 0 < len := by omega
  obtain ⟨p, k, hp, hc⟩ := appendIfSlash_index r index len hr0 hi0 hlast hfit
  refine ⟨p, k, ?_, hc, ?_⟩
  · unfold buildPath
    rw [hskip]
    simp only [Option.bind_eq_bind, Option.some_bind]
    rw [if_pos hargc, if_pos hpos, copyTerminate_first path r len hlen hr0 (by omega)]
    simp only [Option.some_bind]
    exact hp
  · rw [hc]
    constructor
    · intro h
      have hl := congrArg List.length h
      simp only [List.length_take, List.length_append] at hl
      omega
    · intro h
      apply List.take_of_length_le
      simp only [List.length_append]
      omega

/-! ## The template processor -/

theorem items_append (a b : List Event) : items (a ++ b) = items a ++ items b := by
  induction a with
  | nil => rfl
  | cons e es ih =>
    cases e with
    | out c r => cases c <;> simp [items, ih]
    | cb t => cases t <;> simp [items, ih]

theorem call_ok (env : Env) (henv : SendsSucceed env) (log : List Event) (c : Call) :
    (call env log c).2 = true := by
  simp [call, henv log c]

theorem items_call_send (env : Env) (henv : SendsSucceed env) (log : List Event)
    (d : List Byte) :
    items (call env log (Call.send d)).1 = items log ++ d.map Item.byte := by
  simp [call, items_append, items, henv log (Call.send d)]

theorem scanFrom_nil (m : Mode) : scanFrom m [] = [] := by
  cases m <;> rfl

theorem modeAfter_nil (m : Mode) : modeAfter m [] = m := by
  cases m <;> rfl

theorem scanFrom_append (m : Mode) (a b : List Byte) :
    scanFrom m (a ++ b) = scanFrom m a ++ scanFrom (modeAfter m a) b := by
  induction a generalizing m with
  | nil => simp [scanFrom_nil, modeAfter_nil]
  | cons c cs ih =>
    cases m with
    | text =>
      by_cases h : c = PERCENT
      · simp [scanFrom, modeAfter, h, ih]
      · simp [scanFrom, modeAfter, h, ih]
    | name n =>
      by_cases h : c = PERCENT
      · simp [scanFrom, modeAfter, h, ih]
      · simp [scanFrom, modeAfter, h, ih]

theorem modeAfter_append (m : Mode) (a b : List Byte) :
    modeAfter m (a ++ b) = modeAfter (modeAfter m a) b := by
  induction a generalizing m with
  | nil => simp [modeAfter_nil]
  | cons c cs ih =>
    cases m with
    | text =>
      by_cases h : c = PERCENT
      · simp [modeAfter, h, ih]
      · simp [modeAfter, h, ih]
    | name n =>
      by_cases h : c = PERCENT
      · simp [modeAfter, h, ih]
      · simp [modeAfter, h, ih]

theorem scanFrom_cons (m : Mode) (c : Byte) (cs : List Byte) :
    scanFrom m (c :: cs) = scanFrom m [c] ++ scanFrom (modeAfter m [c]) cs := by
  have h := scanFrom_append m [c] cs
  simpa using h

theorem modeAfter_cons (m : Mode) (c : Byte) (cs : List Byte) :
    modeAfter m (c :: cs) = modeAfter (modeAfter m [c]) cs := by
  have h := modeAfter_append m [c] cs
  simpa using h

theorem drop_eq_getD_cons (l : List Byte) (i : Nat) (h : i < l.length) :
    l.drop i = l.getD i 0 :: l.drop (i + 1) := by
  rw [List.drop_eq_getElem_cons h]
  simp [List.getD, List.getElem?_eq_getElem h]

theorem take_drop_succ (l : List Byte) (p k : Nat) (h : p + k < l.length) :
    (l.drop p).take (k + 1) = (l.drop p).take k ++ [l.getD (p + k) 0] := by
  rw [List.take_succ]
  simp [List.getD, List.getElem?_drop, List.getElem?_eq_getElem h]

/-- One iteration of the `for` loop follows one character of the one-pass scan. -/
theorem forBody_sim (env : Env) (henv : SendsSucceed env) (buf : List Byte) (i : Nat)
    (hi : i < buf.length) (s : Scan) (m : Mode) (hinv : ScanInv i s m) :
    ∃ s1, forBody env buf i s = Try.go s1 ∧ ScanInv (i + 1) s1 (modeAfter m [buf.getD i 0]) ∧
      items s1.log ++ pending buf s1 =
        items s.log ++ pending buf s ++ scanFrom m [buf.getD i 0] := by
  obtain ⟨hrep, htext, htok⟩ := hinv
  cases m with
  | text =>
    have hneg : s.token_pos < 0 := hrep
    obtain ⟨hrc, hp⟩ := htext hneg
    by_cases hc0 : buf.getD i 0 = PERCENT
    · have hc : buf[i]?.getD 0 = PERCENT := by simpa using hc0
      by_cases hz : s.raw_count = 0
      · refine ⟨{ s with token_pos := 0 }, ?_, ?_, ?_⟩
        · simp [forBody, hneg, hc, hz]
        · refine ⟨?_, ?_, ?_⟩
          · simp [modeAfter, hc, Rep]
          · intro h; simp at h
          · intro _; exact hz
        · simp [scanFrom, hc, pending, rawData, hz]
      · refine ⟨{ s with
            log := (call env s.log (Call.send (rawData buf s))).1
            raw_count := 0
            token_pos := 0 }, ?_, ?_, ?_⟩
        · simp [forBody, hneg, hc, hz, call_ok env henv]
        · refine ⟨?_, ?_, ?_⟩
          · simp [modeAfter, hc, Rep]
          · intro h; simp at h
          · intro _; rfl
        · simp [scanFrom, hc, pending, rawData, items_call_send env henv]
    · have hc : ¬ buf[i]?.getD 0 = PERCENT := by simpa using hc0
      refine ⟨{ s with raw_count := s.raw_count + 1 }, ?_, ?_, ?_⟩
      · simp [forBody, hneg, hc]
      · refine ⟨?_, ?_, ?_⟩
        · simpa [modeAfter, hc, Rep] using hneg
        · intro _
          constructor
          · show 0 ≤ s.raw_count + 1
            omega
          · show s.p + (s.raw_count + 1).toNat = i + 1
            omega
        · intro h
          have : 0 ≤ s.token_pos := h
          omega
      · have h1 : (s.raw_count + 1).toNat = s.raw_count.toNat + 1 := by omega
        have h2 : s.p + s.raw_count.toNat < buf.length := by omega
        simp only [scanFrom, hc0, pending, rawData, h1, if_false]
        rw [take_drop_succ buf s.p s.raw_count.toNat h2, hp]
        simp
  | name n =>
    obtain ⟨hpos, hlen, htk⟩ := hrep
    have hnn : ¬ s.token_pos < 0 := by omega
    have hrc := htok hpos
    by_cases hc0 : buf.getD i 0 = PERCENT
    · have hc : buf[i]?.getD 0 = PERCENT := by simpa using hc0
      by_cases hz : s.token_pos = 0
      · have hn : n = [] := by
          have : min n.length 31 = 0 := by rw [← hlen, hz]; rfl
          have : n.length = 0 := by omega
          exact List.length_eq_zero.mp this
        refine ⟨{ s with
            log := (call env s.log (Call.send [PERCENT])).1
            p := i + 1
            token_pos := -1 }, ?_, ?_, ?_⟩
        · simp [forBody, hnn, hc, hz, call_ok env henv]
        · refine ⟨?_, ?_, ?_⟩
          · simp [modeAfter, hc, Rep]
          · intro _
            constructor
            · show 0 ≤ s.raw_count
              omega
            · show i + 1 + s.raw_count.toNat = i + 1
              omega
          · intro h; simp at h
        · simp [scanFrom, hc, pending, rawData, items_call_send env henv, hrc, hn,
            closeMarker]
      · have hn : n ≠ [] := by
          intro h
          rw [h] at hlen
          simp at hlen
          omega
        refine ⟨{ s with
            log := s.log ++ [Event.cb (some (s.token.take s.token_pos.toNat))]
            p := i + 1
            token_pos := -1 }, ?_, ?_, ?_⟩
        · simp [forBody, hnn, hc, hz]
        · refine ⟨?_, ?_, ?_⟩
          · simp [modeAfter, hc, Rep]
          · intro _
            constructor
            · show 0 ≤ s.raw_count
              omega
            · show i + 1 + s.raw_count.toNat = i + 1
              omega
          · intro h; simp at h
        · simp [scanFrom, hc, pending, rawData, items_append, items, hrc, hn, closeMarker,
            htk]
    · have hc : ¬ buf[i]?.getD 0 = PERCENT := by simpa using hc0
      by_cases hlt : s.token_pos < ((TOKEN_SIZE - 1 : Nat) : Int)
      · have hlt1 : s.token_pos < 31 := by simpa [TOKEN_SIZE] using hlt
        have hnl : n.length < 31 := by omega
        refine ⟨{ s with
            token := s.token.take s.token_pos.toNat ++ [buf.getD i 0]
            token_pos := s.token_pos + 1 }, ?_, ?_, ?_⟩
        · simp [forBody, hnn, hc, hlt]
        · refine ⟨?_, ?_, ?_⟩
          · simp only [modeAfter, hc0, if_false, Rep]
            refine ⟨by omega, ?_, ?_⟩
            · simp only [List.length_append, List.length_singleton]
              omega
            · have h1 : (s.token_pos + 1).toNat = s.token_pos.toNat + 1 := by omega
              have h2 : (s.token.take s.token_pos.toNat).length = s.token_pos.toNat := by
                rw [htk, List.length_take]
                omega
              rw [h1, List.take_append_eq_append_take, h2]
              simp only [Nat.add_sub_cancel_left, List.take_succ_cons, List.take_zero]
              rw [List.take_of_length_le (by omega), htk,
                List.take_of_length_le (by omega),
                List.take_of_length_le (by simp; omega)]
          · intro h
            have : s.token_pos + 1 < 0 := h
            omega
          · intro _; exact hrc
        · simp [scanFrom, hc, pending, rawData, hrc]
      · have hge : 31 ≤ s.token_pos := by
          have : ¬ s.token_pos < 31 := by simpa [TOKEN_SIZE] using hlt
          omega
        have hnl : 31 ≤ n.length := by omega
        refine ⟨s, ?_, ?_, ?_⟩
        · simp [forBody, hnn, hc, hlt]
        · refine ⟨?_, ?_, ?_⟩
          · simp only [modeAfter, hc0, if_false, Rep]
            refine ⟨hpos, ?_, ?_⟩
            · simp only [List.length_append, List.length_singleton]
              omega
            · rw [htk, List.take_append_of_le_length hnl]
          · intro h; omega
          · intro _; exact hrc
        · simp [scanFrom, hc, pending, rawData, hrc]

/-- The `for` loop from index `i` follows the one-pass scan of `buf[i ..]`. -/
theorem forLoop_sim (env : Env) (henv : SendsSucceed env) (buf : List Byte) :
    ∀ (k i : Nat) (s : Scan) (m : Mode), i + k = buf.length → ScanInv i s m →
      ∃ s1, forLoop env buf k i s = Try.go s1 ∧
        ScanInv buf.length s1 (modeAfter m (buf.drop i)) ∧
        items s1.log ++ pending buf s1 =
          items s.log ++ pending buf s ++ scanFrom m (buf.drop i) := by
  intro k
  induction k with
  | zero =>
    intro i s m hik hinv
    have hi : i = buf.length := by omega
    subst hi
    refine ⟨s, rfl, ?_, ?_⟩
    · simpa [modeAfter_nil] using hinv
    · simp [scanFrom_nil]
  | succ k ih =>
    intro i s m hik hinv
    have hi : i < buf.length := by omega
    obtain ⟨s1, h1, hinv1, hout1⟩ := forBody_sim env henv buf i hi s m hinv
    obtain ⟨s2, h2, hinv2, hout2⟩ := ih (i + 1) s1 _ (by omega) hinv1
    refine ⟨s2, ?_, ?_, ?_⟩
    · simp only [forLoop, h1, h2]
    · rw [drop_eq_getD_cons buf i hi, modeAfter_cons]
      exact hinv2
    · rw [drop_eq_getD_cons buf i hi, scanFrom_cons, hout2, hout1]
      simp [List.append_assoc]

/-- One read follows the one-pass scan of the bytes read. -/
theorem readChunk_sim (env : Env) (henv : SendsSucceed env) (buf : List Byte) (t : Tpl)
    (m : Mode) (hrep : Rep t.token_pos t.token m) :
    ∃ t1, readChunk env buf t = Try.go t1 ∧ Rep t1.token_pos t1.token (modeAfter m buf) ∧
      items t1.log = items t.log ++ scanFrom m buf := by
  have hinv : ScanInv 0 ⟨0, 0, t.token_pos, t.token, t.log⟩ m :=
    ⟨hrep, fun _ => ⟨le_refl _, rfl⟩, fun _ => rfl⟩
  obtain ⟨s1, h1, hinv1, hout1⟩ :=
    forLoop_sim env henv buf buf.length 0 ⟨0, 0, t.token_pos, t.token, t.log⟩ m (by simp) hinv
  have hout : items s1.log ++ pending buf s1 = items t.log ++ scanFrom m buf := by
    simpa [pending, rawData] using hout1
  have hrep1 : Rep s1.token_pos s1.token (modeAfter m buf) := by
    simpa using hinv1.1
  by_cases hz : s1.raw_count = 0
  · refine ⟨⟨s1.token_pos, s1.token, s1.log⟩, ?_, hrep1, ?_⟩
    · simp [readChunk, h1, hz]
    · rw [← hout]
      simp [pending, rawData, hz]
  · refine ⟨⟨s1.token_pos, s1.token, (call env s1.log (Call.send (rawData buf s1))).1⟩,
      ?_, hrep1, ?_⟩
    · simp [readChunk, h1, hz, call_ok env henv]
    · rw [← hout]
      simp [pending, items_call_send env henv]

/-- With reads of `n > 0` bytes and more fuel than the file has bytes, the
`do ... while` loop ends with `r = CWHTTPD_STATUS_DONE`, and its output is that
of the one-pass scan of the unread rest of the file. -/
theorem tplLoop_sim (env : Env) (henv : SendsSucceed env) (n : Nat) (hn : 0 < n) :
    ∀ (fuel : Nat) (f : List Byte) (t : Tpl) (m : Mode), f.length < fuel →
      Rep t.token_pos t.token m →
      ∃ log, tplLoop env n fuel f t = Outcome.done (CWHTTPD_STATUS_DONE, log) ∧
        items log = items t.log ++ scanFrom m f := by
  intro fuel
  induction fuel with
  | zero => intro f t m h; omega
  | succ fuel ih =>
    intro f t m hf hrep
    obtain ⟨t1, h1, hrep1, hout1⟩ := readChunk_sim env henv (f.take n) t m hrep
    by_cases hfull : (f.take n).length = n
    · have hle : n ≤ f.length := by
        rw [List.length_take] at hfull
        omega
      obtain ⟨log, h2, hout2⟩ := ih (f.drop n) t1 _ (by rw [List.length_drop]; omega) hrep1
      refine ⟨log, ?_, ?_⟩
      · simp only [tplLoop, h1, hfull, if_true, h2]
      · rw [hout2, hout1, List.append_assoc, ← scanFrom_append, List.take_append_drop]
    · have hall : f.take n = f := by
        apply List.take_of_length_le
        rw [List.length_take] at hfull
        omega
      refine ⟨t1.log, ?_, ?_⟩
      · simp only [tplLoop, h1, hfull, if_false]
      · rw [hout1, hall]

/-- The template section with reads of any size `n > 0`, when all sends
succeed: it ends with `CWHTTPD_STATUS_DONE`, and what it adds to the output is
the one-pass scan of the file. -/
theorem tplProcess_sim (env : Env) (henv : SendsSucceed env) (n : Nat) (hn : 0 < n)
    (file : List Byte) (log0 : List Event) :
    ∃ log, tplProcess env n file log0 = Outcome.done (CWHTTPD_STATUS_DONE, log) ∧
      items log = items log0 ++ onePass file := by
  obtain ⟨log, h, hout⟩ :=
    tplLoop_sim env henv n hn (file.length + 1) file ⟨-1, [], log0⟩ Mode.text (by omega)
      (by simp [Rep])
  refine ⟨log ++ [Event.cb none], ?_, ?_⟩
  · simp only [tplProcess, h]
  · rw [items_append, hout]
    simp [onePass, items]

/-! ### The one-pass scan of a template given by its pieces -/

theorem scanFrom_text (t rest : List Byte) (ht : PERCENT ∉ t) :
    scanFrom Mode.text (t ++ rest) = t.map Item.byte ++ scanFrom Mode.text rest := by
  induction t with
  | nil => simp
  | cons c cs ih =>
    have hc : c ≠ PERCENT := fun h => ht (by simp [h])
    have hcs : PERCENT ∉ cs := fun h => ht (by simp [h])
    simp [scanFrom, hc, ih hcs]

theorem scanFrom_name (acc t rest : List Byte) (ht : PERCENT ∉ t) :
    scanFrom (Mode.name acc) (t ++ PERCENT :: rest) =
      closeMarker (acc ++ t) ++ scanFrom Mode.text rest := by
  induction t generalizing acc with
  | nil => simp [scanFrom]
  | cons c cs ih =>
    have hc : c ≠ PERCENT := fun h => ht (by simp [h])
    have hcs : PERCENT ∉ cs := fun h => ht (by simp [h])
    simp [scanFrom, hc, ih (acc ++ [c]) hcs]

theorem scanFrom_name_open (acc t : List Byte) (ht : PERCENT ∉ t) :
    scanFrom (Mode.name acc) t = [] := by
  induction t generalizing acc with
  | nil => rfl
  | cons c cs ih =>
    have hc : c ≠ PERCENT := fun h => ht (by simp [h])
    have hcs : PERCENT ∉ cs := fun h => ht (by simp [h])
    simp [scanFrom, hc, ih (acc ++ [c]) hcs]

theorem scanFrom_segment (sg : Segment) (hw : sg.WellFormed) (rest : List Byte) :
    scanFrom Mode.text (sg.render ++ rest) = sg.output ++ scanFrom Mode.text rest := by
  cases sg with
  | text t => exact scanFrom_text t rest hw
  | escape => simp [Segment.render, Segment.output, scanFrom, closeMarker]
  | marker name =>
    obtain ⟨hne, hp⟩ := hw
    have h := scanFrom_name [] name rest hp
    have hshape : (Segment.marker name).render ++ rest = PERCENT :: (name ++ PERCENT :: rest) := by
      simp [Segment.render]
    have htake : name.take (min name.length 31) = name.take 31 := by
      rcases Nat.le_total name.length 31 with h31 | h31
      · rw [Nat.min_eq_left h31, List.take_of_length_le h31, List.take_of_length_le (le_refl _)]
      · rw [Nat.min_eq_right h31]
    rw [hshape]
    simp only [scanFrom, if_true]
    rw [h]
    simp [closeMarker, hne, Segment.output, htake]

theorem scanFrom_segments (segs : List Segment) (hw : ∀ sg ∈ segs, sg.WellFormed)
    (tail : Option (List Byte)) (ht : ∀ t, tail = some t → PERCENT ∉ t) :
    scanFrom Mode.text (segs.flatMap Segment.render ++ renderTail tail) =
      segs.flatMap Segment.output := by
  induction segs with
  | nil =>
    cases tail with
    | none => rfl
    | some t => simpa [renderTail, scanFrom] using scanFrom_name_open [] t (ht t rfl)
  | cons sg rest ih =>
    have h1 := scanFrom_segment sg (hw sg (by simp))
      (rest.flatMap Segment.render ++ renderTail tail)
    simp only [List.flatMap_cons, List.append_assoc]
    rw [h1, ih (fun x hx => hw x (by simp [hx]))]

/-! ### The template section inside the handler -/

theorem calls_ok (env : Env) (henv : SendsSucceed env) :
    ∀ (cs : List Call) (log : List Event), (∀ c ∈ cs, ∀ d, c ≠ Call.send d) →
      (calls env cs log).2 = true ∧ items (calls env cs log).1 = items log := by
  intro cs
  induction cs with
  | nil => intro log _; exact ⟨rfl, rfl⟩
  | cons c cs ih =>
    intro log hns
    have hc : ∀ d, c ≠ Call.send d := hns c (by simp)
    have hitems : items (call env log c).1 = items log := by
      simp only [call, items_append]
      cases c with
      | send d => exact absurd rfl (hc d)
      | response code => simp [items]
      | send_header n v => simp [items]
      | send_cache_header m => simp [items]
      | chunk_start sz => simp [items]
      | chunk_end => simp [items]
    obtain ⟨h1, h2⟩ := ih (call env log c).1 (fun x hx => hns x (by simp [hx]))
    simp only [calls, call_ok env henv, if_true]
    exact ⟨h1, by rw [h2, hitems]⟩

/-- The handler `cwhttpd_route_fs_tpl` on a GET request whose file is found,
passes the gzip check and opens, when all output calls succeed: it returns
`CWHTTPD_STATUS_DONE`, and its output is the one-pass scan of the file. -/
theorem fs_tpl_output (b : Build) (env : Env) (henv : SendsSucceed env) (conn : Conn)
    (found : Found) (st : Stat) (file : List Byte)
    (hm : conn.method = Method.CWHTTPD_METHOD_GET)
    (hf : get_filepath env.stat conn.route conn.url (List.replicate FILE_CHUNK_LEN 0)
      FILE_CHUNK_LEN index_tpl = some found)
    (hok : found.ok = true) (hst : found.st = some st)
    (hg : fs_tpl_gzip_check b st.st_spare4_0 = none)
    (hfo : env.fopen (cstr found.path) = some file) :
    ∃ log, cwhttpd_route_fs_tpl b env conn = Outcome.done (CWHTTPD_STATUS_DONE, log) ∧
      items log = onePass file := by
  have hcalls := calls_ok env henv
    ([Call.response 200] ++
      (match env.get_mimetype (cstr found.path) with
        | some m => [Call.send_header [67, 111, 110, 116, 101, 110, 116, 45, 84, 121,
            112, 101] m]
        | none => [])) []
    (by
      intro c hc d
      cases hmt : env.get_mimetype (cstr found.path) with
      | none =>
        rw [hmt] at hc
        simp at hc
        rw [hc]
        exact Call.noConfusion
      | some m =>
        rw [hmt] at hc
        simp at hc
        rcases hc with hc | hc <;> rw [hc] <;> exact Call.noConfusion)
  obtain ⟨log, hrun, hout⟩ := tplProcess_sim env henv FILE_CHUNK_LEN (by decide) file
    (calls env ([Call.response 200] ++
      (match env.get_mimetype (cstr found.path) with
        | some m => [Call.send_header [67, 111, 110, 116, 101, 110, 116, 45, 84, 121,
            112, 101] m]
        | none => [])) []).1
  refine ⟨log, ?_, ?_⟩
  · unfold cwhttpd_route_fs_tpl
    rw [if_neg (by simp [hm]), hf]
    simp only [hok, hst, hg, hfo]
    rw [if_pos hcalls.1]
    exact hrun
  · rw [hout, hcalls.2]
    simp [items]

theorem exSegments_wellFormed : ∀ sg ∈ exSegments, sg.WellFormed := by
  intro sg h
  simp only [exSegments, List.mem_cons, List.mem_singleton, List.not_mem_nil, or_false] at h
  rcases h with rfl | rfl | rfl | rfl
  · show PERCENT ∉ [97, 98]
    decide
  · trivial
  · exact ⟨by decide, by decide⟩
  · show PERCENT ∉ [122]
    decide

theorem exTail_wellFormed : ∀ t, some ([120] : List Byte) = some t → PERCENT ∉ t := by
  intro t h
  cases h
  decide

/-- Every content of a template file is a sequence of well-formed pieces,
possibly followed by an unmatched `'%'` and text without `'%'`. -/
theorem template_pieces (content : List Byte) :
    ∃ (segs : List Segment) (tail : Option (List Byte)),
      (∀ sg ∈ segs, sg.WellFormed) ∧ (∀ t, tail = some t → PERCENT ∉ t) ∧
      content = segs.flatMap Segment.render ++ renderTail tail := by
  induction content using List.reverseRecOn with
  | nil => exact ⟨[], none, by simp, by simp, rfl⟩
  | append_singleton cs c ih =>
    obtain ⟨segs, tail, hw, ht, hcs⟩ := ih
    cases tail with
    | none =>
      by_cases hc : c = PERCENT
      · refine ⟨segs, some [], hw, ?_, ?_⟩
        · intro t h
          cases h
          simp
        · rw [hcs, hc]
          simp [renderTail]
      · refine ⟨segs ++ [Segment.text [c]], none, ?_, by simp, ?_⟩
        · intro sg h
          rcases List.mem_append.mp h with h1 | h1
          · exact hw sg h1
          · rw [List.mem_singleton.mp h1]
            show PERCENT ∉ [c]
            simpa using Ne.symm hc
        · rw [hcs]
          simp [renderTail, Segment.render]
    | some t =>
      have htp : PERCENT ∉ t := ht t rfl
      by_cases hc : c = PERCENT
      · by_cases hte : t = []
        · refine ⟨segs ++ [Segment.escape], none, ?_, by simp, ?_⟩
          · intro sg h
            rcases List.mem_append.mp h with h1 | h1
            · exact hw sg h1
            · rw [List.mem_singleton.mp h1]
              trivial
          · rw [hcs, hc, hte]
            simp [renderTail, Segment.render]
        · refine ⟨segs ++ [Segment.marker t], none, ?_, by simp, ?_⟩
          · intro sg h
            rcases List.mem_append.mp h with h1 | h1
            · exact hw sg h1
            · rw [List.mem_singleton.mp h1]
              exact ⟨hte, htp⟩
          · rw [hcs, hc]
            simp [renderTail, Segment.render]
      · refine ⟨segs, some (t ++ [c]), hw, ?_, ?_⟩
        · intro t1 h
          cases h
          simp only [List.mem_append, List.mem_singleton, not_or]
          exact ⟨htp, Ne.symm hc⟩
        · rw [hcs]
          simp [renderTail]

/-! ### Runs of the template loop on a connection that stops accepting output -/

theorem forBody_raw (env : Env) (buf : List Byte) (i : Nat) (s : Scan)
    (hneg : s.token_pos < 0) (hc : buf.getD i 0 ≠ PERCENT) :
    forBody env buf i s = Try.go { s with raw_count := s.raw_count + 1 } := by
  unfold forBody
  rw [if_pos hneg, if_neg hc]

/-- Over `k` characters of text the `for` loop only counts them. -/
theorem forLoop_raw (env : Env) (buf : List Byte) (k2 : Nat) :
    ∀ (k i : Nat) (s : Scan), s.token_pos < 0 →
      (∀ j, i ≤ j → j < i + k → buf.getD j 0 ≠ PERCENT) →
      forLoop env buf (k + k2) i s =
        forLoop env buf k2 (i + k) { s with raw_count := s.raw_count + (k : Int) } := by
  intro k
  induction k with
  | zero =>
    intro i s _ _
    cases s
    simp
  | succ k ih =>
    intro i s hneg hraw
    have hstep := forBody_raw env buf i s hneg (hraw i (le_refl _) (by omega))
    have e1 : k + 1 + k2 = (k + k2) + 1 := by omega
    rw [e1]
    simp only [forLoop, hstep]
    rw [ih (i + 1) { s with raw_count := s.raw_count + 1 } hneg
      (fun j h1 h2 => hraw j (by omega) (by omega))]
    have e2 : i + 1 + k = i + (k + 1) := by omega
    rw [e2]
    congr 1
    cases s
    simp only [Scan.mk.injEq, and_true, true_and]
    push_cast
    omega

theorem getD_of_not_mem (A : List Byte) (hp : PERCENT ∉ A) (j : Nat) (hj : j < A.length) :
    A.getD j 0 ≠ PERCENT := by
  intro h
  apply hp
  have : A.getD j 0 = A[j] := by simp [List.getD, List.getElem?_eq_getElem hj]
  rw [← h, this]
  exact List.getElem_mem hj

/-- A read that holds only text is sent in one piece. -/
theorem readChunk_raw (env : Env) (A : List Byte) (t : Tpl) (hneg : t.token_pos < 0)
    (hp : PERCENT ∉ A) (hne : 0 < A.length) :
    readChunk env A t =
      if (call env t.log (Call.send A)).2 then
        Try.go ⟨t.token_pos, t.token, (call env t.log (Call.send A)).1⟩
      else Try.cleanup (call env t.log (Call.send A)).1 := by
  have h := forLoop_raw env A 0 A.length 0 ⟨0, 0, t.token_pos, t.token, t.log⟩ hneg
    (fun j _ hj => getD_of_not_mem A hp j (by omega))
  simp only [Nat.add_zero, Nat.zero_add, forLoop] at h
  have hz : ((0 : Int) + (A.length : Int)) ≠ 0 := by omega
  have hraw : rawData A ⟨0 + (A.length : Int), 0, t.token_pos, t.token, t.log⟩ = A := by
    simp [rawData]
  simp only [readChunk, h, hz, ne_eq, not_false_eq_true, if_true, hraw]

/-- The second read of `exTemplateLong`, after one event: the send of `b`
fails. -/
theorem tplLoop_exTail (fuel : Nat) (e : Event) :
    tplLoop exEnvFirstOnly FILE_CHUNK_LEN (fuel + 1) [98, 37, 120, 37] ⟨-1, [], [e]⟩ =
      Outcome.done (CWHTTPD_STATUS_FAIL, [e, Event.out (Call.send [98]) (-1)]) := by
  rfl

theorem tplProcess_exLong (A : List Byte) (hA : A.length = FILE_CHUNK_LEN)
    (hp : PERCENT ∉ A) :
    tplProcess exEnvFirstOnly FILE_CHUNK_LEN (A ++ [98, 37, 120, 37]) [] =
      Outcome.done (CWHTTPD_STATUS_FAIL,
        [Event.out (Call.send A) 0, Event.out (Call.send [98]) (-1), Event.cb none]) := by
  have hfuel : (A ++ [98, 37, 120, 37]).length + 1 = (A.length + 3 + 1) + 1 := by simp
  have htake : (A ++ [98, 37, 120, 37]).take FILE_CHUNK_LEN = A := List.take_left' hA
  have hdrop : (A ++ [98, 37, 120, 37]).drop FILE_CHUNK_LEN = [98, 37, 120, 37] :=
    List.drop_left' hA
  have hread := readChunk_raw exEnvFirstOnly A ⟨-1, [], []⟩ (by decide) hp
    (by rw [hA]; decide)
  have hcall : call exEnvFirstOnly [] (Call.send A) = ([Event.out (Call.send A) 0], true) := rfl
  rw [hcall] at hread
  simp only [if_true] at hread
  have hloop : tplLoop exEnvFirstOnly FILE_CHUNK_LEN ((A.length + 3 + 1) + 1)
      (A ++ [98, 37, 120, 37]) ⟨-1, [], []⟩ =
      Outcome.done (CWHTTPD_STATUS_FAIL,
        [Event.out (Call.send A) 0, Event.out (Call.send [98]) (-1)]) := by
    rw [tplLoop, htake, hread]
    simp only []
    rw [if_pos hA, hdrop, tplLoop_exTail]
  unfold tplProcess
  rw [hfuel, hloop]
  rfl

theorem tplProcess_exLong_oneRead (A : List Byte) (hA : A.length = FILE_CHUNK_LEN)
    (hp : PERCENT ∉ A) :
    tplProcess exEnvFirstOnly 2048 (A ++ [98, 37, 120, 37]) [] =
      Outcome.done (CWHTTPD_STATUS_DONE,
        [Event.out (Call.send (A ++ [98])) 0, Event.cb (some [120]), Event.cb none]) := by
  have hlen : (A ++ [98, 37, 120, 37]).length = A.length + 4 := by simp
  have htake : (A ++ [98, 37, 120, 37]).take 2048 = A ++ [98, 37, 120, 37] := by
    apply List.take_of_length_le
    rw [hlen, hA]
    decide
  have hraw : ∀ j, 0 ≤ j → j < 0 + A.length → (A ++ [98, 37, 120, 37]).getD j 0 ≠ PERCENT := by
    intro j _ hj
    rw [List.getD_append _ _ _ _ (by omega)]
    exact getD_of_not_mem A hp j (by omega)
  have h0 : (A ++ [98, 37, 120, 37]).getD (0 + A.length) 0 = 98 := by
    rw [List.getD_append_right _ _ _ _ (by omega)]
    simp
  have h1 : (A ++ [98, 37, 120, 37]).getD (0 + A.length + 1) 0 = PERCENT := by
    rw [List.getD_append_right _ _ _ _ (by omega)]
    have : 0 + A.length + 1 - A.length = 1 := by omega
    rw [this]
    rfl
  have h2 : (A ++ [98, 37, 120, 37]).getD (0 + A.length + 1 + 1) 0 = 120 := by
    rw [List.getD_append_right _ _ _ _ (by omega)]
    have : 0 + A.length + 1 + 1 - A.length = 2 := by omega
    rw [this]
    rfl
  have h3 : (A ++ [98, 37, 120, 37]).getD (0 + A.length + 1 + 1 + 1) 0 = PERCENT := by
    rw [List.getD_append_right _ _ _ _ (by omega)]
    have : 0 + A.length + 1 + 1 + 1 - A.length = 3 := by omega
    rw [this]
    rfl
  have hfor := forLoop_raw exEnvFirstOnly (A ++ [98, 37, 120, 37]) 4 A.length 0
    ⟨0, 0, -1, [], []⟩ (by decide) hraw
  have hnz : ((0 : Int) + (A.length : Int) + 1) ≠ 0 := by omega
  have hdata : rawData (A ++ [98, 37, 120, 37])
      ⟨0 + (A.length : Int) + 1, 0, -1, [], []⟩ = A ++ [98] := by
    have e : ((0 : Int) + (A.length : Int) + 1).toNat = A.length + 1 := by omega
    simp only [rawData, e, List.drop_zero]
    rw [List.take_append_eq_append_take, List.take_of_length_le (by omega)]
    have : A.length + 1 - A.length = 1 := by omega
    rw [this]
    rfl
  have s1 : forBody exEnvFirstOnly (A ++ [98, 37, 120, 37]) (0 + A.length)
      ⟨0 + (A.length : Int), 0, -1, [], []⟩ =
      Try.go ⟨0 + (A.length : Int) + 1, 0, -1, [], []⟩ :=
    forBody_raw _ _ _ _ (by simp) (by rw [h0]; decide)
  have s2 : forBody exEnvFirstOnly (A ++ [98, 37, 120, 37]) (0 + A.length + 1)
      ⟨0 + (A.length : Int) + 1, 0, -1, [], []⟩ =
      Try.go ⟨0, 0, 0, [], [Event.out (Call.send (A ++ [98])) 0]⟩ := by
    unfold forBody
    rw [if_pos (by simp), if_pos h1, if_pos hnz, hdata]
    rfl
  have s3 : forBody exEnvFirstOnly (A ++ [98, 37, 120, 37]) (0 + A.length + 1 + 1)
      ⟨0, 0, 0, [], [Event.out (Call.send (A ++ [98])) 0]⟩ =
      Try.go ⟨0, 0, 1, [120], [Event.out (Call.send (A ++ [98])) 0]⟩ := by
    unfold forBody
    rw [if_neg (by simp), if_neg (by rw [h2]; decide), if_pos (by simp [TOKEN_SIZE]), h2]
    rfl
  have s4 : forBody exEnvFirstOnly (A ++ [98, 37, 120, 37]) (0 + A.length + 1 + 1 + 1)
      ⟨0, 0, 1, [120], [Event.out (Call.send (A ++ [98])) 0]⟩ =
      Try.go ⟨0, 0 + A.length + 1 + 1 + 1 + 1, -1, [120],
        [Event.out (Call.send (A ++ [98])) 0, Event.cb (some [120])]⟩ := by
    unfold forBody
    rw [if_neg (by simp), if_pos h3, if_neg (by simp)]
    rfl
  have hloop : forLoop exEnvFirstOnly (A ++ [98, 37, 120, 37]) (A ++ [98, 37, 120, 37]).length 0
      ⟨0, 0, -1, [], []⟩ =
      Try.go ⟨0, 0 + A.length + 1 + 1 + 1 + 1, -1, [120],
        [Event.out (Call.send (A ++ [98])) 0, Event.cb (some [120])]⟩ := by
    rw [hlen, hfor]
    simp only [forLoop, s1, s2, s3, s4]
  have hread : readChunk exEnvFirstOnly (A ++ [98, 37, 120, 37]) ⟨-1, [], []⟩ =
      Try.go ⟨-1, [120], [Event.out (Call.send (A ++ [98])) 0, Event.cb (some [120])]⟩ := by
    unfold readChunk
    rw [hloop]
    rfl
  have hfuel : (A ++ [98, 37, 120, 37]).length + 1 = (A.length + 4) + 1 := by rw [hlen]
  have hne : ¬ (A ++ [98, 37, 120, 37]).length = 2048 := by
    rw [hlen, hA]
    decide
  unfold tplProcess
  rw [hfuel, tplLoop, htake, hread]
  simp only []
  rw [if_neg hne]
  rfl

theorem items_exLog (A : List Byte) :
    items [Event.out (Call.send A) 0, Event.out (Call.send [98]) (-1), Event.cb none] =
      A.map Item.byte ++ [Item.finish] := by
  simp [items]

/-- C31, at a failing input: a template of 1024 letters `a` followed by `b%x%`,
on a connection where only the first output call succeeds.  With reads of
`FILE_CHUNK_LEN` bytes the first send ends at the read boundary, the send of
`b` fails and the handler jumps to `cleanup`: the output is the 1024 letters
and the closing callback, not the output of the one-pass scan.  Read in one
piece on the same connection, the same file gives the whole one-pass output. -/
theorem failed_send_cuts_template_output :
    tplProcess exEnvFirstOnly FILE_CHUNK_LEN exTemplateLong [] =
      Outcome.done (CWHTTPD_STATUS_FAIL,
        [Event.out (Call.send (List.replicate 1024 97)) 0,
          Event.out (Call.send [98]) (-1), Event.cb none]) ∧
    items [Event.out (Call.send (List.replicate 1024 97)) 0,
        Event.out (Call.send [98]) (-1), Event.cb none] ≠ onePass exTemplateLong ∧
    onePass exTemplateLong =
      List.replicate 1024 (Item.byte 97) ++ [Item.byte 98, Item.token [120], Item.finish] ∧
    tplProcess exEnvFirstOnly 2048 exTemplateLong [] =
      Outcome.done (CWHTTPD_STATUS_DONE,
        [Event.out (Call.send (List.replicate 1024 97 ++ [98])) 0,
          Event.cb (some [120]), Event.cb none]) := by
  have hA : (List.replicate 1024 (97 : Byte)).length = FILE_CHUNK_LEN := List.length_replicate _ _
  have hp : PERCENT ∉ List.replicate 1024 (97 : Byte) := by
    intro h
    exact absurd (List.eq_of_mem_replicate h) (by decide)
  have hone : onePass exTemplateLong =
      List.replicate 1024 (Item.byte 97) ++ [Item.byte 98, Item.token [120], Item.finish] := by
    unfold onePass exTemplateLong
    rw [scanFrom_text _ _ hp, List.map_replicate, List.append_assoc]
    rfl
  refine ⟨tplProcess_exLong _ hA hp, ?_, hone, tplProcess_exLong_oneRead _ hA hp⟩
  rw [hone]
  have hit : items [Event.out (Call.send (List.replicate 1024 97)) 0,
      Event.out (Call.send [98]) (-1), Event.cb none] =
      List.replicate 1024 (Item.byte 97) ++ [Item.finish] := by
    rw [items_exLog, List.map_replicate]
  rw [hit]
  intro h
  exact absurd (List.append_cancel_left h) (by decide)

/-- C31, amended: when all sends succeed, for every content of the template
file and reads of any size `n > 0` (in the handler, `FILE_CHUNK_LEN = 1024`),
the template section ends with `CWHTTPD_STATUS_DONE`, and the bytes sent and the
callback invocations, in their order, are those of the scan of the whole
content in one pass. -/
theorem read_boundary_independence (env : Env) (henv : SendsSucceed env) (n : Nat)
    (hn : 0 < n) (file : List Byte) :
    ∃ log, tplProcess env n file [] = Outcome.done (CWHTTPD_STATUS_DONE, log) ∧
      items log = onePass file := by
  obtain ⟨log, h, hout⟩ := tplProcess_sim env henv n hn file []
  exact ⟨log, h, by simpa [items] using hout⟩

theorem read_boundary_independence_witness :
    (SendsSucceed exEnv ∧ 0 < FILE_CHUNK_LEN) ∧
    ∃ log, tplProcess exEnv FILE_CHUNK_LEN exTemplateSplit [] =
        Outcome.done (CWHTTPD_STATUS_DONE, log) ∧
      items log = onePass exTemplateSplit :=
  ⟨⟨fun _ _ => Int.le_refl 0, by decide⟩,
    read_boundary_independence exEnv (fun _ _ => Int.le_refl 0) FILE_CHUNK_LEN (by decide)
      exTemplateSplit⟩

/-- C32. When all sends succeed, for a template made of pieces (text without
`'%'`, escapes `%%`, markers `%name%` with a non-empty name) and possibly a
final unmatched `'%'` with text after it, the template section ends with
`CWHTTPD_STATUS_DONE` and adds to the output, piece by piece and in order: the
text unchanged, one `'%'` for an escape, and for a marker nothing sent and one
callback with the first `min(|name|, 31)` characters of the name; nothing for
the unmatched tail; and last, once, the callback with `NULL`. -/
theorem template_semantics (env : Env) (henv : SendsSucceed env) (segs : List Segment)
    (hw : ∀ sg ∈ segs, sg.WellFormed) (tail : Option (List Byte))
    (ht : ∀ t, tail = some t → PERCENT ∉ t) (log0 : List Event) :
    ∃ log, tplProcess env FILE_CHUNK_LEN (segs.flatMap Segment.render ++ renderTail tail)
        log0 = Outcome.done (CWHTTPD_STATUS_DONE, log) ∧
      items log = items log0 ++ (segs.flatMap Segment.output ++ [Item.finish]) := by
  obtain ⟨log, h, hout⟩ := tplProcess_sim env henv FILE_CHUNK_LEN (by decide)
    (segs.flatMap Segment.render ++ renderTail tail) log0
  refine ⟨log, h, ?_⟩
  rw [hout, onePass, scanFrom_segments segs hw tail ht]

theorem template_semantics_witness :
    (SendsSucceed exEnv ∧ (∀ sg ∈ exSegments, sg.WellFormed) ∧
      (∀ t, some [120] = some t → PERCENT ∉ t)) ∧
    ∃ log, tplProcess exEnv FILE_CHUNK_LEN
        (exSegments.flatMap Segment.render ++ renderTail (some [120])) [] =
        Outcome.done (CWHTTPD_STATUS_DONE, log) ∧
      items log = items [] ++ (exSegments.flatMap Segment.output ++ [Item.finish]) :=
  ⟨⟨fun _ _ => Int.le_refl 0, exSegments_wellFormed, exTail_wellFormed⟩,
    template_semantics exEnv (fun _ _ => Int.le_refl 0) exSegments exSegments_wellFormed
      (some [120]) exTail_wellFormed []⟩

end RouteFs
